import Mathlib

/-!
# MachineSim: a shallow embedding of the processor model's ALU and of the assembler

Machine words are natural numbers below `2 ^ 32`; C++ unsigned arithmetic is
written with an explicit reduction modulo `2 ^ 32` (or `2 ^ 64` for the
64-bit temporaries of `ALU::perform`).
-/

namespace MachineSim

/-! ## Machine words (`src/machine/processorModel.h`) -/

/-- Constant `FULL_MASK` of processorModel.h. -/
def FULL_MASK : Nat := 0xFFFFFFFF

/-- Constant `MSB_MASK` of processorModel.h. -/
def MSB_MASK : Nat := 0x80000000

/-- Constant `MSB_INDEX` of processorModel.h. -/
def MSB_INDEX : Nat := 31

/-- Constant `WORD_BITS` of processorModel.h. -/
def WORD_BITS : Nat := 32

/-- Conversion to `uint32_t`. -/
def u32 (n : Nat) : Nat := n % 2 ^ 32

/-- Conversion to `uint64_t`. -/
def u64 (n : Nat) : Nat := n % 2 ^ 64

/-- Subtraction of `uint32_t` values (wraps around). -/
def sub32 (a b : Nat) : Nat := (a + (2 ^ 32 - b % 2 ^ 32)) % 2 ^ 32

/-- Subtraction of `uint64_t` values (wraps around). -/
def sub64 (a b : Nat) : Nat := (a + (2 ^ 64 - b % 2 ^ 64)) % 2 ^ 64

/-- Bitwise complement of a `uint32_t`. -/
def not32 (a : Nat) : Nat := a ^^^ FULL_MASK

/-- A 32-bit word read as a two's-complement signed integer. -/
def toSigned (x : Nat) : Int := if x < 2 ^ 31 then (x : Int) else (x : Int) - 2 ^ 32

/-- The result a host gives to a 32-bit shift whose count is 32 or more.
C++ leaves such shifts undefined, so the model takes the host's answer as a
parameter; whatever it is, it is stored in a `uint32_t`. -/
structure ShiftHost where
  shl : Nat → Nat → Nat
  shr : Nat → Nat → Nat

/-- Expression `x << n` on `uint32_t`. -/
def shl32 (host : ShiftHost) (x n : Nat) : Nat :=
  if n < 32 then u32 (x * 2 ^ n) else u32 (host.shl x n)

/-- Expression `x >> n` on `uint32_t`. -/
def shr32 (host : ShiftHost) (x n : Nat) : Nat :=
  if n < 32 then x / 2 ^ n else u32 (host.shr x n)

/-- The flags register: `struct FlagsRegister`. -/
structure FlagsRegister where
  N : Bool := false
  Z : Bool := false
  V : Bool := false
  C : Bool := false
deriving DecidableEq, Repr

/-- The operations of the ALU: `enum class ALU::Operation`. -/
inductive Operation where
  | ADD | SUB | MUL | DIV | REM | INC | DEC | NOT | AND | OR | XOR | SHL | SHR | NOP
deriving DecidableEq, Repr

/-- The fields of `class ALU` that `perform` reads and writes. The two input
getters are replaced by the words they return, and the weak pointer to the
flags register by the register it points to (`none` when it has expired). -/
structure ALU where
  operation : Operation := Operation.NOP
  result : Nat := 0
  writeFlags : Bool := false
deriving DecidableEq, Repr

/-- The `switch` of `ALU::perform`: the value, then `VFlag`, then `CFlag`. -/
def ALU.compute (host : ShiftHost) (op : Operation) (left right : Nat) : Nat × Bool × Bool :=
  match op with
  | Operation.ADD =>
    let tmp := u64 (left + right)
    let value := tmp &&& FULL_MASK
    (value, ((left ^^^ value) &&& (right ^^^ value)) &&& MSB_MASK != 0, decide (tmp > FULL_MASK))
  | Operation.SUB =>
    let tmp := sub64 left right
    let value := tmp &&& FULL_MASK
    (value, ((left ^^^ right) &&& (left ^^^ value)) &&& MSB_MASK != 0, decide (left ≥ right))
  | Operation.MUL => (u32 (left * right), false, false)
  | Operation.DIV => (if right != 0 then left / right else 0, false, false)
  | Operation.REM => (if right != 0 then left % right else 0, false, false)
  | Operation.INC => (u32 (u32 (left + right) + 1), false, false)
  | Operation.DEC => (sub32 (u32 (left + right)) 1, false, false)
  | Operation.NOT => (not32 (u32 (left + right)), false, false)
  | Operation.AND => (left &&& right, false, false)
  | Operation.OR => (left ||| right, false, false)
  | Operation.XOR => (left ^^^ right, false, false)
  | Operation.SHL =>
    (shl32 host left right, false, (shr32 host left (sub32 WORD_BITS right)) &&& 1 != 0)
  | Operation.SHR =>
    (shr32 host left right, false, (shr32 host left (sub32 right 1)) &&& 1 != 0)
  | Operation.NOP => (u32 (left + right), false, false)

/-- Method `ALU::perform`, run on the words `left` and `right` that the input
getters return; gives the ALU after the call and the flags register. -/
def ALU.perform (host : ShiftHost) (alu : ALU) (left right : Nat)
    (flags : Option FlagsRegister) : ALU × Option FlagsRegister :=
  let r := ALU.compute host alu.operation left right
  let value := r.1
  let NFlag := (value >>> MSB_INDEX) != 0
  let ZFlag := value == 0
  let alu1 := { alu with result := value }
  if alu.writeFlags then
    match flags with
    | some _ => (alu1, some { N := NFlag, Z := ZFlag, V := r.2.1, C := r.2.2 })
    | none => (alu1, none)
  else (alu1, flags)

/-- Method `ALU::getResult`. -/
def ALU.getResult (alu : ALU) : Nat := alu.result

/-! ## The assembler: strings and numbers (`src/translator/binarizer.h`)

A `std::string` is a list of characters, each standing for one byte. -/

/-- A `std::string`. -/
abbrev Str := List Char

/-- Constant `MASK_24` of binarizer.h. -/
def MASK_24 : Nat := 0xFFFFFF

/-- Constant `MASK_8` of binarizer.h. -/
def MASK_8 : Nat := 0xFF

/-- Constant `SHIFT_24` of binarizer.h. -/
def SHIFT_24 : Nat := 24

/-- Constant `SHIFT_16` of binarizer.h. -/
def SHIFT_16 : Nat := 16

/-- Constant `SHIFT_8` of binarizer.h. -/
def SHIFT_8 : Nat := 8

/-- Constant `const_5` of binarizer.h. -/
def const_5 : Nat := 5

/-- Constant `HEX_VAL` of binarizer.h. -/
def HEX_VAL : Nat := 16

/-- What can stop the assembler: the exceptions that `parse` and `writeToFile`
throw themselves, those of the library calls they make, and an access outside
a vector (undefined in C++, a failure in the model). -/
inductive AsmError where
  | orgNotNumeric
  | unknownOpcode
  | unknownOperandLabel
  | invalidDataEntry
  | invalidZeroCount
  | invalidEscape
  | unsupportedEscape
  | unknownArrayValue
  | unknownDataValue
  | missingStart
  | noStartLabel
  | invalidArgument
  | outOfRange
  | lengthError
  | outOfBounds
deriving DecidableEq, Repr

/-- Conversion to `size_t` (64 bits). -/
def sz (n : Nat) : Nat := n % 2 ^ 64

/-- Conversion of a `long` to `size_t`. -/
def longToSize (v : Int) : Nat := (v % 2 ^ 64).toNat

/-- Conversion of a `long` to `uint32_t`. -/
def longToU32 (v : Int) : Nat := (v % 2 ^ 32).toNat

/-- The characters `" \t\r\n"` that `trim` removes. -/
def isTrimChar (c : Char) : Bool :=
  c.toNat == 32 || c.toNat == 9 || c.toNat == 13 || c.toNat == 10

/-- Function `isspace` of the C locale. -/
def isspace (c : Char) : Bool :=
  c.toNat == 32 || (9 ≤ c.toNat && c.toNat ≤ 13)

/-- Function `isdigit`. -/
def isdigit (c : Char) : Bool := 48 ≤ c.toNat && c.toNat ≤ 57

/-- Function `isxdigit`. -/
def isxdigit (c : Char) : Bool :=
  isdigit c || (65 ≤ c.toNat && c.toNat ≤ 70) || (97 ≤ c.toNat && c.toNat ≤ 102)

/-- Function `tolower` of the C locale. -/
def tolower (c : Char) : Char :=
  if 65 ≤ c.toNat && c.toNat ≤ 90 then Char.ofNat (c.toNat + 32) else c

/-- Method `Binarizer::trim`. -/
def trim (val : Str) : Str :=
  ((val.dropWhile isTrimChar).reverse.dropWhile isTrimChar).reverse

/-- Method `Binarizer::stripComment`. -/
def stripComment (val : Str) : Str := val.takeWhile (fun c => c != ';')

/-- Method `Binarizer::toLower`. -/
def toLower (val : Str) : Str := val.map tolower

/-- Method `Binarizer::isNumber`. -/
def isNumber (val : Str) : Bool :=
  match val with
  | [] => false
  | c0 :: _ =>
    if val.length > 2 && c0 == '0' && (val.getD 1 ' ' == 'x' || val.getD 1 ' ' == 'X') then
      (val.drop 2).all isxdigit
    else if val.length > 2 && c0 == '0' && (val.getD 1 ' ' == 'b' || val.getD 1 ' ' == 'B') then
      (val.drop 2).all (fun character => character == '0' || character == '1')
    else
      (val.drop (if c0 == '-' then 1 else 0)).all isdigit

/-- The value of a character as a digit of `strtol`: `0`-`9`, then the letters. -/
def digitValue (c : Char) : Option Nat :=
  if 48 ≤ c.toNat && c.toNat ≤ 57 then some (c.toNat - 48)
  else if 97 ≤ c.toNat && c.toNat ≤ 122 then some (c.toNat - 97 + 10)
  else if 65 ≤ c.toNat && c.toNat ≤ 90 then some (c.toNat - 65 + 10)
  else none

/-- The digits that `strtol` converts: the longest prefix of digits of the base.
`acc` is `none` until a digit has been read. -/
def strtolDigits (base : Nat) : Str → Option Nat → Option Nat
  | [], acc => acc
  | c :: cs, acc =>
    match digitValue c with
    | some d => if d < base then strtolDigits base cs (some (acc.getD 0 * base + d)) else acc
    | none => acc

/-- Function `strtol` without its range check: leading white space, an optional
sign, for base 16 an optional `0x` or `0X` in front of a hexadecimal digit, then
digits. `none` when there is no digit to convert. -/
def strtol (s : Str) (base : Nat) : Option Int :=
  let s1 := s.dropWhile isspace
  let neg := s1.head? == some '-'
  let s2 := if s1.head? == some '-' || s1.head? == some '+' then s1.drop 1 else s1
  let s3 :=
    if base == 16 && s2.head? == some '0' && (s2.getD 1 ' ' == 'x' || s2.getD 1 ' ' == 'X')
        && isxdigit (s2.getD 2 ' ') then s2.drop 2
    else s2
  match strtolDigits base s3 none with
  | none => none
  | some n => some (if neg then -(n : Int) else (n : Int))

/-- Function `std::stol`, for a 64-bit `long`: `std::invalid_argument` when
nothing is converted, `std::out_of_range` when the value does not fit. -/
def stol (s : Str) (base : Nat) : Except AsmError Int :=
  match strtol s base with
  | none => Except.error AsmError.invalidArgument
  | some v =>
    if -(2 ^ 63 : Int) ≤ v ∧ v ≤ 2 ^ 63 - 1 then Except.ok v
    else Except.error AsmError.outOfRange

/-- Function `std::stoi`, for a 32-bit `int`. -/
def stoi (s : Str) : Except AsmError Int :=
  match strtol s 10 with
  | none => Except.error AsmError.invalidArgument
  | some v =>
    if -(2 ^ 31 : Int) ≤ v ∧ v ≤ 2 ^ 31 - 1 then Except.ok v
    else Except.error AsmError.outOfRange

/-- Method `Binarizer::parseNumber`. -/
def parseNumber (val : Str) : Except AsmError Int :=
  if val.length > 2 && val.take 2 == ['0', 'x'] then stol val HEX_VAL
  else if val.length > 2 && val.take 2 == ['0', 'b'] then stol (val.drop 2) 2
  else stol val 10

/-- The lines that repeated `std::getline(stream, line, delim)` calls return:
the text between delimiters, and after the last delimiter only when it is not
empty. `cur` is the line being read, in reverse. -/
def getlineLoop (delim : Char) : Str → Str → List Str
  | [], cur => if cur.isEmpty then [] else [cur.reverse]
  | c :: cs, cur =>
    if c == delim then cur.reverse :: getlineLoop delim cs []
    else getlineLoop delim cs (c :: cur)

/-- All the lines of a text, as the `while (std::getline(iss, line))` loops read them. -/
def getlines (inputData : Str) : List Str := getlineLoop '\n' inputData []

/-- Extraction `stream >> word`: skips white space, then reads up to the next
white space. Gives the word and the rest of the stream. -/
def extractWord (s : Str) : Str × Str :=
  let s1 := s.dropWhile isspace
  (s1.takeWhile (fun c => !isspace c), s1.dropWhile (fun c => !isspace c))

/-! ## The assembler: `Binarizer::parse` and `Binarizer::writeToFile`
(`src/translator/binarizer.cpp`) -/

/-- A `std::unordered_map<std::string, size_t>`, as the list of the assignments
made to it, latest first: the binding nearest the head is the current one. -/
abbrev Map := List (Str × Nat)

/-- Expression `m.count(key) != 0` together with `m[key]`. -/
def Map.get (m : Map) (key : Str) : Option Nat := List.lookup key m

/-- Assignment `m[key] = value`. -/
def Map.set (m : Map) (key : Str) (value : Nat) : Map := (key, value) :: m

/-- Struct `Binarizer::Instruction`. -/
structure Instruction where
  opcode : Nat
  operand : Nat
deriving DecidableEq, Repr

/-- Member `Binarizer::opcodeMap`. -/
def opcodeMap : Map :=
  [ ("add".toList, 0b000001), ("sub".toList, 0b000010), ("div".toList, 0b000011),
    ("mul".toList, 0b000100), ("rem".toList, 0b000101), ("inc".toList, 0b000110),
    ("dec".toList, 0b000111), ("not".toList, 0b001000), ("cla".toList, 0b001001),
    ("jmp".toList, 0b001010), ("cmp".toList, 0b001011), ("jz".toList, 0b001100),
    ("jnz".toList, 0b001101), ("jg".toList, 0b001110), ("jge".toList, 0b001111),
    ("jl".toList, 0b010000), ("jle".toList, 0b010001), ("ja".toList, 0b010010),
    ("jae".toList, 0b010011), ("jb".toList, 0b010100), ("jbe".toList, 0b010101),
    ("push".toList, 0b010110), ("pop".toList, 0b010111), ("ld".toList, 0b011000),
    ("lda".toList, 0b011001), ("ldi".toList, 0b011010), ("st".toList, 0b011011),
    ("sta".toList, 0b011100), ("call".toList, 0b011101), ("ret".toList, 0b011110),
    ("ei".toList, 0b011111), ("di".toList, 0b100000), ("iret".toList, 0b100001),
    ("halt".toList, 0b100010) ]

/-- Enum `Binarizer::Section` (its value `InterruptTable` is never assigned). -/
inductive Section where
  | None | Text | Data
deriving DecidableEq, Repr

/-- The data members of `class Binarizer`. -/
structure Binarizer where
  textStart : Nat := 0
  dataStart : Nat := 0
  dataSection : List Nat := []
  dataAddress : Map := []
  instructions : List Instruction := []
  labelAddress : Map := []
deriving DecidableEq, Repr

/-- Largest size of a `std::vector<uint32_t>` (`max_size()` with 64-bit
pointers); `resize` beyond it throws. Running out of memory below that size
is not modelled. -/
def vectorMaxSize : Nat := 2 ^ 61 - 1

/-- Call `v.resize(n)` on a vector of words: new words are zero. -/
def resize (v : List Nat) (n : Nat) : Except AsmError (List Nat) :=
  if n > vectorMaxSize then Except.error AsmError.lengthError
  else Except.ok (v.take n ++ List.replicate (n - v.length) 0)

/-- Assignment `v[i] = x`; an index outside the vector is a failure. -/
def setAt {α : Type} (v : List α) (i : Nat) (x : α) : Except AsmError (List α) :=
  if i < v.length then Except.ok (v.set i x) else Except.error AsmError.outOfBounds

/-- What the tests at the head of both loops of `parse` make of a line, after
`stripComment` and `trim`: an empty line, `.text`, `.data`, `.org` with the
text after it, a line that ends in a colon with the trimmed text before it, or
any other line. -/
inductive Line where
  | empty
  | text
  | data
  | org (addrStr : Str)
  | label (name : Str)
  | other (line : Str)
deriving DecidableEq, Repr

/-- The tests at the head of both loops of `parse`, in their order. -/
def classify (raw : Str) : Line :=
  let line := trim (stripComment raw)
  if line.isEmpty then Line.empty
  else if line == ".text".toList then Line.text
  else if line == ".data".toList then Line.data
  else if line.length > 4 && line.take 4 == ".org".toList then Line.org (trim (line.drop 4))
  else if line.getLast? == some ':' then Line.label (trim (line.take (line.length - 1)))
  else Line.other line

/-- The numeric address of an `.org` directive, as both loops compute it. -/
def orgAddress (addrStr : Str) : Except AsmError Nat :=
  if !isNumber addrStr then Except.error AsmError.orgNotNumeric
  else do
    let n ← parseNumber addrStr
    pure (longToSize n)

/-- The variables of the first loop of `parse`. -/
structure Pass1 where
  current : Section := Section.None
  textStart : Nat := 1
  dataStart : Nat := 0
  textSize : Nat := 0
  dataSize : Nat := 0
  labelAddress : Map := []
  dataAddress : Map := []
deriving DecidableEq, Repr

/-- One iteration of the first loop of `parse`. -/
def pass1Line (s : Pass1) (raw : Str) : Except AsmError Pass1 :=
  match classify raw with
  | Line.empty => pure s
  | Line.text => pure { s with current := Section.Text }
  | Line.data => pure { s with current := Section.Data }
  | Line.org addrStr => do
    let orgAddr ← orgAddress addrStr
    match s.current with
    | Section.Text => pure { s with textStart := orgAddr }
    | Section.Data => pure { s with dataStart := orgAddr }
    | Section.None => pure s
  | Line.label label =>
    match s.current with
    | Section.Text =>
      pure { s with labelAddress := s.labelAddress.set label (sz (s.textStart + s.textSize)) }
    | Section.Data =>
      pure { s with dataAddress := s.dataAddress.set label (sz (s.dataStart + s.dataSize)) }
    | Section.None => pure s
  | Line.other _ =>
    match s.current with
    | Section.Text => pure { s with textSize := sz (s.textSize + 1) }
    | Section.Data => pure { s with dataSize := sz (s.dataSize + 1) }
    | Section.None => pure s

/-- The first loop of `parse`, from the state `s`, over the lines left to read. -/
def pass1 : List Str → Pass1 → Except AsmError Pass1
  | [], s => Except.ok s
  | raw :: rest, s =>
    match pass1Line s raw with
    | Except.ok s1 => pass1 rest s1
    | Except.error e => Except.error e

/-- The variables of the second loop of `parse`. -/
structure Pass2 where
  current : Section := Section.None
  textCursor : Nat := 0
  dataCursor : Nat := 0
  textStart : Nat
  dataStart : Nat
  dataSection : List Nat
  dataAddress : Map
  instructions : List Instruction
  labelAddress : Map
deriving DecidableEq, Repr

/-- Operand resolution of a text line: nothing, a number, a text label, a data
label, or the exception `Unknown operand label`. -/
def resolveOperand (labelAddress dataAddress : Map) (operandStr : Str) : Except AsmError Nat :=
  if operandStr.isEmpty then pure 0
  else if isNumber operandStr then do
    let n ← parseNumber operandStr
    pure (longToU32 n)
  else
    match labelAddress.get operandStr with
    | some a => pure (u32 a)
    | none =>
      match dataAddress.get operandStr with
      | some a => pure (u32 a)
      | none => Except.error AsmError.unknownOperandLabel

/-- A line of the text section in the second loop: the instruction vector and
the text cursor after it. -/
def pass2TextLine (labelAddress dataAddress : Map) (instructions : List Instruction)
    (textCursor : Nat) (line : Str) : Except AsmError (List Instruction × Nat) :=
  let w1 := extractWord line
  let mnemonic := toLower w1.1
  let operandStr := (extractWord w1.2).1
  match opcodeMap.get mnemonic with
  | none => Except.error AsmError.unknownOpcode
  | some opcode => do
    let operand ← resolveOperand labelAddress dataAddress operandStr
    let instructions1 ← setAt instructions textCursor ⟨opcode, operand⟩
    pure (instructions1, sz (textCursor + 1))

/-- The bytes of a string literal: the loop over `str` with its escapes. -/
def unescape : Str → Except AsmError (List Nat)
  | [] => pure []
  | c :: rest =>
    if c == '\\' then
      match rest with
      | [] => Except.error AsmError.invalidEscape
      | e :: rest2 =>
        if e == '0' then do let r ← unescape rest2; pure (0 :: r)
        else if e == 'n' then do let r ← unescape rest2; pure (10 :: r)
        else if e == 't' then do let r ← unescape rest2; pure (9 :: r)
        else if e == '\\' then do let r ← unescape rest2; pure (92 :: r)
        else if e == '"' then do let r ← unescape rest2; pure (34 :: r)
        else Except.error AsmError.unsupportedEscape
    else do
      let r ← unescape rest
      pure (c.toNat % 256 :: r)

/-- The loop `dataSection[index + j] = bytes[j]`, from `j` on. -/
def writeBytes (index : Nat) : List Nat → Nat → List Nat → Except AsmError (List Nat)
  | [], _, dataSection => pure dataSection
  | b :: bytes, j, dataSection => do
    let dataSection1 ← setAt dataSection (sz (index + j)) b
    writeBytes index bytes (j + 1) dataSection1

/-- The value of one item of a comma-separated list: a number, a text label, a
data label, or the exception `Unknown array value`. -/
def resolvePart (labelAddress dataAddress : Map) (part : Str) : Except AsmError Nat :=
  if isNumber part then do
    let n ← parseNumber part
    pure (longToU32 n)
  else
    match labelAddress.get part with
    | some a => pure (u32 a)
    | none =>
      match dataAddress.get part with
      | some a => pure (u32 a)
      | none => Except.error AsmError.unknownArrayValue

/-- The loop over the items of a comma-separated list; gives the data section
and the data cursor. -/
def writeParts (labelAddress dataAddress : Map) :
    List Str → List Nat → Nat → Except AsmError (List Nat × Nat)
  | [], dataSection, dataCursor => pure (dataSection, dataCursor)
  | part :: parts, dataSection, dataCursor => do
    let value ← resolvePart labelAddress dataAddress part
    let dataSection1 ←
      if dataSection.length ≤ dataCursor then resize dataSection (sz (dataCursor + 1))
      else pure dataSection
    let dataSection2 ← setAt dataSection1 dataCursor value
    writeParts labelAddress dataAddress parts dataSection2 (sz (dataCursor + 1))

/-- What a line of the data section changes: the data vector, the data labels
and the data cursor. -/
structure DataState where
  dataSection : List Nat
  dataAddress : Map
  dataCursor : Nat
deriving DecidableEq, Repr

/-- The three branches of a data line that store the single word `value`. -/
def storeWord (dataStart : Nat) (d : DataState) (label : Str) (value : Nat) :
    Except AsmError DataState := do
  let index := d.dataCursor
  let dataSection1 ←
    if d.dataSection.length ≤ index then resize d.dataSection (sz (index + 1))
    else pure d.dataSection
  let dataSection2 ← setAt dataSection1 index value
  pure { dataSection := dataSection2,
         dataAddress := d.dataAddress.set label (sz (dataStart + index)),
         dataCursor := sz (d.dataCursor + 1) }

/-- A line of the data section in the second loop. -/
def pass2DataLine (labelAddress : Map) (dataStart : Nat) (d : DataState) (line : Str) :
    Except AsmError DataState :=
  if !line.contains ':' then Except.error AsmError.invalidDataEntry
  else
    let label := trim (line.takeWhile (fun c => c != ':'))
    let valueStr := trim ((line.dropWhile (fun c => c != ':')).drop 1)
    if valueStr.length ≥ const_5 && valueStr.take const_5 == ".zero".toList then do
      let count ← stoi (valueStr.drop const_5)
      if count ≤ 0 then Except.error AsmError.invalidZeroCount
      else do
        let index := d.dataCursor
        let dataSection1 ← resize d.dataSection (sz (d.dataSection.length + count.toNat - 1))
        pure { dataAddress := d.dataAddress.set label (sz (dataStart + index)),
               dataCursor := sz (d.dataCursor + count.toNat),
               dataSection := dataSection1 }
    else if isNumber valueStr then do
      let n ← parseNumber valueStr
      storeWord dataStart d label (longToU32 n)
    else if valueStr.head? == some '"' && valueStr.getLast? == some '"' then do
      let str := (valueStr.drop 1).take (sub64 valueStr.length 2)
      let bytes ← unescape str
      let index := d.dataCursor
      let dataSection1 ←
        if d.dataSection.length < sz (index + bytes.length) then
          resize d.dataSection (sz (index + bytes.length))
        else pure d.dataSection
      let dataSection2 ← writeBytes index bytes 0 dataSection1
      pure { dataSection := dataSection2,
             dataAddress := d.dataAddress.set label (sz (dataStart + index)),
             dataCursor := sz (d.dataCursor + bytes.length) }
    else if valueStr.contains ',' then do
      let parts := (getlineLoop ',' valueStr []).map trim
      let index := d.dataCursor
      let dataAddress1 := d.dataAddress.set label (sz (dataStart + index))
      let r ← writeParts labelAddress dataAddress1 parts d.dataSection d.dataCursor
      pure { dataAddress := dataAddress1, dataSection := r.1, dataCursor := r.2 }
    else
      match labelAddress.get valueStr with
      | some a => storeWord dataStart d label (u32 a)
      | none =>
        match d.dataAddress.get valueStr with
        | some a => storeWord dataStart d label (u32 a)
        | none => Except.error AsmError.unknownDataValue

/-- One iteration of the second loop of `parse`. -/
def pass2Line (s : Pass2) (raw : Str) : Except AsmError Pass2 :=
  match classify raw with
  | Line.empty => pure s
  | Line.text => pure { s with current := Section.Text, textCursor := 0 }
  | Line.data => pure { s with current := Section.Data }
  | Line.org addrStr => do
    let orgAddr ← orgAddress addrStr
    match s.current with
    | Section.Text => pure { s with textCursor := sub64 orgAddr s.textStart }
    | Section.Data => pure { s with dataCursor := sub64 orgAddr s.dataStart }
    | Section.None => pure s
  | Line.label _ => pure s
  | Line.other line =>
    match s.current with
    | Section.Text => do
      let r ← pass2TextLine s.labelAddress s.dataAddress s.instructions s.textCursor line
      pure { s with instructions := r.1, textCursor := r.2 }
    | Section.Data => do
      let d ← pass2DataLine s.labelAddress s.dataStart
        ⟨s.dataSection, s.dataAddress, s.dataCursor⟩ line
      pure { s with dataSection := d.dataSection, dataAddress := d.dataAddress,
                    dataCursor := d.dataCursor }
    | Section.None => pure s

/-- The second loop of `parse`, from the state `s`, over the lines left to read. -/
def pass2 : List Str → Pass2 → Except AsmError Pass2
  | [], s => Except.ok s
  | raw :: rest, s =>
    match pass2Line s raw with
    | Except.ok s1 => pass2 rest s1
    | Except.error e => Except.error e

/-- The state in which the second loop starts: `dataStart` is set and the two
vectors are resized, between the loops of `parse`. -/
def pass2Init (p : Pass1) : Pass2 :=
  { current := Section.None, textCursor := 0, dataCursor := 0,
    textStart := p.textStart,
    dataStart := sz (p.textStart + p.textSize),
    dataSection := List.replicate p.dataSize 0,
    dataAddress := p.dataAddress,
    instructions := List.replicate p.textSize ⟨0, 0⟩,
    labelAddress := p.labelAddress }

/-- The end of `parse`: the check for `_start` and the padding of an empty
instruction vector. -/
def finish (s : Pass2) : Except AsmError Binarizer :=
  match s.labelAddress.get "_start".toList with
  | none => Except.error AsmError.missingStart
  | some _ =>
    pure { textStart := s.textStart, dataStart := s.dataStart,
           dataSection := s.dataSection, dataAddress := s.dataAddress,
           instructions := if s.instructions.isEmpty then [⟨0, 0⟩] else s.instructions,
           labelAddress := s.labelAddress }

/-- Method `Binarizer::parse` on the lines of the input. -/
def parseLines (lines : List Str) : Except AsmError Binarizer :=
  match pass1 lines {} with
  | Except.error e => Except.error e
  | Except.ok p =>
    match pass2 lines (pass2Init p) with
    | Except.error e => Except.error e
    | Except.ok s => finish s

/-- Method `Binarizer::parse`: the members of the object after the call, or the
exception. -/
def parse (inputData : Str) : Except AsmError Binarizer := parseLines (getlines inputData)

/-- The four bytes of a word, most significant first, as `writeToFile` puts them. -/
def putWord (val : Nat) : List Nat :=
  [(val >>> SHIFT_24) &&& MASK_8, (val >>> SHIFT_16) &&& MASK_8,
   (val >>> SHIFT_8) &&& MASK_8, val &&& MASK_8]

/-- Local `raw` of `writeToFile`: the word of an instruction. -/
def Instruction.raw (ins : Instruction) : Nat :=
  u32 ((ins.opcode <<< SHIFT_24) ||| (ins.operand &&& MASK_24))

/-- The loop of `writeToFile` over the instructions, from index `i` on. -/
def writeInstructions (textStart : Nat) :
    List Instruction → Nat → List Nat → Except AsmError (List Nat)
  | [], _, mem => pure mem
  | ins :: rest, i, mem => do
    let mem1 ← setAt mem (sz (textStart + i)) ins.raw
    writeInstructions textStart rest (i + 1) mem1

/-- The loop of `writeToFile` over the data words, from index `i` on. -/
def writeData (dataStart : Nat) : List Nat → Nat → List Nat → Except AsmError (List Nat)
  | [], _, mem => pure mem
  | value :: rest, i, mem => do
    let mem1 ← setAt mem (sz (dataStart + i)) value
    writeData dataStart rest (i + 1) mem1

/-- Local `codeSize` of `writeToFile`. -/
def Binarizer.codeSize (b : Binarizer) : Nat := u32 (sz (b.textStart + b.instructions.length))

/-- Local `dataSize` of `writeToFile`. -/
def Binarizer.dataSize (b : Binarizer) : Nat := u32 b.dataSection.length

/-- The vector `mem` that `writeToFile` builds: the image of the program. -/
def Binarizer.image (b : Binarizer) : Except AsmError (List Nat) :=
  match b.labelAddress.get "_start".toList with
  | none => Except.error AsmError.noStartLabel
  | some start => do
    let memSize := u32 (b.codeSize + b.dataSize)
    let mem := List.replicate memSize 0
    let startAddr := u32 start
    let jmpOpcode := (opcodeMap.get "jmp".toList).getD 0
    let mem0 ← setAt mem 0 (u32 ((jmpOpcode <<< SHIFT_24) ||| (startAddr &&& MASK_24)))
    let mem1 ← writeInstructions b.textStart b.instructions 0 mem0
    writeData b.dataStart b.dataSection 0 mem1

/-- Method `Binarizer::writeToFile`: the bytes written to the file (the file
is taken to open). -/
def Binarizer.writeToFile (b : Binarizer) : Except AsmError (List Nat) := do
  let mem ← b.image
  pure (putWord b.codeSize ++ putWord b.dataSize ++ (mem.map putWord).flatten)

/-- Equality of results is decidable when equality of errors and of values is. -/
instance decEqExcept {ε α : Type} [DecidableEq ε] [DecidableEq α] : DecidableEq (Except ε α)
  | Except.ok a, Except.ok b =>
    if h : a = b then isTrue (by rw [h]) else isFalse (fun h2 => h (by cases h2; rfl))
  | Except.error a, Except.error b =>
    if h : a = b then isTrue (by rw [h]) else isFalse (fun h2 => h (by cases h2; rfl))
  | Except.ok _, Except.error _ => isFalse (fun h => by cases h)
  | Except.error _, Except.ok _ => isFalse (fun h => by cases h)

/-! ## The opcode table of the control unit (`src/machine/processorModel.h`) -/

/-- Enumerator `CU::OP_ADD`. -/
def CU.OP_ADD : Nat := 0b000001

/-- Enumerator `CU::OP_SUB`. -/
def CU.OP_SUB : Nat := 0b000010

/-- Enumerator `CU::OP_DIV`. -/
def CU.OP_DIV : Nat := 0b000011

/-- Enumerator `CU::OP_MUL`. -/
def CU.OP_MUL : Nat := 0b000100

/-- Enumerator `CU::OP_REM`. -/
def CU.OP_REM : Nat := 0b000101

/-- Enumerator `CU::OP_INC`. -/
def CU.OP_INC : Nat := 0b000110

/-- Enumerator `CU::OP_DEC`. -/
def CU.OP_DEC : Nat := 0b000111

/-- Enumerator `CU::OP_NOT`. -/
def CU.OP_NOT : Nat := 0b001000

/-- Enumerator `CU::OP_CLA`. -/
def CU.OP_CLA : Nat := 0b001001

/-- Enumerator `CU::OP_JMP`. -/
def CU.OP_JMP : Nat := 0b001010

/-- Enumerator `CU::OP_CMP`. -/
def CU.OP_CMP : Nat := 0b001011

/-- Enumerator `CU::OP_JZ`. -/
def CU.OP_JZ : Nat := 0b001100

/-- Enumerator `CU::OP_JNZ`. -/
def CU.OP_JNZ : Nat := 0b001101

/-- Enumerator `CU::OP_JG`. -/
def CU.OP_JG : Nat := 0b001110

/-- Enumerator `CU::OP_JGE`. -/
def CU.OP_JGE : Nat := 0b001111

/-- Enumerator `CU::OP_JL`. -/
def CU.OP_JL : Nat := 0b010000

/-- Enumerator `CU::OP_JLE`. -/
def CU.OP_JLE : Nat := 0b010001

/-- Enumerator `CU::OP_JA`. -/
def CU.OP_JA : Nat := 0b010010

/-- Enumerator `CU::OP_JAE`. -/
def CU.OP_JAE : Nat := 0b010011

/-- Enumerator `CU::OP_JB`. -/
def CU.OP_JB : Nat := 0b010100

/-- Enumerator `CU::OP_JBE`. -/
def CU.OP_JBE : Nat := 0b010101

/-- Enumerator `CU::OP_PUSH`. -/
def CU.OP_PUSH : Nat := 0b010110

/-- Enumerator `CU::OP_POP`. -/
def CU.OP_POP : Nat := 0b010111

/-- Enumerator `CU::OP_LD`. -/
def CU.OP_LD : Nat := 0b011000

/-- Enumerator `CU::OP_LDA`. -/
def CU.OP_LDA : Nat := 0b011001

/-- Enumerator `CU::OP_LDI`. -/
def CU.OP_LDI : Nat := 0b011010

/-- Enumerator `CU::OP_ST`. -/
def CU.OP_ST : Nat := 0b011011

/-- Enumerator `CU::OP_STA`. -/
def CU.OP_STA : Nat := 0b011100

/-- Enumerator `CU::OP_CALL`. -/
def CU.OP_CALL : Nat := 0b011101

/-- Enumerator `CU::OP_RET`. -/
def CU.OP_RET : Nat := 0b011110

/-- Enumerator `CU::OP_EI`. -/
def CU.OP_EI : Nat := 0b011111

/-- Enumerator `CU::OP_DI`. -/
def CU.OP_DI : Nat := 0b100000

/-- Enumerator `CU::OP_IRET`. -/
def CU.OP_IRET : Nat := 0b100001

/-- Enumerator `CU::OP_HALT`. -/
def CU.OP_HALT : Nat := 0b100010

/-- Method `CU::opcodeStr`, on a `uint8_t` code. -/
def CU.opcodeStr (code : Nat) : Str :=
  if code == CU.OP_ADD then "add".toList
  else if code == CU.OP_SUB then "sub".toList
  else if code == CU.OP_DIV then "div".toList
  else if code == CU.OP_MUL then "mul".toList
  else if code == CU.OP_REM then "rem".toList
  else if code == CU.OP_INC then "inc".toList
  else if code == CU.OP_DEC then "dec".toList
  else if code == CU.OP_NOT then "not".toList
  else if code == CU.OP_CLA then "cla".toList
  else if code == CU.OP_JMP then "jmp".toList
  else if code == CU.OP_CMP then "cmp".toList
  else if code == CU.OP_JZ then "jz".toList
  else if code == CU.OP_JNZ then "jnz".toList
  else if code == CU.OP_JG then "jg".toList
  else if code == CU.OP_JGE then "jge".toList
  else if code == CU.OP_JL then "jl".toList
  else if code == CU.OP_JLE then "jle".toList
  else if code == CU.OP_JA then "ja".toList
  else if code == CU.OP_JAE then "jae".toList
  else if code == CU.OP_JB then "jb".toList
  else if code == CU.OP_JBE then "jbe".toList
  else if code == CU.OP_PUSH then "push".toList
  else if code == CU.OP_POP then "pop".toList
  else if code == CU.OP_LD then "ld".toList
  else if code == CU.OP_LDA then "lda".toList
  else if code == CU.OP_LDI then "ldi".toList
  else if code == CU.OP_ST then "st".toList
  else if code == CU.OP_STA then "sta".toList
  else if code == CU.OP_CALL then "call".toList
  else if code == CU.OP_RET then "ret".toList
  else if code == CU.OP_EI then "ei".toList
  else if code == CU.OP_DI then "di".toList
  else if code == CU.OP_IRET then "iret".toList
  else if code == CU.OP_HALT then "halt".toList
  else "unknown".toList

/-! ## The number that a numeral denotes -/

/-- The value of a digit character: `0`-`9`, `A`-`F` and `a`-`f` as 10 to 15. -/
def hexValue (c : Char) : Nat :=
  if c.toNat ≤ 57 then c.toNat - 48
  else if c.toNat ≤ 70 then c.toNat - 55
  else c.toNat - 87

/-- The number that a string of digits denotes in a base, most significant
digit first. -/
def denote (base : Nat) (digits : Str) : Nat :=
  digits.foldl (fun n c => n * base + hexValue c) 0

/-! ## Reading the file back -/

/-- The word that four bytes denote, most significant byte first. -/
def readWord (b0 b1 b2 b3 : Nat) : Nat := ((b0 * 256 + b1) * 256 + b2) * 256 + b3

/-- A byte stream read back as big-endian 32-bit words, four bytes a word. -/
def readWords : List Nat → List Nat
  | b0 :: b1 :: b2 :: b3 :: rest => readWord b0 b1 b2 b3 :: readWords rest
  | _ => []

/-! ## The hash of the log (`src/machine/processorModel.h`) -/

/-- Constant `IncrementalFNV1a::FNV_offset_basis`. -/
def FNV_offset_basis : Nat := 14695981039346656037

/-- Constant `IncrementalFNV1a::FNV_prime`. -/
def FNV_prime : Nat := 1099511628211

/-- Class `IncrementalFNV1a`: its member `hash_`, a `uint64_t`. -/
structure IncrementalFNV1a where
  hash_ : Nat
deriving DecidableEq, Repr

/-- The constructor of `IncrementalFNV1a`. -/
def IncrementalFNV1a.new : IncrementalFNV1a := { hash_ := FNV_offset_basis }

/-- The loop of `IncrementalFNV1a::update` from index `i` on, with `len - i`
rounds left; `bytes` are the `uint8_t` cells behind the pointer, and a read of
`bytes[i]` outside them has no defined result. -/
def IncrementalFNV1a.updateLoop (bytes : List Nat) : Nat → Nat → Nat → Option Nat
  | 0, _, hash => some hash
  | n + 1, i, hash =>
    match bytes[i]? with
    | none => none
    | some b =>
      let hash1 := hash ^^^ (b % 256)
      let hash2 := u64 (hash1 * FNV_prime)
      IncrementalFNV1a.updateLoop bytes n (i + 1) hash2

/-- Method `IncrementalFNV1a::update`. -/
def IncrementalFNV1a.update (s : IncrementalFNV1a) (data : List Nat) (len : Nat) :
    Option IncrementalFNV1a :=
  (IncrementalFNV1a.updateLoop data len 0 s.hash_).map (fun h => { hash_ := h })

/-- Method `IncrementalFNV1a::final`. -/
def IncrementalFNV1a.final (s : IncrementalFNV1a) : Nat := s.hash_

/-- The FNV-1a-64 hash of a byte sequence as the specification words it: the
fold h := ((h xor b) * 0x100000001b3) mod 2^64 from 0xcbf29ce484222325. -/
def fnv1a64 (bs : List Nat) : Nat :=
  bs.foldl (fun h b => ((h ^^^ b) * 0x100000001b3) % 2 ^ 64) 0xcbf29ce484222325

/-- An `IncrementalFNV1a` updated with one chunk after the other. -/
def updateChunks (s : IncrementalFNV1a) : List (List Nat) → Option IncrementalFNV1a
  | [] => some s
  | c :: cs =>
    match s.update c c.length with
    | none => none
    | some s1 => updateChunks s1 cs

/-! ## The interrupt controller (`src/machine/processorModel.h`) -/

/-- The requests of `enum class InterruptHandler::IRQType`. -/
inductive IRQType where
  | NONE
  | IO_INPUT
deriving DecidableEq, Repr

/-- The states of `enum class InterruptHandler::InterruptState`. -/
inductive InterruptState where
  | SavingPC
  | Executing
  | Restoring
deriving DecidableEq, Repr

/-- The data members of `class InterruptHandler`. A pointer or reference is
the identity of the object it refers to; `none` is `nullptr`, and for `PC` the
handler's own `dummyInput`. -/
structure InterruptHandler where
  irq : IRQType := IRQType.NONE
  ie : Bool := false
  ipc : Bool := false
  dummyInput : Nat := 0
  PC : Option Nat := none
  defaultVec : Nat := 0
  inputVec : Nat := 0
  latchALU_SPC : Option Nat := none
  latchSPC_PC : Option Nat := none
  latchVec_PC : Option Nat := none
  SPC : Nat := 0
  intState : InterruptState := InterruptState.SavingPC
deriving DecidableEq, Repr

/-- Method `InterruptHandler::setIRQ`. -/
def InterruptHandler.setIRQ (s : InterruptHandler) (irq : IRQType) : InterruptHandler :=
  if !s.ipc then { s with irq := irq } else s

/-- Method `InterruptHandler::shouldInterrupt`. -/
def InterruptHandler.shouldInterrupt (s : InterruptHandler) : Bool :=
  s.ie && s.irq != IRQType.NONE && !s.ipc

/-! ## The memory (`src/machine/processorModel.h`) -/

/-- Constant `MEM_SIZE`. -/
def MEM_SIZE : Nat := 1 <<< 24

/-- The exceptions of `Memory`: the `std::out_of_range` of `write`, the
`std::runtime_error` of `at`, and the `std::out_of_range` that `data.at` throws
for an index outside the vector. -/
inductive MemError where
  | writeOutOfBounds
  | accessOutOfBounds
  | vectorRange
deriving DecidableEq, Repr

/-- Class `Memory`: its vector `data`. -/
structure Memory where
  data : List Nat
deriving DecidableEq, Repr

/-- Call `v.resize(n)` for a size that the vector can take: new words are zero. -/
def resizeTo (v : List Nat) (n : Nat) : List Nat :=
  v.take n ++ List.replicate (n - v.length) 0

/-- Method `Memory::reset`: `data.clear()`. -/
def Memory.reset (_m : Memory) : Memory := { data := [] }

/-- The constructor of `Memory`: `reset()`, then `data.resize(MEM_SIZE)`. -/
def Memory.new : Memory :=
  { data := resizeTo (Memory.reset { data := [] }).data MEM_SIZE }

/-- Method `Memory::write`: how the call ends, and the memory after it. -/
def Memory.write (m : Memory) (address value : Nat) : Except MemError Unit × Memory :=
  if address ≥ MEM_SIZE then (Except.error MemError.writeOutOfBounds, m)
  else if address < m.data.length then (Except.ok (), { data := m.data.set address value })
  else (Except.error MemError.vectorRange, m)

/-- Method `Memory::at` (and `operator[]`), read for the word it refers to. -/
def Memory.at (m : Memory) (address : Nat) : Except MemError Nat :=
  if address ≥ MEM_SIZE then Except.error MemError.accessOutOfBounds
  else
    match m.data[address]? with
    | some v => Except.ok v
    | none => Except.error MemError.vectorRange

/-! ## The input and output of the machine (`src/machine/processorModel.h`) -/

/-- One entry of a schedule: `struct IOSimulator::IOScheduleEntry`. -/
structure IOScheduleEntry where
  tick : Nat
  token : Int
deriving DecidableEq, Repr

/-- Conversion of an `int` to `uint32_t`. -/
def intToU32 (v : Int) : Nat := (v % 2 ^ 32).toNat

/-- Conversion `static_cast<char>(token)` of a word: its low byte, read as a
signed value where the `char` of the platform is signed. -/
def toChar (charSigned : Bool) (token : Nat) : Int :=
  if charSigned && decide (token % 256 ≥ 128) then ((token % 256 : Nat) : Int) - 256
  else ((token % 256 : Nat) : Int)

/-- The byte that writing a `char` to a stream appends. -/
def charByte (character : Int) : Nat := (character % 256).toNat

/-- Constant `IOSimulator::input_address`. -/
def input_address : Nat := 0x10

/-- Constant `IOSimulator::output_address`. -/
def output_address : Nat := 0x11

/-- The data members of `class IOSimulator` after `connect`: the two pointers
stand for the objects they point to, and `outputFile` for the bytes written so
far to the stream behind it (`none` for `nullptr`). -/
structure IOSimulator where
  interruptHandler : InterruptHandler
  memory : Memory
  inputSchedule : List IOScheduleEntry := []
  outputSchedule : List IOScheduleEntry := []
  outputFile : Option (List Nat) := none
deriving DecidableEq, Repr

/-- Method `IOSimulator::output(char)`. -/
def IOSimulator.output (s : IOSimulator) (character : Int) : IOSimulator :=
  match s.outputFile with
  | some written => { s with outputFile := some (written ++ [charByte character]) }
  | none => s

/-- The loop of `IOSimulator::check` over the input schedule. -/
def IOSimulator.inputLoop (tick : Nat) :
    List IOScheduleEntry → InterruptHandler → Memory → Except MemError (InterruptHandler × Memory)
  | [], h, m => Except.ok (h, m)
  | entry :: rest, h, m =>
    if entry.tick == tick then
      match m.write input_address (intToU32 entry.token) with
      | (Except.ok _, m1) =>
        IOSimulator.inputLoop tick rest (h.setIRQ IRQType.IO_INPUT) m1
      | (Except.error e, _) => Except.error e
    else IOSimulator.inputLoop tick rest h m

/-- The first part of `IOSimulator::check`: the input schedule. -/
def IOSimulator.inputPart (s : IOSimulator) (tick : Nat) : Except MemError IOSimulator :=
  match IOSimulator.inputLoop tick s.inputSchedule s.interruptHandler s.memory with
  | Except.ok (h, m) => Except.ok { s with interruptHandler := h, memory := m }
  | Except.error e => Except.error e

/-- The second part of `IOSimulator::check`: the output port. -/
def IOSimulator.outputPart (charSigned : Bool) (s : IOSimulator) (tick : Nat) :
    Except MemError IOSimulator :=
  match s.memory.at output_address with
  | Except.error e => Except.error e
  | Except.ok w =>
    if w != 0 then
      match s.memory.at output_address with
      | Except.error e => Except.error e
      | Except.ok token =>
        let entry : IOScheduleEntry := { tick := tick, token := toChar charSigned token }
        let s1 := { s with outputSchedule := s.outputSchedule ++ [entry] }
        let s2 := s1.output (toChar charSigned token)
        match s2.memory.write output_address 0 with
        | (Except.ok _, m1) => Except.ok { s2 with memory := m1 }
        | (Except.error e, _) => Except.error e
    else Except.ok s

/-- Method `IOSimulator::check`. -/
def IOSimulator.check (charSigned : Bool) (s : IOSimulator) (tick : Nat) :
    Except MemError IOSimulator :=
  match s.inputPart tick with
  | Except.ok s1 => s1.outputPart charSigned tick
  | Except.error e => Except.error e

/-- What the loop of `check` does for one entry of the tick: the request, then
the token. -/
def inputStep (p : InterruptHandler × Memory) (entry : IOScheduleEntry) :
    InterruptHandler × Memory :=
  (p.1.setIRQ IRQType.IO_INPUT, (p.2.write input_address (intToU32 entry.token)).2)

/-- The entries of a schedule for the tick `t`, in schedule order. -/
def entriesAt (t : Nat) (schedule : List IOScheduleEntry) : List IOScheduleEntry :=
  schedule.filter (fun entry => entry.tick == t)

/-! ## Latches (`src/machine/processorModel.h`) -/

/-- The words of the machine that latches read and write, each under the
identity of its `uint32_t` object. -/
abbrev Store := Nat → Nat

/-- The members of `class Latch` that `propagate` uses: the two getters, each
giving the identity of the word whose reference the call returns (nothing when
the call throws), and `enabled`. -/
structure Latch where
  sourceGetter : Store → Option Nat
  targetGetter : Store → Option Nat
  enabled : Bool := false

/-- Method `Latch::setEnabled`. -/
def Latch.setEnabled (l : Latch) (enabled : Bool) : Latch := { l with enabled := enabled }

/-- Method `Latch::propagate`; nothing when a getter throws. -/
def Latch.propagate (l : Latch) (st : Store) : Option Store :=
  if l.enabled then
    match l.sourceGetter st, l.targetGetter st with
    | some src, some tgt => some (Function.update st tgt (st src))
    | _, _ => none
  else some st

/-- The `Latch` objects of the machine, each under its identity. -/
abbrev LatchTable := Nat → Latch

/-- Class `LatchRouter`: its vector of references to latches. -/
structure LatchRouter where
  latches : List Nat
deriving DecidableEq, Repr

/-- The `std::invalid_argument` exceptions of `LatchRouter`. -/
inductive RouterError where
  | indexOutOfRange
  | countMismatch
deriving DecidableEq, Repr

/-- The loop of `LatchRouter::setLatchStates`, over the references and the
states left. -/
def LatchRouter.setLatchStatesLoop : List Nat → List Int → LatchTable → LatchTable
  | ref :: refs, state :: states, tbl =>
    LatchRouter.setLatchStatesLoop refs states
      (Function.update tbl ref ((tbl ref).setEnabled (state == 1)))
  | _, _, tbl => tbl

/-- Method `LatchRouter::setLatchStates`: how the call ends, and the latches
after it. -/
def LatchRouter.setLatchStates (r : LatchRouter) (latchStates : List Int) (tbl : LatchTable) :
    Except RouterError Unit × LatchTable :=
  if latchStates.length != r.latches.length then (Except.error RouterError.countMismatch, tbl)
  else (Except.ok (), LatchRouter.setLatchStatesLoop r.latches latchStates tbl)

/-- The loop of `LatchRouter::propagate`. -/
def LatchRouter.propagateLoop (tbl : LatchTable) : List Nat → Store → Option Store
  | [], st => some st
  | ref :: refs, st =>
    match (tbl ref).propagate st with
    | some st1 => LatchRouter.propagateLoop tbl refs st1
    | none => none

/-- Method `LatchRouter::propagate`. -/
def LatchRouter.propagate (r : LatchRouter) (tbl : LatchTable) (st : Store) : Option Store :=
  LatchRouter.propagateLoop tbl r.latches st

/-! ## The configuration of the machine (`src/machine/configParser.hpp`) -/

/-- The modes of `enum InputMode`. -/
inductive InputMode where
  | NONE
  | MODE_TOKEN
  | MODE_STREAM
deriving DecidableEq, Repr

/-- The members of `struct MachineConfig`, with their initial values; the two
`size_t` members start as `-1`, that is 2^64 - 1. -/
structure MachineConfig where
  input_file : Str := []
  input_mode : InputMode := InputMode.NONE
  schedule_start : Nat := 2 ^ 64 - 1
  schedule_offset : Nat := 2 ^ 64 - 1
  output_file : Str := []
  log_file : Str := []
  binary_repr_file : Str := []
  log_hash_file : Str := []
deriving DecidableEq, Repr

/-- The exceptions of `parseConfig`: its three `std::runtime_error`s and the
exception that `std::stoi` throws. -/
inductive ConfigError where
  | cannotOpen
  | invalidInputMode
  | unknownKey
  | stoiFailed (e : AsmError)
deriving DecidableEq, Repr

/-- Function `trim` of `configParser.hpp`; it has the body of `Binarizer::trim`. -/
def configTrim (val : Str) : Str := trim val

/-- Function `unquote`. -/
def unquote (val : Str) : Str :=
  if val.length ≥ 2 && val.head? == some '"' && val.getLast? == some '"' then
    (val.drop 1).take (val.length - 2)
  else val

/-- Conversion of the `int` that `std::stoi` returns to `size_t`. -/
def stoiToSize (value : Str) : Except ConfigError Nat :=
  match stoi value with
  | Except.ok n => Except.ok (longToSize n)
  | Except.error e => Except.error (ConfigError.stoiFailed e)

/-- The body of the loop of `parseConfig`: one line of the file. -/
def configLine (config : MachineConfig) (line : Str) : Except ConfigError MachineConfig :=
  if !line.contains ':' then Except.ok config
  else
    let key := configTrim (line.takeWhile (fun c => c != ':'))
    let value := unquote (configTrim ((line.dropWhile (fun c => c != ':')).drop 1))
    if key == "input_file".toList then Except.ok { config with input_file := value }
    else if key == "input_mode".toList then
      if value == "token".toList then
        Except.ok { config with input_mode := InputMode.MODE_TOKEN }
      else if value == "stream".toList then
        Except.ok { config with input_mode := InputMode.MODE_STREAM }
      else Except.error ConfigError.invalidInputMode
    else if key == "schedule_start".toList then
      match stoiToSize value with
      | Except.ok n => Except.ok { config with schedule_start := n }
      | Except.error e => Except.error e
    else if key == "schedule_offset".toList then
      match stoiToSize value with
      | Except.ok n => Except.ok { config with schedule_offset := n }
      | Except.error e => Except.error e
    else if key == "output_file".toList then Except.ok { config with output_file := value }
    else if key == "log_file".toList then Except.ok { config with log_file := value }
    else if key == "binary_repr_file".toList then
      Except.ok { config with binary_repr_file := value }
    else if key == "log_hash_file".toList then Except.ok { config with log_hash_file := value }
    else Except.error ConfigError.unknownKey

/-- The loop of `parseConfig` over the lines left to read. -/
def configLines : List Str → MachineConfig → Except ConfigError MachineConfig
  | [], config => Except.ok config
  | line :: rest, config =>
    match configLine config line with
    | Except.ok config1 => configLines rest config1
    | Except.error e => Except.error e

/-- Function `parseConfig`, on the content of the file; `none` when the file
cannot be opened. -/
def parseConfig (file : Option Str) : Except ConfigError MachineConfig :=
  match file with
  | none => Except.error ConfigError.cannotOpen
  | some content => configLines (getlines content) {}

/-- The keys that `parseConfig` recognizes. -/
def configKeys : List Str :=
  ["input_file".toList, "input_mode".toList, "schedule_start".toList,
   "schedule_offset".toList, "output_file".toList, "log_file".toList,
   "binary_repr_file".toList, "log_hash_file".toList]

/-! ## The `main` of the machine (`src/machine/machine.cpp`) -/

/-- How a call ends: it returns, or it throws an exception of a class derived
from `std::exception`, or it throws something else. -/
inductive CallEnd where
  | returns
  | throwsStd
  | throwsOther
deriving DecidableEq, Repr

/-- How the process ends: `main` returns an exit code, with or without a
message on `std::cerr`, or an exception leaves `main` and `std::terminate`
ends the process. -/
inductive ProcessEnd where
  | exit (code : Nat) (message : Bool)
  | terminate
deriving DecidableEq, Repr

/-- The `try` block of `main`: the check of `argc`, then the four calls in
their order, up to the first that throws. -/
def mainTry (argc : Nat) (parseConfigEnd constructorEnd loadBinaryEnd processEnd : CallEnd) :
    CallEnd :=
  if argc < 3 then CallEnd.throwsStd
  else
    match parseConfigEnd with
    | CallEnd.returns =>
      match constructorEnd with
      | CallEnd.returns =>
        match loadBinaryEnd with
        | CallEnd.returns => processEnd
        | e => e
      | e => e
    | e => e

/-- Function `main` of the machine: the `try` block, the handler for
`std::exception`, which prints the message, and the end of `main` without a
`return` statement, which makes `main` return 0. -/
def machineMain (argc : Nat) (parseConfigEnd constructorEnd loadBinaryEnd processEnd : CallEnd) :
    ProcessEnd :=
  match mainTry argc parseConfigEnd constructorEnd loadBinaryEnd processEnd with
  | CallEnd.returns => ProcessEnd.exit 0 false
  | CallEnd.throwsStd => ProcessEnd.exit 0 true
  | CallEnd.throwsOther => ProcessEnd.terminate

/-! ## The syntax tree (`src/translator/ASTNode.hpp`) -/

/-- The nodes of the tree: the structs derived from `ASTNode`; those derived
from `ExpressionNode` carry `resolvedType`. A `unique_ptr` member is the node it
owns; where the sources test it against `nullptr` it is optional. -/
inductive ASTNode where
  | VarDecl (type name : Str) (value : ASTNode)
  | NumberLiteral (resolvedType : Str) (number : Int)
  | CharLiteral (resolvedType : Str) (value : Char)
  | StringLiteral (resolvedType : Str) (value : Str)
  | BooleanLiteral (resolvedType : Str) (value : Bool)
  | VoidLiteral (resolvedType : Str)
  | IntArrayLiteral (resolvedType : Str) (values : List ASTNode)
  | ArrayGet (resolvedType : Str) (object index : ASTNode)
  | MethodCall (resolvedType : Str) (object : ASTNode) (methodName : Str)
      (arguments : List ASTNode)
  | Identifier (resolvedType : Str) (name : Str)
  | Assign (var1 var2 : ASTNode)
  | BinaryOp (resolvedType : Str) (op : Str) (left right : ASTNode)
  | UnaryOp (resolvedType : Str) (op : Str) (operand : ASTNode)
  | If (condition thenBranch : ASTNode) (elseBranch : Option ASTNode)
  | While (condition body : ASTNode)
  | Break
  | Block (children : List ASTNode)
  | Parameter (name type : Str)
  | Function (returnType name : Str) (parameters : List ASTNode) (body : ASTNode)
  | FunctionCall (resolvedType : Str) (name : Str) (parameters : List ASTNode)
  | Return (returnValue : Option ASTNode)

/-- Member `resolvedType` of a node, for the nodes that are `ExpressionNode`s:
what `dynamic_cast<ExpressionNode*>(node)->resolvedType` reads. -/
def ASTNode.resolvedTypeOf : ASTNode → Option Str
  | ASTNode.NumberLiteral t _ => some t
  | ASTNode.CharLiteral t _ => some t
  | ASTNode.StringLiteral t _ => some t
  | ASTNode.BooleanLiteral t _ => some t
  | ASTNode.VoidLiteral t => some t
  | ASTNode.IntArrayLiteral t _ => some t
  | ASTNode.ArrayGet t _ _ => some t
  | ASTNode.MethodCall t _ _ _ => some t
  | ASTNode.Identifier t _ => some t
  | ASTNode.BinaryOp t _ _ _ => some t
  | ASTNode.UnaryOp t _ _ => some t
  | ASTNode.FunctionCall t _ _ => some t
  | _ => none

/-- Whether `nodeType` of a node is `BinaryOp` or `UnaryOp`. -/
def ASTNode.isBinaryOrUnaryOp : ASTNode → Bool
  | ASTNode.BinaryOp _ _ _ _ => true
  | ASTNode.UnaryOp _ _ _ => true
  | _ => false

/-! ## The code generator (`src/translator/codeGenerator.cpp`)

The class is declared in `codeGenerator.h`; its data members are read off the
method bodies. -/

/-- The exceptions of the code generator, and the two places where its code has
no defined behaviour: a `dynamic_cast` that gives `nullptr` and is
dereferenced, and `back()` of an empty vector. -/
inductive GenError where
  | rootNotBlock
  | unknownVariable
  | methodCallOnComplex
  | parameterVisited
  | signatureMismatch
  | unknownOp
  | notExpression
  | nullDereference
  | emptyVector
deriving DecidableEq, Repr

/-- Struct `CodeGenerator::FunctionData`; a parameter is its type and its name. -/
structure FunctionData where
  name : Str
  label : Str
  returnType : Str
  params : List (Str × Str)
deriving DecidableEq, Repr

/-- Struct `CodeGenerator::FunctionSignature`. -/
structure FunctionSignature where
  paramTypes : List Str
  returnType : Str
deriving DecidableEq, Repr

/-- The data members of `class CodeGenerator` that the visitor uses. The map
`variables` is the field `variables_`; a map is a list of bindings, the newest
first. -/
structure CodeGenerator where
  dataSection : List Str := []
  codeSection : List Str := []
  funcSection : List Str := []
  variables_ : List (Str × Str) := []
  functions : List (Str × List FunctionData) := []
  reservedFunctions : List (Str × List FunctionSignature) := []
  labelCounter : Nat := 0
  strCounter : Nat := 0
  arrCounter : Nat := 0
  currentTrueLabel : Str := []
  currentFalseLabel : Str := []
  breakLabels : List Str := []
  currentFunction : Option FunctionData := none
deriving DecidableEq, Repr

/-- Function `std::to_string` on an integer. -/
def to_string (n : Int) : Str := (toString n).toList

/-- Method `CodeGenerator::emitCode`. -/
def CodeGenerator.emitCode (g : CodeGenerator) (line : Str) : CodeGenerator :=
  if g.currentFunction.isSome then { g with funcSection := g.funcSection ++ ["  ".toList ++ line] }
  else { g with codeSection := g.codeSection ++ ["  ".toList ++ line] }

/-- Method `CodeGenerator::emitCodeLabel`. -/
def CodeGenerator.emitCodeLabel (g : CodeGenerator) (label : Str) : CodeGenerator :=
  if g.currentFunction.isSome then { g with funcSection := g.funcSection ++ [label ++ ":".toList] }
  else { g with codeSection := g.codeSection ++ [label ++ ":".toList] }

/-- Method `CodeGenerator::emitData`. -/
def CodeGenerator.emitData (g : CodeGenerator) (line : Str) : CodeGenerator :=
  { g with dataSection := g.dataSection ++ ["  ".toList ++ line] }

/-- Method `CodeGenerator::getNewLabel`: the label and the generator after it. -/
def CodeGenerator.getNewLabel (g : CodeGenerator) : Str × CodeGenerator :=
  ("L".toList ++ to_string g.labelCounter, { g with labelCounter := g.labelCounter + 1 })

/-- Method `CodeGenerator::mangleFunctionName`. -/
def mangleFunctionName (name : Str) (paramTypes : List Str) : Str :=
  paramTypes.foldl (fun mangledName type =>
    let mangledName1 := mangledName ++ "_".toList
    if type == "int".toList then mangledName1 ++ "i".toList
    else if type == "string".toList then mangledName1 ++ "s".toList
    else if type == "bool".toList then mangledName1 ++ "b".toList
    else if type == "int[]".toList then mangledName1 ++ "ai".toList
    else mangledName1) ("func_".toList ++ name)

/-- Method `CodeGenerator::getVarLabel`. (The reference `functions[currentFunction->name]`
that it takes and does not use is left out.) -/
def CodeGenerator.getVarLabel (g : CodeGenerator) (varName : Str) : Str :=
  match g.currentFunction with
  | some f =>
    if f.params.any (fun param => param.2 == varName) then
      "arg_".toList ++ f.label ++ "_".toList ++ varName
    else if (g.variables_.lookup ("var_".toList ++ varName)).isSome then
      "var_".toList ++ varName
    else "var_".toList ++ f.label ++ "_".toList ++ varName
  | none => "var_".toList ++ varName

/-- Assignment `variables[key] = value`. -/
def CodeGenerator.setVariable (g : CodeGenerator) (key value : Str) : CodeGenerator :=
  { g with variables_ := (key, value) :: g.variables_ }

/-- The loop of `visit(IntArrayLiteralNode&)` that builds the data line from
index `i` on; every value has to be a `NumberLiteralNode`. -/
def arrayDataLine : List ASTNode → Except GenError Str
  | [] => Except.ok []
  | ASTNode.NumberLiteral _ number :: rest =>
    match arrayDataLine rest with
    | Except.ok line =>
      Except.ok (to_string number ++ (if rest.isEmpty then [] else ", ".toList) ++ line)
    | Except.error e => Except.error e
  | _ :: _ => Except.error GenError.nullDereference

/-- Method `CodeGenerator::findFunction`; `none` for `nullptr`. -/
def CodeGenerator.findFunction (g : CodeGenerator) (name : Str) (paramTypes : List Str) :
    Option FunctionData :=
  ((g.functions.lookup name).getD []).find?
    (fun funcData => funcData.params.map (fun param => param.1) == paramTypes)

/-- Method `CodeGenerator::findReservedFunction`; `none` for `nullptr`. -/
def CodeGenerator.findReservedFunction (g : CodeGenerator) (name : Str) (paramTypes : List Str)
    (expectedReturnType : Str) : Option FunctionSignature :=
  match g.reservedFunctions.lookup name with
  | none => none
  | some sigs =>
    sigs.find? (fun sig =>
      sig.paramTypes == paramTypes &&
        (expectedReturnType.isEmpty || sig.returnType == expectedReturnType))

mutual
/-- Method `CodeGenerator::evalType`: the type, and the generator after the
call (`variables[...]` enters a variable that is not yet known). -/
def evalType : ASTNode → CodeGenerator → Except GenError (Str × CodeGenerator)
  | ASTNode.NumberLiteral _ _, g => Except.ok ("int".toList, g)
  | ASTNode.CharLiteral _ _, g => Except.ok ("char".toList, g)
  | ASTNode.StringLiteral _ _, g => Except.ok ("string".toList, g)
  | ASTNode.BooleanLiteral _ _, g => Except.ok ("bool".toList, g)
  | ASTNode.VoidLiteral _, g => Except.ok ("void".toList, g)
  | ASTNode.IntArrayLiteral _ _, g => Except.ok ("int[]".toList, g)
  | ASTNode.ArrayGet _ _ _, g => Except.ok ("int".toList, g)
  | ASTNode.Identifier _ name, g =>
    match g.variables_.lookup (g.getVarLabel name) with
    | some type => Except.ok (type, g)
    | none => Except.ok ([], g.setVariable (g.getVarLabel name) [])
  | ASTNode.BinaryOp _ opr _ _, g =>
    if opr == "+".toList || opr == "-".toList || opr == "*".toList || opr == "/".toList ||
        opr == "%".toList then Except.ok ("int".toList, g)
    else if opr == "==".toList || opr == "!=".toList || opr == ">".toList ||
        opr == ">=".toList || opr == "<".toList || opr == "<=".toList ||
        opr == "&&".toList || opr == "||".toList then Except.ok ("bool".toList, g)
    else Except.error GenError.unknownOp
  | ASTNode.UnaryOp _ opr _, g =>
    if opr == "!".toList then Except.ok ("bool".toList, g)
    else if opr == "-".toList then Except.ok ("int".toList, g)
    else Except.error GenError.unknownOp
  | ASTNode.FunctionCall _ name parameters, g =>
    match evalTypeList parameters g with
    | Except.error e => Except.error e
    | Except.ok (paramTypes, g1) =>
      if (g1.reservedFunctions.lookup name).isSome then
        match g1.findReservedFunction name paramTypes [] with
        | some funcSig => Except.ok (funcSig.returnType, g1)
        | none => Except.error GenError.nullDereference
      else
        match g1.findFunction name paramTypes with
        | some funcData => Except.ok (funcData.returnType, g1)
        | none => Except.error GenError.nullDereference
  | ASTNode.MethodCall resolvedType _ _ _, g => Except.ok (resolvedType, g)
  | _, _ => Except.error GenError.notExpression

/-- The loop of `evalType` over the parameters of a call. -/
def evalTypeList : List ASTNode → CodeGenerator → Except GenError (List Str × CodeGenerator)
  | [], g => Except.ok ([], g)
  | node :: rest, g =>
    match evalType node g with
    | Except.error e => Except.error e
    | Except.ok (type, g1) =>
      match evalTypeList rest g1 with
      | Except.error e => Except.error e
      | Except.ok (types, g2) => Except.ok (type :: types, g2)
end

/-- The types that the loops `argTypes[i] = dynamic_cast<ExpressionNode*>(...)->resolvedType`
and `paramTypes[i] = dynamic_cast<ParameterNode*>(...)->type` collect. -/
def collectTypes (read : ASTNode → Option Str) : List ASTNode → Except GenError (List Str)
  | [] => Except.ok []
  | node :: rest =>
    match read node, collectTypes read rest with
    | some type, Except.ok types => Except.ok (type :: types)
    | none, _ => Except.error GenError.nullDereference
    | _, Except.error e => Except.error e

/-- Member `type` of a `ParameterNode`. -/
def ASTNode.parameterType : ASTNode → Option Str
  | ASTNode.Parameter _ type => some type
  | _ => none

/-- The type and the name of each `ParameterNode` of a function. -/
def parameterPairs : List ASTNode → Except GenError (List (Str × Str))
  | [] => Except.ok []
  | ASTNode.Parameter name type :: rest =>
    match parameterPairs rest with
    | Except.ok pairs => Except.ok ((type, name) :: pairs)
    | Except.error e => Except.error e
  | _ :: _ => Except.error GenError.nullDereference

/-- Conversion `static_cast<int>(node.value)` of a `char`. -/
def charCode (charSigned : Bool) (value : Char) : Int := toChar charSigned value.toNat

/-- The lines `pop`, `st arg_...` that restore the parameters of the current
function, last parameter first. -/
def CodeGenerator.popParams (g : CodeGenerator) (label : Str) (params : List (Str × Str)) :
    CodeGenerator :=
  params.reverse.foldl (fun g1 param =>
    (g1.emitCode "pop".toList).emitCode
      ("st ".toList ++ ("arg_".toList ++ label ++ "_".toList ++ param.2))) g

/-- The lines `ld arg_...`, `push` that save the parameters of the current
function. -/
def CodeGenerator.pushParams (g : CodeGenerator) (label : Str) (params : List (Str × Str)) :
    CodeGenerator :=
  params.foldl (fun g1 param =>
    (g1.emitCode ("ld ".toList ++ ("arg_".toList ++ label ++ "_".toList ++ param.2))).emitCode
      "push".toList) g

/-- Method `CodeGenerator::visitWithLabels`, for the `accept` call `visitNode`. -/
def visitWithLabels (visitNode : CodeGenerator → Except GenError CodeGenerator)
    (trueL falseL : Str) (g : CodeGenerator) : Except GenError CodeGenerator :=
  let oldTrue := g.currentTrueLabel
  let oldFalse := g.currentFalseLabel
  match visitNode { g with currentTrueLabel := trueL, currentFalseLabel := falseL } with
  | Except.ok g1 => Except.ok { g1 with currentTrueLabel := oldTrue, currentFalseLabel := oldFalse }
  | Except.error e => Except.error e

/-- The jump of a comparison when both labels are set, in
`visit(BinaryOpNode&)`. -/
def CodeGenerator.emitLabelJump (g : CodeGenerator) (opr : Str) : CodeGenerator :=
  if opr == "==".toList then g.emitCode ("jz ".toList ++ g.currentTrueLabel)
  else if opr == "!=".toList then g.emitCode ("jnz ".toList ++ g.currentTrueLabel)
  else if opr == ">".toList then g.emitCode ("jg ".toList ++ g.currentTrueLabel)
  else if opr == ">=".toList then g.emitCode ("jge ".toList ++ g.currentTrueLabel)
  else if opr == "<".toList then g.emitCode ("jl ".toList ++ g.currentTrueLabel)
  else if opr == "<=".toList then g.emitCode ("jle ".toList ++ g.currentTrueLabel)
  else g

/-- The jump of a comparison whose value is computed, in `visit(BinaryOpNode&)`. -/
def CodeGenerator.emitValueJump (g : CodeGenerator) (opr : Str) (isUnsignedCmp : Bool)
    (trueLabel : Str) : CodeGenerator :=
  if isUnsignedCmp then
    if opr == "==".toList then g.emitCode ("jz ".toList ++ trueLabel)
    else if opr == "!=".toList then g.emitCode ("jnz ".toList ++ trueLabel)
    else if opr == ">".toList then g.emitCode ("ja ".toList ++ trueLabel)
    else if opr == ">=".toList then g.emitCode ("jae ".toList ++ trueLabel)
    else if opr == "<".toList then g.emitCode ("jb ".toList ++ trueLabel)
    else if opr == "<=".toList then g.emitCode ("jbe ".toList ++ trueLabel)
    else g
  else
    if opr == "==".toList then g.emitCode ("jz ".toList ++ trueLabel)
    else if opr == "!=".toList then g.emitCode ("jnz ".toList ++ trueLabel)
    else if opr == ">".toList then g.emitCode ("jg ".toList ++ trueLabel)
    else if opr == ">=".toList then g.emitCode ("jge ".toList ++ trueLabel)
    else if opr == "<".toList then g.emitCode ("jl ".toList ++ trueLabel)
    else if opr == "<=".toList then g.emitCode ("jle ".toList ++ trueLabel)
    else g

/-- The end of `visit(BinaryOpNode&)` when no label is set or the operator is
arithmetic: the lines after `pop`. -/
def CodeGenerator.emitBinaryValue (g : CodeGenerator) (opr leftType rightType : Str) :
    CodeGenerator :=
  if opr == "+".toList then g.emitCode "add temp_right".toList
  else if opr == "-".toList then g.emitCode "sub temp_right".toList
  else if opr == "*".toList then g.emitCode "mul temp_right".toList
  else if opr == "/".toList then g.emitCode "div temp_right".toList
  else if opr == "%".toList then g.emitCode "rem temp_right".toList
  else if opr == "&&".toList then g.emitCode "mul temp_right".toList
  else if opr == "||".toList then
    let g1 := g.emitCode "add temp_right".toList
    let falseLabel := g1.getNewLabel.1
    let g2 := g1.getNewLabel.2
    let endLabel := g2.getNewLabel.1
    let g3 := g2.getNewLabel.2
    (((((g3.emitCode ("jz ".toList ++ falseLabel)).emitCode "ldi 1".toList).emitCode
      ("jmp ".toList ++ endLabel)).emitCodeLabel falseLabel).emitCode
        "ldi 0".toList).emitCodeLabel endLabel
  else if opr == ">".toList || opr == "<".toList || opr == ">=".toList ||
      opr == "<=".toList || opr == "==".toList || opr == "!=".toList then
    let g1 := g.emitCode "cmp temp_right".toList
    let isUnsignedCmp := leftType == "uint".toList || rightType == "uint".toList
    let trueLabel := g1.getNewLabel.1
    let g2 := g1.getNewLabel.2
    let endLabel := g2.getNewLabel.1
    let g3 := g2.getNewLabel.2
    let g4 := g3.emitValueJump opr isUnsignedCmp trueLabel
    ((((g4.emitCode "ldi 0".toList).emitCode ("jmp ".toList ++ endLabel)).emitCodeLabel
      trueLabel).emitCode "ldi 1".toList).emitCodeLabel endLabel
  else g

/-- The lines of `visit(UnaryOpNode&)` after the operand, when the operator is
not `!` with both labels set. -/
def CodeGenerator.emitUnaryValue (g : CodeGenerator) (opr : Str) : CodeGenerator :=
  if opr == "-".toList then (g.emitCode "not".toList).emitCode "inc".toList
  else if opr == "!".toList then
    let trueLabel := g.getNewLabel.1
    let g1 := g.getNewLabel.2
    let endLabel := g1.getNewLabel.1
    let g2 := g1.getNewLabel.2
    (((((g2.emitCode ("jz ".toList ++ trueLabel)).emitCode "ldi 0".toList).emitCode
      ("jmp ".toList ++ endLabel)).emitCodeLabel trueLabel).emitCode
        "ldi 1".toList).emitCodeLabel endLabel
  else g

/-- The calls of the runtime routines in `processReservedFunctionCall`. -/
def CodeGenerator.emitReadCall (g : CodeGenerator) (returnType : Str) : CodeGenerator :=
  if returnType == "int".toList || returnType == "uint".toList then
    g.emitCode "call read_int".toList
  else if returnType == "char".toList then g.emitCode "call read_char".toList
  else if returnType == "string".toList then g.emitCode "call read_string".toList
  else if returnType == "int[]".toList then g.emitCode "call read_arr".toList
  else g

/-- The calls of the runtime routines for `out`. -/
def CodeGenerator.emitWriteCall (g : CodeGenerator) (typeToPrint : Str) : CodeGenerator :=
  if typeToPrint == "int".toList then g.emitCode "call write_int".toList
  else if typeToPrint == "uint".toList then g.emitCode "call write_uint".toList
  else if typeToPrint == "char".toList then g.emitCode "call write_char".toList
  else if typeToPrint == "string".toList then g.emitCode "call write_string".toList
  else if typeToPrint == "int[]".toList then g.emitCode "call write_arr".toList
  else g

mutual
/-- The `visit` methods of `CodeGenerator`, chosen by the kind of the node as
`accept` does. -/
def visit (charSigned : Bool) : ASTNode → CodeGenerator → Except GenError CodeGenerator
  | ASTNode.VarDecl type name value, g => do
    let varLabel := g.getVarLabel name
    let g1 := (g.emitData (varLabel ++ ": 0".toList)).setVariable varLabel type
    let g2 ← visit charSigned value g1
    pure (g2.emitCode ("st ".toList ++ varLabel))
  | ASTNode.NumberLiteral _ number, g =>
    if number > 0xFFFFFF then
      let constLabel := "const_".toList ++ to_string number
      pure ((g.emitData (constLabel ++ ": ".toList ++ to_string number)).emitCode
        ("ld ".toList ++ constLabel))
    else pure (g.emitCode ("ldi ".toList ++ to_string number))
  | ASTNode.CharLiteral _ value, g =>
    pure (g.emitCode ("ldi ".toList ++ to_string (charCode charSigned value)))
  | ASTNode.StringLiteral _ value, g =>
    let strLabel := "str_".toList ++ to_string g.strCounter
    let g1 := { g with strCounter := g.strCounter + 1 }
    pure ((g1.emitData (strLabel ++ ": \"".toList ++ value ++ "\\0\"".toList)).emitCode
      ("ldi ".toList ++ strLabel))
  | ASTNode.BooleanLiteral _ value, g =>
    pure (g.emitCode ("ldi ".toList ++ to_string (if value then 1 else 0)))
  | ASTNode.VoidLiteral _, g => pure g
  | ASTNode.IntArrayLiteral _ values, g => do
    let arrLabel := "arr_".toList ++ to_string g.arrCounter
    let g1 := { g with arrCounter := g.arrCounter + 1 }
    let numbers ← arrayDataLine values
    pure ((g1.emitData (arrLabel ++ ": ".toList ++ numbers)).emitCode
      ("ldi ".toList ++ arrLabel))
  | ASTNode.ArrayGet _ object index, g => do
    let g1 ← visit charSigned object g
    let g2 ← visit charSigned index (g1.emitCode "push".toList)
    pure (((((g2.emitCode "st temp_right".toList).emitCode "pop".toList).emitCode
      "add temp_right".toList).emitCode "st temp_right".toList).emitCode
        "lda temp_right".toList)
  | ASTNode.MethodCall _ object methodName _, g =>
    match object with
    | ASTNode.Identifier t name =>
      if methodName == "size".toList then do
        let g1 ← visit charSigned (ASTNode.Identifier t name) g
        pure (g1.emitCode "call arr_size".toList)
      else pure g
    | _ => Except.error GenError.methodCallOnComplex
  | ASTNode.Identifier _ name, g =>
    let varLabel := g.getVarLabel name
    match g.variables_.lookup varLabel with
    | none => Except.error GenError.unknownVariable
    | some _ => pure (g.emitCode ("ld ".toList ++ varLabel))
  | ASTNode.Assign var1 var2, g => do
    let g1 ← visit charSigned var2 g
    match var1 with
    | ASTNode.Identifier _ name =>
      pure (g1.emitCode ("st ".toList ++ g1.getVarLabel name))
    | ASTNode.ArrayGet _ object index => do
      let g2 ← visit charSigned index (g1.emitCode "push".toList)
      let g3 ← visit charSigned object (g2.emitCode "st temp_right".toList)
      pure ((((g3.emitCode "add temp_right".toList).emitCode "st temp_right".toList).emitCode
        "pop".toList).emitCode "sta temp_right".toList)
    | _ => pure g1
  | ASTNode.BinaryOp _ opr left right, g =>
    let isLogicalOp := opr == ">".toList || opr == "<".toList || opr == ">=".toList ||
      opr == "<=".toList || opr == "==".toList || opr == "!=".toList ||
      opr == "&&".toList || opr == "||".toList
    match left.resolvedTypeOf, right.resolvedTypeOf with
    | some leftType, some rightType =>
      if isLogicalOp && !g.currentTrueLabel.isEmpty && !g.currentFalseLabel.isEmpty then
        if opr == "&&".toList then do
          let rightSideLabel := g.getNewLabel.1
          let g1 := g.getNewLabel.2
          let g2 ← visitWithLabels (fun x => visit charSigned left x) rightSideLabel
            g1.currentFalseLabel g1
          let g3 := g2.emitCodeLabel rightSideLabel
          visitWithLabels (fun x => visit charSigned right x) g3.currentTrueLabel
            g3.currentFalseLabel g3
        else if opr == "||".toList then do
          let rightSideLabel := g.getNewLabel.1
          let g1 := g.getNewLabel.2
          let g2 ← visitWithLabels (fun x => visit charSigned left x) g1.currentTrueLabel
            rightSideLabel g1
          let g3 := g2.emitCodeLabel rightSideLabel
          visitWithLabels (fun x => visit charSigned right x) g3.currentTrueLabel
            g3.currentFalseLabel g3
        else do
          let g1 ← visit charSigned left g
          let g2 ← visit charSigned right (g1.emitCode "push".toList)
          let g3 := ((g2.emitCode "st temp_right".toList).emitCode "pop".toList).emitCode
            "sub temp_right".toList
          let g4 := g3.emitLabelJump opr
          pure (g4.emitCode ("jmp ".toList ++ g4.currentFalseLabel))
      else do
        let g1 ← visit charSigned left g
        let g2 ← visit charSigned right (g1.emitCode "push".toList)
        let g3 := (g2.emitCode "st temp_right".toList).emitCode "pop".toList
        pure (g3.emitBinaryValue opr leftType rightType)
    | _, _ => Except.error GenError.nullDereference
  | ASTNode.UnaryOp _ opr operand, g =>
    if opr == "!".toList && !g.currentTrueLabel.isEmpty && !g.currentFalseLabel.isEmpty then
      visitWithLabels (fun x => visit charSigned operand x) g.currentFalseLabel
        g.currentTrueLabel g
    else do
      let g1 ← visit charSigned operand g
      pure (g1.emitUnaryValue opr)
  | ASTNode.If condition thenBranch elseBranch, g => do
    let thenLabel := g.getNewLabel.1
    let g1 := g.getNewLabel.2
    let elseLabel := if elseBranch.isSome then g1.getNewLabel.1 else []
    let g2 := if elseBranch.isSome then g1.getNewLabel.2 else g1
    let endLabel := g2.getNewLabel.1
    let g3 := g2.getNewLabel.2
    let g4 := { g3 with currentTrueLabel := thenLabel,
                        currentFalseLabel := if elseBranch.isSome then elseLabel else endLabel }
    let g5 ← visit charSigned condition g4
    let g6 :=
      if !condition.isBinaryOrUnaryOp then
        (g5.emitCode ("jnz ".toList ++ g5.currentTrueLabel)).emitCode
          ("jmp ".toList ++ g5.currentFalseLabel)
      else g5
    let g7 := { g6 with currentTrueLabel := [], currentFalseLabel := [] }
    let g8 ← visit charSigned thenBranch (g7.emitCodeLabel thenLabel)
    match elseBranch with
    | some elseNode => do
      let g9 ← visit charSigned elseNode
        ((g8.emitCode ("jmp ".toList ++ endLabel)).emitCodeLabel elseLabel)
      pure (g9.emitCodeLabel endLabel)
    | none => pure (g8.emitCodeLabel endLabel)
  | ASTNode.While condition body, g => do
    let startLabel := g.getNewLabel.1
    let g1 := g.getNewLabel.2
    let bodyLabel := g1.getNewLabel.1
    let g2 := g1.getNewLabel.2
    let endLabel := g2.getNewLabel.1
    let g3 := g2.getNewLabel.2
    let g4 := { g3 with breakLabels := g3.breakLabels ++ [endLabel] }
    let g5 := g4.emitCodeLabel startLabel
    let g6 := { g5 with currentTrueLabel := bodyLabel, currentFalseLabel := endLabel }
    let g7 ← visit charSigned condition g6
    let g8 := { g7 with currentTrueLabel := [], currentFalseLabel := [] }
    let g9 ← visit charSigned body (g8.emitCodeLabel bodyLabel)
    let g10 := (g9.emitCode ("jmp ".toList ++ startLabel)).emitCodeLabel endLabel
    pure { g10 with breakLabels := g10.breakLabels.dropLast }
  | ASTNode.Break, g =>
    match g.breakLabels.getLast? with
    | some label => pure (g.emitCode ("jmp ".toList ++ label))
    | none => Except.error GenError.emptyVector
  | ASTNode.Block children, g => visitList charSigned children g
  | ASTNode.Parameter _ _, _ => Except.error GenError.parameterVisited
  | ASTNode.Function returnType name parameters body, g => do
    let paramTypes ← collectTypes ASTNode.parameterType parameters
    let mangledLabel := mangleFunctionName name paramTypes
    let params ← parameterPairs parameters
    let funcData : FunctionData :=
      { name := name, label := mangledLabel, returnType := returnType, params := params }
    let g1 := params.foldl (fun x param =>
      (x.emitData ("arg_".toList ++ mangledLabel ++ "_".toList ++ param.2 ++
        ": 0".toList)).setVariable ("arg_".toList ++ mangledLabel ++ "_".toList ++ param.2)
          param.1) g
    let g2 := { g1 with functions :=
      (name, (g1.functions.lookup name).getD [] ++ [funcData]) :: g1.functions }
    let previousFunction := g2.currentFunction
    let g3 := { g2 with currentFunction := some funcData }
    let g4 := ((g3.emitCodeLabel mangledLabel).emitCode "pop".toList).emitCode
      "st temp_ret_addr".toList
    let g5 := g4.popParams mangledLabel params
    let g6 ← visit charSigned body g5
    let g7 := g6.emitCode []
    pure { g7 with currentFunction := previousFunction }
  | ASTNode.FunctionCall resolvedType name parameters, g =>
    if (g.reservedFunctions.lookup name).isSome then do
      let argTypes ← collectTypes ASTNode.resolvedTypeOf parameters
      let r ← evalType (ASTNode.FunctionCall resolvedType name parameters) g
      let g1 := r.2
      match g1.findReservedFunction name argTypes r.1 with
      | none => Except.error GenError.signatureMismatch
      | some signature =>
        if name == "in".toList then do
          let g2 ←
            if signature.paramTypes.isEmpty then pure (g1.emitCode "ldi 0".toList)
            else
              match parameters with
              | first :: _ => visit charSigned first g1
              | [] => Except.error GenError.emptyVector
          pure ((g2.emitCode "st input_count".toList).emitReadCall resolvedType)
        else if name == "out".toList then
          match parameters with
          | arg :: _ =>
            match arg.resolvedTypeOf with
            | some typeToPrint => do
              let g2 ← visit charSigned arg g1
              pure (g2.emitWriteCall typeToPrint)
            | none => Except.error GenError.nullDereference
          | [] => Except.error GenError.emptyVector
        else pure g1
    else do
      let argTypes ← collectTypes ASTNode.resolvedTypeOf parameters
      let mangledLabelToCall := mangleFunctionName name argTypes
      let g1 :=
        match g.currentFunction with
        | some f =>
          ((g.emitCode "ld temp_ret_addr".toList).emitCode "push".toList).pushParams
            f.label f.params
        | none => g
      let g2 ← visitArgs charSigned parameters g1
      let g3 := g2.emitCode ("call ".toList ++ mangledLabelToCall)
      match g3.currentFunction with
      | some f =>
        pure (((((g3.emitCode "st temp_right".toList).popParams f.label f.params).emitCode
          "pop".toList).emitCode "st temp_ret_addr".toList).emitCode "ld temp_right".toList)
      | none => pure g3
  | ASTNode.Return returnValue, g => do
    let g1 ←
      match returnValue with
      | some node => visit charSigned node g
      | none => pure g
    pure (((((g1.emitCode "st temp_right".toList).emitCode "ld temp_ret_addr".toList).emitCode
      "push".toList).emitCode "ld temp_right".toList).emitCode "ret".toList)

/-- The loop of `visit(BlockNode&)` over the children. -/
def visitList (charSigned : Bool) : List ASTNode → CodeGenerator → Except GenError CodeGenerator
  | [], g => pure g
  | child :: rest, g => do
    let g1 ← visit charSigned child g
    visitList charSigned rest g1

/-- The loop of `processRegularFunctionCall` over the arguments: each is
visited and pushed. -/
def visitArgs (charSigned : Bool) : List ASTNode → CodeGenerator → Except GenError CodeGenerator
  | [], g => pure g
  | argExpr :: rest, g => do
    let g1 ← visit charSigned argExpr g
    visitArgs charSigned rest (g1.emitCode "push".toList)
end

/-- Method `CodeGenerator::generateCode` up to the call of `assembleCode`, on a
generator just constructed: the generator with the three sections filled. The
table `reservedFunctions` is filled in `codeGenerator.h` and is an argument
here. -/
def generateCode (charSigned : Bool) (reservedFunctions : List (Str × List FunctionSignature))
    (root : Option ASTNode) : Except GenError CodeGenerator :=
  match root with
  | some (ASTNode.Block children) => do
    let g : CodeGenerator := { reservedFunctions := reservedFunctions }
    let g1 ← visit charSigned (ASTNode.Block children) (g.emitCodeLabel "_start".toList)
    pure (g1.emitCode "halt".toList)
  | _ => Except.error GenError.rootNotBlock

/-! ## The tokens (`src/translator/treeGen.h`) -/

/-- Enumeration `TokenType`. -/
inductive TokenType where
  | KeywordIf
  | KeywordElse
  | KeywordWhile
  | KeywordBreak
  | KeywordReturn
  | KeywordVoid
  | KeywordInt
  | KeywordUint
  | KeywordChar
  | KeywordString
  | KeywordBool
  | KeywordIntArr
  | Identifier
  | Equals
  | Number
  | Char
  | String
  | Boolean
  | LParen
  | RParen
  | LBrace
  | RBrace
  | LBracket
  | RBracket
  | Semicolon
  | Dot
  | Comma
  | LogicNot
  | LogicAnd
  | LogicOr
  | LogicEqual
  | LogicNotEqual
  | LogicGreater
  | LogicGreaterEqual
  | LogicLess
  | LogicLessEqual
  | Plus
  | Minus
  | Multiply
  | Divide
  | Rem
  | EndOfFile
  | Unknown
deriving DecidableEq, Repr

/-- Struct `Token`. -/
structure Token where
  type : TokenType
  value : Str
deriving DecidableEq, Repr

/-- The ways in which tokenizing and parsing end without a tree: a
`std::runtime_error` thrown by the code of `treeGen.cpp`, an exception of
`std::stol`, a read `tokens[i]` with `i` not below `tokens.size()` (which has no
defined behaviour), and, for the model alone, the end of the fuel that bounds
the depth of the calls. -/
inductive ParseError where
  | runtimeError
  | stolFailed (e : AsmError)
  | outOfBounds
  | outOfFuel
deriving DecidableEq, Repr

/-- Function `isalpha` of the C locale. -/
def isalpha (c : Char) : Bool :=
  (65 ≤ c.toNat && c.toNat ≤ 90) || (97 ≤ c.toNat && c.toNat ≤ 122)

/-- Method `TreeGenerator::isAlpha`. -/
def isAlpha (character : Char) : Bool := isalpha character || character == '_'

/-- Method `TreeGenerator::isDigit`. -/
def isDigit (character : Char) : Bool := isdigit character

/-- Method `TreeGenerator::isAlnum`. -/
def isAlnum (character : Char) : Bool := isAlpha character || isDigit character

/-! ## The tokenizer (`TreeGenerator::tokenize`)

The position `pos` in the input is kept as the rest of the input from `pos`
on. -/

/-- The token for a word, apart from `int`, in the chain of comparisons of
`tokenize`. -/
def wordToken (word : Str) : Token :=
  if word == "if".toList then ⟨TokenType.KeywordIf, word⟩
  else if word == "else".toList then ⟨TokenType.KeywordElse, word⟩
  else if word == "while".toList then ⟨TokenType.KeywordWhile, word⟩
  else if word == "break".toList then ⟨TokenType.KeywordBreak, word⟩
  else if word == "true".toList || word == "false".toList then ⟨TokenType.Boolean, word⟩
  else if word == "void".toList then ⟨TokenType.KeywordVoid, word⟩
  else if word == "uint".toList then ⟨TokenType.KeywordUint, word⟩
  else if word == "char".toList then ⟨TokenType.KeywordChar, word⟩
  else if word == "string".toList then ⟨TokenType.KeywordString, word⟩
  else if word == "bool".toList then ⟨TokenType.KeywordBool, word⟩
  else if word == "return".toList then ⟨TokenType.KeywordReturn, word⟩
  else ⟨TokenType.Identifier, word⟩

/-- The token for the word `int`, and the rest of the input after it: `int[]`
when brackets follow, with white space allowed before each of them. -/
def intToken (word after : Str) : Token × Str :=
  let temp := after.dropWhile isspace
  if temp.head? == some '[' then
    let temp1 := (temp.drop 1).dropWhile isspace
    if temp1.head? == some ']' then (⟨TokenType.KeywordIntArr, "int[]".toList⟩, temp1.drop 1)
    else (⟨TokenType.KeywordInt, word⟩, after)
  else (⟨TokenType.KeywordInt, word⟩, after)

/-- The `switch (current)` of `tokenize`: the token of an operator or delimiter
that begins with `current`, and the rest of the input after it. -/
def symbolToken (current : Char) (tail : Str) : Token × Str :=
  if current == '=' then
    if tail.head? == some '=' then (⟨TokenType.LogicEqual, "==".toList⟩, tail.drop 1)
    else (⟨TokenType.Equals, "=".toList⟩, tail)
  else if current == ';' then (⟨TokenType.Semicolon, ";".toList⟩, tail)
  else if current == '.' then (⟨TokenType.Dot, ".".toList⟩, tail)
  else if current == ',' then (⟨TokenType.Comma, ",".toList⟩, tail)
  else if current == '(' then (⟨TokenType.LParen, "(".toList⟩, tail)
  else if current == ')' then (⟨TokenType.RParen, ")".toList⟩, tail)
  else if current == '{' then (⟨TokenType.LBrace, [Char.ofNat 123]⟩, tail)
  else if current == '}' then (⟨TokenType.RBrace, [Char.ofNat 125]⟩, tail)
  else if current == '[' then (⟨TokenType.LBracket, "[".toList⟩, tail)
  else if current == ']' then (⟨TokenType.RBracket, "]".toList⟩, tail)
  else if current == '!' then
    if tail.head? == some '=' then (⟨TokenType.LogicNotEqual, "!=".toList⟩, tail.drop 1)
    else (⟨TokenType.LogicNot, "!".toList⟩, tail)
  else if current == '+' then (⟨TokenType.Plus, "+".toList⟩, tail)
  else if current == '-' then (⟨TokenType.Minus, "-".toList⟩, tail)
  else if current == '*' then (⟨TokenType.Multiply, "*".toList⟩, tail)
  else if current == '/' then (⟨TokenType.Divide, "/".toList⟩, tail)
  else if current == '%' then (⟨TokenType.Rem, "%".toList⟩, tail)
  else if current == '&' then
    if tail.head? == some '&' then (⟨TokenType.LogicAnd, "&&".toList⟩, tail.drop 1)
    else (⟨TokenType.Unknown, "&".toList⟩, tail)
  else if current == '|' then
    if tail.head? == some '|' then (⟨TokenType.LogicOr, "||".toList⟩, tail.drop 1)
    else (⟨TokenType.Unknown, "|".toList⟩, tail)
  else if current == '>' then
    if tail.head? == some '=' then (⟨TokenType.LogicGreaterEqual, ">=".toList⟩, tail.drop 1)
    else (⟨TokenType.LogicGreater, ">".toList⟩, tail)
  else if current == '<' then
    if tail.head? == some '=' then (⟨TokenType.LogicLessEqual, "<=".toList⟩, tail.drop 1)
    else (⟨TokenType.LogicLess, "<".toList⟩, tail)
  else (⟨TokenType.Unknown, [current]⟩, tail)

/-- The character literal of `tokenize`, from the character after the opening
quote on. -/
def charToken (tail : Str) : Except ParseError (Token × Str) :=
  match tail with
  | [] => Except.error ParseError.runtimeError
  | '\\' :: tail1 =>
    match tail1 with
    | [] => Except.error ParseError.runtimeError
    | c :: tail2 =>
      let escaped : Option Char :=
        if c == 'n' then some '\n'
        else if c == 't' then some '\t'
        else if c == '\\' then some '\\'
        else if c == '\'' then some '\''
        else none
      match escaped with
      | none => Except.error ParseError.runtimeError
      | some char_value =>
        match tail2 with
        | '\'' :: tail3 => Except.ok (⟨TokenType.Char, [char_value]⟩, tail3)
        | _ => Except.error ParseError.runtimeError
  | char_value :: tail1 =>
    match tail1 with
    | '\'' :: tail2 => Except.ok (⟨TokenType.Char, [char_value]⟩, tail2)
    | _ => Except.error ParseError.runtimeError

/-- One turn of the loop of `tokenize` on the input that is left: the token
it appends, if any, and the input after it. -/
def nextToken (rest : Str) : Except ParseError (Option Token × Str) :=
  match rest with
  | [] => Except.ok (none, [])
  | current :: tail =>
    if current == '\n' then Except.ok (none, tail)
    else if isspace current then Except.ok (none, tail)
    else if isAlpha current then
      let word := rest.takeWhile isAlnum
      let after := rest.dropWhile isAlnum
      if word == "int".toList then
        Except.ok (some (intToken word after).1, (intToken word after).2)
      else Except.ok (some (wordToken word), after)
    else if isDigit current then
      Except.ok (some ⟨TokenType.Number, rest.takeWhile isDigit⟩, rest.dropWhile isDigit)
    else if current == '"' then
      match tail.dropWhile (fun c => c != '"') with
      | _ :: after => Except.ok (some ⟨TokenType.String, tail.takeWhile (fun c => c != '"')⟩, after)
      | [] => Except.error ParseError.runtimeError
    else if current == '\'' then
      match charToken tail with
      | Except.ok r => Except.ok (some r.1, r.2)
      | Except.error e => Except.error e
    else Except.ok (some (symbolToken current tail).1, (symbolToken current tail).2)

/-- The loop of `tokenize`; each turn takes at least one character, so a bound
of one more than the length of the input is never reached. -/
def tokenizeLoop : Nat → Str → List Token → Except ParseError (List Token)
  | 0, _, _ => Except.error ParseError.outOfFuel
  | fuel + 1, rest, tokens =>
    if rest.isEmpty then Except.ok tokens
    else
      match nextToken rest with
      | Except.error e => Except.error e
      | Except.ok (some token, rest1) => tokenizeLoop fuel rest1 (tokens ++ [token])
      | Except.ok (none, rest1) => tokenizeLoop fuel rest1 tokens

/-- Method `TreeGenerator::tokenize`. -/
def tokenize (input : Str) : Except ParseError (List Token) :=
  match tokenizeLoop (input.length + 1) input [] with
  | Except.ok tokens => Except.ok (tokens ++ [⟨TokenType.EndOfFile, []⟩])
  | Except.error e => Except.error e

/-! ## The parser (`src/translator/treeGen.cpp`)

A parse function takes the tokens and the position and gives the node and the
position after it. The first argument bounds the depth of the calls: a call
passes on one less, and a loop takes it as the bound of its turns. The parser
leaves `resolvedType` empty. The vector of tokens, which the C++ functions take
by value, is the same list in every call; the size of the C++ call stack is not
modelled. -/

/-- What a parse function gives: the node and the new value of `pos`. -/
abbrev ParseResult := Except ParseError (ASTNode × Nat)

/-- The read `tokens[pos].type`. -/
def typeAt (tokens : List Token) (pos : Nat) : Except ParseError TokenType :=
  match tokens[pos]? with
  | some token => Except.ok token.type
  | none => Except.error ParseError.outOfBounds

/-- The read `tokens[pos].value`. -/
def valueAt (tokens : List Token) (pos : Nat) : Except ParseError Str :=
  match tokens[pos]? with
  | some token => Except.ok token.value
  | none => Except.error ParseError.outOfBounds

/-- The test `pos < tokens.size() && tokens[pos].type == type`. -/
def typeIs (tokens : List Token) (pos : Nat) (type : TokenType) : Bool :=
  match tokens[pos]? with
  | some token => token.type == type
  | none => false

/-- The statements `if (tokens[pos].type != type) throw std::runtime_error(...);`
and `pos++`, with the value of the token read in between: the value and the
new position. -/
def expect (tokens : List Token) (pos : Nat) (type : TokenType) : Except ParseError (Str × Nat) :=
  match tokens[pos]? with
  | none => Except.error ParseError.outOfBounds
  | some token =>
    if token.type != type then Except.error ParseError.runtimeError
    else Except.ok (token.value, pos + 1)

/-- The loop `while (pos < tokens.size() && (tokens[pos].type == ...))` shared
by `parseLogicOr`, `parseLogicAnd`, `parseEquality`, `parseComparsion`,
`parseTerm` and `parseFactor`: `isOp` is the test of the token type, `operand`
the call for the right operand. -/
def binaryLoop (isOp : TokenType → Bool) (operand : Nat → ParseResult) (tokens : List Token) :
    Nat → ASTNode → Nat → ParseResult
  | 0, _, _ => Except.error ParseError.outOfFuel
  | fuel + 1, node, pos =>
    match tokens[pos]? with
    | none => Except.ok (node, pos)
    | some token =>
      if isOp token.type then
        operand (pos + 1) >>= fun right =>
          binaryLoop isOp operand tokens fuel
            (ASTNode.BinaryOp [] token.value node right.1) right.2
      else Except.ok (node, pos)

/-- What follows an element in the loops of `parseArray`, `parseFunctionCall`
and `parseFunction`: `if (tokens[pos].type == TokenType::Comma) pos++; else if
(tokens[pos].type != closing) throw ...`. The new position. -/
def afterElement (tokens : List Token) (pos : Nat) (closing : TokenType) :
    Except ParseError (Unit × Nat) :=
  match tokens[pos]? with
  | none => Except.error ParseError.outOfBounds
  | some token =>
    if token.type == TokenType.Comma then Except.ok ((), pos + 1)
    else if token.type != closing then Except.error ParseError.runtimeError
    else Except.ok ((), pos)

/-- The loop of `parseArray`: `while (tokens[pos].type != TokenType::RBrace)`. -/
def parseArrayLoop (item : Nat → ParseResult) (tokens : List Token) :
    Nat → List ASTNode → Nat → Except ParseError (List ASTNode × Nat)
  | 0, _, _ => Except.error ParseError.outOfFuel
  | fuel + 1, values, pos =>
    match tokens[pos]? with
    | none => Except.error ParseError.outOfBounds
    | some token =>
      if token.type != TokenType.RBrace then
        item pos >>= fun r =>
          afterElement tokens r.2 TokenType.RBrace >>= fun next =>
            parseArrayLoop item tokens fuel (values ++ [r.1]) next.2
      else Except.ok (values, pos)

/-- The loop of `parseFunctionCall` and of `parseFunction`:
`while (pos < tokens.size() && tokens[pos].type != TokenType::RParen)`, with
`item` the call of `parseExpression` or of `parseParameter`. -/
def parameterLoop (item : Nat → ParseResult) (tokens : List Token) :
    Nat → List ASTNode → Nat → Except ParseError (List ASTNode × Nat)
  | 0, _, _ => Except.error ParseError.outOfFuel
  | fuel + 1, parameters, pos =>
    match tokens[pos]? with
    | none => Except.ok (parameters, pos)
    | some token =>
      if token.type != TokenType.RParen then
        item pos >>= fun r =>
          afterElement tokens r.2 TokenType.RParen >>= fun next =>
            parameterLoop item tokens fuel (parameters ++ [r.1]) next.2
      else Except.ok (parameters, pos)

/-- The loop of `parseMethodCall`: `while (tokens[pos].type != TokenType::RParen)`
around `parsePrimary`, a comma after an argument being passed over. -/
def methodArgsLoop (item : Nat → ParseResult) (tokens : List Token) :
    Nat → List ASTNode → Nat → Except ParseError (List ASTNode × Nat)
  | 0, _, _ => Except.error ParseError.outOfFuel
  | fuel + 1, args, pos =>
    match tokens[pos]? with
    | none => Except.error ParseError.outOfBounds
    | some token =>
      if token.type != TokenType.RParen then
        item pos >>= fun r =>
          typeAt tokens r.2 >>= fun t1 =>
            methodArgsLoop item tokens fuel (args ++ [r.1])
              (if t1 == TokenType.Comma then r.2 + 1 else r.2)
      else Except.ok (args, pos)

/-- The loops of `parseBlock` and of `makeTree`: `while (pos < tokens.size() &&
tokens[pos].type != ...)` around `parseStatement`; `stops` is the test of the
token type that ends the loop. -/
def statementLoop (stops : TokenType → Bool) (item : Nat → ParseResult) (tokens : List Token) :
    Nat → List ASTNode → Nat → Except ParseError (List ASTNode × Nat)
  | 0, _, _ => Except.error ParseError.outOfFuel
  | fuel + 1, children, pos =>
    match tokens[pos]? with
    | none => Except.ok (children, pos)
    | some token =>
      if stops token.type then Except.ok (children, pos)
      else
        item pos >>= fun r => statementLoop stops item tokens fuel (children ++ [r.1]) r.2

/-- Method `TreeGenerator::parseBreak`. -/
def parseBreak (tokens : List Token) (pos : Nat) : ParseResult :=
  expect tokens pos TokenType.KeywordBreak >>= fun r =>
  expect tokens r.2 TokenType.Semicolon >>= fun r1 =>
  pure (ASTNode.Break, r1.2)

/-- The test of `parseParameter` for the type of a parameter. -/
def isParameterType (t : TokenType) : Bool :=
  !(t != TokenType.KeywordInt && t != TokenType.KeywordChar && t != TokenType.KeywordString &&
    t != TokenType.KeywordBool && t != TokenType.KeywordIntArr)

/-- Method `TreeGenerator::parseParameter`. -/
def parseParameter (tokens : List Token) (pos : Nat) : ParseResult :=
  match tokens[pos]? with
  | none => Except.error ParseError.outOfBounds
  | some token =>
    if !isParameterType token.type then Except.error ParseError.runtimeError
    else
      expect tokens (pos + 1) TokenType.Identifier >>= fun name =>
      pure (ASTNode.Parameter name.1 token.value, name.2)

mutual
/-- Method `TreeGenerator::parseExpression`. -/
def parseExpression : Nat → List Token → Nat → ParseResult
  | 0, _, _ => Except.error ParseError.outOfFuel
  | fuel + 1, tokens, pos => parseLogicOr fuel tokens pos
termination_by structural fuel _ _ => fuel

/-- Method `TreeGenerator::parseLogicOr`. -/
def parseLogicOr : Nat → List Token → Nat → ParseResult
  | 0, _, _ => Except.error ParseError.outOfFuel
  | fuel + 1, tokens, pos =>
    parseLogicAnd fuel tokens pos >>= fun node =>
    binaryLoop (fun t => t == TokenType.LogicOr) (parseLogicAnd fuel tokens) tokens fuel
      node.1 node.2
termination_by structural fuel _ _ => fuel

/-- Method `TreeGenerator::parseLogicAnd`. -/
def parseLogicAnd : Nat → List Token → Nat → ParseResult
  | 0, _, _ => Except.error ParseError.outOfFuel
  | fuel + 1, tokens, pos =>
    parseEquality fuel tokens pos >>= fun node =>
    binaryLoop (fun t => t == TokenType.LogicAnd) (parseEquality fuel tokens) tokens fuel
      node.1 node.2
termination_by structural fuel _ _ => fuel

/-- Method `TreeGenerator::parseEquality`. -/
def parseEquality : Nat → List Token → Nat → ParseResult
  | 0, _, _ => Except.error ParseError.outOfFuel
  | fuel + 1, tokens, pos =>
    parseComparsion fuel tokens pos >>= fun node =>
    binaryLoop (fun t => t == TokenType.LogicEqual || t == TokenType.LogicNotEqual)
      (parseComparsion fuel tokens) tokens fuel node.1 node.2
termination_by structural fuel _ _ => fuel

/-- Method `TreeGenerator::parseComparsion`. -/
def parseComparsion : Nat → List Token → Nat → ParseResult
  | 0, _, _ => Except.error ParseError.outOfFuel
  | fuel + 1, tokens, pos =>
    parseTerm fuel tokens pos >>= fun node =>
    binaryLoop (fun t => t == TokenType.LogicGreater || t == TokenType.LogicGreaterEqual ||
        t == TokenType.LogicLess || t == TokenType.LogicLessEqual)
      (parseTerm fuel tokens) tokens fuel node.1 node.2
termination_by structural fuel _ _ => fuel

/-- Method `TreeGenerator::parseTerm`. -/
def parseTerm : Nat → List Token → Nat → ParseResult
  | 0, _, _ => Except.error ParseError.outOfFuel
  | fuel + 1, tokens, pos =>
    parseFactor fuel tokens pos >>= fun node =>
    binaryLoop (fun t => t == TokenType.Plus || t == TokenType.Minus)
      (parseFactor fuel tokens) tokens fuel node.1 node.2
termination_by structural fuel _ _ => fuel

/-- Method `TreeGenerator::parseFactor`. -/
def parseFactor : Nat → List Token → Nat → ParseResult
  | 0, _, _ => Except.error ParseError.outOfFuel
  | fuel + 1, tokens, pos =>
    parseUnary fuel tokens pos >>= fun node =>
    binaryLoop (fun t => t == TokenType.Multiply || t == TokenType.Divide ||
        t == TokenType.Rem)
      (parseUnary fuel tokens) tokens fuel node.1 node.2
termination_by structural fuel _ _ => fuel

/-- Method `TreeGenerator::parseUnary`. -/
def parseUnary : Nat → List Token → Nat → ParseResult
  | 0, _, _ => Except.error ParseError.outOfFuel
  | fuel + 1, tokens, pos =>
    match tokens[pos]? with
    | none => parsePrimary fuel tokens pos
    | some token =>
      if token.type == TokenType.LogicNot || token.type == TokenType.Minus then
        parseUnary fuel tokens (pos + 1) >>= fun operand =>
        pure (ASTNode.UnaryOp [] token.value operand.1, operand.2)
      else parsePrimary fuel tokens pos
termination_by structural fuel _ _ => fuel

/-- Method `TreeGenerator::parsePrimary`. -/
def parsePrimary : Nat → List Token → Nat → ParseResult
  | 0, _, _ => Except.error ParseError.outOfFuel
  | fuel + 1, tokens, pos =>
    match tokens[pos]? with
    | none => Except.error ParseError.outOfBounds
    | some token =>
      if token.type == TokenType.Number then
        match stol token.value 10 with
        | Except.error e => Except.error (ParseError.stolFailed e)
        | Except.ok value => Except.ok (ASTNode.NumberLiteral [] value, pos + 1)
      else if token.type == TokenType.Char then
        Except.ok (ASTNode.CharLiteral [] (token.value.headD (Char.ofNat 0)), pos + 1)
      else if token.type == TokenType.String then
        Except.ok (ASTNode.StringLiteral [] token.value, pos + 1)
      else if token.type == TokenType.Boolean then
        Except.ok (ASTNode.BooleanLiteral [] (token.value == "true".toList), pos + 1)
      else if token.type == TokenType.Identifier then
        if typeIs tokens (pos + 1) TokenType.LParen then parseFunctionCall fuel tokens pos
        else if typeIs tokens (pos + 1) TokenType.LBracket then parseArrayGet fuel tokens pos
        else if typeIs tokens (pos + 1) TokenType.Dot then parseMethodCall fuel tokens pos
        else Except.ok (ASTNode.Identifier [] token.value, pos + 1)
      else if token.type == TokenType.LParen then
        parseExpression fuel tokens (pos + 1) >>= fun expr =>
        expect tokens expr.2 TokenType.RParen >>= fun r =>
        pure (expr.1, r.2)
      else if token.type == TokenType.LBrace then parseArray fuel tokens pos
      else Except.error ParseError.runtimeError
termination_by structural fuel _ _ => fuel

/-- Method `TreeGenerator::parseArray`. -/
def parseArray : Nat → List Token → Nat → ParseResult
  | 0, _, _ => Except.error ParseError.outOfFuel
  | fuel + 1, tokens, pos =>
    expect tokens pos TokenType.LBrace >>= fun r =>
    parseArrayLoop (parseExpression fuel tokens) tokens fuel [] r.2 >>= fun values =>
    pure (ASTNode.IntArrayLiteral [] values.1, values.2 + 1)
termination_by structural fuel _ _ => fuel

/-- Method `TreeGenerator::parseFunctionCall`. -/
def parseFunctionCall : Nat → List Token → Nat → ParseResult
  | 0, _, _ => Except.error ParseError.outOfFuel
  | fuel + 1, tokens, pos =>
    expect tokens pos TokenType.Identifier >>= fun name =>
    expect tokens name.2 TokenType.LParen >>= fun r =>
    parameterLoop (parseExpression fuel tokens) tokens fuel [] r.2 >>= fun parameters =>
    expect tokens parameters.2 TokenType.RParen >>= fun r1 =>
    pure (ASTNode.FunctionCall [] name.1 parameters.1, r1.2)
termination_by structural fuel _ _ => fuel

/-- Method `TreeGenerator::parseArrayGet`. -/
def parseArrayGet : Nat → List Token → Nat → ParseResult
  | 0, _, _ => Except.error ParseError.outOfFuel
  | fuel + 1, tokens, pos =>
    expect tokens pos TokenType.Identifier >>= fun name =>
    expect tokens name.2 TokenType.LBracket >>= fun r =>
    parseExpression fuel tokens r.2 >>= fun expr =>
    expect tokens expr.2 TokenType.RBracket >>= fun r1 =>
    pure (ASTNode.ArrayGet [] (ASTNode.Identifier [] name.1) expr.1, r1.2)
termination_by structural fuel _ _ => fuel

/-- Method `TreeGenerator::parseMethodCall`. -/
def parseMethodCall : Nat → List Token → Nat → ParseResult
  | 0, _, _ => Except.error ParseError.outOfFuel
  | fuel + 1, tokens, pos =>
    expect tokens pos TokenType.Identifier >>= fun name =>
    expect tokens name.2 TokenType.Dot >>= fun r =>
    expect tokens r.2 TokenType.Identifier >>= fun methodName =>
    expect tokens methodName.2 TokenType.LParen >>= fun r1 =>
    methodArgsLoop (parsePrimary fuel tokens) tokens fuel [] r1.2 >>= fun args =>
    expect tokens args.2 TokenType.RParen >>= fun r2 =>
    pure (ASTNode.MethodCall [] (ASTNode.Identifier [] name.1) methodName.1 args.1, r2.2)
termination_by structural fuel _ _ => fuel
end

/-- The type name that `parseVarStatement` takes from the type of the first
token; `none` where it throws. -/
def declaredType (t : TokenType) : Option Str :=
  if t == TokenType.KeywordInt then some "int".toList
  else if t == TokenType.KeywordUint then some "uint".toList
  else if t == TokenType.KeywordChar then some "char".toList
  else if t == TokenType.KeywordString then some "string".toList
  else if t == TokenType.KeywordBool then some "bool".toList
  else if t == TokenType.KeywordIntArr then some "int[]".toList
  else none

/-- Method `TreeGenerator::parseVarStatement`. -/
def parseVarStatement (fuel : Nat) (tokens : List Token) (pos : Nat) : ParseResult :=
  match tokens[pos]? with
  | none => Except.error ParseError.outOfBounds
  | some token =>
    match declaredType token.type with
    | none => Except.error ParseError.runtimeError
    | some type =>
      expect tokens (pos + 1) TokenType.Identifier >>= fun varName =>
      expect tokens varName.2 TokenType.Equals >>= fun r =>
      parseExpression fuel tokens r.2 >>= fun expr =>
      expect tokens expr.2 TokenType.Semicolon >>= fun r1 =>
      pure (ASTNode.VarDecl type varName.1 expr.1, r1.2)

/-- The left side of `parseAssignStatement` after the name: the element
`name[expr]` when a bracket follows, else the variable. -/
def assignTarget (fuel : Nat) (tokens : List Token) (varName : Str) (pos : Nat) : ParseResult :=
  match tokens[pos]? with
  | none => Except.error ParseError.outOfBounds
  | some token =>
    if token.type == TokenType.LBracket then
      parseExpression fuel tokens (pos + 1) >>= fun expr =>
      expect tokens expr.2 TokenType.RBracket >>= fun r =>
      pure (ASTNode.ArrayGet [] (ASTNode.Identifier [] varName) expr.1, r.2)
    else Except.ok (ASTNode.Identifier [] varName, pos)

/-- Method `TreeGenerator::parseAssignStatement`. -/
def parseAssignStatement (fuel : Nat) (tokens : List Token) (pos : Nat) : ParseResult :=
  expect tokens pos TokenType.Identifier >>= fun varName =>
  assignTarget fuel tokens varName.1 varName.2 >>= fun var =>
  expect tokens var.2 TokenType.Equals >>= fun r =>
  parseExpression fuel tokens r.2 >>= fun expr =>
  expect tokens expr.2 TokenType.Semicolon >>= fun r1 =>
  pure (ASTNode.Assign var.1 expr.1, r1.2)

/-- The end of `parseReturn` after the keyword. -/
def returnValue (fuel : Nat) (tokens : List Token) (pos : Nat) : ParseResult :=
  match tokens[pos]? with
  | none => Except.error ParseError.outOfBounds
  | some token =>
    if token.type == TokenType.Semicolon then
      Except.ok (ASTNode.Return (some (ASTNode.VoidLiteral [])), pos + 1)
    else
      parseExpression fuel tokens pos >>= fun node =>
      expect tokens node.2 TokenType.Semicolon >>= fun r =>
      pure (ASTNode.Return (some node.1), r.2)

/-- Method `TreeGenerator::parseReturn`. -/
def parseReturn (fuel : Nat) (tokens : List Token) (pos : Nat) : ParseResult :=
  expect tokens pos TokenType.KeywordReturn >>= fun r => returnValue fuel tokens r.2

/-- The test of `parseStatement` for the first token of a declaration. -/
def startsDeclaration (t : TokenType) : Bool :=
  t == TokenType.KeywordInt || t == TokenType.KeywordUint || t == TokenType.KeywordChar ||
    t == TokenType.KeywordString || t == TokenType.KeywordBool || t == TokenType.KeywordVoid ||
    t == TokenType.KeywordIntArr

/-- The test of `parseFunction` for the return type. -/
def isReturnType (t : TokenType) : Bool :=
  !(t != TokenType.KeywordInt && t != TokenType.KeywordChar && t != TokenType.KeywordString &&
    t != TokenType.KeywordBool && t != TokenType.KeywordVoid && t != TokenType.KeywordIntArr)

mutual
/-- Method `TreeGenerator::parseStatement`. -/
def parseStatement : Nat → List Token → Nat → ParseResult
  | 0, _, _ => Except.error ParseError.outOfFuel
  | fuel + 1, tokens, pos =>
    match tokens[pos]? with
    | none => Except.error ParseError.outOfBounds
    | some token =>
      if startsDeclaration token.type then
        if decide (pos + 2 < tokens.length) && typeIs tokens (pos + 1) TokenType.Identifier &&
            typeIs tokens (pos + 2) TokenType.LParen then parseFunction fuel tokens pos
        else parseVarStatement fuel tokens pos
      else if token.type == TokenType.KeywordIf then parseIf fuel tokens pos
      else if token.type == TokenType.KeywordWhile then parseWhile fuel tokens pos
      else if token.type == TokenType.KeywordBreak then parseBreak tokens pos
      else if token.type == TokenType.KeywordReturn then parseReturn fuel tokens pos
      else if token.type == TokenType.Identifier then
        if typeIs tokens (pos + 1) TokenType.LParen then
          parseFunctionCall fuel tokens pos >>= fun node =>
          expect tokens node.2 TokenType.Semicolon >>= fun r =>
          pure (node.1, r.2)
        else parseAssignStatement fuel tokens pos
      else parseExpression fuel tokens pos
termination_by structural fuel _ _ => fuel

/-- Method `TreeGenerator::parseIf`. -/
def parseIf : Nat → List Token → Nat → ParseResult
  | 0, _, _ => Except.error ParseError.outOfFuel
  | fuel + 1, tokens, pos =>
    expect tokens pos TokenType.KeywordIf >>= fun r =>
    expect tokens r.2 TokenType.LParen >>= fun r1 =>
    parseExpression fuel tokens r1.2 >>= fun condition =>
    expect tokens condition.2 TokenType.RParen >>= fun r2 =>
    parseBlock fuel tokens r2.2 >>= fun thenBranch =>
    if typeIs tokens thenBranch.2 TokenType.KeywordElse then
      parseBlock fuel tokens (thenBranch.2 + 1) >>= fun elseBranch =>
      pure (ASTNode.If condition.1 thenBranch.1 (some elseBranch.1), elseBranch.2)
    else pure (ASTNode.If condition.1 thenBranch.1 none, thenBranch.2)
termination_by structural fuel _ _ => fuel

/-- Method `TreeGenerator::parseWhile`. -/
def parseWhile : Nat → List Token → Nat → ParseResult
  | 0, _, _ => Except.error ParseError.outOfFuel
  | fuel + 1, tokens, pos =>
    expect tokens pos TokenType.KeywordWhile >>= fun r =>
    expect tokens r.2 TokenType.LParen >>= fun r1 =>
    parseExpression fuel tokens r1.2 >>= fun condition =>
    expect tokens condition.2 TokenType.RParen >>= fun r2 =>
    parseBlock fuel tokens r2.2 >>= fun body =>
    pure (ASTNode.While condition.1 body.1, body.2)
termination_by structural fuel _ _ => fuel

/-- Method `TreeGenerator::parseBlock`. -/
def parseBlock : Nat → List Token → Nat → ParseResult
  | 0, _, _ => Except.error ParseError.outOfFuel
  | fuel + 1, tokens, pos =>
    expect tokens pos TokenType.LBrace >>= fun r =>
    statementLoop (fun t => t == TokenType.RBrace || t == TokenType.EndOfFile)
      (parseStatement fuel tokens) tokens fuel [] r.2 >>= fun children =>
    expect tokens children.2 TokenType.RBrace >>= fun r1 =>
    pure (ASTNode.Block children.1, r1.2)
termination_by structural fuel _ _ => fuel

/-- Method `TreeGenerator::parseFunction`. -/
def parseFunction : Nat → List Token → Nat → ParseResult
  | 0, _, _ => Except.error ParseError.outOfFuel
  | fuel + 1, tokens, pos =>
    match tokens[pos]? with
    | none => Except.error ParseError.outOfBounds
    | some token =>
      if !isReturnType token.type then Except.error ParseError.runtimeError
      else
        expect tokens (pos + 1) TokenType.Identifier >>= fun name =>
        expect tokens name.2 TokenType.LParen >>= fun r =>
        parameterLoop (parseParameter tokens) tokens fuel [] r.2 >>= fun parameters =>
        expect tokens parameters.2 TokenType.RParen >>= fun r1 =>
        parseBlock fuel tokens r1.2 >>= fun body =>
        pure (ASTNode.Function token.value name.1 parameters.1 body.1, body.2)
termination_by structural fuel _ _ => fuel
end

/-- Method `TreeGenerator::makeTree` on the tokens: the loop that gathers the
statements up to the `EndOfFile` token. -/
def makeTreeTokens (fuel : Nat) (tokens : List Token) : Except ParseError ASTNode :=
  statementLoop (fun t => t == TokenType.EndOfFile) (parseStatement fuel tokens) tokens
    fuel [] 0 >>= fun children =>
  pure (ASTNode.Block children.1)

/-- Method `TreeGenerator::makeTree`. -/
def makeTree (fuel : Nat) (data : Str) : Except ParseError ASTNode :=
  tokenize data >>= fun tokens => makeTreeTokens fuel tokens

/-! ## Properties of the parser, to state that it stays inside the token list -/

/-- A token list in which only an `EndOfFile` token can stand at the last
index. -/
def Closed (tokens : List Token) : Prop :=
  ∀ (pos : Nat) (token : Token), tokens[pos]? = some token →
    token.type ≠ TokenType.EndOfFile → pos + 1 < tokens.length

/-- A call that ends with a position from `lo` on and below the number of
tokens, or with an exception: not with a read outside the tokens, nor for lack
of fuel. -/
def Within (tokens : List Token) (lo : Nat) {α : Type} (r : Except ParseError (α × Nat)) :
    Prop :=
  match r with
  | Except.ok v => lo ≤ v.2 ∧ v.2 < tokens.length
  | Except.error e => e ≠ ParseError.outOfBounds ∧ e ≠ ParseError.outOfFuel

/-- The fuel that a parse function of rank `rank` needs at `pos`: 16 for each
token from `pos` on, and its rank among the functions that call each other
without taking a token. -/
def need (tokens : List Token) (rank pos : Nat) : Nat := 16 * (tokens.length - pos) + rank

/-- A parse function of rank `rank` that, given the fuel it needs, takes at
least one token and stays inside the tokens. -/
def Safe (tokens : List Token) (rank fuel : Nat) (f : Nat → ParseResult) : Prop :=
  ∀ pos, pos < tokens.length → need tokens rank pos ≤ fuel → Within tokens (pos + 1) (f pos)

/-- The functions of the expression parser are safe with fuel `fuel`. -/
structure ExprSafe (tokens : List Token) (fuel : Nat) : Prop where
  expression : Safe tokens 9 fuel (parseExpression fuel tokens)
  logicOr : Safe tokens 8 fuel (parseLogicOr fuel tokens)
  logicAnd : Safe tokens 7 fuel (parseLogicAnd fuel tokens)
  equality : Safe tokens 6 fuel (parseEquality fuel tokens)
  comparsion : Safe tokens 5 fuel (parseComparsion fuel tokens)
  term : Safe tokens 4 fuel (parseTerm fuel tokens)
  factor : Safe tokens 3 fuel (parseFactor fuel tokens)
  unary : Safe tokens 2 fuel (parseUnary fuel tokens)
  primary : Safe tokens 1 fuel (parsePrimary fuel tokens)
  array : Safe tokens 0 fuel (parseArray fuel tokens)
  functionCall : Safe tokens 0 fuel (parseFunctionCall fuel tokens)
  arrayGet : Safe tokens 0 fuel (parseArrayGet fuel tokens)
  methodCall : Safe tokens 0 fuel (parseMethodCall fuel tokens)

/-- The functions of the statement parser are safe with fuel `fuel`. -/
structure StmtSafe (tokens : List Token) (fuel : Nat) : Prop where
  statement : Safe tokens 10 fuel (parseStatement fuel tokens)
  parseIf : Safe tokens 0 fuel (parseIf fuel tokens)
  parseWhile : Safe tokens 0 fuel (parseWhile fuel tokens)
  block : Safe tokens 0 fuel (parseBlock fuel tokens)
  function : Safe tokens 0 fuel (parseFunction fuel tokens)

/-- The precedence levels of the binary operators in the order of the
specification: `||` lowest, then `&&`, then `==` and `!=`, then the four
comparisons, then `+` and `-`, then `*`, `/` and `%`; `none` for a token that
is no binary operator. -/
def precedenceLevel : TokenType → Option Nat
  | TokenType.LogicOr => some 1
  | TokenType.LogicAnd => some 2
  | TokenType.LogicEqual => some 3
  | TokenType.LogicNotEqual => some 3
  | TokenType.LogicGreater => some 4
  | TokenType.LogicGreaterEqual => some 4
  | TokenType.LogicLess => some 4
  | TokenType.LogicLessEqual => some 4
  | TokenType.Plus => some 5
  | TokenType.Minus => some 5
  | TokenType.Multiply => some 6
  | TokenType.Divide => some 6
  | TokenType.Rem => some 6
  | _ => none

/-- The token of an identifier. -/
def identifier (name : Str) : Token := ⟨TokenType.Identifier, name⟩

/-- The token that ends a token list. -/
def endOfFile : Token := ⟨TokenType.EndOfFile, []⟩


/-- The parse function for the binary operators of level `k`, in the order
in which they call each other: `parseLogicOr` (1), `parseLogicAnd` (2),
`parseEquality` (3), `parseComparsion` (4), `parseTerm` (5), `parseFactor`
(6); above them `parseUnary`, which parses an operand. -/
def levelParser (k : Nat) : Nat → List Token → Nat → ParseResult :=
  match k with
  | 1 => parseLogicOr
  | 2 => parseLogicAnd
  | 3 => parseEquality
  | 4 => parseComparsion
  | 5 => parseTerm
  | 6 => parseFactor
  | _ => parseUnary

/-- The parse function of level `k` with the fuel that it gets when
`parseExpression` is called with fuel `n + 7`: each level passes on one less,
and `parseUnary` gets `n`. -/
def levelAt (n : Nat) (tokens : List Token) (k : Nat) : Nat → ParseResult :=
  levelParser k (n + (7 - k)) tokens

/-- The test for a binary operator of level `k`. -/
def isOpAt (k : Nat) (t : TokenType) : Bool := precedenceLevel t == some k

/-- The tokens of `x = -a + 2 * c;`. -/
def chainTokens : List Token :=
  [identifier "x".toList, ⟨TokenType.Equals, "=".toList⟩, ⟨TokenType.Minus, "-".toList⟩,
   identifier "a".toList, ⟨TokenType.Plus, "+".toList⟩, ⟨TokenType.Number, "2".toList⟩,
   ⟨TokenType.Multiply, "*".toList⟩, identifier "c".toList,
   ⟨TokenType.Semicolon, ";".toList⟩, endOfFile]


/-! ## Kinds of lines, to state where a line stands in the input -/

/-- A line that both loops of `parse` take for an instruction (in `.text`) or a
data entry (in `.data`): not empty, no directive, no bare label. -/
def isOther (raw : Str) : Bool :=
  match classify raw with
  | Line.other _ => true
  | _ => false

/-- The number of instruction lines among the lines of a text section. -/
def instrCount (lines : List Str) : Nat := (lines.filter isOther).length

/-- A line that leaves the current section and its start alone: empty, a bare
label, an instruction or a data entry. -/
def isBody (raw : Str) : Bool :=
  match classify raw with
  | Line.empty => true
  | Line.label _ => true
  | Line.other _ => true
  | _ => false

/-- A line that is neither the `.text` directive nor an `.org` directive. -/
def isOutside (raw : Str) : Bool :=
  match classify raw with
  | Line.text => false
  | Line.org _ => false
  | _ => true

/-- The label of a data entry: the trimmed text in front of its first colon,
the key under which the second loop of `parse` stores the entry's address. -/
def dataLabel (line : Str) : Str := trim (line.takeWhile (fun c => c != ':'))

/-- The value of a data entry: the trimmed text after its first colon. -/
def dataValue (line : Str) : Str := trim ((line.dropWhile (fun c => c != ':')).drop 1)

/-- A data entry that takes the `.zero` branch of the second loop. -/
def isZeroEntry (line : Str) : Bool :=
  (dataValue line).length ≥ const_5 && (dataValue line).take const_5 == ".zero".toList

/-- A data entry that takes the string branch with nothing between the quotes:
the loop over its bytes stores no word. -/
def isEmptyLiteral (line : Str) : Bool :=
  !isNumber (dataValue line) &&
    ((dataValue line).head? == some '"' && (dataValue line).getLast? == some '"') &&
    (((dataValue line).drop 1).take (sub64 (dataValue line).length 2)).isEmpty

/-- A data entry for which the second loop stores a word at the data cursor: a
number, a string literal that is not empty, a list or the name of a label. -/
def storesWord (line : Str) : Bool := !isZeroEntry line && !isEmptyLiteral line

/-! ## Sample programs -/

/-- A program that loads a data word: `.data` first, then `.text`. -/
def ldProgram : Str := ".data\nA: 5\n.text\n_start:\nld A\nhalt\n".toList

/-- The variables of the first loop of `parse` at the end of `ldProgram`. -/
def ldProgramPass1 : Pass1 :=
  { current := Section.Text, textStart := 1, dataStart := 0, textSize := 2, dataSize := 1,
    labelAddress := [("_start".toList, 1)], dataAddress := [] }

/-- The members of the `Binarizer` after `parse` of `ldProgram`. -/
def ldProgramParsed : Binarizer :=
  { textStart := 1, dataStart := 3, dataSection := [5], dataAddress := [("A".toList, 3)],
    instructions := [⟨0b011000, 3⟩, ⟨0b100010, 0⟩], labelAddress := [("_start".toList, 1)] }

/-- The image of `ldProgram`: the reset word, `ld 3`, `halt`, the data word. -/
def ldProgramImage : List Nat := [0x0A000001, 0x18000003, 0x22000000, 5]

/-- A program with a loop: the label `loop` stands after one instruction. -/
def loopProgram : Str := ".data\nA: 5\n.text\n_start:\nld A\nloop:\njmp loop\n".toList

/-- The members of the `Binarizer` after `parse` of `loopProgram`. -/
def loopProgramParsed : Binarizer :=
  { textStart := 1, dataStart := 3, dataSection := [5], dataAddress := [("A".toList, 3)],
    instructions := [⟨0b011000, 3⟩, ⟨0b001010, 2⟩],
    labelAddress := [("loop".toList, 2), ("_start".toList, 1)] }

/-- The image of `loopProgram`: the reset word, `ld 3`, `jmp 2`, the data word. -/
def loopProgramImage : List Nat := [0x0A000001, 0x18000003, 0x0A000002, 5]

/-- A program that defines the text label `L` twice, in front of `ld 7` and in
front of `halt`. -/
def twiceProgram : Str := ".text\n_start:\nL:\nld 7\nL:\nhalt\n".toList

/-- A program whose text section is put at address 0 by `.org 0`. -/
def orgZeroProgram : Str := ".text\n.org 0\n_start:\nhalt\n".toList

/-- The bytes of the file that `writeToFile` writes for `ldProgram`: the
header 3, 1 and the four words of the image. -/
def ldProgramBytes : List Nat :=
  [0, 0, 0, 3, 0, 0, 0, 1, 10, 0, 0, 1, 24, 0, 0, 3, 34, 0, 0, 0, 0, 0, 0, 5]

/-- A data section with a string literal of two characters and then three
reserved words. -/
def stringZeroProgram : Str := ".data\nS: \"Hi\"\nZ: .zero 3\n.text\n_start:\nhalt\n".toList

/-- The members of the `Binarizer` after `parse` of `stringZeroProgram`. -/
def stringZeroProgramParsed : Binarizer :=
  { textStart := 1, dataStart := 2, dataSection := [72, 105, 0, 0],
    dataAddress := [("Z".toList, 4), ("S".toList, 2)],
    instructions := [⟨0b100010, 0⟩], labelAddress := [("_start".toList, 1)] }

/-- A text section with one instruction, then `.org 0x20`, a label and another
instruction. -/
def orgProgram : Str := ".text\n_start:\nldi 1\n.org 0x20\nL:\nhalt\n".toList

/-- The members of the `Binarizer` after `parse` of `orgProgram`. -/
def orgProgramParsed : Binarizer :=
  { textStart := 32, dataStart := 34, dataSection := [], dataAddress := [],
    instructions := [⟨0b100010, 0⟩, ⟨0, 0⟩],
    labelAddress := [("L".toList, 33), ("_start".toList, 1)] }

/-- The image of `orgProgram`: the reset word, 31 zero words, `halt` at
address 32 and a zero word at address 33. -/
def orgProgramImage : List Nat := 0x0A000001 :: (List.replicate 31 0 ++ [0x22000000, 0])

/-- A data section whose string literal is a single semicolon. -/
def semicolonProgram : Str := ".data\nS: \";\"\n.text\n_start:\nhalt\n".toList

/-- The members of the `Binarizer` after `parse` of `semicolonProgram`. -/
def semicolonProgramParsed : Binarizer :=
  { textStart := 1, dataStart := 2, dataSection := [0], dataAddress := [("S".toList, 2)],
    instructions := [⟨0b100010, 0⟩], labelAddress := [("_start".toList, 1)] }

/-- A data section whose string literal holds a semicolon between two letters. -/
def semicolonInsideProgram : Str := ".data\nS: \"a;b\"\n.text\n_start:\nhalt\n".toList

/-- The variables of the second loop in the data section of a program with one
instruction line and one data line, in front of the data line. -/
def dataLineState : Pass2 :=
  { current := Section.Data, textCursor := 0, dataCursor := 0, textStart := 1, dataStart := 2,
    dataSection := [0], dataAddress := [], instructions := [⟨0, 0⟩], labelAddress := [] }

/-- An `IOSimulator` on a fresh memory with an input schedule of three
entries, two of them for tick 5, and an output stream with nothing written. -/
def ioSample : IOSimulator :=
  { interruptHandler := {}, memory := Memory.new,
    inputSchedule := [⟨5, 104⟩, ⟨7, 105⟩, ⟨5, 106⟩], outputFile := some [] }

/-- The same `IOSimulator` after the program has stored 65 in memory[0x11]. -/
def ioSampleOut : IOSimulator :=
  { ioSample with memory := { data := Memory.new.data.set output_address 65 } }

/-- Tree of `T a = 1; U b = 2; if (a opr b) { }`, the operands resolved to the
types `leftType` and `rightType`. -/
def ifComparison (leftType rightType opr : Str) : ASTNode :=
  ASTNode.Block [
    ASTNode.VarDecl leftType "a".toList (ASTNode.NumberLiteral "int".toList 1),
    ASTNode.VarDecl rightType "b".toList (ASTNode.NumberLiteral "int".toList 2),
    ASTNode.If
      (ASTNode.BinaryOp "bool".toList opr (ASTNode.Identifier leftType "a".toList)
        (ASTNode.Identifier rightType "b".toList))
      (ASTNode.Block []) none]

/-- Tree of `T a = 1; U b = 2; while (a opr b) { }`. -/
def whileComparison (leftType rightType opr : Str) : ASTNode :=
  ASTNode.Block [
    ASTNode.VarDecl leftType "a".toList (ASTNode.NumberLiteral "int".toList 1),
    ASTNode.VarDecl rightType "b".toList (ASTNode.NumberLiteral "int".toList 2),
    ASTNode.While
      (ASTNode.BinaryOp "bool".toList opr (ASTNode.Identifier leftType "a".toList)
        (ASTNode.Identifier rightType "b".toList))
      (ASTNode.Block [])]

/-- Tree of `T a = 1; U b = 2; bool r = a opr b;`. -/
def valueComparison (leftType rightType opr : Str) : ASTNode :=
  ASTNode.Block [
    ASTNode.VarDecl leftType "a".toList (ASTNode.NumberLiteral "int".toList 1),
    ASTNode.VarDecl rightType "b".toList (ASTNode.NumberLiteral "int".toList 2),
    ASTNode.VarDecl "bool".toList "r".toList
      (ASTNode.BinaryOp "bool".toList opr (ASTNode.Identifier leftType "a".toList)
        (ASTNode.Identifier rightType "b".toList))]

/-- Tree of `bool flag = true; while (flag) { flag = false; }`. -/
def whileFlag : ASTNode :=
  ASTNode.Block [
    ASTNode.VarDecl "bool".toList "flag".toList (ASTNode.BooleanLiteral "bool".toList true),
    ASTNode.While (ASTNode.Identifier "bool".toList "flag".toList)
      (ASTNode.Block [ASTNode.Assign (ASTNode.Identifier "bool".toList "flag".toList)
        (ASTNode.BooleanLiteral "bool".toList false)])]

/-- Tree of `bool flag = true; if (flag) { flag = false; }`. -/
def ifFlag : ASTNode :=
  ASTNode.Block [
    ASTNode.VarDecl "bool".toList "flag".toList (ASTNode.BooleanLiteral "bool".toList true),
    ASTNode.If (ASTNode.Identifier "bool".toList "flag".toList)
      (ASTNode.Block [ASTNode.Assign (ASTNode.Identifier "bool".toList "flag".toList)
        (ASTNode.BooleanLiteral "bool".toList false)]) none]

/-- Tree of `while (false) { }`. -/
def whileFalse : ASTNode :=
  ASTNode.Block [
    ASTNode.While (ASTNode.BooleanLiteral "bool".toList false) (ASTNode.Block [])]

/-- The lines of a section as strings. -/
def lines (section_ : List Str) : List String := section_.map String.mk

/-! ## Facts about 32-bit words -/

theorem and_msb_ne_zero (a : Nat) : (a &&& MSB_MASK != 0) = a.testBit 31 := by
  have h : MSB_MASK = 2 ^ 31 := by decide
  rw [h, Nat.and_two_pow]
  cases a.testBit 31 <;> simp

theorem testBit31_of_lt {x : Nat} (hx : x < 2 ^ 32) : x.testBit 31 = decide (2 ^ 31 ≤ x) := by
  rw [Nat.testBit_to_div_mod]
  congr 1
  apply propext
  constructor <;> intro h <;> omega

theorem and_full_mask (a : Nat) : a &&& FULL_MASK = a % 2 ^ 32 := by
  have h : FULL_MASK = 2 ^ 32 - 1 := by decide
  rw [h, Nat.and_pow_two_sub_one_eq_mod]

theorem shiftRight_msb_ne_zero {x : Nat} (hx : x < 2 ^ 32) :
    ((x >>> MSB_INDEX) != 0) = decide (2 ^ 31 ≤ x) := by
  have h : MSB_INDEX = 31 := rfl
  rw [h, Nat.shiftRight_eq_div_pow]
  by_cases h1 : 2 ^ 31 ≤ x
  · have h2 : x / 2147483648 ≠ 0 := by omega
    have h3 : (2147483648 : Nat) ≤ x := h1
    simp [h2, h3]
  · have h2 : x / 2147483648 = 0 := by omega
    have h3 : ¬ (2147483648 : Nat) ≤ x := h1
    simp [h2, h3]

/-- The value and the two flags that the `SUB` case computes, in arithmetic form. -/
theorem compute_sub (host : ShiftHost) {left right : Nat} (hl : left < 2 ^ 32)
    (hr : right < 2 ^ 32) :
    ALU.compute host Operation.SUB left right =
      ((left + 2 ^ 32 - right) % 2 ^ 32,
        ((decide (2 ^ 31 ≤ left) ^^ decide (2 ^ 31 ≤ right)) &&
          (decide (2 ^ 31 ≤ left) ^^ decide (2 ^ 31 ≤ (left + 2 ^ 32 - right) % 2 ^ 32))),
        decide (left ≥ right)) := by
  have hv : sub64 left right &&& FULL_MASK = (left + 2 ^ 32 - right) % 2 ^ 32 := by
    rw [and_full_mask]; unfold sub64; omega
  have hvlt : (left + 2 ^ 32 - right) % 2 ^ 32 < 2 ^ 32 := Nat.mod_lt _ (by decide)
  simp only [ALU.compute, hv, and_msb_ne_zero, Nat.testBit_and, Nat.testBit_xor,
    testBit31_of_lt hl, testBit31_of_lt hr, testBit31_of_lt hvlt]

/-- The value and the two flags that the `ADD` case computes, in arithmetic form. -/
theorem compute_add (host : ShiftHost) {left right : Nat} (hl : left < 2 ^ 32)
    (hr : right < 2 ^ 32) :
    ALU.compute host Operation.ADD left right =
      ((left + right) % 2 ^ 32,
        ((decide (2 ^ 31 ≤ left) ^^ decide (2 ^ 31 ≤ (left + right) % 2 ^ 32)) &&
          (decide (2 ^ 31 ≤ right) ^^ decide (2 ^ 31 ≤ (left + right) % 2 ^ 32))),
        decide (left + right ≥ 2 ^ 32)) := by
  have ht : u64 (left + right) = left + right := by unfold u64; omega
  have hv : (left + right) &&& FULL_MASK = (left + right) % 2 ^ 32 := and_full_mask _
  have hvlt : (left + right) % 2 ^ 32 < 2 ^ 32 := Nat.mod_lt _ (by decide)
  have hc : (left + right > FULL_MASK) = (left + right ≥ 2 ^ 32) := by
    apply propext; unfold FULL_MASK; omega
  simp only [ALU.compute, ht, hv, and_msb_ne_zero, Nat.testBit_and, Nat.testBit_xor,
    testBit31_of_lt hl, testBit31_of_lt hr, testBit31_of_lt hvlt, hc]

/-- The flags that `perform` writes, given what the `switch` computed. -/
theorem perform_writeFlags (host : ShiftHost) (alu : ALU) (op : Operation) (left right : Nat)
    (f0 : FlagsRegister) :
    ALU.perform host { alu with operation := op, writeFlags := true } left right (some f0) =
      ({ alu with operation := op, writeFlags := true,
                  result := (ALU.compute host op left right).1 },
        some { N := ((ALU.compute host op left right).1 >>> MSB_INDEX) != 0,
               Z := (ALU.compute host op left right).1 == 0,
               V := (ALU.compute host op left right).2.1,
               C := (ALU.compute host op left right).2.2 }) := by
  simp [ALU.perform]

/-- Signed order of two words from the sign bits of the operands and of their difference. -/
theorem signed_lt_iff_sub {left right : Nat} (hl : left < 2 ^ 32) (hr : right < 2 ^ 32) :
    (decide (2 ^ 31 ≤ (left + 2 ^ 32 - right) % 2 ^ 32) !=
      ((decide (2 ^ 31 ≤ left) ^^ decide (2 ^ 31 ≤ right)) &&
        (decide (2 ^ 31 ≤ left) ^^ decide (2 ^ 31 ≤ (left + 2 ^ 32 - right) % 2 ^ 32)))) = true
      ↔ toSigned left < toSigned right := by
  unfold toSigned
  by_cases h1 : (2 ^ 31 : Nat) ≤ left <;> by_cases h2 : (2 ^ 31 : Nat) ≤ right <;>
    by_cases h3 : (2 ^ 31 : Nat) ≤ (left + 2 ^ 32 - right) % 2 ^ 32 <;>
    simp only [h1, h2, h3, decide_True, decide_False, Bool.xor_true, Bool.xor_false,
      Bool.true_xor, Bool.false_xor, Bool.not_true, Bool.not_false, Bool.and_true,
      Bool.and_false, Bool.true_and, Bool.false_and, bne_self_eq_false, Bool.true_bne,
      Bool.false_bne, Bool.bne_true, Bool.bne_false, Bool.false_eq_true, false_iff, true_iff] <;>
    split_ifs <;> omega

/-- The difference of two words is zero exactly when they are equal. -/
theorem sub_eq_zero_iff {left right : Nat} (hl : left < 2 ^ 32) (hr : right < 2 ^ 32) :
    ((left + 2 ^ 32 - right) % 2 ^ 32 == 0) = true ↔ left = right := by
  rw [beq_iff_eq]
  omega

theorem toSigned_inj {x y : Nat} (hx : x < 2 ^ 32) (hy : y < 2 ^ 32) :
    toSigned x = toSigned y ↔ x = y := by
  unfold toSigned
  split_ifs <;> omega

/-- Boolean bookkeeping shared by the signed branch predicates. -/
theorem signed_predicates (n v z : Bool) (a b : Int) (hlt : (n != v) = true ↔ a < b)
    (hz : z = true ↔ a = b) :
    ((n != v) = true ↔ a < b) ∧ ((n == v) = true ↔ a ≥ b) ∧
      ((!z && (n == v)) = true ↔ a > b) ∧ ((z || (n != v)) = true ↔ a ≤ b) := by
  cases n <;> cases v <;> cases z <;> simp at hlt hz ⊢ <;> omega

/-- Boolean bookkeeping shared by the unsigned branch predicates. -/
theorem unsigned_predicates (c z : Bool) (a b : Nat) (hc : c = true ↔ a ≥ b)
    (hz : z = true ↔ a = b) :
    ((c && !z) = true ↔ a > b) ∧ (c = true ↔ a ≥ b) ∧ ((!c) = true ↔ a < b) ∧
      ((!c || z) = true ↔ a ≤ b) ∧ (z = true ↔ a = b) := by
  cases c <;> cases z <;> simp at hc hz ⊢ <;> omega

/-- C1: after `perform` with operation SUB and writeFlags set, the signed branch
predicates on the written flags decide the signed order of the two operands:
`N != V` iff left < right, `N = V` iff left >= right, `not Z and N = V` iff
left > right, `Z or N != V` iff left <= right, the operands read as
two's-complement 32-bit integers. -/
theorem sub_flags_decide_signed_order (host : ShiftHost) (alu : ALU) (left right : Nat)
    (f0 : FlagsRegister) (hl : left < 2 ^ 32) (hr : right < 2 ^ 32) :
    ∃ f : FlagsRegister,
      (ALU.perform host { alu with operation := Operation.SUB, writeFlags := true }
        left right (some f0)).2 = some f ∧
      ((f.N != f.V) = true ↔ toSigned left < toSigned right) ∧
      ((f.N == f.V) = true ↔ toSigned left ≥ toSigned right) ∧
      ((!f.Z && (f.N == f.V)) = true ↔ toSigned left > toSigned right) ∧
      ((f.Z || (f.N != f.V)) = true ↔ toSigned left ≤ toSigned right) := by
  have hvlt : (left + 2 ^ 32 - right) % 2 ^ 32 < 2 ^ 32 := Nat.mod_lt _ (by decide)
  refine ⟨_, by rw [perform_writeFlags], ?_⟩
  simp only [compute_sub host hl hr, shiftRight_msb_ne_zero hvlt]
  exact signed_predicates _ _ _ _ _ (signed_lt_iff_sub hl hr)
    ((sub_eq_zero_iff hl hr).trans (toSigned_inj hl hr).symm)

/-- Witness for C1: the operands 0 and 0xFFFFFFFF (that is, 0 and -1). -/
theorem sub_flags_decide_signed_order_witness :
    ∃ f : FlagsRegister,
      (ALU.perform ⟨fun _ _ => 0, fun _ _ => 0⟩
        { ({} : ALU) with operation := Operation.SUB, writeFlags := true }
        0 0xFFFFFFFF (some {})).2 = some f ∧
      ((f.N != f.V) = true ↔ toSigned 0 < toSigned 0xFFFFFFFF) ∧
      ((f.N == f.V) = true ↔ toSigned 0 ≥ toSigned 0xFFFFFFFF) ∧
      ((!f.Z && (f.N == f.V)) = true ↔ toSigned 0 > toSigned 0xFFFFFFFF) ∧
      ((f.Z || (f.N != f.V)) = true ↔ toSigned 0 ≤ toSigned 0xFFFFFFFF) :=
  sub_flags_decide_signed_order ⟨fun _ _ => 0, fun _ _ => 0⟩ {} 0 0xFFFFFFFF {}
    (by decide) (by decide)

/-- C2: after `perform` with operation SUB and writeFlags set, the unsigned branch
predicates on the written flags decide the unsigned order of the two operands:
`C and not Z` iff left > right, `C` iff left >= right, `not C` iff left < right,
`not C or Z` iff left <= right, and `Z` iff left = right. -/
theorem sub_flags_decide_unsigned_order (host : ShiftHost) (alu : ALU) (left right : Nat)
    (f0 : FlagsRegister) (hl : left < 2 ^ 32) (hr : right < 2 ^ 32) :
    ∃ f : FlagsRegister,
      (ALU.perform host { alu with operation := Operation.SUB, writeFlags := true }
        left right (some f0)).2 = some f ∧
      ((f.C && !f.Z) = true ↔ left > right) ∧
      (f.C = true ↔ left ≥ right) ∧
      ((!f.C) = true ↔ left < right) ∧
      ((!f.C || f.Z) = true ↔ left ≤ right) ∧
      (f.Z = true ↔ left = right) := by
  refine ⟨_, by rw [perform_writeFlags], ?_⟩
  simp only [compute_sub host hl hr]
  exact unsigned_predicates _ _ _ _ (by simp) (sub_eq_zero_iff hl hr)

/-- Witness for C2: the operands 7 and 0xFFFFFFFF. -/
theorem sub_flags_decide_unsigned_order_witness :
    ∃ f : FlagsRegister,
      (ALU.perform ⟨fun _ _ => 0, fun _ _ => 0⟩
        { ({} : ALU) with operation := Operation.SUB, writeFlags := true }
        7 0xFFFFFFFF (some {})).2 = some f ∧
      ((f.C && !f.Z) = true ↔ 7 > 0xFFFFFFFF) ∧
      (f.C = true ↔ 7 ≥ 0xFFFFFFFF) ∧
      ((!f.C) = true ↔ 7 < 0xFFFFFFFF) ∧
      ((!f.C || f.Z) = true ↔ 7 ≤ 0xFFFFFFFF) ∧
      (f.Z = true ↔ 7 = 0xFFFFFFFF) :=
  sub_flags_decide_unsigned_order ⟨fun _ _ => 0, fun _ _ => 0⟩ {} 7 0xFFFFFFFF {}
    (by decide) (by decide)

/-- The result that `perform` stores does not depend on `writeFlags` or on the flags. -/
theorem perform_result (host : ShiftHost) (alu : ALU) (left right : Nat)
    (flags : Option FlagsRegister) :
    (ALU.perform host alu left right flags).1.getResult =
      (ALU.compute host alu.operation left right).1 := by
  unfold ALU.perform ALU.getResult
  cases alu.writeFlags <;> cases flags <;> rfl

/-- Signed overflow of an addition from the sign bits of the operands and of the sum. -/
theorem signed_add_overflow_iff {left right : Nat} (hl : left < 2 ^ 32) (hr : right < 2 ^ 32) :
    ((decide (2 ^ 31 ≤ left) ^^ decide (2 ^ 31 ≤ (left + right) % 2 ^ 32)) &&
      (decide (2 ^ 31 ≤ right) ^^ decide (2 ^ 31 ≤ (left + right) % 2 ^ 32))) = true
      ↔ ¬ (-(2 ^ 31 : Int) ≤ toSigned left + toSigned right ∧
            toSigned left + toSigned right < 2 ^ 31) := by
  unfold toSigned
  by_cases h1 : (2 ^ 31 : Nat) ≤ left <;> by_cases h2 : (2 ^ 31 : Nat) ≤ right <;>
    by_cases h3 : (2 ^ 31 : Nat) ≤ (left + right) % 2 ^ 32 <;>
    simp only [h1, h2, h3, decide_True, decide_False, Bool.xor_true, Bool.xor_false,
      Bool.true_xor, Bool.false_xor, Bool.not_true, Bool.not_false, Bool.and_true,
      Bool.and_false, Bool.true_and, Bool.false_and, Bool.false_eq_true, false_iff, true_iff] <;>
    split_ifs <;> omega

/-- Signed overflow of a subtraction from the sign bits of the operands and of the difference. -/
theorem signed_sub_overflow_iff {left right : Nat} (hl : left < 2 ^ 32) (hr : right < 2 ^ 32) :
    ((decide (2 ^ 31 ≤ left) ^^ decide (2 ^ 31 ≤ right)) &&
      (decide (2 ^ 31 ≤ left) ^^ decide (2 ^ 31 ≤ (left + 2 ^ 32 - right) % 2 ^ 32))) = true
      ↔ ¬ (-(2 ^ 31 : Int) ≤ toSigned left - toSigned right ∧
            toSigned left - toSigned right < 2 ^ 31) := by
  unfold toSigned
  by_cases h1 : (2 ^ 31 : Nat) ≤ left <;> by_cases h2 : (2 ^ 31 : Nat) ≤ right <;>
    by_cases h3 : (2 ^ 31 : Nat) ≤ (left + 2 ^ 32 - right) % 2 ^ 32 <;>
    simp only [h1, h2, h3, decide_True, decide_False, Bool.xor_true, Bool.xor_false,
      Bool.true_xor, Bool.false_xor, Bool.not_true, Bool.not_false, Bool.and_true,
      Bool.and_false, Bool.true_and, Bool.false_and, Bool.false_eq_true, false_iff, true_iff] <;>
    split_ifs <;> omega

/-- C3: `perform` with operation ADD yields result = (left + right) mod 2^32
whatever `writeFlags` is, and with writeFlags set it sets C iff
left + right >= 2^32 and V iff the sum of the operands read as signed 32-bit
integers lies outside [-2^31, 2^31). -/
theorem add_result_and_flags (host : ShiftHost) (alu : ALU) (left right : Nat)
    (f0 : FlagsRegister) (hl : left < 2 ^ 32) (hr : right < 2 ^ 32) :
    (∀ (wf : Bool) (flags : Option FlagsRegister),
      (ALU.perform host { alu with operation := Operation.ADD, writeFlags := wf }
        left right flags).1.getResult = (left + right) % 2 ^ 32) ∧
    ∃ f : FlagsRegister,
      (ALU.perform host { alu with operation := Operation.ADD, writeFlags := true }
        left right (some f0)).2 = some f ∧
      (f.C = true ↔ left + right ≥ 2 ^ 32) ∧
      (f.V = true ↔ ¬ (-(2 ^ 31 : Int) ≤ toSigned left + toSigned right ∧
                        toSigned left + toSigned right < 2 ^ 31)) := by
  refine ⟨fun wf flags => ?_, _, by rw [perform_writeFlags], ?_, ?_⟩
  · rw [perform_result, compute_add host hl hr]
  · simp only [compute_add host hl hr, decide_eq_true_eq]
  · simp only [compute_add host hl hr]
    exact signed_add_overflow_iff hl hr

/-- Witness for C3: 0x7FFFFFFF + 1 overflows the signed range, not the unsigned one. -/
theorem add_result_and_flags_witness :
    (∀ (wf : Bool) (flags : Option FlagsRegister),
      (ALU.perform ⟨fun _ _ => 0, fun _ _ => 0⟩
        { ({} : ALU) with operation := Operation.ADD, writeFlags := wf }
        0x7FFFFFFF 1 flags).1.getResult = (0x7FFFFFFF + 1) % 2 ^ 32) ∧
    ∃ f : FlagsRegister,
      (ALU.perform ⟨fun _ _ => 0, fun _ _ => 0⟩
        { ({} : ALU) with operation := Operation.ADD, writeFlags := true }
        0x7FFFFFFF 1 (some {})).2 = some f ∧
      (f.C = true ↔ 0x7FFFFFFF + 1 ≥ 2 ^ 32) ∧
      (f.V = true ↔ ¬ (-(2 ^ 31 : Int) ≤ toSigned 0x7FFFFFFF + toSigned 1 ∧
                        toSigned 0x7FFFFFFF + toSigned 1 < 2 ^ 31)) :=
  add_result_and_flags ⟨fun _ _ => 0, fun _ _ => 0⟩ {} 0x7FFFFFFF 1 {} (by decide) (by decide)

/-- C4: `perform` with operation SUB yields result = (left - right) mod 2^32
whatever `writeFlags` is, and with writeFlags set it sets C iff left >= right
(unsigned) and V iff the difference of the operands read as signed 32-bit
integers lies outside [-2^31, 2^31). -/
theorem sub_result_and_flags (host : ShiftHost) (alu : ALU) (left right : Nat)
    (f0 : FlagsRegister) (hl : left < 2 ^ 32) (hr : right < 2 ^ 32) :
    (∀ (wf : Bool) (flags : Option FlagsRegister),
      ((ALU.perform host { alu with operation := Operation.SUB, writeFlags := wf }
        left right flags).1.getResult : Int) = ((left : Int) - (right : Int)) % 2 ^ 32) ∧
    ∃ f : FlagsRegister,
      (ALU.perform host { alu with operation := Operation.SUB, writeFlags := true }
        left right (some f0)).2 = some f ∧
      (f.C = true ↔ left ≥ right) ∧
      (f.V = true ↔ ¬ (-(2 ^ 31 : Int) ≤ toSigned left - toSigned right ∧
                        toSigned left - toSigned right < 2 ^ 31)) := by
  refine ⟨fun wf flags => ?_, _, by rw [perform_writeFlags], ?_, ?_⟩
  · rw [perform_result, compute_sub host hl hr]
    show (((left + 2 ^ 32 - right) % 2 ^ 32 : Nat) : Int) = ((left : Int) - (right : Int)) % 2 ^ 32
    omega
  · simp only [compute_sub host hl hr, decide_eq_true_eq]
  · simp only [compute_sub host hl hr]
    exact signed_sub_overflow_iff hl hr

/-- Witness for C4: 0 - 1 borrows, and 0x80000000 - 1 would overflow the signed range. -/
theorem sub_result_and_flags_witness :
    (∀ (wf : Bool) (flags : Option FlagsRegister),
      ((ALU.perform ⟨fun _ _ => 0, fun _ _ => 0⟩
        { ({} : ALU) with operation := Operation.SUB, writeFlags := wf }
        0x80000000 1 flags).1.getResult : Int) = ((0x80000000 : Int) - (1 : Int)) % 2 ^ 32) ∧
    ∃ f : FlagsRegister,
      (ALU.perform ⟨fun _ _ => 0, fun _ _ => 0⟩
        { ({} : ALU) with operation := Operation.SUB, writeFlags := true }
        0x80000000 1 (some {})).2 = some f ∧
      (f.C = true ↔ 0x80000000 ≥ 1) ∧
      (f.V = true ↔ ¬ (-(2 ^ 31 : Int) ≤ toSigned 0x80000000 - toSigned 1 ∧
                        toSigned 0x80000000 - toSigned 1 < 2 ^ 31)) :=
  sub_result_and_flags ⟨fun _ _ => 0, fun _ _ => 0⟩ {} 0x80000000 1 {} (by decide) (by decide)

theorem u32_lt (n : Nat) : u32 n < 2 ^ 32 := Nat.mod_lt _ (by decide)

theorem shl32_lt (host : ShiftHost) (x n : Nat) : shl32 host x n < 2 ^ 32 := by
  unfold shl32; split_ifs <;> exact u32_lt _

theorem shr32_lt (host : ShiftHost) {x : Nat} (n : Nat) (hx : x < 2 ^ 32) :
    shr32 host x n < 2 ^ 32 := by
  unfold shr32
  split_ifs
  · exact lt_of_le_of_lt (Nat.div_le_self _ _) hx
  · exact u32_lt _

/-- Every operation of the ALU produces a 32-bit word from 32-bit words. -/
theorem compute_lt (host : ShiftHost) (op : Operation) {left right : Nat}
    (hl : left < 2 ^ 32) (hr : right < 2 ^ 32) :
    (ALU.compute host op left right).1 < 2 ^ 32 := by
  cases op <;> simp only [ALU.compute]
  · rw [and_full_mask]; exact Nat.mod_lt _ (by decide)
  · rw [and_full_mask]; exact Nat.mod_lt _ (by decide)
  · exact u32_lt _
  · split_ifs
    · exact lt_of_le_of_lt (Nat.div_le_self _ _) hl
    · decide
  · split_ifs
    · exact lt_of_le_of_lt (Nat.mod_le _ _) hl
    · decide
  · exact u32_lt _
  · unfold sub32; exact Nat.mod_lt _ (by decide)
  · unfold not32; exact Nat.xor_lt_two_pow (u32_lt _) (by decide)
  · exact Nat.and_lt_two_pow _ hr
  · exact Nat.or_lt_two_pow hl hr
  · exact Nat.xor_lt_two_pow hl hr
  · exact shl32_lt host _ _
  · exact shr32_lt host _ hl
  · exact u32_lt _

/-- C5: for every ALU operation and all input words, after `perform` with
writeFlags set the flags satisfy N = bit 31 of the result and Z = (result == 0),
the result being what `getResult` returns. -/
theorem flags_N_Z_follow_result (host : ShiftHost) (alu : ALU) (op : Operation)
    (left right : Nat) (f0 : FlagsRegister) (hl : left < 2 ^ 32) (hr : right < 2 ^ 32) :
    ∃ (alu1 : ALU) (f : FlagsRegister),
      ALU.perform host { alu with operation := op, writeFlags := true } left right (some f0) =
        (alu1, some f) ∧
      f.N = alu1.getResult.testBit 31 ∧ f.Z = (alu1.getResult == 0) := by
  refine ⟨_, _, perform_writeFlags host alu op left right f0, ?_, rfl⟩
  have hlt := compute_lt host op hl hr
  simp only [ALU.getResult, shiftRight_msb_ne_zero hlt, testBit31_of_lt hlt]

/-- Witness for C5: NOT of 0 + 0 is 0xFFFFFFFF, with bit 31 set. -/
theorem flags_N_Z_follow_result_witness :
    ∃ (alu1 : ALU) (f : FlagsRegister),
      ALU.perform ⟨fun _ _ => 0, fun _ _ => 0⟩
        { ({} : ALU) with operation := Operation.NOT, writeFlags := true } 0 0 (some {}) =
        (alu1, some f) ∧
      f.N = alu1.getResult.testBit 31 ∧ f.Z = (alu1.getResult == 0) :=
  flags_N_Z_follow_result ⟨fun _ _ => 0, fun _ _ => 0⟩ {} Operation.NOT 0 0 {}
    (by decide) (by decide)

/-- C6: for every left operand, `perform` with operation DIV or REM and right = 0
returns (it is a total function) with result 0 and, writeFlags set, Z = 1 and
N = 0; for right != 0, DIV yields the unsigned quotient and REM the unsigned
remainder. -/
theorem div_rem_by_zero (host : ShiftHost) (alu : ALU) (left right : Nat) (f0 : FlagsRegister)
    (wf : Bool) (flags : Option FlagsRegister) :
    (ALU.perform host { alu with operation := Operation.DIV, writeFlags := wf }
        left 0 flags).1.getResult = 0 ∧
    (ALU.perform host { alu with operation := Operation.REM, writeFlags := wf }
        left 0 flags).1.getResult = 0 ∧
    (∃ f : FlagsRegister,
      (ALU.perform host { alu with operation := Operation.DIV, writeFlags := true }
        left 0 (some f0)).2 = some f ∧ f.Z = true ∧ f.N = false) ∧
    (∃ f : FlagsRegister,
      (ALU.perform host { alu with operation := Operation.REM, writeFlags := true }
        left 0 (some f0)).2 = some f ∧ f.Z = true ∧ f.N = false) ∧
    (right ≠ 0 →
      (ALU.perform host { alu with operation := Operation.DIV, writeFlags := wf }
        left right flags).1.getResult = left / right ∧
      (ALU.perform host { alu with operation := Operation.REM, writeFlags := wf }
        left right flags).1.getResult = left % right) := by
  refine ⟨?_, ?_, ⟨_, by rw [perform_writeFlags], ?_, ?_⟩,
    ⟨_, by rw [perform_writeFlags], ?_, ?_⟩, fun h => ⟨?_, ?_⟩⟩
  · rw [perform_result]; simp [ALU.compute]
  · rw [perform_result]; simp [ALU.compute]
  · simp [ALU.compute]
  · simp [ALU.compute]
  · simp [ALU.compute]
  · simp [ALU.compute]
  · rw [perform_result]; simp [ALU.compute, h]
  · rw [perform_result]; simp [ALU.compute, h]

/-- Witness for C6: 17 divided by 0 and by 5. -/
theorem div_rem_by_zero_witness :
    (ALU.perform ⟨fun _ _ => 0, fun _ _ => 0⟩
        { ({} : ALU) with operation := Operation.DIV, writeFlags := true }
        17 5 (some {})).1.getResult = 17 / 5 ∧
    (ALU.perform ⟨fun _ _ => 0, fun _ _ => 0⟩
        { ({} : ALU) with operation := Operation.REM, writeFlags := true }
        17 5 (some {})).1.getResult = 17 % 5 :=
  (div_rem_by_zero ⟨fun _ _ => 0, fun _ _ => 0⟩ {} 17 5 {} true (some {})).2.2.2.2 (by decide)

/-! ## The image that `writeToFile` builds -/

theorem setAt_ok {α : Type} {v v1 : List α} {i : Nat} {x : α}
    (h : setAt v i x = Except.ok v1) : i < v.length ∧ v1 = v.set i x := by
  unfold setAt at h
  split_ifs at h with hi
  · exact ⟨hi, by cases h; rfl⟩

theorem sz_of_lt {n : Nat} (h : n < 2 ^ 64) : sz n = n := Nat.mod_eq_of_lt h

theorem sz_lt (n : Nat) : sz n < 2 ^ 64 := Nat.mod_lt _ (by decide)

/-- The loop over the data words writes them at consecutive addresses, all
inside the image, and touches nothing else. -/
theorem writeData_spec (ds : Nat) : ∀ (xs : List Nat) (i : Nat) (mem mem1 : List Nat),
    writeData ds xs i mem = Except.ok mem1 → ds + i < 2 ^ 64 → mem.length < 2 ^ 64 →
    mem1.length = mem.length ∧ (xs ≠ [] → ds + i + xs.length ≤ mem.length) ∧
    ∀ a, mem1[a]? = if ds + i ≤ a ∧ a < ds + i + xs.length then xs[a - (ds + i)]? else mem[a]?
  | [], i, mem, mem1, h, _, _ => by
    simp only [writeData, pure, Except.pure, Except.ok.injEq] at h
    subst h
    refine ⟨rfl, fun h => absurd rfl h, fun a => ?_⟩
    have : ¬ (ds + i ≤ a ∧ a < ds + i + ([] : List Nat).length) := by
      simp only [List.length_nil]; omega
    rw [if_neg this]
  | x :: xs, i, mem, mem1, h, hi, hm => by
    simp only [writeData, bind, Except.bind] at h
    cases hs : setAt mem (sz (ds + i)) x with
    | error e => rw [hs] at h; cases h
    | ok mem0 =>
      rw [hs] at h
      obtain ⟨hlt, hset⟩ := setAt_ok hs
      rw [sz_of_lt hi] at hlt hset
      have hlen0 : mem0.length = mem.length := by rw [hset, List.length_set]
      obtain ⟨h1, h2, h3⟩ := writeData_spec ds xs (i + 1) mem0 mem1 h (by omega) (by omega)
      refine ⟨by omega, fun _ => ?_, fun a => ?_⟩
      · by_cases hx : xs = []
        · subst hx; simp only [List.length_cons, List.length_nil]; omega
        · have := h2 hx; simp only [List.length_cons]; omega
      · rw [h3 a]
        by_cases ha : a = ds + i
        · subst ha
          have hn : ¬ (ds + (i + 1) ≤ ds + i ∧ ds + i < ds + (i + 1) + xs.length) := by omega
          have hy : ds + i ≤ ds + i ∧ ds + i < ds + i + (x :: xs).length := by
            simp only [List.length_cons]; omega
          rw [if_neg hn, if_pos hy, hset, List.getElem?_set_self hlt, Nat.sub_self,
            List.getElem?_cons_zero]
        · by_cases hr : ds + (i + 1) ≤ a ∧ a < ds + (i + 1) + xs.length
          · have hy : ds + i ≤ a ∧ a < ds + i + (x :: xs).length := by
              simp only [List.length_cons]; omega
            rw [if_pos hr, if_pos hy]
            have : a - (ds + i) = (a - (ds + (i + 1))) + 1 := by omega
            rw [this, List.getElem?_cons_succ]
          · have hy : ¬ (ds + i ≤ a ∧ a < ds + i + (x :: xs).length) := by
              simp only [List.length_cons]; omega
            rw [if_neg hr, if_neg hy, hset, List.getElem?_set_ne (Ne.symm ha)]

/-- The loop over the instructions is the loop over the data words run on the
words of the instructions. -/
theorem writeInstructions_eq (ts : Nat) : ∀ (ins : List Instruction) (i : Nat) (mem : List Nat),
    writeInstructions ts ins i mem = writeData ts (ins.map Instruction.raw) i mem
  | [], _, _ => rfl
  | x :: xs, i, mem => by
    simp only [writeInstructions, writeData, List.map_cons, bind, Except.bind]
    cases setAt mem (sz (ts + i)) x.raw with
    | error e => rfl
    | ok m => exact writeInstructions_eq ts xs (i + 1) m

/-- What a successful `image` is made of: a start label, the reset word at
address 0, then the two loops. -/
theorem image_ok {b : Binarizer} {mem : List Nat} (h : b.image = Except.ok mem) :
    ∃ start mem1,
      b.labelAddress.get "_start".toList = some start ∧
      0 < u32 (b.codeSize + b.dataSize) ∧
      writeData b.textStart (b.instructions.map Instruction.raw) 0
        ((List.replicate (u32 (b.codeSize + b.dataSize)) 0).set 0
          (u32 ((0b001010 <<< SHIFT_24) ||| (u32 start &&& MASK_24)))) = Except.ok mem1 ∧
      writeData b.dataStart b.dataSection 0 mem1 = Except.ok mem := by
  unfold Binarizer.image at h
  cases hst : b.labelAddress.get "_start".toList with
  | none => rw [hst] at h; cases h
  | some start =>
    rw [hst] at h
    simp only [bind, Except.bind] at h
    cases hs : setAt (List.replicate (u32 (b.codeSize + b.dataSize)) 0) 0
        (u32 (((opcodeMap.get "jmp".toList).getD 0 <<< SHIFT_24) ||| (u32 start &&& MASK_24))) with
    | error e => rw [hs] at h; cases h
    | ok mem0 =>
      rw [hs] at h
      dsimp only at h
      obtain ⟨hlt, hset⟩ := setAt_ok hs
      rw [List.length_replicate] at hlt
      cases hw : writeInstructions b.textStart b.instructions 0 mem0 with
      | error e => rw [hw] at h; cases h
      | ok mem1 =>
        rw [hw] at h
        dsimp only at h
        refine ⟨start, mem1, rfl, hlt, ?_, h⟩
        rw [← writeInstructions_eq, ← hw, hset]
        rfl

/-- The layout of a successful image when text and data start below `2 ^ 64`:
instruction words and data words lie inside the image, and each address holds
the data word, else the instruction word, else the reset word or zero. -/
theorem image_layout {b : Binarizer} {mem : List Nat} (h : b.image = Except.ok mem)
    (hts : b.textStart < 2 ^ 64) (hds : b.dataStart < 2 ^ 64) :
    mem.length = u32 (b.codeSize + b.dataSize) ∧
    (b.instructions ≠ [] → b.textStart + b.instructions.length ≤ mem.length) ∧
    (b.dataSection ≠ [] → b.dataStart + b.dataSection.length ≤ mem.length) ∧
    ∀ a, mem[a]? =
      if b.dataStart ≤ a ∧ a < b.dataStart + b.dataSection.length then
        b.dataSection[a - b.dataStart]?
      else if b.textStart ≤ a ∧ a < b.textStart + b.instructions.length then
        (b.instructions.map Instruction.raw)[a - b.textStart]?
      else
        ((List.replicate (u32 (b.codeSize + b.dataSize)) 0).set 0
          (u32 ((0b001010 <<< SHIFT_24) |||
            (u32 ((b.labelAddress.get "_start".toList).getD 0) &&& MASK_24))))[a]? := by
  obtain ⟨start, mem1, hst, hpos, hw1, hw2⟩ := image_ok h
  have hM : u32 (b.codeSize + b.dataSize) < 2 ^ 64 :=
    lt_trans (u32_lt _) (by decide)
  obtain ⟨a1, a2, a3⟩ := writeData_spec _ _ 0 _ _ hw1 (by simpa using hts)
    (by rw [List.length_set, List.length_replicate]; exact hM)
  rw [List.length_set, List.length_replicate] at a1 a2
  obtain ⟨b1, b2, b3⟩ := writeData_spec _ _ 0 _ _ hw2 (by simpa using hds) (by rw [a1]; exact hM)
  rw [a1] at b1 b2
  refine ⟨b1, fun hne => ?_, fun hne => ?_, fun a => ?_⟩
  · have := a2 (by simpa using hne)
    rw [List.length_map] at this
    rw [b1]; omega
  · have := b2 hne
    rw [b1]; omega
  · rw [b3 a, a3 a, hst]
    simp only [Nat.add_zero, List.length_map, Option.getD_some]

/-! ## Invariants of the two loops of `parse` -/

theorem longToSize_lt (v : Int) : longToSize v < 2 ^ 64 := by
  unfold longToSize; omega

theorem orgAddress_lt {addrStr : Str} {n : Nat} (h : orgAddress addrStr = Except.ok n) :
    n < 2 ^ 64 := by
  unfold orgAddress at h
  split_ifs at h
  simp only [bind, Except.bind, pure, Except.pure] at h
  cases hp : parseNumber addrStr with
  | error e => rw [hp] at h; cases h
  | ok v =>
    rw [hp] at h
    simp only [Except.ok.injEq] at h
    rw [← h]; exact longToSize_lt v

/-- One iteration of the first loop keeps `textStart` and `textSize` in `size_t`. -/
theorem pass1Line_lt {s s1 : Pass1} {raw : Str} (h : pass1Line s raw = Except.ok s1)
    (hs : s.textStart < 2 ^ 64 ∧ s.textSize < 2 ^ 64) :
    s1.textStart < 2 ^ 64 ∧ s1.textSize < 2 ^ 64 := by
  unfold pass1Line at h
  cases hc : classify raw with
  | empty => rw [hc] at h; cases h; exact hs
  | text => rw [hc] at h; cases h; exact hs
  | data => rw [hc] at h; cases h; exact hs
  | org addrStr =>
    rw [hc] at h
    simp only [bind, Except.bind] at h
    cases ho : orgAddress addrStr with
    | error e => rw [ho] at h; cases h
    | ok n =>
      rw [ho] at h
      have hn := orgAddress_lt ho
      cases hcur : s.current <;> rw [hcur] at h <;> cases h
      · exact hs
      · exact ⟨hn, hs.2⟩
      · exact hs
  | label name =>
    rw [hc] at h
    cases hcur : s.current <;> rw [hcur] at h <;> cases h <;> exact hs
  | other line =>
    rw [hc] at h
    cases hcur : s.current <;> rw [hcur] at h <;> cases h
    · exact hs
    · exact ⟨hs.1, sz_lt _⟩
    · exact hs

/-- The first loop keeps `textStart` and `textSize` in `size_t`. -/
theorem pass1_lt : ∀ (lines : List Str) (s p : Pass1), pass1 lines s = Except.ok p →
    s.textStart < 2 ^ 64 ∧ s.textSize < 2 ^ 64 → p.textStart < 2 ^ 64 ∧ p.textSize < 2 ^ 64
  | [], s, p, h, hs => by
    simp only [pass1, Except.ok.injEq] at h
    rw [← h]; exact hs
  | raw :: rest, s, p, h, hs => by
    simp only [pass1] at h
    cases hl : pass1Line s raw with
    | error e => rw [hl] at h; cases h
    | ok s1 =>
      rw [hl] at h
      exact pass1_lt rest s1 p h (pass1Line_lt hl hs)

/-- A line of the text section keeps the length of the instruction vector. -/
theorem pass2TextLine_length {la da : Map} {ins : List Instruction} {tc : Nat} {line : Str}
    {r : List Instruction × Nat} (h : pass2TextLine la da ins tc line = Except.ok r) :
    r.1.length = ins.length := by
  unfold pass2TextLine at h
  dsimp only at h
  split at h
  · cases h
  · simp only [bind, Except.bind] at h
    split at h
    · cases h
    · split at h
      · cases h
      · rename_i v hv
        obtain ⟨_, hset⟩ := setAt_ok hv
        simp only [pure, Except.pure, Except.ok.injEq] at h
        rw [← h, hset, List.length_set]

/-- One iteration of the second loop keeps the two section starts, the text
labels and the length of the instruction vector. -/
theorem pass2Line_frame {s s1 : Pass2} {raw : Str} (h : pass2Line s raw = Except.ok s1) :
    s1.textStart = s.textStart ∧ s1.dataStart = s.dataStart ∧
      s1.labelAddress = s.labelAddress ∧ s1.instructions.length = s.instructions.length := by
  unfold pass2Line at h
  cases hc : classify raw with
  | empty => rw [hc] at h; cases h; exact ⟨rfl, rfl, rfl, rfl⟩
  | text => rw [hc] at h; cases h; exact ⟨rfl, rfl, rfl, rfl⟩
  | data => rw [hc] at h; cases h; exact ⟨rfl, rfl, rfl, rfl⟩
  | label name => rw [hc] at h; cases h; exact ⟨rfl, rfl, rfl, rfl⟩
  | org addrStr =>
    rw [hc] at h
    simp only [bind, Except.bind] at h
    cases ho : orgAddress addrStr with
    | error e => rw [ho] at h; cases h
    | ok n =>
      rw [ho] at h
      cases hcur : s.current <;> rw [hcur] at h <;> cases h <;> exact ⟨rfl, rfl, rfl, rfl⟩
  | other line =>
    rw [hc] at h
    cases hcur : s.current with
    | None => rw [hcur] at h; cases h; exact ⟨rfl, rfl, rfl, rfl⟩
    | Text =>
      rw [hcur] at h
      simp only [bind, Except.bind] at h
      cases ht : pass2TextLine s.labelAddress s.dataAddress s.instructions s.textCursor line with
      | error e => rw [ht] at h; cases h
      | ok r =>
        rw [ht] at h
        cases h
        exact ⟨rfl, rfl, rfl, pass2TextLine_length ht⟩
    | Data =>
      rw [hcur] at h
      simp only [bind, Except.bind] at h
      cases hd : pass2DataLine s.labelAddress s.dataStart
          ⟨s.dataSection, s.dataAddress, s.dataCursor⟩ line with
      | error e => rw [hd] at h; cases h
      | ok d =>
        rw [hd] at h
        cases h
        exact ⟨rfl, rfl, rfl, rfl⟩

/-- The second loop keeps the two section starts, the text labels and the
length of the instruction vector. -/
theorem pass2_frame : ∀ (lines : List Str) (s s1 : Pass2), pass2 lines s = Except.ok s1 →
    s1.textStart = s.textStart ∧ s1.dataStart = s.dataStart ∧
      s1.labelAddress = s.labelAddress ∧ s1.instructions.length = s.instructions.length
  | [], s, s1, h => by
    simp only [pass2, Except.ok.injEq] at h
    rw [← h]; exact ⟨rfl, rfl, rfl, rfl⟩
  | raw :: rest, s, s1, h => by
    simp only [pass2] at h
    cases hl : pass2Line s raw with
    | error e => rw [hl] at h; cases h
    | ok s0 =>
      rw [hl] at h
      obtain ⟨a1, a2, a3, a4⟩ := pass2Line_frame hl
      obtain ⟨b1, b2, b3, b4⟩ := pass2_frame rest s0 s1 h
      exact ⟨b1.trans a1, b2.trans a2, b3.trans a3, b4.trans a4⟩

/-- A successful `parse` is a successful first loop, second loop and final check. -/
theorem parse_ok {inputData : Str} {b : Binarizer} (h : parse inputData = Except.ok b) :
    ∃ p s, pass1 (getlines inputData) {} = Except.ok p ∧
      pass2 (getlines inputData) (pass2Init p) = Except.ok s ∧ finish s = Except.ok b := by
  unfold parse parseLines at h
  cases h1 : pass1 (getlines inputData) {} with
  | error e => rw [h1] at h; cases h
  | ok p =>
    rw [h1] at h
    dsimp only at h
    cases h2 : pass2 (getlines inputData) (pass2Init p) with
    | error e => rw [h2] at h; cases h
    | ok s =>
      rw [h2] at h
      exact ⟨p, s, rfl, h2, h⟩

/-- The members that the end of `parse` leaves in the object. -/
theorem finish_ok {s : Pass2} {b : Binarizer} (h : finish s = Except.ok b) :
    (∃ start, s.labelAddress.get "_start".toList = some start) ∧
    b.textStart = s.textStart ∧ b.dataStart = s.dataStart ∧ b.dataSection = s.dataSection ∧
    b.dataAddress = s.dataAddress ∧ b.labelAddress = s.labelAddress ∧
    b.instructions = (if s.instructions.isEmpty then [⟨0, 0⟩] else s.instructions) := by
  unfold finish at h
  cases hst : s.labelAddress.get "_start".toList with
  | none => rw [hst] at h; cases h
  | some start =>
    rw [hst] at h
    cases h
    exact ⟨⟨start, rfl⟩, rfl, rfl, rfl, rfl, rfl, rfl⟩

/-- The layout facts of `parse` that `writeToFile` relies on: where text and
data start and how many instructions there are, from the counts of the first loop. -/
theorem parse_layout {inputData : Str} {p : Pass1} {b : Binarizer}
    (hp : pass1 (getlines inputData) {} = Except.ok p) (hb : parse inputData = Except.ok b) :
    b.textStart = p.textStart ∧ b.dataStart = sz (p.textStart + p.textSize) ∧
    b.labelAddress = p.labelAddress ∧
    p.textStart < 2 ^ 64 ∧ p.textSize < 2 ^ 64 ∧
    (p.textSize ≠ 0 → b.instructions.length = p.textSize) ∧
    (p.textSize = 0 → b.instructions = [⟨0, 0⟩]) := by
  obtain ⟨p1, s, h1, h2, h3⟩ := parse_ok hb
  rw [hp] at h1
  cases h1
  obtain ⟨f1, f2, f3, f4⟩ := pass2_frame _ _ _ h2
  obtain ⟨_, g1, g2, _, _, g5, g6⟩ := finish_ok h3
  obtain ⟨l1, l2⟩ := pass1_lt _ _ _ hp ⟨by decide, by decide⟩
  have hlen : s.instructions.length = p.textSize := by
    rw [f4]; simp [pass2Init]
  refine ⟨g1.trans f1, g2.trans f2, g5.trans f3, l1, l2, fun hne => ?_, fun h0 => ?_⟩
  · have : s.instructions.isEmpty = false := by
      cases hi : s.instructions with
      | nil => rw [hi] at hlen; exact absurd hlen.symm hne
      | cons x xs => rfl
    rw [g6, this]; exact hlen
  · have : s.instructions = [] := List.length_eq_zero.mp (hlen.trans h0)
    rw [g6, this]; rfl

/-! ## The first loop on a program with one text section and no `.org` -/

theorem pass1_append : ∀ (xs ys : List Str) (s : Pass1),
    pass1 (xs ++ ys) s =
      match pass1 xs s with
      | Except.ok s1 => pass1 ys s1
      | Except.error e => Except.error e
  | [], _, _ => rfl
  | x :: xs, ys, s => by
    simp only [List.cons_append, pass1]
    cases pass1Line s x with
    | error e => rfl
    | ok s0 => exact pass1_append xs ys s0

/-- Outside the text section, a line other than `.text` and `.org` leaves the
text labels, the text start and the text size alone. -/
theorem pass1Line_outside {s : Pass1} {raw : Str} (h : isOutside raw = true)
    (hc : s.current ≠ Section.Text) :
    ∃ s1, pass1Line s raw = Except.ok s1 ∧ s1.current ≠ Section.Text ∧
      s1.textStart = s.textStart ∧ s1.textSize = s.textSize ∧
      s1.labelAddress = s.labelAddress := by
  unfold isOutside at h
  unfold pass1Line
  cases hcl : classify raw with
  | empty => exact ⟨s, rfl, hc, rfl, rfl, rfl⟩
  | text => rw [hcl] at h; cases h
  | data => exact ⟨_, rfl, by simp, rfl, rfl, rfl⟩
  | org a => rw [hcl] at h; cases h
  | label name =>
    cases hcur : s.current with
    | None => exact ⟨s, rfl, hc, rfl, rfl, rfl⟩
    | Text => exact absurd hcur hc
    | Data => exact ⟨_, rfl, by simp [hcur], rfl, rfl, rfl⟩
  | other line =>
    cases hcur : s.current with
    | None => exact ⟨s, rfl, hc, rfl, rfl, rfl⟩
    | Text => exact absurd hcur hc
    | Data => exact ⟨_, rfl, by simp [hcur], rfl, rfl, rfl⟩

theorem pass1_outside : ∀ (seg : List Str) (s : Pass1), (∀ l ∈ seg, isOutside l = true) →
    s.current ≠ Section.Text →
    ∃ s1, pass1 seg s = Except.ok s1 ∧ s1.current ≠ Section.Text ∧
      s1.textStart = s.textStart ∧ s1.textSize = s.textSize ∧
      s1.labelAddress = s.labelAddress
  | [], s, _, hc => ⟨s, rfl, hc, rfl, rfl, rfl⟩
  | raw :: rest, s, h, hc => by
    obtain ⟨s0, e0, c0, a0, b0, d0⟩ := pass1Line_outside (h raw (List.mem_cons_self _ _)) hc
    obtain ⟨s1, e1, c1, a1, b1, d1⟩ :=
      pass1_outside rest s0 (fun l hl => h l (List.mem_cons_of_mem _ hl)) c0
    refine ⟨s1, ?_, c1, a1.trans a0, b1.trans b0, d1.trans d0⟩
    simp only [pass1, e0]
    exact e1

theorem instrCount_cons (raw : Str) (rest : List Str) :
    instrCount (raw :: rest) = (if isOther raw then 1 else 0) + instrCount rest := by
  unfold instrCount
  rw [List.filter_cons]
  by_cases h : isOther raw = true
  · rw [if_pos h, if_pos h, List.length_cons]; omega
  · rw [if_neg h, if_neg h]; omega

theorem instrCount_append (xs ys : List Str) :
    instrCount (xs ++ ys) = instrCount xs + instrCount ys := by
  unfold instrCount
  rw [List.filter_append, List.length_append]

theorem instrCount_le (xs : List Str) : instrCount xs ≤ xs.length :=
  List.length_filter_le _ _

theorem map_get_set_ne {m : Map} {key name : Str} {v : Nat} (h : key ≠ name) :
    (m.set key v).get name = m.get name := by
  unfold Map.set Map.get
  rw [List.lookup_cons]
  have : (name == key) = false := by
    rw [beq_eq_false_iff_ne]; exact Ne.symm h
  rw [this]

theorem map_get_set_self (m : Map) (key : Str) (v : Nat) : (m.set key v).get key = some v := by
  unfold Map.set Map.get
  rw [List.lookup_cons]
  simp

/-- Inside the text section, a line without directive counts as an instruction
or defines a label; nothing else changes. -/
theorem pass1Line_body {s : Pass1} {raw : Str} (h : isBody raw = true)
    (hc : s.current = Section.Text) (hn : isOther raw = true → s.textSize + 1 < 2 ^ 64) :
    ∃ s1, pass1Line s raw = Except.ok s1 ∧ s1.current = Section.Text ∧
      s1.textStart = s.textStart ∧
      s1.textSize = s.textSize + (if isOther raw then 1 else 0) ∧
      ∀ name, classify raw ≠ Line.label name → s1.labelAddress.get name = s.labelAddress.get name := by
  unfold isBody at h
  unfold isOther at hn
  unfold pass1Line isOther
  cases hcl : classify raw with
  | empty => exact ⟨s, rfl, hc, rfl, rfl, fun _ _ => rfl⟩
  | text => rw [hcl] at h; cases h
  | data => rw [hcl] at h; cases h
  | org a => rw [hcl] at h; cases h
  | label key =>
    rw [hc]
    refine ⟨_, rfl, rfl, rfl, rfl, fun name hne => ?_⟩
    exact map_get_set_ne (fun h => hne (by rw [h]))
  | other line =>
    rw [hc]
    rw [hcl] at hn
    refine ⟨_, rfl, rfl, rfl, ?_, fun _ _ => rfl⟩
    show sz (s.textSize + 1) = s.textSize + 1
    exact sz_of_lt (hn rfl)

theorem pass1_body : ∀ (seg : List Str) (s : Pass1), (∀ l ∈ seg, isBody l = true) →
    s.current = Section.Text → s.textSize + instrCount seg < 2 ^ 64 →
    ∃ s1, pass1 seg s = Except.ok s1 ∧ s1.current = Section.Text ∧
      s1.textStart = s.textStart ∧ s1.textSize = s.textSize + instrCount seg ∧
      ∀ name, (∀ l ∈ seg, classify l ≠ Line.label name) →
        s1.labelAddress.get name = s.labelAddress.get name
  | [], s, _, hc, _ => ⟨s, rfl, hc, rfl, rfl, fun _ _ => rfl⟩
  | raw :: rest, s, h, hc, hn => by
    rw [instrCount_cons] at hn
    obtain ⟨s0, e0, c0, a0, b0, d0⟩ := pass1Line_body (h raw (List.mem_cons_self _ _)) hc
      (fun ho => by rw [if_pos ho] at hn; omega)
    obtain ⟨s1, e1, c1, a1, b1, d1⟩ :=
      pass1_body rest s0 (fun l hl => h l (List.mem_cons_of_mem _ hl)) c0 (by rw [b0]; omega)
    refine ⟨s1, ?_, c1, a1.trans a0, ?_, fun name hne => ?_⟩
    · simp only [pass1, e0]
      exact e1
    · rw [b1, b0, instrCount_cons]; omega
    · rw [d1 name (fun l hl => hne l (List.mem_cons_of_mem _ hl)),
        d0 name (hne raw (List.mem_cons_self _ _))]

/-- After the text section: nothing, or `.data` and lines that do not reopen
the text section. -/
theorem pass1_rest (rest : List Str) (s : Pass1) (h : ∀ l ∈ rest, isOutside l = true)
    (h0 : ∀ d, rest.head? = some d → classify d = Line.data) :
    ∃ p, pass1 rest s = Except.ok p ∧ p.textStart = s.textStart ∧ p.textSize = s.textSize ∧
      p.labelAddress = s.labelAddress := by
  cases rest with
  | nil => exact ⟨s, rfl, rfl, rfl, rfl⟩
  | cons d r =>
    have hd : classify d = Line.data := h0 d rfl
    have e0 : pass1Line s d = Except.ok { s with current := Section.Data } := by
      unfold pass1Line; rw [hd]; rfl
    obtain ⟨p, e1, _, a1, b1, d1⟩ := pass1_outside r { s with current := Section.Data }
      (fun l hl => h l (List.mem_cons_of_mem _ hl)) (by simp)
    refine ⟨p, ?_, a1, b1, d1⟩
    simp only [pass1, e0]
    exact e1

/-- The first loop on a program whose only text section is
`body1`, the label line `lab`, `body2`: the section starts at 1, its size is
the number of instruction lines, and the label stands for 1 + the number of
instruction lines of `body1`, provided `body2` does not define it again. -/
theorem pass1_single_text {before body1 body2 rest : List Str} {t lab name : Str}
    (ht : classify t = Line.text) (hlab : classify lab = Line.label name)
    (hbefore : ∀ l ∈ before, isOutside l = true) (hbody1 : ∀ l ∈ body1, isBody l = true)
    (hbody2 : ∀ l ∈ body2, isBody l = true) (hrest : ∀ l ∈ rest, isOutside l = true)
    (hrest0 : ∀ d, rest.head? = some d → classify d = Line.data)
    (hlast : ∀ l ∈ body2, classify l ≠ Line.label name)
    (hn : instrCount body1 + instrCount body2 + 1 < 2 ^ 64) :
    ∃ p, pass1 (before ++ t :: (body1 ++ lab :: (body2 ++ rest))) {} = Except.ok p ∧
      p.textStart = 1 ∧ p.textSize = instrCount body1 + instrCount body2 ∧
      p.labelAddress.get name = some (1 + instrCount body1) := by
  obtain ⟨s1, e1, _, a1, b1, _⟩ := pass1_outside before {} hbefore (by decide)
  have e2 : pass1Line s1 t = Except.ok { s1 with current := Section.Text } := by
    unfold pass1Line; rw [ht]; rfl
  obtain ⟨s3, e3, c3, a3, b3, _⟩ := pass1_body body1 { s1 with current := Section.Text }
    hbody1 rfl (by show s1.textSize + _ < _; rw [b1]; show 0 + _ < _; omega)
  have a3' : s3.textStart = 1 := by rw [a3]; exact a1
  have b3' : s3.textSize = instrCount body1 := by
    rw [b3]; show s1.textSize + _ = _; rw [b1]; show 0 + _ = _; omega
  have e4 : pass1Line s3 lab = Except.ok
      { s3 with labelAddress := s3.labelAddress.set name (sz (s3.textStart + s3.textSize)) } := by
    unfold pass1Line; simp only [hlab, c3]; rfl
  obtain ⟨s5, e5, _, a5, b5, d5⟩ := pass1_body body2
    { s3 with labelAddress := s3.labelAddress.set name (sz (s3.textStart + s3.textSize)) }
    hbody2 c3 (by show s3.textSize + _ < _; rw [b3']; omega)
  obtain ⟨p, e6, a6, b6, d6⟩ := pass1_rest rest s5 hrest hrest0
  refine ⟨p, ?_, ?_, ?_, ?_⟩
  · rw [pass1_append, e1]
    simp only [pass1, e2]
    rw [pass1_append, e3]
    simp only [pass1, e4]
    rw [pass1_append, e5]
    exact e6
  · rw [a6, a5]; exact a3'
  · rw [b6, b5]; show s3.textSize + _ = _; rw [b3']
  · rw [d6, d5 name hlast]
    show (s3.labelAddress.set name (sz (s3.textStart + s3.textSize))).get name = _
    rw [map_get_set_self, a3', b3', sz_of_lt (by omega)]

/-! ## The second loop on a program with one text section and no `.org` -/

theorem pass2_append : ∀ (xs ys : List Str) (s : Pass2),
    pass2 (xs ++ ys) s =
      match pass2 xs s with
      | Except.ok s1 => pass2 ys s1
      | Except.error e => Except.error e
  | [], _, _ => rfl
  | x :: xs, ys, s => by
    simp only [List.cons_append, pass2]
    cases pass2Line s x with
    | error e => rfl
    | ok s0 => exact pass2_append xs ys s0

/-- A successful second loop over `xs ++ ys` passes through a state after `xs`. -/
theorem pass2_append_ok {xs ys : List Str} {s s2 : Pass2}
    (h : pass2 (xs ++ ys) s = Except.ok s2) :
    ∃ s1, pass2 xs s = Except.ok s1 ∧ pass2 ys s1 = Except.ok s2 := by
  rw [pass2_append] at h
  cases h1 : pass2 xs s with
  | error e => rw [h1] at h; cases h
  | ok s1 => rw [h1] at h; exact ⟨s1, rfl, h⟩

/-- A successful second loop over `x :: ys` passes through a state after `x`. -/
theorem pass2_cons_ok {x : Str} {ys : List Str} {s s2 : Pass2}
    (h : pass2 (x :: ys) s = Except.ok s2) :
    ∃ s1, pass2Line s x = Except.ok s1 ∧ pass2 ys s1 = Except.ok s2 := by
  simp only [pass2] at h
  cases h1 : pass2Line s x with
  | error e => rw [h1] at h; cases h
  | ok s1 => rw [h1] at h; exact ⟨s1, rfl, h⟩

/-- Outside the text section, a line other than `.text` and `.org` leaves the
instruction vector alone. -/
theorem pass2Line_outside {s s1 : Pass2} {raw : Str} (h : pass2Line s raw = Except.ok s1)
    (ho : isOutside raw = true) (hc : s.current ≠ Section.Text) :
    s1.current ≠ Section.Text ∧ s1.instructions = s.instructions := by
  unfold isOutside at ho
  unfold pass2Line at h
  cases hcl : classify raw with
  | empty => rw [hcl] at h; cases h; exact ⟨hc, rfl⟩
  | text => rw [hcl] at ho; cases ho
  | data => rw [hcl] at h; cases h; exact ⟨by simp, rfl⟩
  | org a => rw [hcl] at ho; cases ho
  | label name => rw [hcl] at h; cases h; exact ⟨hc, rfl⟩
  | other line =>
    rw [hcl] at h
    cases hcur : s.current with
    | None => rw [hcur] at h; cases h; exact ⟨hc, rfl⟩
    | Text => exact absurd hcur hc
    | Data =>
      rw [hcur] at h
      simp only [bind, Except.bind] at h
      cases hd : pass2DataLine s.labelAddress s.dataStart
          ⟨s.dataSection, s.dataAddress, s.dataCursor⟩ line with
      | error e => rw [hd] at h; cases h
      | ok d =>
        rw [hd] at h
        cases h
        exact ⟨by simp [hcur], rfl⟩

theorem pass2_outside : ∀ (seg : List Str) (s s1 : Pass2), pass2 seg s = Except.ok s1 →
    (∀ l ∈ seg, isOutside l = true) → s.current ≠ Section.Text →
    s1.current ≠ Section.Text ∧ s1.instructions = s.instructions
  | [], s, s1, h, _, hc => by
    simp only [pass2, Except.ok.injEq] at h
    rw [← h]; exact ⟨hc, rfl⟩
  | raw :: rest, s, s1, h, ho, hc => by
    obtain ⟨s0, e0, e1⟩ := pass2_cons_ok h
    obtain ⟨c0, i0⟩ := pass2Line_outside e0 (ho raw (List.mem_cons_self _ _)) hc
    obtain ⟨c1, i1⟩ := pass2_outside rest s0 s1 e1
      (fun l hl => ho l (List.mem_cons_of_mem _ hl)) c0
    exact ⟨c1, i1.trans i0⟩

/-- After the text section, as in `pass1_rest`: the instruction vector stays. -/
theorem pass2_rest {rest : List Str} {s s1 : Pass2} (h : pass2 rest s = Except.ok s1)
    (ho : ∀ l ∈ rest, isOutside l = true)
    (h0 : ∀ d, rest.head? = some d → classify d = Line.data) :
    s1.instructions = s.instructions := by
  cases rest with
  | nil =>
    simp only [pass2, Except.ok.injEq] at h
    rw [← h]
  | cons d r =>
    obtain ⟨s0, e0, e1⟩ := pass2_cons_ok h
    have hd : classify d = Line.data := h0 d rfl
    unfold pass2Line at e0
    rw [hd] at e0
    cases e0
    exact (pass2_outside r _ s1 e1 (fun l hl => ho l (List.mem_cons_of_mem _ hl))
      (by simp)).2

/-- What a successful text line does: it stores the instruction made of the
opcode of its mnemonic and of its resolved operand at the text cursor, which
lies inside the instruction vector, and moves the cursor on. -/
theorem pass2TextLine_ok {la da : Map} {ins : List Instruction} {tc : Nat} {line : Str}
    {r : List Instruction × Nat} (h : pass2TextLine la da ins tc line = Except.ok r) :
    ∃ opcode operand,
      opcodeMap.get (toLower (extractWord line).1) = some opcode ∧
      resolveOperand la da (extractWord (extractWord line).2).1 = Except.ok operand ∧
      tc < ins.length ∧ r = (ins.set tc ⟨opcode, operand⟩, sz (tc + 1)) := by
  unfold pass2TextLine at h
  dsimp only at h
  cases ho : opcodeMap.get (toLower (extractWord line).1) with
  | none => rw [ho] at h; cases h
  | some opcode =>
    rw [ho] at h
    simp only [bind, Except.bind] at h
    cases hr : resolveOperand la da (extractWord (extractWord line).2).1 with
    | error e => rw [hr] at h; cases h
    | ok operand =>
      rw [hr] at h
      dsimp only at h
      cases hs : setAt ins tc (⟨opcode, operand⟩ : Instruction) with
      | error e => rw [hs] at h; cases h
      | ok ins1 =>
        rw [hs] at h
        obtain ⟨hlt, hset⟩ := setAt_ok hs
        cases h
        exact ⟨opcode, operand, rfl, rfl, hlt, by rw [hset]⟩

/-- Inside the text section, a line without directive either is skipped or
stores one instruction at the text cursor. -/
theorem pass2Line_body {s s1 : Pass2} {raw : Str} (h : pass2Line s raw = Except.ok s1)
    (hb : isBody raw = true) (hc : s.current = Section.Text) :
    s1.current = Section.Text ∧ s1.dataAddress = s.dataAddress ∧
    (isOther raw = false → s1 = s) ∧
    (∀ line, classify raw = Line.other line →
      ∃ opcode operand,
        opcodeMap.get (toLower (extractWord line).1) = some opcode ∧
        resolveOperand s.labelAddress s.dataAddress (extractWord (extractWord line).2).1 =
          Except.ok operand ∧
        s.textCursor < s.instructions.length ∧
        s1.instructions = s.instructions.set s.textCursor ⟨opcode, operand⟩ ∧
        s1.textCursor = sz (s.textCursor + 1)) := by
  unfold isBody at hb
  unfold isOther
  unfold pass2Line at h
  cases hcl : classify raw with
  | empty =>
    rw [hcl] at h; cases h
    exact ⟨hc, rfl, fun _ => rfl, fun _ hl => by cases hl⟩
  | text => rw [hcl] at hb; cases hb
  | data => rw [hcl] at hb; cases hb
  | org a => rw [hcl] at hb; cases hb
  | label name =>
    rw [hcl] at h; cases h
    exact ⟨hc, rfl, fun _ => rfl, fun _ hl => by cases hl⟩
  | other line0 =>
    rw [hcl] at h
    simp only [hc, bind, Except.bind] at h
    cases ht : pass2TextLine s.labelAddress s.dataAddress s.instructions s.textCursor line0 with
    | error e => rw [ht] at h; cases h
    | ok r =>
      rw [ht] at h
      obtain ⟨opcode, operand, h1, h2, h3, h4⟩ := pass2TextLine_ok ht
      cases h
      refine ⟨rfl, rfl, fun hf => Bool.noConfusion hf, fun line hl => ?_⟩
      cases hl
      exact ⟨opcode, operand, h1, h2, h3, by rw [h4], by rw [h4]⟩

theorem pass2_body : ∀ (seg : List Str) (s s1 : Pass2), pass2 seg s = Except.ok s1 →
    (∀ l ∈ seg, isBody l = true) → s.current = Section.Text →
    s.textCursor + instrCount seg < 2 ^ 64 →
    s1.current = Section.Text ∧ s1.dataAddress = s.dataAddress ∧
    s1.textCursor = s.textCursor + instrCount seg ∧
    ∀ j, j < s.textCursor → s1.instructions[j]? = s.instructions[j]?
  | [], s, s1, h, _, hc, _ => by
    simp only [pass2, Except.ok.injEq] at h
    rw [← h]; exact ⟨hc, rfl, rfl, fun _ _ => rfl⟩
  | raw :: rest, s, s1, h, hb, hc, hn => by
    obtain ⟨s0, e0, e1⟩ := pass2_cons_ok h
    obtain ⟨c0, d0, n0, o0⟩ := pass2Line_body e0 (hb raw (List.mem_cons_self _ _)) hc
    rw [instrCount_cons] at hn ⊢
    by_cases ho : isOther raw = true
    · rw [if_pos ho] at hn ⊢
      have hcl : ∃ line, classify raw = Line.other line := by
        unfold isOther at ho
        cases hx : classify raw with
        | other line => exact ⟨line, rfl⟩
        | empty => rw [hx] at ho; cases ho
        | text => rw [hx] at ho; cases ho
        | data => rw [hx] at ho; cases ho
        | org a => rw [hx] at ho; cases ho
        | label name => rw [hx] at ho; cases ho
      obtain ⟨line, hl⟩ := hcl
      obtain ⟨opcode, operand, _, _, hlt, hset, hcur⟩ := o0 line hl
      rw [sz_of_lt (by omega)] at hcur
      obtain ⟨c1, d1, t1, i1⟩ := pass2_body rest s0 s1 e1
        (fun l hl => hb l (List.mem_cons_of_mem _ hl)) c0 (by rw [hcur]; omega)
      refine ⟨c1, d1.trans d0, by rw [t1, hcur]; omega, fun j hj => ?_⟩
      rw [i1 j (by rw [hcur]; omega), hset, List.getElem?_set_ne (by omega)]
    · have hf : isOther raw = false := by simpa using ho
      rw [if_neg ho] at hn ⊢
      have hs := n0 hf
      subst hs
      obtain ⟨c1, d1, t1, i1⟩ := pass2_body rest s0 s1 e1
        (fun l hl => hb l (List.mem_cons_of_mem _ hl)) c0 (by omega)
      exact ⟨c1, d1, by rw [t1]; omega, i1⟩

/-- The instruction line that stands after the lines `A` of a text section is
stored at the index: text cursor + number of instruction lines of `A`, and the
lines after it do not touch that index. -/
theorem pass2_instruction {A B : List Str} {ins line : Str} {s s1 : Pass2}
    (h : pass2 (A ++ ins :: B) s = Except.ok s1) (hA : ∀ l ∈ A, isBody l = true)
    (hB : ∀ l ∈ B, isBody l = true) (hins : classify ins = Line.other line)
    (hc : s.current = Section.Text)
    (hn : s.textCursor + instrCount A + 1 + instrCount B < 2 ^ 64) :
    ∃ opcode operand,
      opcodeMap.get (toLower (extractWord line).1) = some opcode ∧
      resolveOperand s.labelAddress s.dataAddress (extractWord (extractWord line).2).1 =
        Except.ok operand ∧
      s1.instructions[s.textCursor + instrCount A]? = some ⟨opcode, operand⟩ := by
  obtain ⟨sA, eA, e1⟩ := pass2_append_ok h
  obtain ⟨s0, e0, eB⟩ := pass2_cons_ok e1
  obtain ⟨cA, dA, tA, _⟩ := pass2_body A s sA eA hA hc (by omega)
  obtain ⟨_, _, lA, _⟩ := pass2_frame A s sA eA
  have hbi : isBody ins = true := by unfold isBody; rw [hins]
  obtain ⟨c0, _, _, o0⟩ := pass2Line_body e0 hbi cA
  obtain ⟨opcode, operand, h1, h2, hlt, hset, hcur⟩ := o0 line hins
  rw [sz_of_lt (by omega)] at hcur
  obtain ⟨_, _, _, iB⟩ := pass2_body B s0 s1 eB hB c0 (by rw [hcur]; omega)
  refine ⟨opcode, operand, h1, by rw [← lA, ← dA]; exact h2, ?_⟩
  rw [iB _ (by rw [hcur, tA]; omega), hset, ← tA, List.getElem?_set_self hlt]

/-! ## Text labels and the image -/

theorem getlineLoop_length (delim : Char) : ∀ (s cur : Str),
    (getlineLoop delim s cur).length ≤ s.length + cur.length
  | [], cur => by
    unfold getlineLoop
    cases cur with
    | nil => simp
    | cons c cs => simp
  | c :: cs, cur => by
    unfold getlineLoop
    split_ifs
    · have := getlineLoop_length delim cs []
      simp only [List.length_cons, List.length_nil] at this ⊢
      omega
    · have := getlineLoop_length delim cs (c :: cur)
      simp only [List.length_cons] at this ⊢
      omega

/-- A text has no more lines than characters. -/
theorem getlines_length (inputData : Str) : (getlines inputData).length ≤ inputData.length := by
  have := getlineLoop_length '\n' inputData []
  simpa [getlines] using this

/-- With the text section at 1 and the data section right after it, every
instruction word of the image is the word of its instruction. -/
theorem image_text_word {b : Binarizer} {mem : List Nat} (hm : b.image = Except.ok mem)
    (hts : b.textStart = 1) (hds : b.dataStart = 1 + b.instructions.length)
    (hlt : b.dataStart < 2 ^ 64) {j : Nat} (hj : j < b.instructions.length) :
    mem[1 + j]? = (b.instructions.map Instruction.raw)[j]? := by
  obtain ⟨_, _, _, m4⟩ := image_layout hm (by rw [hts]; decide) hlt
  rw [m4, if_neg (by omega), if_pos ⟨by omega, by omega⟩, hts, Nat.add_sub_cancel_left]

/-! ## The assembler on concrete inputs -/

/-- C8: a `label: value` line enters `dataAddress` only when the second loop
reaches it. With `.data` after `.text` the operand `A` of `ld A` is not yet a
data label when the text line is resolved and `parse` throws
`Unknown operand label`; with `.data` first the same operand resolves to
dataStart + 0 = 3. -/
theorem data_label_after_text_is_unknown :
    parse ".text\n_start:\nld A\nhalt\n.data\nA: 5\n".toList =
      Except.error AsmError.unknownOperandLabel ∧
    parse ".data\nA: 5\n.text\n_start:\nld A\nhalt\n".toList =
      Except.ok { textStart := 1, dataStart := 3, dataSection := [5],
                  dataAddress := [("A".toList, 3)],
                  instructions := [⟨0b011000, 3⟩, ⟨0b100010, 0⟩],
                  labelAddress := [("_start".toList, 1)] } := by
  decide

/-- C9: a bare `buf:` line in `.data` is given the address
`dataStart + dataSize` in the first loop, while `dataStart` is still 0; the
second loop skips the line. Here the data section starts at 2 (where
`writeToFile` puts the word of `x`), `x` resolves to 2 and `buf`, which
stands in front of the same word, to 0. -/
theorem bare_data_label_uses_stale_dataStart :
    parse ".text\n_start:\nhalt\n.data\nbuf:\nx: 5\n".toList =
      Except.ok { textStart := 1, dataStart := 2, dataSection := [5],
                  dataAddress := [("x".toList, 2), ("buf".toList, 0)],
                  instructions := [⟨0b100010, 0⟩],
                  labelAddress := [("_start".toList, 1)] } ∧
    (parse ".text\n_start:\nhalt\n.data\nbuf:\nx: 5\n".toList).bind Binarizer.image =
      Except.ok [0x0A000001, 0x22000000, 5] := by
  decide

/-- Counterexample for C10: a program with no instruction line. `parse` resolves
the data label with dataStart = 1 and then pads the instruction vector, so
`writeToFile` puts codeSize = 2 in the header; the data word 5 lies at address
1, the address of the padding instruction, and a loader that takes codeSize as
dataStart finds 0 where it looks for the word of `A`. -/
theorem padded_codeSize_differs_from_dataStart :
    ∃ (b : Binarizer) (mem : List Nat),
      parse ".text\n_start:\n.data\nA: 5\n".toList = Except.ok b ∧
      b.image = Except.ok mem ∧
      b.codeSize = 2 ∧ b.dataStart = 1 ∧ b.codeSize ≠ b.dataStart ∧
      b.instructions.length = 1 ∧ b.dataSection = [5] ∧
      b.textStart + 0 = b.dataStart + 0 ∧
      mem[b.dataStart + 0]? = some 5 ∧ mem[b.codeSize + 0]? = some 0 :=
  ⟨{ textStart := 1, dataStart := 1, dataSection := [5], dataAddress := [("A".toList, 1)],
     instructions := [⟨0, 0⟩], labelAddress := [("_start".toList, 1)] },
   [0x0A000001, 5, 0], by decide, by decide, by decide, by decide, by decide, by decide,
   by decide, by decide, by decide, by decide⟩

/-- C7, amended: in an input with a single `.text` directive and no `.org`
directive that `parse` accepts, a bare text label that no later bare label of
the section defines again resolves to 1 + the number of instruction lines that
precede it in `.text`; the instruction line that follows the label is stored
at that index of the instruction vector, made of the opcode of its mnemonic
and its resolved operand, and `writeToFile` places its word at exactly that
address of the image; each instruction line gives one instruction, so one word.
The input is the lines `before`, the directive `t`, the section
`body1`, `lab`, `body2`, and `rest` (empty or opened by `.data`). -/
theorem text_label_resolves_to_its_instruction (inputData : Str)
    (before body1 body2 rest : List Str) (t lab name : Str) (b : Binarizer)
    (hlen : inputData.length < 2 ^ 63)
    (hlines : getlines inputData = before ++ t :: (body1 ++ lab :: (body2 ++ rest)))
    (ht : classify t = Line.text) (hlab : classify lab = Line.label name)
    (hbefore : ∀ l ∈ before, isOutside l = true)
    (hbody1 : ∀ l ∈ body1, isBody l = true) (hbody2 : ∀ l ∈ body2, isBody l = true)
    (hrest : ∀ l ∈ rest, isOutside l = true)
    (hrest0 : ∀ d, rest.head? = some d → classify d = Line.data)
    (hlast : ∀ l ∈ body2, classify l ≠ Line.label name)
    (hb : parse inputData = Except.ok b) :
    b.labelAddress.get name = some (1 + instrCount body1) ∧
    (instrCount (body1 ++ body2) ≠ 0 →
      b.instructions.length = instrCount (body1 ++ body2)) ∧
    (∀ mid ins body3 line, body2 = mid ++ ins :: body3 → instrCount mid = 0 →
      classify ins = Line.other line →
      ∃ opcode operand da,
        opcodeMap.get (toLower (extractWord line).1) = some opcode ∧
        resolveOperand b.labelAddress da (extractWord (extractWord line).2).1 =
          Except.ok operand ∧
        b.instructions[instrCount body1]? = some ⟨opcode, operand⟩ ∧
        ∀ mem, b.image = Except.ok mem →
          mem[1 + instrCount body1]? = some (Instruction.raw ⟨opcode, operand⟩)) ∧
    (instrCount (body1 ++ body2) ≠ 0 → ∀ mem, b.image = Except.ok mem →
      ∀ j, j < b.instructions.length →
        mem[1 + j]? = (b.instructions.map Instruction.raw)[j]?) := by
  have hle := getlines_length inputData
  rw [hlines] at hle
  simp only [List.length_append, List.length_cons] at hle
  have k1 := instrCount_le body1
  have k2 := instrCount_le body2
  obtain ⟨p, hp, pts, psz, plab⟩ := pass1_single_text ht hlab hbefore hbody1 hbody2 hrest
    hrest0 hlast (by omega)
  rw [← hlines] at hp
  obtain ⟨l1, l2, l3, _, _, l6, _⟩ := parse_layout hp hb
  have hcount : instrCount (body1 ++ body2) = instrCount body1 + instrCount body2 :=
    instrCount_append _ _
  have hds : b.dataStart = 1 + p.textSize := by
    rw [l2, pts, sz_of_lt (by omega)]
  have himg : instrCount (body1 ++ body2) ≠ 0 → ∀ mem, b.image = Except.ok mem →
      ∀ j, j < b.instructions.length →
        mem[1 + j]? = (b.instructions.map Instruction.raw)[j]? := by
    intro hne mem hm j hj
    have hlen := l6 (by rw [psz, ← hcount]; exact hne)
    exact image_text_word hm (l1.trans pts) (by rw [hds, hlen]) (by rw [hds]; omega) hj
  refine ⟨by rw [l3]; exact plab,
    fun hne => by rw [l6 (by rw [psz, ← hcount]; exact hne), psz, hcount], ?_, himg⟩
  intro mid ins body3 line hsplit hmid hins
  obtain ⟨p1, s, hp1, h2, h3⟩ := parse_ok hb
  rw [hp] at hp1
  cases hp1
  rw [hlines] at h2
  obtain ⟨s1, e1, e2⟩ := pass2_append_ok h2
  obtain ⟨s2, e3, e4⟩ := pass2_cons_ok e2
  have hs2 : s2 = { s1 with current := Section.Text, textCursor := 0 } := by
    unfold pass2Line at e3
    rw [ht] at e3
    cases e3
    rfl
  have hre : body1 ++ lab :: (body2 ++ rest) =
      ((body1 ++ lab :: mid) ++ ins :: body3) ++ rest := by
    rw [hsplit]; simp
  rw [hre] at e4
  obtain ⟨s3, e5, e6⟩ := pass2_append_ok e4
  have hlabBody : isBody lab = true := by unfold isBody; rw [hlab]
  have hlabOther : isOther lab = false := by unfold isOther; rw [hlab]
  have hA : ∀ l ∈ body1 ++ lab :: mid, isBody l = true := by
    intro l hl
    rcases List.mem_append.mp hl with h | h
    · exact hbody1 l h
    · rcases List.mem_cons.mp h with h | h
      · rw [h]; exact hlabBody
      · exact hbody2 l (by rw [hsplit]; exact List.mem_append_left _ h)
  have hB : ∀ l ∈ body3, isBody l = true := fun l hl =>
    hbody2 l (by rw [hsplit]; exact List.mem_append_right _ (List.mem_cons_of_mem _ hl))
  have hcA : instrCount (body1 ++ lab :: mid) = instrCount body1 := by
    rw [instrCount_append, instrCount_cons, hlabOther, hmid]; simp
  have hinsOther : isOther ins = true := by unfold isOther; rw [hins]
  have hc2 : instrCount body2 = 1 + instrCount body3 := by
    rw [hsplit, instrCount_append, instrCount_cons, hmid, if_pos hinsOther]; omega
  obtain ⟨opcode, operand, o1, o2, o3⟩ := pass2_instruction e5 hA hB hins
    (by rw [hs2]) (by rw [hs2, hcA]; show 0 + _ + 1 + _ < _; omega)
  rw [hcA, hs2] at o3
  simp only [Nat.zero_add] at o3
  have hi3 : s.instructions = s3.instructions := pass2_rest e6 hrest hrest0
  obtain ⟨_, _, _, _, _, _, g6⟩ := finish_ok h3
  obtain ⟨_, _, f3, _⟩ := pass2_frame _ _ _ e1
  have hbi : b.instructions = s3.instructions := by
    rw [g6, hi3]
    cases hx : s3.instructions with
    | nil => rw [hx] at o3; simp at o3
    | cons x xs => rfl
  have hlab2 : s2.labelAddress = b.labelAddress := by
    rw [hs2, l3]; exact f3
  have hget : b.instructions[instrCount body1]? = some ⟨opcode, operand⟩ := by
    rw [hbi]; exact o3
  refine ⟨opcode, operand, s2.dataAddress, o1, by rw [← hlab2]; exact o2, hget, ?_⟩
  intro mem hm
  have hj : instrCount body1 < b.instructions.length := by
    by_contra hcon
    rw [List.getElem?_eq_none (by omega)] at hget
    cases hget
  rw [himg (by rw [hcount, hc2]; omega) mem hm _ hj, List.getElem?_map, hget]
  rfl

/-- Witness for C7, amended: `loopProgram`, whose label `loop` follows one
instruction and resolves to 2, the address of `jmp loop` in the image. -/
theorem text_label_resolves_to_its_instruction_witness :
    loopProgramParsed.labelAddress.get "loop".toList =
      some (1 + instrCount ["_start:".toList, "ld A".toList]) ∧
    ∃ opcode operand da,
      opcodeMap.get (toLower (extractWord "jmp loop".toList).1) = some opcode ∧
      resolveOperand loopProgramParsed.labelAddress da
        (extractWord (extractWord "jmp loop".toList).2).1 = Except.ok operand ∧
      loopProgramParsed.instructions[instrCount ["_start:".toList, "ld A".toList]]? =
        some ⟨opcode, operand⟩ ∧
      ∀ mem, loopProgramParsed.image = Except.ok mem →
        mem[1 + instrCount ["_start:".toList, "ld A".toList]]? =
          some (Instruction.raw ⟨opcode, operand⟩) :=
  have h := text_label_resolves_to_its_instruction loopProgram
    [".data".toList, "A: 5".toList] ["_start:".toList, "ld A".toList] ["jmp loop".toList] []
    ".text".toList "loop:".toList "loop".toList loopProgramParsed
    (by decide) (by decide) (by decide) (by decide) (by decide) (by decide) (by decide)
    (by decide) (fun _ hd => by cases hd) (by decide) (by decide)
  ⟨h.1, h.2.2.1 [] "jmp loop".toList [] "jmp loop".toList rfl (by decide) (by decide)⟩

/-- Counterexample for C7: `twiceProgram` has a single `.text` directive, no
`.org`, and `parse` accepts it. No instruction line precedes the first `L:`,
and `ld 7`, the instruction line that follows it, is at address 1 of the
image; yet `L` resolves to 2, the address of `halt`, because the second `L:`
overwrites the first. -/
theorem redefined_text_label_resolves_to_last :
    ∃ (b : Binarizer) (mem : List Nat),
      parse twiceProgram = Except.ok b ∧ b.image = Except.ok mem ∧
      getlines twiceProgram =
        [] ++ ".text".toList :: (["_start:".toList] ++ "L:".toList ::
          (["ld 7".toList, "L:".toList, "halt".toList] ++ [])) ∧
      classify ".text".toList = Line.text ∧
      classify "L:".toList = Line.label "L".toList ∧
      (∀ l ∈ ["_start:".toList], isBody l = true) ∧
      (∀ l ∈ ["ld 7".toList, "L:".toList, "halt".toList], isBody l = true) ∧
      instrCount ["_start:".toList] = 0 ∧
      b.labelAddress.get "L".toList = some 2 ∧
      b.labelAddress.get "L".toList ≠ some (1 + instrCount ["_start:".toList]) ∧
      mem[1]? = some (Instruction.raw ⟨0b011000, 7⟩) ∧
      mem[2]? = some (Instruction.raw ⟨0b100010, 0⟩) :=
  ⟨{ textStart := 1, dataStart := 3, dataSection := [], dataAddress := [],
     instructions := [⟨0b011000, 7⟩, ⟨0b100010, 0⟩],
     labelAddress := [("L".toList, 2), ("L".toList, 1), ("_start".toList, 1)] },
   [0x0A000001, 0x18000007, 0x22000000],
   by decide, by decide, by decide, by decide, by decide, by decide, by decide, by decide,
   by decide, by decide, by decide, by decide⟩

/-! ## The words of the instructions -/

/-- The word of an instruction whose opcode fits a byte: the opcode in the top
byte, the operand cut to 24 bits below it. -/
theorem raw_eq (o p : Nat) (ho : o < 256) :
    Instruction.raw ⟨o, p⟩ = o * 2 ^ 24 + p % 2 ^ 24 := by
  have hm : MASK_24 = 2 ^ 24 - 1 := by decide
  have hlt : p % 2 ^ 24 < 2 ^ 24 := Nat.mod_lt _ (by decide)
  show u32 ((o <<< SHIFT_24) ||| (p &&& MASK_24)) = _
  rw [hm, Nat.and_pow_two_sub_one_eq_mod, Nat.shiftLeft_eq, show SHIFT_24 = 24 from rfl,
    Nat.mul_comm o, ← Nat.mul_add_lt_is_or hlt]
  unfold u32
  omega

theorem raw_split (o p : Nat) (ho : o < 256) :
    Instruction.raw ⟨o, p⟩ >>> 24 = o ∧ Instruction.raw ⟨o, p⟩ &&& 0xFFFFFF = p % 2 ^ 24 := by
  have h24 : (0xFFFFFF : Nat) = 2 ^ 24 - 1 := by decide
  rw [raw_eq o p ho, Nat.shiftRight_eq_div_pow, h24, Nat.and_pow_two_sub_one_eq_mod]
  constructor <;> omega

theorem lookup_mem : ∀ (l : Map) (k : Str) (v : Nat), List.lookup k l = some v →
    ∃ e ∈ l, e.2 = v
  | [], _, _, h => by simp at h
  | (k1, v1) :: l, k, v, h => by
    rw [List.lookup_cons] at h
    cases hk : (k == k1) with
    | true =>
      rw [hk] at h
      simp only [Option.some.injEq] at h
      exact ⟨(k1, v1), List.mem_cons_self _ _, h⟩
    | false =>
      rw [hk] at h
      obtain ⟨e, he, hv⟩ := lookup_mem l k v h
      exact ⟨e, List.mem_cons_of_mem _ he, hv⟩

/-- Every opcode of the assembler's table is below 64. -/
theorem opcodeMap_get_lt {m : Str} {c : Nat} (h : opcodeMap.get m = some c) : c < 64 := by
  obtain ⟨e, he, hv⟩ := lookup_mem opcodeMap m c h
  have hall : ∀ e ∈ opcodeMap, e.2 < 64 := by decide
  rw [← hv]
  exact hall e he

/-- One iteration of the second loop keeps every opcode of the instruction
vector below 64. -/
theorem pass2Line_opcodes {s s1 : Pass2} {raw : Str} (h : pass2Line s raw = Except.ok s1)
    (hs : ∀ ins ∈ s.instructions, ins.opcode < 64) :
    ∀ ins ∈ s1.instructions, ins.opcode < 64 := by
  unfold pass2Line at h
  cases hc : classify raw with
  | empty => rw [hc] at h; cases h; exact hs
  | text => rw [hc] at h; cases h; exact hs
  | data => rw [hc] at h; cases h; exact hs
  | label name => rw [hc] at h; cases h; exact hs
  | org addrStr =>
    rw [hc] at h
    simp only [bind, Except.bind] at h
    cases ho : orgAddress addrStr with
    | error e => rw [ho] at h; cases h
    | ok n =>
      rw [ho] at h
      cases hcur : s.current <;> rw [hcur] at h <;> cases h <;> exact hs
  | other line =>
    rw [hc] at h
    cases hcur : s.current with
    | None => rw [hcur] at h; cases h; exact hs
    | Text =>
      rw [hcur] at h
      simp only [bind, Except.bind] at h
      cases ht : pass2TextLine s.labelAddress s.dataAddress s.instructions s.textCursor line with
      | error e => rw [ht] at h; cases h
      | ok r =>
        rw [ht] at h
        obtain ⟨opcode, operand, h1, _, _, h4⟩ := pass2TextLine_ok ht
        cases h
        intro ins hins
        rw [h4] at hins
        rcases List.mem_or_eq_of_mem_set hins with hm | he
        · exact hs ins hm
        · rw [he]; exact opcodeMap_get_lt h1
    | Data =>
      rw [hcur] at h
      simp only [bind, Except.bind] at h
      cases hd : pass2DataLine s.labelAddress s.dataStart
          ⟨s.dataSection, s.dataAddress, s.dataCursor⟩ line with
      | error e => rw [hd] at h; cases h
      | ok d => rw [hd] at h; cases h; exact hs

theorem pass2_opcodes : ∀ (lines : List Str) (s s1 : Pass2), pass2 lines s = Except.ok s1 →
    (∀ ins ∈ s.instructions, ins.opcode < 64) → ∀ ins ∈ s1.instructions, ins.opcode < 64
  | [], s, s1, h, hs => by
    simp only [pass2, Except.ok.injEq] at h
    rw [← h]; exact hs
  | raw :: rest, s, s1, h, hs => by
    obtain ⟨s0, e0, e1⟩ := pass2_cons_ok h
    exact pass2_opcodes rest s0 s1 e1 (pass2Line_opcodes e0 hs)

/-- Every instruction that `parse` leaves in the object has an opcode below 64. -/
theorem parse_opcodes {inputData : Str} {b : Binarizer} (hb : parse inputData = Except.ok b) :
    ∀ ins ∈ b.instructions, ins.opcode < 64 := by
  obtain ⟨p, s, _, h2, h3⟩ := parse_ok hb
  obtain ⟨_, _, _, _, _, _, g6⟩ := finish_ok h3
  have hs := pass2_opcodes _ _ _ h2 (by
    intro ins hins
    rw [show (pass2Init p).instructions = List.replicate p.textSize ⟨0, 0⟩ from rfl] at hins
    rw [(List.mem_replicate.mp hins).2]
    decide)
  intro ins hins
  rw [g6] at hins
  split_ifs at hins
  · rw [List.mem_singleton.mp hins]; decide
  · exact hs ins hins

/-- C11: for every instruction (opcode o, operand p) that `parse` produces, the
word that `writeToFile` writes for it is o * 2^24 + (p mod 2^24): shifting it
right by 24 gives the opcode and masking it with 0xFFFFFF gives the operand
cut to 24 bits, whatever the operand is; that word is the one found in the
image at textStart + index (where the data loop has not written afterwards). -/
theorem instruction_word_encoding (inputData : Str) (b : Binarizer)
    (hb : parse inputData = Except.ok b) :
    (∀ ins ∈ b.instructions,
      ins.opcode < 64 ∧ ins.raw = ins.opcode * 2 ^ 24 + ins.operand % 2 ^ 24 ∧
      ins.raw >>> 24 = ins.opcode ∧ ins.raw &&& 0xFFFFFF = ins.operand % 2 ^ 24) ∧
    (∀ mem, b.image = Except.ok mem → ∀ j ins, b.instructions[j]? = some ins →
      ¬ (b.dataStart ≤ b.textStart + j ∧
          b.textStart + j < b.dataStart + b.dataSection.length) →
      mem[b.textStart + j]? = some (ins.opcode * 2 ^ 24 + ins.operand % 2 ^ 24)) := by
  have hop := parse_opcodes hb
  have henc : ∀ ins ∈ b.instructions,
      ins.opcode < 64 ∧ ins.raw = ins.opcode * 2 ^ 24 + ins.operand % 2 ^ 24 ∧
      ins.raw >>> 24 = ins.opcode ∧ ins.raw &&& 0xFFFFFF = ins.operand % 2 ^ 24 := by
    intro ins hins
    have h64 := hop ins hins
    have h256 : ins.opcode < 256 := by omega
    exact ⟨h64, raw_eq ins.opcode ins.operand h256, raw_split ins.opcode ins.operand h256⟩
  refine ⟨henc, fun mem hm j ins hj hnd => ?_⟩
  obtain ⟨p, _, hp, _, _⟩ := parse_ok hb
  obtain ⟨l1, l2, _, l4, _, _, _⟩ := parse_layout hp hb
  obtain ⟨_, _, _, m4⟩ := image_layout hm (by rw [l1]; exact l4) (by rw [l2]; exact sz_lt _)
  have hjlt : j < b.instructions.length := by
    by_contra hcon
    rw [List.getElem?_eq_none (by omega)] at hj
    cases hj
  have hmem : ins ∈ b.instructions := List.getElem?_mem hj
  rw [m4, if_neg hnd, if_pos ⟨by omega, by omega⟩, Nat.add_sub_cancel_left, List.getElem?_map,
    hj, Option.map_some', (henc ins hmem).2.1]

/-- Witness for C11: the two instructions of `ldProgram`, `ld 3` and `halt`. -/
theorem instruction_word_encoding_witness :
    (∀ ins ∈ ldProgramParsed.instructions,
      ins.opcode < 64 ∧ ins.raw = ins.opcode * 2 ^ 24 + ins.operand % 2 ^ 24 ∧
      ins.raw >>> 24 = ins.opcode ∧ ins.raw &&& 0xFFFFFF = ins.operand % 2 ^ 24) ∧
    ldProgramImage[ldProgramParsed.textStart + 0]? = some (0b011000 * 2 ^ 24 + 3 % 2 ^ 24) :=
  have h := instruction_word_encoding ldProgram ldProgramParsed (by decide)
  ⟨h.1, h.2 ldProgramImage (by decide) 0 ⟨0b011000, 3⟩ (by decide) (by decide)⟩

/-! ## Where a text label comes from -/

/-- One iteration of the first loop: a text label known after the line was
known before it, or the line is its bare label and stands in the text section. -/
theorem pass1Line_label_origin {s s0 : Pass1} {raw name : Str} {a : Nat}
    (h : pass1Line s raw = Except.ok s0) (hg : s0.labelAddress.get name = some a) :
    (∃ a0, s.labelAddress.get name = some a0) ∨
      (classify raw = Line.label name ∧ s.current = Section.Text) := by
  unfold pass1Line at h
  cases hc : classify raw with
  | empty => rw [hc] at h; cases h; exact Or.inl ⟨a, hg⟩
  | text => rw [hc] at h; cases h; exact Or.inl ⟨a, hg⟩
  | data => rw [hc] at h; cases h; exact Or.inl ⟨a, hg⟩
  | org addrStr =>
    rw [hc] at h
    simp only [bind, Except.bind] at h
    cases ho : orgAddress addrStr with
    | error e => rw [ho] at h; cases h
    | ok n =>
      rw [ho] at h
      cases hcur : s.current <;> rw [hcur] at h <;> cases h <;> exact Or.inl ⟨a, hg⟩
  | other line =>
    rw [hc] at h
    cases hcur : s.current <;> rw [hcur] at h <;> cases h <;> exact Or.inl ⟨a, hg⟩
  | label key =>
    rw [hc] at h
    cases hcur : s.current with
    | None => rw [hcur] at h; cases h; exact Or.inl ⟨a, hg⟩
    | Data => rw [hcur] at h; cases h; exact Or.inl ⟨a, hg⟩
    | Text =>
      rw [hcur] at h
      cases h
      by_cases hk : key = name
      · exact Or.inr ⟨by rw [hk], rfl⟩
      · left
        exact ⟨a, by rw [← hg]; exact (map_get_set_ne hk).symm⟩

/-- One iteration of the first loop: the text section is current after the
line when the line is `.text`, or when it was current before and the line is
not `.data`. -/
theorem pass1Line_current_text {s s0 : Pass1} {raw : Str}
    (h : pass1Line s raw = Except.ok s0) (hcur0 : s0.current = Section.Text) :
    classify raw = Line.text ∨ (s.current = Section.Text ∧ classify raw ≠ Line.data) := by
  unfold pass1Line at h
  cases hc : classify raw with
  | empty => rw [hc] at h; cases h; exact Or.inr ⟨hcur0, by simp⟩
  | text => exact Or.inl rfl
  | data => rw [hc] at h; cases h; cases hcur0
  | org addrStr =>
    rw [hc] at h
    simp only [bind, Except.bind] at h
    cases ho : orgAddress addrStr with
    | error e => rw [ho] at h; cases h
    | ok n =>
      rw [ho] at h
      cases hcur : s.current <;> rw [hcur] at h <;> cases h <;>
        first
        | exact Or.inr ⟨rfl, by simp⟩
        | (rw [hcur] at hcur0; cases hcur0)
        | (cases hcur0)
  | other line =>
    rw [hc] at h
    cases hcur : s.current <;> rw [hcur] at h <;> cases h <;>
      first
      | exact Or.inr ⟨rfl, by simp⟩
      | (rw [hcur] at hcur0; cases hcur0)
      | (cases hcur0)
  | label key =>
    rw [hc] at h
    cases hcur : s.current <;> rw [hcur] at h <;> cases h <;>
      first
      | exact Or.inr ⟨rfl, by simp⟩
      | (rw [hcur] at hcur0; cases hcur0)
      | (cases hcur0)

/-- A text label known after the first loop was known before it, or one of the
lines is its bare label and stands in the text section: the section was
current and no `.data` precedes the line, or a `.text` precedes it with no
`.data` in between. -/
theorem pass1_label_origin : ∀ (lines : List Str) (s p : Pass1) (name : Str) (a : Nat),
    pass1 lines s = Except.ok p → p.labelAddress.get name = some a →
    (∃ a0, s.labelAddress.get name = some a0) ∨
    ∃ pre lab post, lines = pre ++ lab :: post ∧ classify lab = Line.label name ∧
      ((s.current = Section.Text ∧ ∀ l ∈ pre, classify l ≠ Line.data) ∨
       ∃ pre1 t pre2, pre = pre1 ++ t :: pre2 ∧ classify t = Line.text ∧
         ∀ l ∈ pre2, classify l ≠ Line.data)
  | [], s, p, name, a, h, hg => by
    simp only [pass1, Except.ok.injEq] at h
    rw [← h] at hg
    exact Or.inl ⟨a, hg⟩
  | raw :: rest, s, p, name, a, h, hg => by
    simp only [pass1] at h
    cases hl : pass1Line s raw with
    | error e => rw [hl] at h; cases h
    | ok s0 =>
      rw [hl] at h
      rcases pass1_label_origin rest s0 p name a h hg with ⟨a0, h0⟩ | ⟨pre, lab, post, e, hc, hin⟩
      · rcases pass1Line_label_origin hl h0 with hk | ⟨hc, hcur⟩
        · exact Or.inl hk
        · exact Or.inr ⟨[], raw, rest, rfl, hc, Or.inl ⟨hcur, fun _ hm => by cases hm⟩⟩
      · right
        refine ⟨raw :: pre, lab, post, by rw [e]; rfl, hc, ?_⟩
        rcases hin with ⟨hcur0, hnd⟩ | ⟨pre1, t, pre2, e2, ht, hnd⟩
        · rcases pass1Line_current_text hl hcur0 with ht | ⟨hcur, hrd⟩
          · exact Or.inr ⟨[], raw, pre, rfl, ht, hnd⟩
          · left
            refine ⟨hcur, fun l hm => ?_⟩
            rcases List.mem_cons.mp hm with hm | hm
            · rw [hm]; exact hrd
            · exact hnd l hm
        · exact Or.inr ⟨raw :: pre1, t, pre2, by rw [e2]; rfl, ht, hnd⟩

/-- C19: `parse` accepts an input only if it defines `_start` as a bare label in
the text section (a line `_start:` after a `.text` directive, with no `.data`
directive in between), and then `_start` is a text label of the object; so
`parse` fails for every input that does not define it. `writeToFile` fails
when `_start` is not among the text labels. -/
theorem start_label_required (inputData : Str) :
    (∀ b, parse inputData = Except.ok b →
      (∃ a, b.labelAddress.get "_start".toList = some a) ∧
      ∃ pre1 t pre2 lab post,
        getlines inputData = pre1 ++ t :: (pre2 ++ lab :: post) ∧
        classify t = Line.text ∧ (∀ l ∈ pre2, classify l ≠ Line.data) ∧
        classify lab = Line.label "_start".toList) ∧
    ((¬ ∃ pre1 t pre2 lab post,
        getlines inputData = pre1 ++ t :: (pre2 ++ lab :: post) ∧
        classify t = Line.text ∧ (∀ l ∈ pre2, classify l ≠ Line.data) ∧
        classify lab = Line.label "_start".toList) →
      ∃ e, parse inputData = Except.error e) ∧
    (∀ b : Binarizer, b.labelAddress.get "_start".toList = none →
      b.writeToFile = Except.error AsmError.noStartLabel) := by
  have key : ∀ b, parse inputData = Except.ok b →
      (∃ a, b.labelAddress.get "_start".toList = some a) ∧
      ∃ pre1 t pre2 lab post,
        getlines inputData = pre1 ++ t :: (pre2 ++ lab :: post) ∧
        classify t = Line.text ∧ (∀ l ∈ pre2, classify l ≠ Line.data) ∧
        classify lab = Line.label "_start".toList := by
    intro b hb
    obtain ⟨p, s, h1, h2, h3⟩ := parse_ok hb
    obtain ⟨⟨start, hst⟩, _, _, _, _, g5, _⟩ := finish_ok h3
    obtain ⟨_, _, f3, _⟩ := pass2_frame _ _ _ h2
    have hp : p.labelAddress.get "_start".toList = some start := by
      rw [← hst, f3]; rfl
    refine ⟨⟨start, by rw [g5]; exact hst⟩, ?_⟩
    rcases pass1_label_origin _ _ _ _ _ h1 hp with ⟨a0, h0⟩ | ⟨pre, lab, post, e, hc, hin⟩
    · cases h0
    · rcases hin with ⟨hcur, _⟩ | ⟨pre1, t, pre2, e2, ht, hnd⟩
      · cases hcur
      · exact ⟨pre1, t, pre2, lab, post, by rw [e, e2]; simp, ht, hnd, hc⟩
  refine ⟨key, fun hno => ?_, fun b hb => ?_⟩
  · cases hp : parse inputData with
    | error e => exact ⟨e, rfl⟩
    | ok b => exact absurd (key b hp).2 hno
  · unfold Binarizer.writeToFile Binarizer.image
    rw [hb]
    rfl

/-! ## Section directives -/

/-- C20: `parse` has no check for a repeated section directive and
accepts an input with two `.text` directives. Its two loops treat the second
directive differently: the first loop goes on counting, so it counts two
instruction lines and sizes the instruction vector for two; the second loop
puts the text cursor back to 0, so `halt` is stored over `ldi 7` and the
second slot keeps the zero word. The image holds `halt` and a zero word where
the same lines under one `.text` give `ldi 7` and `halt`. An input with two
`.data` directives is accepted as well. -/
theorem repeated_section_directive_accepted :
    pass1 (getlines ".text\n_start:\nldi 7\n.text\nhalt\n".toList) {} =
      Except.ok { current := Section.Text, textSize := 2,
                  labelAddress := [("_start".toList, 1)] } ∧
    parse ".text\n_start:\nldi 7\n.text\nhalt\n".toList =
      Except.ok { textStart := 1, dataStart := 3, dataSection := [], dataAddress := [],
                  instructions := [⟨0b100010, 0⟩, ⟨0, 0⟩],
                  labelAddress := [("_start".toList, 1)] } ∧
    (parse ".text\n_start:\nldi 7\n.text\nhalt\n".toList).bind Binarizer.image =
      Except.ok [0x0A000001, 0x22000000, 0] ∧
    (parse ".text\n_start:\nldi 7\nhalt\n".toList).bind Binarizer.image =
      Except.ok [0x0A000001, 0x1A000007, 0x22000000] ∧
    parse ".data\nA: 1\n.text\n_start:\nhalt\n.data\nB: 2\n".toList =
      Except.ok { textStart := 1, dataStart := 2, dataSection := [1, 2],
                  dataAddress := [("B".toList, 3), ("A".toList, 2)],
                  instructions := [⟨0b100010, 0⟩],
                  labelAddress := [("_start".toList, 1)] } := by
  decide

/-! ## Numerals -/

theorem isdigit_facts {c : Char} (h : isdigit c = true) :
    isspace c = false ∧ c ≠ '-' ∧ c ≠ '+' ∧ c ≠ 'x' ∧ c ≠ 'X' ∧ c ≠ 'b' ∧ c ≠ 'B' ∧
      digitValue c = some (hexValue c) ∧ hexValue c < 10 := by
  have hb : 48 ≤ c.toNat ∧ c.toNat ≤ 57 := by
    simpa [isdigit] using h
  refine ⟨?_, ?_, ?_, ?_, ?_, ?_, ?_, ?_, ?_⟩
  · simp only [isspace, Bool.or_eq_false_iff, Bool.and_eq_false_iff, beq_eq_false_iff_ne,
      decide_eq_false_iff_not]
    exact ⟨by omega, by omega⟩
  · intro hc; rw [hc] at h; exact absurd h (by decide)
  · intro hc; rw [hc] at h; exact absurd h (by decide)
  · intro hc; rw [hc] at h; exact absurd h (by decide)
  · intro hc; rw [hc] at h; exact absurd h (by decide)
  · intro hc; rw [hc] at h; exact absurd h (by decide)
  · intro hc; rw [hc] at h; exact absurd h (by decide)
  · unfold digitValue hexValue
    have : (decide (48 ≤ c.toNat) && decide (c.toNat ≤ 57)) = true := by simp [hb]
    rw [if_pos this, if_pos hb.2]
  · unfold hexValue
    rw [if_pos hb.2]; omega

theorem isxdigit_facts {c : Char} (h : isxdigit c = true) :
    isspace c = false ∧ c ≠ '-' ∧ c ≠ '+' ∧
      digitValue c = some (hexValue c) ∧ hexValue c < 16 := by
  have hb : (48 ≤ c.toNat ∧ c.toNat ≤ 57) ∨ (65 ≤ c.toNat ∧ c.toNat ≤ 70) ∨
      (97 ≤ c.toNat ∧ c.toNat ≤ 102) := by
    simp only [isxdigit, isdigit, Bool.or_eq_true, Bool.and_eq_true, decide_eq_true_eq] at h
    omega
  refine ⟨?_, ?_, ?_, ?_, ?_⟩
  · simp only [isspace, Bool.or_eq_false_iff, Bool.and_eq_false_iff, beq_eq_false_iff_ne,
      decide_eq_false_iff_not]
    exact ⟨by omega, by omega⟩
  · intro hc; rw [hc] at h; exact absurd h (by decide)
  · intro hc; rw [hc] at h; exact absurd h (by decide)
  · unfold digitValue hexValue
    rcases hb with hb | hb | hb
    · have : (decide (48 ≤ c.toNat) && decide (c.toNat ≤ 57)) = true := by simp [hb]
      rw [if_pos this, if_pos hb.2]
    · have h1 : ¬ (decide (48 ≤ c.toNat) && decide (c.toNat ≤ 57)) = true := by
        simp; omega
      have h2 : ¬ (decide (97 ≤ c.toNat) && decide (c.toNat ≤ 122)) = true := by
        simp; omega
      have h3 : (decide (65 ≤ c.toNat) && decide (c.toNat ≤ 90)) = true := by
        simp; omega
      rw [if_neg h1, if_neg h2, if_pos h3, if_neg (by omega), if_pos hb.2]
      congr 1; omega
    · have h1 : ¬ (decide (48 ≤ c.toNat) && decide (c.toNat ≤ 57)) = true := by
        simp; omega
      have h2 : (decide (97 ≤ c.toNat) && decide (c.toNat ≤ 122)) = true := by
        simp; omega
      rw [if_neg h1, if_pos h2, if_neg (by omega), if_neg (by omega)]
      congr 1; omega
  · unfold hexValue
    rcases hb with hb | hb | hb
    · rw [if_pos hb.2]; omega
    · rw [if_neg (by omega), if_pos hb.2]; omega
    · rw [if_neg (by omega), if_neg (by omega)]; omega

/-- On a string of digits of the base, `strtol` converts all of it. -/
theorem strtolDigits_all (base : Nat) : ∀ (s : Str) (acc : Option Nat),
    (∀ c ∈ s, digitValue c = some (hexValue c) ∧ hexValue c < base) → s ≠ [] →
    strtolDigits base s acc = some (s.foldl (fun n c => n * base + hexValue c) (acc.getD 0))
  | [], _, _, hne => absurd rfl hne
  | c :: cs, acc, h, _ => by
    obtain ⟨hd, hlt⟩ := h c (List.mem_cons_self _ _)
    unfold strtolDigits
    rw [hd]
    simp only [if_pos hlt, List.foldl_cons]
    cases cs with
    | nil => rfl
    | cons c1 cs1 =>
      exact strtolDigits_all base (c1 :: cs1) _
        (fun x hx => h x (List.mem_cons_of_mem _ hx)) (by simp)

/-- `strtol` on digits of a base other than 16, with no space or sign in front. -/
theorem strtol_plain (base : Nat) (c : Char) (cs : Str) (hb : (base == 16) = false)
    (hsp : isspace c = false) (hm : c ≠ '-') (hp : c ≠ '+')
    (h : ∀ x ∈ c :: cs, digitValue x = some (hexValue x) ∧ hexValue x < base) :
    strtol (c :: cs) base = some (denote base (c :: cs) : Int) := by
  have h1 : (c :: cs).dropWhile isspace = c :: cs := by
    rw [List.dropWhile_cons, hsp]; rfl
  have hm2 : (some c == some '-') = false := by
    rw [beq_eq_false_iff_ne]; intro hh; exact hm (Option.some.inj hh)
  have hp2 : (some c == some '+') = false := by
    rw [beq_eq_false_iff_ne]; intro hh; exact hp (Option.some.inj hh)
  unfold strtol
  simp only [h1, List.head?_cons, hm2, hp2, Bool.or_self, Bool.false_eq_true, if_false, hb,
    Bool.false_and]
  rw [strtolDigits_all base (c :: cs) none h (by simp)]
  rfl

/-- `strtol` in base 10 on a minus sign and decimal digits. -/
theorem strtol_minus (c : Char) (cs : Str)
    (h : ∀ x ∈ c :: cs, digitValue x = some (hexValue x) ∧ hexValue x < 10) :
    strtol ('-' :: c :: cs) 10 = some (-(denote 10 (c :: cs) : Int)) := by
  have h1 : ('-' :: c :: cs).dropWhile isspace = '-' :: c :: cs := by
    rw [List.dropWhile_cons, show isspace '-' = false from by decide]; rfl
  unfold strtol
  simp only [h1, List.head?_cons, beq_self_eq_true, Bool.true_or, if_true, List.drop_succ_cons,
    List.drop_zero, show ((10 : Nat) == 16) = false from by decide, Bool.false_and,
    Bool.false_eq_true, if_false]
  rw [strtolDigits_all 10 (c :: cs) none h (by simp)]
  rfl

/-- `strtol` in base 16 on `0x` and hexadecimal digits. -/
theorem strtol_hex (c : Char) (cs : Str) (hx : isxdigit c = true)
    (h : ∀ x ∈ c :: cs, digitValue x = some (hexValue x) ∧ hexValue x < 16) :
    strtol ('0' :: 'x' :: c :: cs) 16 = some (denote 16 (c :: cs) : Int) := by
  have h1 : ('0' :: 'x' :: c :: cs).dropWhile isspace = '0' :: 'x' :: c :: cs := by
    rw [List.dropWhile_cons, show isspace '0' = false from by decide]; rfl
  have hm2 : (some '0' == some '-') = false := by decide
  have hp2 : (some '0' == some '+') = false := by decide
  unfold strtol
  simp only [h1, List.head?_cons, hm2, hp2, Bool.or_self, Bool.false_eq_true, if_false,
    beq_self_eq_true, Bool.true_and, List.getD_cons_succ, List.getD_cons_zero, Bool.true_or,
    hx, if_true, List.drop_succ_cons, List.drop_zero]
  rw [strtolDigits_all 16 (c :: cs) none h (by simp)]
  rfl

theorem all_digits_good {s : Str} (h : s.all isdigit = true) :
    ∀ x ∈ s, digitValue x = some (hexValue x) ∧ hexValue x < 10 := by
  intro x hx
  have hd := (List.all_eq_true.mp h) x hx
  exact ⟨(isdigit_facts hd).2.2.2.2.2.2.2.1, (isdigit_facts hd).2.2.2.2.2.2.2.2⟩

theorem all_xdigits_good {s : Str} (h : s.all isxdigit = true) :
    ∀ x ∈ s, digitValue x = some (hexValue x) ∧ hexValue x < 16 := by
  intro x hx
  have hd := (List.all_eq_true.mp h) x hx
  exact ⟨(isxdigit_facts hd).2.2.2.1, (isxdigit_facts hd).2.2.2.2⟩

theorem all_bits_good {s : Str}
    (h : s.all (fun character => character == '0' || character == '1') = true) :
    ∀ x ∈ s, isspace x = false ∧ x ≠ '-' ∧ x ≠ '+' ∧
      digitValue x = some (hexValue x) ∧ hexValue x < 2 := by
  intro x hx
  have hd := (List.all_eq_true.mp h) x hx
  simp only [Bool.or_eq_true, beq_iff_eq] at hd
  rcases hd with hd | hd <;> subst hd <;> decide

/-- The second character of a string of decimal digits is no base letter. -/
theorem second_of_digits {c : Char} {cs : Str} (h : (c :: cs).all isdigit = true) (x : Char)
    (hx : isdigit x = false) (hx2 : x ≠ ' ') :
    ((c :: cs).getD 1 ' ' == x) = false ∧ ((c :: cs).take 2 == ['0', x]) = false := by
  cases cs with
  | nil =>
    refine ⟨?_, by simp⟩
    rw [beq_eq_false_iff_ne]
    exact fun hh => hx2 (by simpa using hh.symm)
  | cons c1 cs1 =>
    have hd : isdigit c1 = true :=
      (List.all_eq_true.mp h) c1 (List.mem_cons_of_mem _ (List.mem_cons_self _ _))
    have hne : c1 ≠ x := by
      intro hh; rw [hh] at hd; rw [hd] at hx; cases hx
    refine ⟨?_, ?_⟩
    · rw [beq_eq_false_iff_ne]; simpa using hne
    · rw [beq_eq_false_iff_ne]
      intro hh
      simp only [List.take_succ_cons, List.take_zero, List.cons.injEq, and_true] at hh
      exact hne hh.2

/-- Decimal digits: `isNumber` accepts them and `parseNumber` returns the
number they denote. -/
theorem parseNumber_decimal (c : Char) (cs : Str) (h : (c :: cs).all isdigit = true)
    (hr : denote 10 (c :: cs) ≤ 2 ^ 63 - 1) :
    isNumber (c :: cs) = true ∧
      parseNumber (c :: cs) = Except.ok (denote 10 (c :: cs) : Int) := by
  have hc : isdigit c = true := (List.all_eq_true.mp h) c (List.mem_cons_self _ _)
  obtain ⟨hsp, hm, hp, _, _, _, _, _, _⟩ := isdigit_facts hc
  obtain ⟨x1, x2⟩ := second_of_digits h 'x' (by decide) (by decide)
  obtain ⟨X1, _⟩ := second_of_digits h 'X' (by decide) (by decide)
  obtain ⟨b1, b2⟩ := second_of_digits h 'b' (by decide) (by decide)
  obtain ⟨B1, _⟩ := second_of_digits h 'B' (by decide) (by decide)
  have hm2 : (c == '-') = false := by rw [beq_eq_false_iff_ne]; exact hm
  constructor
  · unfold isNumber
    simp only [x1, X1, b1, B1, Bool.or_self, Bool.and_false, Bool.false_eq_true, if_false, hm2,
      List.drop_zero]
    exact h
  · unfold parseNumber
    simp only [x2, b2, Bool.and_false, Bool.false_eq_true, if_false]
    unfold stol
    rw [strtol_plain 10 c cs (by decide) hsp hm hp (all_digits_good h)]
    simp only
    rw [if_pos (by constructor <;> omega)]

/-- A minus sign and decimal digits. -/
theorem parseNumber_negative (c : Char) (cs : Str) (h : (c :: cs).all isdigit = true)
    (hr : denote 10 (c :: cs) ≤ 2 ^ 63) :
    isNumber ('-' :: c :: cs) = true ∧
      parseNumber ('-' :: c :: cs) = Except.ok (-(denote 10 (c :: cs) : Int)) := by
  constructor
  · unfold isNumber
    simp only [show ('-' == '0') = false from by decide, Bool.and_false, Bool.false_and,
      Bool.false_eq_true, if_false, beq_self_eq_true, if_true, List.drop_succ_cons,
      List.drop_zero]
    exact h
  · unfold parseNumber
    have t1 : (('-' :: c :: cs).take 2 == ['0', 'x']) = false := by
      rw [beq_eq_false_iff_ne]; intro hh
      simp only [List.take_succ_cons, List.cons.injEq] at hh
      exact absurd hh.1 (by decide)
    have t2 : (('-' :: c :: cs).take 2 == ['0', 'b']) = false := by
      rw [beq_eq_false_iff_ne]; intro hh
      simp only [List.take_succ_cons, List.cons.injEq] at hh
      exact absurd hh.1 (by decide)
    simp only [t1, t2, Bool.and_false, Bool.false_eq_true, if_false]
    unfold stol
    rw [strtol_minus c cs (all_digits_good h)]
    simp only
    rw [if_pos (by constructor <;> omega)]

/-- The prefix `0x` and hexadecimal digits. -/
theorem parseNumber_hex (c : Char) (cs : Str) (h : (c :: cs).all isxdigit = true)
    (hr : denote 16 (c :: cs) ≤ 2 ^ 63 - 1) :
    isNumber ('0' :: 'x' :: c :: cs) = true ∧
      parseNumber ('0' :: 'x' :: c :: cs) = Except.ok (denote 16 (c :: cs) : Int) := by
  have hc : isxdigit c = true := (List.all_eq_true.mp h) c (List.mem_cons_self _ _)
  have hlen : decide (('0' :: 'x' :: c :: cs).length > 2) = true := by
    simp only [List.length_cons, decide_eq_true_eq]; omega
  constructor
  · unfold isNumber
    simp only [hlen, beq_self_eq_true, List.getD_cons_succ, List.getD_cons_zero, Bool.true_or,
      Bool.and_self, if_true, List.drop_succ_cons, List.drop_zero]
    exact h
  · unfold parseNumber
    simp only [hlen, List.take_succ_cons, List.take_zero, beq_self_eq_true, Bool.and_self,
      if_true]
    unfold stol
    rw [show HEX_VAL = 16 from rfl, strtol_hex c cs hc (all_xdigits_good h)]
    simp only
    rw [if_pos (by constructor <;> omega)]

/-- The prefix `0b` and binary digits. -/
theorem parseNumber_binary (c : Char) (cs : Str)
    (h : (c :: cs).all (fun character => character == '0' || character == '1') = true)
    (hr : denote 2 (c :: cs) ≤ 2 ^ 63 - 1) :
    isNumber ('0' :: 'b' :: c :: cs) = true ∧
      parseNumber ('0' :: 'b' :: c :: cs) = Except.ok (denote 2 (c :: cs) : Int) := by
  have hg := all_bits_good h
  obtain ⟨hsp, hm, hp, _, _⟩ := hg c (List.mem_cons_self _ _)
  have hlen : decide (('0' :: 'b' :: c :: cs).length > 2) = true := by
    simp only [List.length_cons, decide_eq_true_eq]; omega
  constructor
  · unfold isNumber
    simp only [hlen, beq_self_eq_true, List.getD_cons_succ, List.getD_cons_zero,
      show ('b' == 'x') = false from by decide, show ('b' == 'X') = false from by decide,
      Bool.or_self, Bool.and_false, Bool.false_eq_true, if_false, Bool.true_or, Bool.and_self,
      if_true, List.drop_succ_cons, List.drop_zero]
    exact h
  · unfold parseNumber
    have t1 : (['0', 'b'] == ['0', 'x']) = false := by decide
    simp only [hlen, List.take_succ_cons, List.take_zero, t1, Bool.and_false,
      Bool.false_eq_true, if_false, beq_self_eq_true, Bool.and_self, if_true,
      List.drop_succ_cons, List.drop_zero]
    unfold stol
    rw [strtol_plain 2 c cs (by decide) hsp hm hp (fun x hx => (hg x hx).2.2.2)]
    simp only
    rw [if_pos (by constructor <;> omega)]

/-- C18: `parseNumber` returns n for a non-empty string of decimal digits that
denotes n, -n for `-` followed by such digits, the hexadecimal value for `0x`
followed by hexadecimal digits and the binary value for `0b` followed by
binary digits, the values being those of a signed 64-bit `long`; `isNumber`
accepts each of these forms. -/
theorem parseNumber_forms (c : Char) (cs : Str) :
    ((c :: cs).all isdigit = true → denote 10 (c :: cs) ≤ 2 ^ 63 - 1 →
      isNumber (c :: cs) = true ∧
      parseNumber (c :: cs) = Except.ok (denote 10 (c :: cs) : Int)) ∧
    ((c :: cs).all isdigit = true → denote 10 (c :: cs) ≤ 2 ^ 63 →
      isNumber ('-' :: c :: cs) = true ∧
      parseNumber ('-' :: c :: cs) = Except.ok (-(denote 10 (c :: cs) : Int))) ∧
    ((c :: cs).all isxdigit = true → denote 16 (c :: cs) ≤ 2 ^ 63 - 1 →
      isNumber ('0' :: 'x' :: c :: cs) = true ∧
      parseNumber ('0' :: 'x' :: c :: cs) = Except.ok (denote 16 (c :: cs) : Int)) ∧
    ((c :: cs).all (fun character => character == '0' || character == '1') = true →
      denote 2 (c :: cs) ≤ 2 ^ 63 - 1 →
      isNumber ('0' :: 'b' :: c :: cs) = true ∧
      parseNumber ('0' :: 'b' :: c :: cs) = Except.ok (denote 2 (c :: cs) : Int)) :=
  ⟨parseNumber_decimal c cs, parseNumber_negative c cs, parseNumber_hex c cs,
    parseNumber_binary c cs⟩

/-- Witness for C18: for the digits `1`, `0` the numerals `10`, `-10`, `0x10`
and `0b10`, and for the digits `2`, `A` the numeral `0x2A`. -/
theorem parseNumber_forms_witness :
    (isNumber "10".toList = true ∧ parseNumber "10".toList = Except.ok 10) ∧
    (isNumber "-10".toList = true ∧ parseNumber "-10".toList = Except.ok (-10)) ∧
    (isNumber "0x10".toList = true ∧ parseNumber "0x10".toList = Except.ok 16) ∧
    (isNumber "0b10".toList = true ∧ parseNumber "0b10".toList = Except.ok 2) ∧
    (isNumber "0x2A".toList = true ∧ parseNumber "0x2A".toList = Except.ok 42) :=
  have h := parseNumber_forms '1' ['0']
  have g := parseNumber_forms '2' ['A']
  ⟨h.1 (by decide) (by decide), h.2.1 (by decide) (by decide),
    h.2.2.1 (by decide) (by decide), h.2.2.2 (by decide) (by decide),
    g.2.2.1 (by decide) (by decide)⟩

/-! ## The layout of the image -/

/-- With at least one instruction line and a built image, the data section
starts right after the instructions, without wrapping. -/
theorem parse_dataStart_eq {inputData : Str} {p : Pass1} {b : Binarizer} {mem : List Nat}
    (hp : pass1 (getlines inputData) {} = Except.ok p) (hText : p.textSize ≠ 0)
    (hb : parse inputData = Except.ok b) (hm : b.image = Except.ok mem) :
    b.instructions ≠ [] ∧ b.dataStart = b.textStart + b.instructions.length ∧
      b.textStart < 2 ^ 64 ∧ b.dataStart < 2 ^ 64 := by
  obtain ⟨h1, h2, _, h4, _, h6, _⟩ := parse_layout hp hb
  have hlen := h6 hText
  have hds : b.dataStart < 2 ^ 64 := by rw [h2]; exact sz_lt _
  have hts : b.textStart < 2 ^ 64 := by rw [h1]; exact h4
  obtain ⟨m1, m2, _, _⟩ := image_layout hm hts hds
  have hins : b.instructions ≠ [] := by
    intro h; rw [h] at hlen; exact hText hlen.symm
  have hle := m2 hins
  have hM : mem.length < 2 ^ 32 := by rw [m1]; exact u32_lt _
  refine ⟨hins, ?_, hts, hds⟩
  rw [h2, hlen, h1]; unfold sz; omega

/-- Counterexample for C13: `orgZeroProgram` is accepted, its text section
starts at address 0, and word 0 of its image is the word of `halt`, written
over the jump to `_start`. -/
theorem org_zero_overwrites_reset_word :
    ∃ (b : Binarizer) (mem : List Nat),
      parse orgZeroProgram = Except.ok b ∧ b.image = Except.ok mem ∧
      b.labelAddress.get "_start".toList = some 0 ∧ b.textStart = 0 ∧
      mem[0]? = some (Instruction.raw ⟨0b100010, 0⟩) ∧
      mem[0]? ≠ some (0x0A <<< 24 ||| (0 &&& 0xFFFFFF)) :=
  ⟨{ textStart := 0, dataStart := 1, dataSection := [], dataAddress := [],
     instructions := [⟨0b100010, 0⟩], labelAddress := [("_start".toList, 0)] },
   [0x22000000], by decide, by decide, by decide, by decide, by decide, by decide⟩

/-- C13, amended: when `parse` accepts an input with at least one instruction
line and a text section that does not start at address 0, word 0 of the image
that `writeToFile` builds is the encoding of JMP to the address of `_start`,
0x0A * 2^24 + (address mod 2^24); instruction j is at textStart + j, data
word i at dataStart + i, and every other word of the image is 0. -/
theorem image_of_parsed_program (inputData : Str) (p : Pass1) (b : Binarizer)
    (mem : List Nat) (start : Nat)
    (hp : pass1 (getlines inputData) {} = Except.ok p) (hText : p.textSize ≠ 0)
    (hb : parse inputData = Except.ok b) (hts : b.textStart ≠ 0)
    (hm : b.image = Except.ok mem)
    (hst : b.labelAddress.get "_start".toList = some start) :
    mem[0]? = some (0x0A * 2 ^ 24 + start % 2 ^ 24) ∧
    (∀ j, j < b.instructions.length →
      mem[b.textStart + j]? = (b.instructions.map Instruction.raw)[j]?) ∧
    (∀ i, i < b.dataSection.length → mem[b.dataStart + i]? = b.dataSection[i]?) ∧
    (∀ a, a < mem.length → a ≠ 0 →
      ¬ (b.textStart ≤ a ∧ a < b.textStart + b.instructions.length) →
      ¬ (b.dataStart ≤ a ∧ a < b.dataStart + b.dataSection.length) →
      mem[a]? = some 0) := by
  obtain ⟨hins, hds, l1, l2⟩ := parse_dataStart_eq hp hText hb hm
  obtain ⟨m1, m2, _, m4⟩ := image_layout hm l1 l2
  have hle := m2 hins
  have hpos : 0 < b.instructions.length := List.length_pos.mpr hins
  refine ⟨?_, fun j hj => ?_, fun i hi => ?_, fun a ha h0 ht hd => ?_⟩
  · rw [m4, if_neg (by omega), if_neg (by omega), hst, Option.getD_some,
      List.getElem?_set_self (by rw [List.length_replicate, ← m1]; omega)]
    have h := raw_eq 0x0A (u32 start) (by decide)
    have hu : u32 start % 2 ^ 24 = start % 2 ^ 24 := by unfold u32; omega
    rw [hu] at h
    rw [← h]
    rfl
  · rw [m4, if_neg (by omega), if_pos ⟨by omega, by omega⟩, Nat.add_sub_cancel_left]
  · rw [m4, if_pos ⟨by omega, by omega⟩, Nat.add_sub_cancel_left]
  · rw [m4, if_neg hd, if_neg ht, List.getElem?_set_ne (Ne.symm h0),
      List.getElem?_replicate, if_pos (by rw [← m1]; exact ha)]

/-- Witness for C13, amended: `ldProgram` and its image. -/
theorem image_of_parsed_program_witness :
    ldProgramImage[0]? = some (0x0A * 2 ^ 24 + 1 % 2 ^ 24) ∧
    (∀ j, j < ldProgramParsed.instructions.length →
      ldProgramImage[ldProgramParsed.textStart + j]? =
        (ldProgramParsed.instructions.map Instruction.raw)[j]?) ∧
    (∀ i, i < ldProgramParsed.dataSection.length →
      ldProgramImage[ldProgramParsed.dataStart + i]? = ldProgramParsed.dataSection[i]?) :=
  have h := image_of_parsed_program ldProgram ldProgramPass1 ldProgramParsed ldProgramImage 1
    (by decide) (by decide) (by decide) (by decide) (by decide) (by decide)
  ⟨h.1, h.2.1, h.2.2.1⟩

/-! ## The data words are 32-bit words -/

theorem longToU32_lt (v : Int) : longToU32 v < 2 ^ 32 := by
  unfold longToU32; omega

theorem resize_ok {v v1 : List Nat} {n : Nat} (h : resize v n = Except.ok v1) :
    n ≤ vectorMaxSize ∧ v1 = v.take n ++ List.replicate (n - v.length) 0 := by
  unfold resize at h
  split_ifs at h with hn
  exact ⟨by omega, by cases h; rfl⟩

theorem resize_words {v v1 : List Nat} {n : Nat} (h : resize v n = Except.ok v1)
    (hv : ∀ x ∈ v, x < 2 ^ 32) : ∀ x ∈ v1, x < 2 ^ 32 := by
  obtain ⟨_, e⟩ := resize_ok h
  intro x hx
  rw [e] at hx
  rcases List.mem_append.mp hx with hx | hx
  · exact hv x (List.mem_of_mem_take hx)
  · rw [(List.mem_replicate.mp hx).2]; decide

theorem setAt_words {v v1 : List Nat} {i x : Nat} (h : setAt v i x = Except.ok v1)
    (hx : x < 2 ^ 32) (hv : ∀ y ∈ v, y < 2 ^ 32) : ∀ y ∈ v1, y < 2 ^ 32 := by
  obtain ⟨_, e⟩ := setAt_ok h
  intro y hy
  rw [e] at hy
  rcases List.mem_or_eq_of_mem_set hy with hm | he
  · exact hv y hm
  · rw [he]; exact hx

/-- The resize-if-needed step in front of a store keeps the words 32-bit. -/
theorem grow_words {v v1 : List Nat} {c : Prop} [Decidable c] {n : Nat}
    (h : (if c then resize v n else pure v) = Except.ok v1)
    (hv : ∀ x ∈ v, x < 2 ^ 32) : ∀ x ∈ v1, x < 2 ^ 32 := by
  split_ifs at h
  · exact resize_words h hv
  · cases h; exact hv

/-- A successful `do` step: the first action succeeded and the rest did. -/
theorem bind_ok {α β : Type} {x : Except AsmError α} {f : α → Except AsmError β} {b : β}
    (h : (x >>= f) = Except.ok b) : ∃ a, x = Except.ok a ∧ f a = Except.ok b := by
  cases x with
  | error e => cases h
  | ok a => exact ⟨a, rfl, h⟩

theorem storeWord_ok {ds : Nat} {d d1 : DataState} {label : Str} {value : Nat}
    (h : storeWord ds d label value = Except.ok d1) :
    ∃ v1 v2,
      (if d.dataSection.length ≤ d.dataCursor then resize d.dataSection (sz (d.dataCursor + 1))
        else pure d.dataSection) = Except.ok v1 ∧
      setAt v1 d.dataCursor value = Except.ok v2 ∧
      d1 = { dataSection := v2,
             dataAddress := d.dataAddress.set label (sz (ds + d.dataCursor)),
             dataCursor := sz (d.dataCursor + 1) } := by
  unfold storeWord at h
  dsimp only at h
  split_ifs at h with hc
  · obtain ⟨v1, hg, h⟩ := bind_ok h
    obtain ⟨v2, hs, h⟩ := bind_ok h
    cases h
    exact ⟨v1, v2, by rw [if_pos hc]; exact hg, hs, rfl⟩
  · obtain ⟨v1, hg, h⟩ := bind_ok h
    obtain ⟨v2, hs, h⟩ := bind_ok h
    cases h
    exact ⟨v1, v2, by rw [if_neg hc]; exact hg, hs, rfl⟩

theorem storeWord_words {ds : Nat} {d d1 : DataState} {label : Str} {value : Nat}
    (h : storeWord ds d label value = Except.ok d1) (hval : value < 2 ^ 32)
    (hd : ∀ x ∈ d.dataSection, x < 2 ^ 32) : ∀ x ∈ d1.dataSection, x < 2 ^ 32 := by
  obtain ⟨v1, v2, hg, hs, e⟩ := storeWord_ok h
  rw [e]
  exact setAt_words hs hval (grow_words hg hd)

/-- The bytes of a string literal are bytes. -/
theorem unescape_bytes_aux : ∀ (n : Nat) (s : Str) (bytes : List Nat), s.length ≤ n →
    unescape s = Except.ok bytes → ∀ x ∈ bytes, x < 256
  | _, [], bytes, _, h => by
    simp only [unescape, pure, Except.pure, Except.ok.injEq] at h
    rw [← h]; intro x hx; cases hx
  | 0, c :: rest, _, hn, _ => by simp at hn
  | n + 1, c :: rest, bytes, hn, h => by
    have hrest : rest.length ≤ n := by simpa using hn
    have tail : ∀ (b : Nat) (r : Str), b < 256 → r.length ≤ n →
        (unescape r >>= fun r1 => (pure (b :: r1) : Except AsmError (List Nat))) =
          Except.ok bytes → ∀ x ∈ bytes, x < 256 := by
      intro b r hb hr hh
      obtain ⟨r1, h1, h2⟩ := bind_ok hh
      cases h2
      intro x hx
      rcases List.mem_cons.mp hx with hx | hx
      · rw [hx]; exact hb
      · exact unescape_bytes_aux n r r1 hr h1 x hx
    unfold unescape at h
    split_ifs at h with hc
    · cases rest with
      | nil => cases h
      | cons e rest2 =>
        have hr2 : rest2.length ≤ n := by
          simp only [List.length_cons] at hrest; omega
        dsimp only at h
        split_ifs at h
        · exact tail 0 rest2 (by decide) hr2 h
        · exact tail 10 rest2 (by decide) hr2 h
        · exact tail 9 rest2 (by decide) hr2 h
        · exact tail 92 rest2 (by decide) hr2 h
        · exact tail 34 rest2 (by decide) hr2 h
    · exact tail (c.toNat % 256) rest (by omega) hrest h

theorem unescape_bytes {s : Str} {bytes : List Nat} (h : unescape s = Except.ok bytes) :
    ∀ x ∈ bytes, x < 256 :=
  unescape_bytes_aux s.length s bytes (Nat.le_refl _) h

theorem writeBytes_words (index : Nat) : ∀ (bytes : List Nat) (j : Nat) (v v1 : List Nat),
    writeBytes index bytes j v = Except.ok v1 → (∀ x ∈ bytes, x < 256) →
    (∀ x ∈ v, x < 2 ^ 32) → ∀ x ∈ v1, x < 2 ^ 32
  | [], _, v, v1, h, _, hv => by
    simp only [writeBytes, pure, Except.pure, Except.ok.injEq] at h
    rw [← h]; exact hv
  | b :: bytes, j, v, v1, h, hb, hv => by
    unfold writeBytes at h
    obtain ⟨v0, hs, h⟩ := bind_ok h
    have hb0 : b < 2 ^ 32 := lt_trans (hb b (List.mem_cons_self _ _)) (by decide)
    exact writeBytes_words index bytes (j + 1) v0 v1 h
      (fun x hx => hb x (List.mem_cons_of_mem _ hx)) (setAt_words hs hb0 hv)

theorem resolvePart_lt {la da : Map} {part : Str} {v : Nat}
    (h : resolvePart la da part = Except.ok v) : v < 2 ^ 32 := by
  unfold resolvePart at h
  split_ifs at h
  · obtain ⟨n, _, h⟩ := bind_ok h
    cases h
    exact longToU32_lt n
  · split at h
    · cases h; exact u32_lt _
    · split at h
      · cases h; exact u32_lt _
      · cases h

theorem writeParts_words (la da : Map) : ∀ (parts : List Str) (v : List Nat) (c : Nat)
    (r : List Nat × Nat), writeParts la da parts v c = Except.ok r →
    (∀ x ∈ v, x < 2 ^ 32) → ∀ x ∈ r.1, x < 2 ^ 32
  | [], v, c, r, h, hv => by
    simp only [writeParts, pure, Except.pure, Except.ok.injEq] at h
    rw [← h]; exact hv
  | part :: parts, v, c, r, h, hv => by
    unfold writeParts at h
    obtain ⟨value, hval, h⟩ := bind_ok h
    have hlt := resolvePart_lt hval
    dsimp only at h
    split_ifs at h with hc
    · obtain ⟨v1, hg, h⟩ := bind_ok h
      obtain ⟨v2, hs, h⟩ := bind_ok h
      exact writeParts_words la da parts v2 _ r h (setAt_words hs hlt (resize_words hg hv))
    · obtain ⟨v1, hg, h⟩ := bind_ok h
      have e1 : v = v1 := Except.ok.inj hg
      subst e1
      obtain ⟨v2, hs, h⟩ := bind_ok h
      exact writeParts_words la da parts v2 _ r h (setAt_words hs hlt hv)

/-- What a successful string literal line does: the bytes of the literal are
written from the data cursor on, the label gets the address of the first one,
and the cursor moves past them. -/
theorem stringLine_ok {ds : Nat} {d d1 : DataState} {label str : Str}
    (h : (do
      let bytes ← unescape str
      let index := d.dataCursor
      let dataSection1 ←
        if d.dataSection.length < sz (index + bytes.length) then
          resize d.dataSection (sz (index + bytes.length))
        else pure d.dataSection
      let dataSection2 ← writeBytes index bytes 0 dataSection1
      (pure { dataSection := dataSection2,
              dataAddress := d.dataAddress.set label (sz (ds + index)),
              dataCursor := sz (d.dataCursor + bytes.length) } :
        Except AsmError DataState)) = Except.ok d1) :
    ∃ bytes v1 v2, unescape str = Except.ok bytes ∧
      (if d.dataSection.length < sz (d.dataCursor + bytes.length) then
          resize d.dataSection (sz (d.dataCursor + bytes.length))
        else pure d.dataSection) = Except.ok v1 ∧
      writeBytes d.dataCursor bytes 0 v1 = Except.ok v2 ∧
      d1 = { dataSection := v2,
             dataAddress := d.dataAddress.set label (sz (ds + d.dataCursor)),
             dataCursor := sz (d.dataCursor + bytes.length) } := by
  obtain ⟨bytes, hb, h⟩ := bind_ok h
  dsimp only at h
  split_ifs at h with hc
  · obtain ⟨v1, hg, h⟩ := bind_ok h
    obtain ⟨v2, hw, h⟩ := bind_ok h
    cases h
    exact ⟨bytes, v1, v2, hb, by rw [if_pos hc]; exact hg, hw, rfl⟩
  · obtain ⟨v1, hg, h⟩ := bind_ok h
    have e1 : d.dataSection = v1 := Except.ok.inj hg
    subst e1
    obtain ⟨v2, hw, h⟩ := bind_ok h
    cases h
    exact ⟨bytes, d.dataSection, v2, hb, by rw [if_neg hc]; rfl, hw, rfl⟩

/-- A line of the data section keeps the data words 32-bit. -/
theorem pass2DataLine_words {la : Map} {ds : Nat} {d d1 : DataState} {line : Str}
    (h : pass2DataLine la ds d line = Except.ok d1) (hd : ∀ x ∈ d.dataSection, x < 2 ^ 32) :
    ∀ x ∈ d1.dataSection, x < 2 ^ 32 := by
  unfold pass2DataLine at h
  split_ifs at h
  dsimp only at h
  split_ifs at h
  · obtain ⟨count, _, h⟩ := bind_ok h
    split_ifs at h
    obtain ⟨v1, hr, h⟩ := bind_ok h
    cases h
    exact resize_words hr hd
  · obtain ⟨n, _, h⟩ := bind_ok h
    exact storeWord_words h (longToU32_lt n) hd
  · obtain ⟨bytes, v1, v2, hb, hg, hw, e⟩ := stringLine_ok h
    rw [e]
    exact writeBytes_words _ bytes 0 v1 v2 hw (unescape_bytes hb) (grow_words hg hd)
  · obtain ⟨r, hw, h⟩ := bind_ok h
    cases h
    exact writeParts_words _ _ _ _ _ r hw hd
  · split at h
    · exact storeWord_words h (u32_lt _) hd
    · split at h
      · exact storeWord_words h (u32_lt _) hd
      · cases h

theorem pass2Line_words {s s1 : Pass2} {raw : Str} (h : pass2Line s raw = Except.ok s1)
    (hs : ∀ x ∈ s.dataSection, x < 2 ^ 32) : ∀ x ∈ s1.dataSection, x < 2 ^ 32 := by
  unfold pass2Line at h
  cases hc : classify raw with
  | empty => rw [hc] at h; cases h; exact hs
  | text => rw [hc] at h; cases h; exact hs
  | data => rw [hc] at h; cases h; exact hs
  | label name => rw [hc] at h; cases h; exact hs
  | org addrStr =>
    rw [hc] at h
    obtain ⟨n, _, h⟩ := bind_ok h
    cases hcur : s.current <;> rw [hcur] at h <;> cases h <;> exact hs
  | other line =>
    rw [hc] at h
    cases hcur : s.current with
    | None => rw [hcur] at h; cases h; exact hs
    | Text =>
      rw [hcur] at h
      obtain ⟨r, _, h⟩ := bind_ok h
      cases h; exact hs
    | Data =>
      rw [hcur] at h
      obtain ⟨d, hd, h⟩ := bind_ok h
      cases h
      exact pass2DataLine_words hd hs

theorem pass2_words : ∀ (lines : List Str) (s s1 : Pass2), pass2 lines s = Except.ok s1 →
    (∀ x ∈ s.dataSection, x < 2 ^ 32) → ∀ x ∈ s1.dataSection, x < 2 ^ 32
  | [], s, s1, h, hs => by
    simp only [pass2, Except.ok.injEq] at h
    rw [← h]; exact hs
  | raw :: rest, s, s1, h, hs => by
    obtain ⟨s0, e0, e1⟩ := pass2_cons_ok h
    exact pass2_words rest s0 s1 e1 (pass2Line_words e0 hs)

/-- Every data word that `parse` leaves in the object is a 32-bit word. -/
theorem parse_words {inputData : Str} {b : Binarizer} (hb : parse inputData = Except.ok b) :
    ∀ x ∈ b.dataSection, x < 2 ^ 32 := by
  obtain ⟨p, s, _, h2, h3⟩ := parse_ok hb
  obtain ⟨_, _, _, g3, _, _, _⟩ := finish_ok h3
  rw [g3]
  refine pass2_words _ _ _ h2 (fun x hx => ?_)
  rw [show (pass2Init p).dataSection = List.replicate p.dataSize 0 from rfl] at hx
  rw [(List.mem_replicate.mp hx).2]
  decide

/-- The end of `parse` never leaves the instruction vector empty. -/
theorem parse_instructions_ne {inputData : Str} {b : Binarizer}
    (hb : parse inputData = Except.ok b) : b.instructions ≠ [] := by
  obtain ⟨p, s, _, _, h3⟩ := parse_ok hb
  obtain ⟨_, _, _, _, _, _, g6⟩ := finish_ok h3
  rw [g6]
  cases hi : s.instructions with
  | nil => simp
  | cons x xs => simp

/-! ## The bytes of the file -/

theorem readWord_putWord (w : Nat) (hw : w < 2 ^ 32) (rest : List Nat) :
    readWords (putWord w ++ rest) = w :: readWords rest := by
  have h8 : MASK_8 = 2 ^ 8 - 1 := by decide
  show readWord ((w >>> SHIFT_24) &&& MASK_8) ((w >>> SHIFT_16) &&& MASK_8)
    ((w >>> SHIFT_8) &&& MASK_8) (w &&& MASK_8) :: readWords rest = _
  congr 1
  rw [h8, Nat.and_pow_two_sub_one_eq_mod, Nat.and_pow_two_sub_one_eq_mod,
    Nat.and_pow_two_sub_one_eq_mod, Nat.and_pow_two_sub_one_eq_mod, Nat.shiftRight_eq_div_pow,
    Nat.shiftRight_eq_div_pow, Nat.shiftRight_eq_div_pow]
  unfold readWord SHIFT_24 SHIFT_16 SHIFT_8
  omega

theorem putWord_bytes (w : Nat) : ∀ x ∈ putWord w, x < 256 := by
  have h8 : MASK_8 = 2 ^ 8 - 1 := by decide
  intro x hx
  unfold putWord at hx
  rw [h8, Nat.and_pow_two_sub_one_eq_mod, Nat.and_pow_two_sub_one_eq_mod,
    Nat.and_pow_two_sub_one_eq_mod, Nat.and_pow_two_sub_one_eq_mod] at hx
  simp only [List.mem_cons, List.mem_singleton, List.not_mem_nil, or_false] at hx
  rcases hx with hx | hx | hx | hx <;> rw [hx] <;> omega

theorem readWords_flatten : ∀ (mem : List Nat), (∀ x ∈ mem, x < 2 ^ 32) →
    readWords (mem.map putWord).flatten = mem
  | [], _ => rfl
  | w :: mem, h => by
    rw [List.map_cons, List.flatten_cons, readWord_putWord w (h w (List.mem_cons_self _ _)),
      readWords_flatten mem (fun x hx => h x (List.mem_cons_of_mem _ hx))]

theorem length_flatten_putWord : ∀ (mem : List Nat),
    (mem.map putWord).flatten.length = 4 * mem.length
  | [] => rfl
  | w :: mem => by
    rw [List.map_cons, List.flatten_cons, List.length_append, length_flatten_putWord mem,
      List.length_cons]
    show 4 + _ = _
    omega

theorem putWord_eq (w : Nat) :
    putWord w = [w / 2 ^ 24 % 256, w / 2 ^ 16 % 256, w / 2 ^ 8 % 256, w % 256] := by
  have h8 : MASK_8 = 2 ^ 8 - 1 := by decide
  unfold putWord
  rw [h8, Nat.and_pow_two_sub_one_eq_mod, Nat.and_pow_two_sub_one_eq_mod,
    Nat.and_pow_two_sub_one_eq_mod, Nat.and_pow_two_sub_one_eq_mod, Nat.shiftRight_eq_div_pow,
    Nat.shiftRight_eq_div_pow, Nat.shiftRight_eq_div_pow]
  rfl

/-- Every word of the image of a parsed program is a 32-bit word. -/
theorem image_words {inputData : Str} {b : Binarizer} {mem : List Nat}
    (hb : parse inputData = Except.ok b) (hm : b.image = Except.ok mem) :
    b.textStart < 2 ^ 64 ∧ b.dataStart < 2 ^ 64 ∧ ∀ x ∈ mem, x < 2 ^ 32 := by
  obtain ⟨p, s, hp, _, _⟩ := parse_ok hb
  obtain ⟨h1, h2, _, h4, _, _, _⟩ := parse_layout hp hb
  have hds : b.dataStart < 2 ^ 64 := by rw [h2]; exact sz_lt _
  have hts : b.textStart < 2 ^ 64 := by rw [h1]; exact h4
  obtain ⟨_, _, _, m4⟩ := image_layout hm hts hds
  refine ⟨hts, hds, fun x hx => ?_⟩
  obtain ⟨a, ha⟩ := List.mem_iff_getElem?.mp hx
  rw [m4] at ha
  split_ifs at ha
  · exact parse_words hb x (List.getElem?_mem ha)
  · obtain ⟨ins, _, e⟩ := List.mem_map.mp (List.getElem?_mem ha)
    rw [← e]; exact u32_lt _
  · rcases List.mem_or_eq_of_mem_set (List.getElem?_mem ha) with h | h
    · rw [(List.mem_replicate.mp h).2]; decide
    · rw [h]; exact u32_lt _

/-- The two sizes of the header are exact for a parsed program whose image
can be built: neither the conversion to 32 bits nor the sum wraps around. -/
theorem header_sizes {inputData : Str} {b : Binarizer} {mem : List Nat}
    (hb : parse inputData = Except.ok b) (hm : b.image = Except.ok mem) :
    b.codeSize = b.textStart + b.instructions.length ∧
    b.dataSize = b.dataSection.length ∧ mem.length = b.codeSize + b.dataSize := by
  obtain ⟨hts, hds, _⟩ := image_words hb hm
  obtain ⟨m1, m2, m3, _⟩ := image_layout hm hts hds
  have hle := m2 (parse_instructions_ne hb)
  have hM : mem.length < 2 ^ 32 := by rw [m1]; exact u32_lt _
  have hc : b.codeSize = b.textStart + b.instructions.length := by
    unfold Binarizer.codeSize u32 sz; omega
  have hd : b.dataSize = b.dataSection.length := by
    unfold Binarizer.dataSize u32
    by_cases he : b.dataSection = []
    · rw [he]; rfl
    · have := m3 he
      omega
  refine ⟨hc, hd, ?_⟩
  have hc2 : b.codeSize ≤ mem.length := by rw [hc]; exact hle
  have hd2 : b.dataSize < 2 ^ 32 := u32_lt _
  have hc3 : b.codeSize < 2 ^ 32 := u32_lt _
  rw [m1] at hc2 ⊢
  unfold u32 at hc2 ⊢
  omega

theorem writeData_total (ds : Nat) : ∀ (xs : List Nat) (i : Nat) (mem : List Nat),
    ds + i + xs.length ≤ mem.length → mem.length < 2 ^ 64 →
    ∃ mem1, writeData ds xs i mem = Except.ok mem1
  | [], _, mem, _, _ => ⟨mem, rfl⟩
  | x :: xs, i, mem, h, hm => by
    rw [List.length_cons] at h
    have hi : sz (ds + i) = ds + i := sz_of_lt (by omega)
    have hs : setAt mem (sz (ds + i)) x = Except.ok (mem.set (ds + i) x) := by
      unfold setAt
      rw [hi, if_pos (by omega)]
    obtain ⟨mem1, h1⟩ := writeData_total ds xs (i + 1) (mem.set (ds + i) x)
      (by rw [List.length_set]; omega) (by rw [List.length_set]; exact hm)
    refine ⟨mem1, ?_⟩
    simp only [writeData, bind, Except.bind, hs]
    exact h1

/-- The image of a parsed program can be built when its words fit 32 bits. -/
theorem image_total {inputData : Str} {b : Binarizer} (hb : parse inputData = Except.ok b)
    (hsize : b.textStart + b.instructions.length + b.dataSection.length < 2 ^ 32) :
    ∃ mem, b.image = Except.ok mem := by
  obtain ⟨p, s, hp, _, h3⟩ := parse_ok hb
  obtain ⟨h1, h2, _, h4, h5, h6, h7⟩ := parse_layout hp hb
  obtain ⟨⟨start, hst⟩, _, _, _, _, g5, _⟩ := finish_ok h3
  have hpos : 0 < b.instructions.length := List.length_pos.mpr (parse_instructions_ne hb)
  have hc : b.codeSize = b.textStart + b.instructions.length := by
    unfold Binarizer.codeSize u32 sz; omega
  have hd : b.dataSize = b.dataSection.length := by
    unfold Binarizer.dataSize u32; omega
  have hM : u32 (b.codeSize + b.dataSize) =
      b.textStart + b.instructions.length + b.dataSection.length := by
    rw [hc, hd]; unfold u32; omega
  have hds : b.dataStart ≤ b.textStart + b.instructions.length := by
    rw [h2, h1]
    by_cases ht : p.textSize = 0
    · rw [ht]; unfold sz; omega
    · rw [h6 ht]; exact Nat.mod_le _ _
  unfold Binarizer.image
  rw [g5, hst]
  dsimp only
  generalize u32 (((opcodeMap.get "jmp".toList).getD 0 <<< SHIFT_24) |||
    (u32 start &&& MASK_24)) = w
  have hset : setAt (List.replicate (u32 (b.codeSize + b.dataSize)) 0) 0 w =
      Except.ok ((List.replicate (u32 (b.codeSize + b.dataSize)) 0).set 0 w) := by
    unfold setAt
    rw [if_pos (by rw [List.length_replicate, hM]; omega)]
  have hl0 : ((List.replicate (u32 (b.codeSize + b.dataSize)) 0).set 0 w).length =
      b.textStart + b.instructions.length + b.dataSection.length := by
    rw [List.length_set, List.length_replicate, hM]
  obtain ⟨mem1, hw1⟩ := writeData_total b.textStart (b.instructions.map Instruction.raw) 0
    ((List.replicate (u32 (b.codeSize + b.dataSize)) 0).set 0 w)
    (by rw [hl0, List.length_map]; omega) (by rw [hl0]; omega)
  obtain ⟨hl1, _, _⟩ := writeData_spec _ _ _ _ _ hw1 (by omega) (by rw [hl0]; omega)
  obtain ⟨mem, hw2⟩ := writeData_total b.dataStart b.dataSection 0 mem1
    (by rw [hl1, hl0]; omega) (by rw [hl1, hl0]; omega)
  refine ⟨mem, ?_⟩
  simp only [bind, Except.bind, hset, writeInstructions_eq, hw1, hw2]

/-- C14: for a parsed program, `writeToFile` writes a file whenever text start,
instructions and data words together stay below 2^32 words; and whenever it
writes one, the header holds codeSize = textStart + |instructions| and
dataSize = |dataSection| without wrap-around, the image has
codeSize + dataSize words, the stream is the two header words followed by the
image words in address order, each word as four bytes with the most
significant byte first, its length is 8 + 4 * (codeSize + dataSize), every
element is a byte, and reading the stream back as big-endian 32-bit words
gives codeSize, dataSize and then exactly the image words. -/
theorem writeToFile_stream (inputData : Str) (b : Binarizer)
    (hb : parse inputData = Except.ok b) :
    (b.textStart + b.instructions.length + b.dataSection.length < 2 ^ 32 →
      ∃ bytes, b.writeToFile = Except.ok bytes) ∧
    ∀ bytes, b.writeToFile = Except.ok bytes →
      b.codeSize = b.textStart + b.instructions.length ∧
      b.dataSize = b.dataSection.length ∧
      bytes.length = 8 + 4 * (b.codeSize + b.dataSize) ∧
      (∀ x ∈ bytes, x < 256) ∧
      (∀ w, putWord w = [w / 2 ^ 24 % 256, w / 2 ^ 16 % 256, w / 2 ^ 8 % 256, w % 256]) ∧
      ∃ mem, b.image = Except.ok mem ∧ mem.length = b.codeSize + b.dataSize ∧
        bytes = putWord b.codeSize ++ putWord b.dataSize ++ (mem.map putWord).flatten ∧
        readWords bytes = b.codeSize :: b.dataSize :: mem := by
  refine ⟨fun hsize => ?_, fun bytes hw => ?_⟩
  · obtain ⟨mem, hm⟩ := image_total hb hsize
    refine ⟨putWord b.codeSize ++ putWord b.dataSize ++ (mem.map putWord).flatten, ?_⟩
    unfold Binarizer.writeToFile
    rw [hm]
    rfl
  unfold Binarizer.writeToFile at hw
  obtain ⟨mem, hm, hw⟩ := bind_ok hw
  have e : bytes = putWord b.codeSize ++ putWord b.dataSize ++ (mem.map putWord).flatten :=
    (Except.ok.inj hw).symm
  obtain ⟨hc, hd, hl⟩ := header_sizes hb hm
  obtain ⟨_, _, hwords⟩ := image_words hb hm
  refine ⟨hc, hd, ?_, ?_, putWord_eq, mem, hm, hl, e, ?_⟩
  · rw [e, List.length_append, List.length_append, length_flatten_putWord, hl]
    show 4 + 4 + _ = _
    omega
  · intro x hx
    rw [e] at hx
    rcases List.mem_append.mp hx with h | h
    · rcases List.mem_append.mp h with h | h
      · exact putWord_bytes _ x h
      · exact putWord_bytes _ x h
    · obtain ⟨l, hl1, hl2⟩ := List.mem_flatten.mp h
      obtain ⟨w, _, e2⟩ := List.mem_map.mp hl1
      rw [← e2] at hl2
      exact putWord_bytes _ x hl2
  · have h1 : b.codeSize < 2 ^ 32 := u32_lt _
    have h2 : b.dataSize < 2 ^ 32 := u32_lt _
    rw [e, List.append_assoc, readWord_putWord _ h1, readWord_putWord _ h2,
      readWords_flatten mem hwords]

/-- The file of `ldProgram`: it is written, has 24 bytes, and is read back as
the words 3, 1 and the image. -/
theorem writeToFile_stream_witness :
    (∃ bytes, ldProgramParsed.writeToFile = Except.ok bytes) ∧
    ldProgramBytes.length = 8 + 4 * (ldProgramParsed.codeSize + ldProgramParsed.dataSize) ∧
    readWords ldProgramBytes = 3 :: 1 :: ldProgramImage :=
  have h := writeToFile_stream ldProgram ldProgramParsed (by decide)
  ⟨h.1 (by decide), (h.2 ldProgramBytes (by decide)).2.2.1, by decide⟩

/-! ## The size of the data section -/

/-- C15: the first loop sizes the data vector by the number of data lines
(two here), the string literal `"Hi"` fills both words, and `.zero 3` then
resizes the vector to its size + 3 - 1 = 4 while the cursor moves on to 5.
The two lines contribute 2 + 3 = 5 words, but the data section (and the
dataSize of the header) has 4; `Z` is at address 4 and the third word
reserved for it, address 6, lies outside the image of 6 words. -/
theorem zero_after_string_reserves_too_little :
    parse stringZeroProgram = Except.ok stringZeroProgramParsed ∧
    stringZeroProgramParsed.dataSection.length = 4 ∧
    stringZeroProgramParsed.dataSize = 4 ∧
    stringZeroProgramParsed.dataAddress.get "S".toList = some 2 ∧
    stringZeroProgramParsed.dataAddress.get "Z".toList = some 4 ∧
    stringZeroProgramParsed.image =
      Except.ok [0x0A000001, 0x22000000, 72, 105, 0, 0] ∧
    stringZeroProgramParsed.writeToFile =
      Except.ok [0, 0, 0, 2, 0, 0, 0, 4, 10, 0, 0, 1, 34, 0, 0, 0, 0, 0, 0, 72, 0, 0, 0, 105,
        0, 0, 0, 0, 0, 0, 0, 0] := by
  decide

/-! ## The `.org` directive in the text section -/

/-- C17: with one instruction in front of `.org 0x20`, the label `L` that
directly follows the directive resolves to 0x21 (the first loop adds the count
of all earlier instructions to the new textStart), the second loop sets the
text cursor back to 0x20 - textStart = 0, so that `halt` overwrites `ldi 1`:
the image holds `halt` at address 0x20, a zero word at 0x21, and the word of
`ldi 1` nowhere, while `_start` still resolves to 1. -/
theorem org_after_instruction_misplaces :
    parse orgProgram = Except.ok orgProgramParsed ∧
    orgProgramParsed.labelAddress.get "L".toList = some 0x21 ∧
    orgProgramParsed.labelAddress.get "_start".toList = some 1 ∧
    orgProgramParsed.image = Except.ok orgProgramImage ∧
    orgProgramImage[0x20]? = some (Instruction.raw ⟨0b100010, 0⟩) ∧
    orgProgramImage[0x21]? = some 0 ∧
    orgProgramImage[1]? = some 0 ∧
    Instruction.raw ⟨0b011010, 1⟩ ∉ orgProgramImage ∧
    opcodeMap.get "ldi".toList = some 0b011010 := by
  decide


/-! ## String literals in the data section -/

theorem writeBytes_eq (index : Nat) : ∀ (bytes : List Nat) (j : Nat) (v : List Nat),
    writeBytes index bytes j v = writeData index bytes j v
  | [], _, _ => rfl
  | b :: bytes, j, v => by
    simp only [writeBytes, writeData, bind, Except.bind]
    cases setAt v (sz (index + j)) b with
    | error e => rfl
    | ok m => exact writeBytes_eq index bytes (j + 1) m

theorem string_value_facts (str : Str) (hlen : str.length < 2 ^ 64) :
    ((('"' :: (str ++ ['"'])).length ≥ const_5 &&
      ('"' :: (str ++ ['"'])).take const_5 == ".zero".toList) = false) ∧
    isNumber ('"' :: (str ++ ['"'])) = false ∧
    ((('"' :: (str ++ ['"'])).head? == some '"' &&
      ('"' :: (str ++ ['"'])).getLast? == some '"') = true) ∧
    (('"' :: (str ++ ['"'])).drop 1).take (sub64 ('"' :: (str ++ ['"'])).length 2) = str := by
  refine ⟨?_, ?_, ?_, ?_⟩
  · have : (('"' :: (str ++ ['"'])).take const_5 == ".zero".toList) = false := by
      show (('"' :: (str ++ ['"']).take 4) == '.' :: "zero".toList) = false
      rfl
    rw [this, Bool.and_false]
  · unfold isNumber
    simp only [List.length_cons, List.drop_zero, List.all_cons]
    have h1 : ('"' == '0') = false := by decide
    have h2 : ('"' == '-') = false := by decide
    have h3 : isdigit '"' = false := by decide
    simp [h1, h2, h3]
  · rw [← List.cons_append, List.getLast?_concat]
    rfl
  · have : sub64 ('"' :: (str ++ ['"'])).length 2 = str.length := by
      unfold sub64
      simp only [List.length_cons, List.length_append, List.length_nil]
      omega
    rw [this]
    simp


theorem pass2DataLine_string (la : Map) (ds : Nat) (d : DataState) (line str : Str)
    (hc : line.contains ':' = true)
    (hv : trim ((line.dropWhile (fun c => c != ':')).drop 1) = '"' :: (str ++ ['"']))
    (hlen : str.length < 2 ^ 64) :
    pass2DataLine la ds d line =
      (unescape str >>= fun bytes =>
        (if d.dataSection.length < sz (d.dataCursor + bytes.length) then
          resize d.dataSection (sz (d.dataCursor + bytes.length))
        else pure d.dataSection) >>= fun dataSection1 =>
        writeBytes d.dataCursor bytes 0 dataSection1 >>= fun dataSection2 =>
        pure { dataSection := dataSection2,
               dataAddress := d.dataAddress.set (trim (line.takeWhile (fun c => c != ':')))
                 (sz (ds + d.dataCursor)),
               dataCursor := sz (d.dataCursor + bytes.length) }) := by
  obtain ⟨f1, f2, f3, f4⟩ := string_value_facts str hlen
  unfold pass2DataLine
  rw [if_neg (by rw [hc]; decide)]
  dsimp only
  rw [hv, if_neg (by rw [f1]; decide), if_neg (by rw [f2]; decide), if_pos f3, f4]
  cases unescape str with
  | error e => rfl
  | ok bytes =>
    by_cases hlt : d.dataSection.length < sz (d.dataCursor + bytes.length)
    · simp only [bind, Except.bind, if_pos hlt]
    · simp only [bind, Except.bind, if_neg hlt]


theorem grow_total (v : List Nat) (n : Nat) (hn : n ≤ vectorMaxSize)
    (hv : v.length ≤ vectorMaxSize) :
    ∃ v1, (if v.length < n then resize v n else pure v) = Except.ok v1 ∧ n ≤ v1.length ∧
      v1.length ≤ vectorMaxSize ∧ ∀ a, a < v.length → v1[a]? = v[a]? := by
  by_cases hlt : v.length < n
  · refine ⟨v.take n ++ List.replicate (n - v.length) 0, ?_, ?_, ?_, ?_⟩
    · rw [if_pos hlt]; unfold resize; rw [if_neg (by omega)]
    · simp only [List.length_append, List.length_take, List.length_replicate]; omega
    · simp only [List.length_append, List.length_take, List.length_replicate]; omega
    · intro a ha
      rw [List.take_of_length_le (by omega), List.getElem?_append_left ha]
  · exact ⟨v, by rw [if_neg hlt]; rfl, by omega, hv, fun _ _ => rfl⟩

/-- A string literal line whose escapes are all known and whose bytes fit is
accepted: what it stores. -/
theorem pass2DataLine_string_ok (la : Map) (ds : Nat) (d : DataState) (line str : Str)
    (bytes : List Nat) (hc : line.contains ':' = true)
    (hv : trim ((line.dropWhile (fun c => c != ':')).drop 1) = '"' :: (str ++ ['"']))
    (hlen : str.length < 2 ^ 64) (hd : d.dataSection.length ≤ vectorMaxSize)
    (hb : unescape str = Except.ok bytes)
    (hroom : d.dataCursor + bytes.length ≤ vectorMaxSize) :
    ∃ v, pass2DataLine la ds d line = Except.ok
        { dataSection := v,
          dataAddress := d.dataAddress.set (trim (line.takeWhile (fun c => c != ':')))
            (sz (ds + d.dataCursor)),
          dataCursor := d.dataCursor + bytes.length } ∧
      (∀ j, j < bytes.length → v[d.dataCursor + j]? = bytes[j]?) ∧
      (∀ a, a < d.dataSection.length → (a < d.dataCursor ∨ d.dataCursor + bytes.length ≤ a) →
        v[a]? = d.dataSection[a]?) := by
  have hmax : vectorMaxSize < 2 ^ 64 := by decide
  have hn : sz (d.dataCursor + bytes.length) = d.dataCursor + bytes.length :=
    sz_of_lt (by omega)
  obtain ⟨v1, g1, g2, g3, g4⟩ := grow_total d.dataSection (d.dataCursor + bytes.length) hroom hd
  obtain ⟨v, hw⟩ := writeData_total d.dataCursor bytes 0 v1 (by omega) (by omega)
  obtain ⟨_, _, w3⟩ := writeData_spec d.dataCursor bytes 0 v1 v hw (by omega) (by omega)
  refine ⟨v, ?_, ?_, ?_⟩
  · rw [pass2DataLine_string la ds d line str hc hv hlen, hb]
    show ((if d.dataSection.length < sz (d.dataCursor + bytes.length) then
        resize d.dataSection (sz (d.dataCursor + bytes.length))
      else pure d.dataSection) >>= _) = _
    rw [hn, g1]
    show (writeBytes d.dataCursor bytes 0 v1 >>= _) = _
    rw [writeBytes_eq, hw]
    rfl
  · intro j hj
    rw [w3, if_pos ⟨by omega, by omega⟩]
    congr 1
    omega
  · intro a ha hout
    rw [w3, if_neg (by omega), g4 a ha]


theorem unescape_plain (c : Char) (rest : Str) (hc : c ≠ '\\') :
    unescape (c :: rest) = (unescape rest).map (fun r => c.toNat % 256 :: r) := by
  have h : (c == '\\') = false := by simpa using hc
  rw [unescape.eq_def]
  dsimp only
  rw [if_neg (by rw [h]; decide)]
  cases unescape rest <;> rfl

theorem unescape_known (e : Char) (b : Nat) (rest : Str)
    (h : (e, b) ∈ [('0', 0), ('n', 10), ('t', 9), ('\\', 92), ('"', 34)]) :
    unescape ('\\' :: e :: rest) = (unescape rest).map (fun r => b :: r) := by
  simp only [List.mem_cons, List.mem_singleton, Prod.mk.injEq, List.not_mem_nil, or_false] at h
  have step : ∀ (x : Except AsmError (List Nat)),
      (x >>= fun r => (pure (b :: r) : Except AsmError (List Nat))) =
        x.map (fun r => b :: r) := by
    intro x; cases x <;> rfl
  rw [unescape.eq_def]
  dsimp only
  rw [if_pos (by decide)]
  rcases h with ⟨rfl, rfl⟩ | ⟨rfl, rfl⟩ | ⟨rfl, rfl⟩ | ⟨rfl, rfl⟩ | ⟨rfl, rfl⟩
  · rw [if_pos (by decide)]; exact step _
  · rw [if_neg (by decide), if_pos (by decide)]; exact step _
  · rw [if_neg (by decide), if_neg (by decide), if_pos (by decide)]; exact step _
  · rw [if_neg (by decide), if_neg (by decide), if_neg (by decide), if_pos (by decide)]
    exact step _
  · rw [if_neg (by decide), if_neg (by decide), if_neg (by decide), if_neg (by decide),
      if_pos (by decide)]
    exact step _

theorem unescape_unknown (e : Char) (rest : Str)
    (h : e ∉ ['0', 'n', 't', '\\', '"']) :
    unescape ('\\' :: e :: rest) = Except.error AsmError.unsupportedEscape := by
  simp only [List.mem_cons, List.mem_singleton, List.not_mem_nil, or_false, not_or] at h
  obtain ⟨h1, h2, h3, h4, h5⟩ := h
  have g1 : (e == '0') = false := by simpa using h1
  have g2 : (e == 'n') = false := by simpa using h2
  have g3 : (e == 't') = false := by simpa using h3
  have g4 : (e == '\\') = false := by simpa using h4
  have g5 : (e == '"') = false := by simpa using h5
  rw [unescape.eq_def]
  dsimp only
  rw [if_pos (by decide)]
  simp only [g1, g2, g3, g4, g5]
  rfl


/-- C16 (counterexample): `stripComment` cuts a line at the first `;`, also
inside a string literal. Of the line `S: ";"` the second loop sees `S: "`,
whose value is a single quote: it is taken for an empty literal, so nothing is
stored for the one character of the literal and the word at the address of `S`
stays 0. Of `S: "a;b"` it sees `S: "a`, which is no literal, and `parse`
throws `Unknown data value`. -/
theorem semicolon_cuts_string_literal :
    classify "S: \";\"".toList = Line.other "S: \"".toList ∧
    parse semicolonProgram = Except.ok semicolonProgramParsed ∧
    semicolonProgramParsed.dataAddress.get "S".toList = some 2 ∧
    semicolonProgramParsed.image = Except.ok [0x0A000001, 0x22000000, 0] ∧
    parse semicolonInsideProgram = Except.error AsmError.unknownDataValue := by
  decide

/-- C16, amended: let `line` be a line of the data section as the second loop
sees it, after the text from the first `;` on is cut and the line is trimmed,
and let its value (the trimmed text after the first colon) be `"str"`. If the
loop over `str` gives `bytes` and the vector can hold them, the line is
accepted: the label gets the address dataStart + dataCursor, the bytes are
stored one a word at the consecutive indices dataCursor + j of the data
section, the cursor moves on by their number, the other words stay, and each
byte is below 256. If the loop over `str` fails, the line fails the same way.
The loop over `str`: a character other than a backslash gives its byte; a
backslash followed by `0`, `n`, `t`, a backslash or a double quote gives 0, 10,
9, 92, 34; a backslash followed by another character, or by nothing, fails. -/
theorem string_literal_line (s : Pass2) (raw line str : Str)
    (hcl : classify raw = Line.other line) (hcur : s.current = Section.Data)
    (hc : line.contains ':' = true)
    (hv : trim ((line.dropWhile (fun c => c != ':')).drop 1) = '"' :: (str ++ ['"']))
    (hlen : str.length < 2 ^ 64) (hd : s.dataSection.length ≤ vectorMaxSize) :
    (∀ bytes, unescape str = Except.ok bytes → s.dataCursor + bytes.length ≤ vectorMaxSize →
      ∃ s1, pass2Line s raw = Except.ok s1 ∧
        s1.dataAddress.get (trim (line.takeWhile (fun c => c != ':'))) =
          some (sz (s.dataStart + s.dataCursor)) ∧
        s1.dataCursor = s.dataCursor + bytes.length ∧
        (∀ j, j < bytes.length → s1.dataSection[s.dataCursor + j]? = bytes[j]?) ∧
        (∀ a, a < s.dataSection.length →
          (a < s.dataCursor ∨ s.dataCursor + bytes.length ≤ a) →
          s1.dataSection[a]? = s.dataSection[a]?) ∧
        (∀ x ∈ bytes, x < 256)) ∧
    (∀ e, unescape str = Except.error e → pass2Line s raw = Except.error e) ∧
    unescape [] = Except.ok [] ∧
    (∀ c rest, c ≠ '\\' →
      unescape (c :: rest) = (unescape rest).map (fun r => c.toNat % 256 :: r)) ∧
    (∀ e b rest, (e, b) ∈ [('0', 0), ('n', 10), ('t', 9), ('\\', 92), ('"', 34)] →
      unescape ('\\' :: e :: rest) = (unescape rest).map (fun r => b :: r)) ∧
    (∀ e rest, e ∉ ['0', 'n', 't', '\\', '"'] →
      unescape ('\\' :: e :: rest) = Except.error AsmError.unsupportedEscape) ∧
    unescape ['\\'] = Except.error AsmError.invalidEscape := by
  refine ⟨fun bytes hb hroom => ?_, fun e he => ?_, rfl, unescape_plain, unescape_known,
    unescape_unknown, rfl⟩
  · obtain ⟨v, h1, h2, h3⟩ := pass2DataLine_string_ok s.labelAddress s.dataStart
      ⟨s.dataSection, s.dataAddress, s.dataCursor⟩ line str bytes hc hv hlen hd hb hroom
    unfold pass2Line
    rw [hcl]
    dsimp only
    rw [hcur]
    dsimp only
    rw [h1]
    exact ⟨_, rfl, map_get_set_self _ _ _, rfl, h2, h3, unescape_bytes hb⟩
  · unfold pass2Line
    rw [hcl]
    dsimp only
    rw [hcur]
    dsimp only
    rw [pass2DataLine_string _ _ _ line str hc hv hlen, he]
    rfl

/-- Witness for C16, amended: the line `S: "a\n\""` in front of which the data
section is `[0]` stores the words 97, 10 and 34 from index 0 on and binds `S`
to address 2. -/
theorem string_literal_line_witness :
    ∃ s1, pass2Line dataLineState "S: \"a\\n\\\"\" ; text".toList = Except.ok s1 ∧
      s1.dataAddress.get (trim ("S: \"a\\n\\\"\"".toList.takeWhile (fun c => c != ':'))) =
        some (sz (dataLineState.dataStart + dataLineState.dataCursor)) ∧
      s1.dataCursor = dataLineState.dataCursor + [97, 10, 34].length ∧
      (∀ j, j < [97, 10, 34].length →
        s1.dataSection[dataLineState.dataCursor + j]? = [97, 10, 34][j]?) ∧
      (∀ a, a < dataLineState.dataSection.length →
        (a < dataLineState.dataCursor ∨ dataLineState.dataCursor + [97, 10, 34].length ≤ a) →
        s1.dataSection[a]? = dataLineState.dataSection[a]?) ∧
      (∀ x ∈ [97, 10, 34], x < 256) :=
  (string_literal_line dataLineState "S: \"a\\n\\\"\" ; text".toList
    "S: \"a\\n\\\"\"".toList "a\\n\\\"".toList (by decide) (by decide) (by decide)
    (by decide) (by decide) (by decide)).1 [97, 10, 34] (by decide) (by decide)

/-! ## Data labels and the image -/

theorem pass1Line_dataSize {s s1 : Pass1} {raw : Str} (h : pass1Line s raw = Except.ok s1) :
    s1.dataSize ≤ s.dataSize + 1 := by
  unfold pass1Line at h
  cases hc : classify raw with
  | empty => rw [hc] at h; cases h; omega
  | text => rw [hc] at h; cases h; exact Nat.le_succ _
  | data => rw [hc] at h; cases h; exact Nat.le_succ _
  | org addrStr =>
    rw [hc] at h
    obtain ⟨n, _, h⟩ := bind_ok h
    cases hcur : s.current <;> rw [hcur] at h <;> cases h <;> exact Nat.le_succ _
  | label name =>
    rw [hc] at h
    cases hcur : s.current <;> rw [hcur] at h <;> cases h <;> exact Nat.le_succ _
  | other line =>
    rw [hc] at h
    cases hcur : s.current <;> rw [hcur] at h <;> cases h
    · exact Nat.le_succ _
    · exact Nat.le_succ _
    · exact Nat.mod_le _ _

/-- The first loop counts at most one data entry a line. -/
theorem pass1_dataSize : ∀ (lines : List Str) (s p : Pass1), pass1 lines s = Except.ok p →
    p.dataSize ≤ s.dataSize + lines.length
  | [], s, p, h => by
    simp only [pass1, Except.ok.injEq] at h
    rw [← h]; exact Nat.le_add_right _ _
  | raw :: rest, s, p, h => by
    simp only [pass1] at h
    cases hl : pass1Line s raw with
    | error e => rw [hl] at h; cases h
    | ok s1 =>
      rw [hl] at h
      have h1 := pass1Line_dataSize hl
      have h2 := pass1_dataSize rest s1 p h
      rw [List.length_cons]; omega

theorem resize_length {v v1 : List Nat} {n : Nat} (h : resize v n = Except.ok v1) :
    v1.length = n ∧ n ≤ vectorMaxSize := by
  obtain ⟨h1, h2⟩ := resize_ok h
  refine ⟨?_, h1⟩
  rw [h2, List.length_append, List.length_take, List.length_replicate]
  omega

/-- The two steps that store one word at the index `c`: the vector does not
shrink, the index lies inside it afterwards and holds the word. -/
theorem storeStep_facts {v v1 v2 : List Nat} {c x : Nat}
    (hg : (if v.length ≤ c then resize v (sz (c + 1)) else pure v) = Except.ok v1)
    (hs : setAt v1 c x = Except.ok v2) :
    v.length ≤ v2.length ∧ (v.length < 2 ^ 63 → v2.length < 2 ^ 63) ∧
      c < v2.length ∧ v2[c]? = some x := by
  obtain ⟨hc, e⟩ := setAt_ok hs
  have hl : v2.length = v1.length := by rw [e, List.length_set]
  have hx : v2[c]? = some x := by
    rw [e, List.getElem?_set_self hc]
  split_ifs at hg with hle
  · obtain ⟨r1, r2⟩ := resize_length hg
    have hM : vectorMaxSize < 2 ^ 63 := by decide
    have hsz : sz (c + 1) ≤ c + 1 := Nat.mod_le _ _
    exact ⟨by omega, fun _ => by omega, by omega, hx⟩
  · have e1 : v = v1 := Except.ok.inj hg
    subst e1
    exact ⟨by omega, fun h => by omega, by omega, hx⟩

theorem writeParts_length (la da : Map) : ∀ (parts : List Str) (v : List Nat) (c : Nat)
    (r : List Nat × Nat), writeParts la da parts v c = Except.ok r →
    v.length ≤ r.1.length ∧ (v.length < 2 ^ 63 → r.1.length < 2 ^ 63) ∧
      (parts ≠ [] → c < r.1.length) ∧ (c < 2 ^ 64 → r.2 < 2 ^ 64)
  | [], v, c, r, h => by
    simp only [writeParts, pure, Except.pure, Except.ok.injEq] at h
    rw [← h]
    exact ⟨Nat.le_refl _, fun h => h, fun h => absurd rfl h, fun h => h⟩
  | part :: parts, v, c, r, h => by
    unfold writeParts at h
    obtain ⟨value, _, h⟩ := bind_ok h
    dsimp only at h
    have step : ∃ v1 v2,
        (if v.length ≤ c then resize v (sz (c + 1)) else pure v) = Except.ok v1 ∧
        setAt v1 c value = Except.ok v2 ∧
        writeParts la da parts v2 (sz (c + 1)) = Except.ok r := by
      split_ifs at h with hc
      · obtain ⟨v1, hg, h⟩ := bind_ok h
        obtain ⟨v2, hs, h⟩ := bind_ok h
        exact ⟨v1, v2, by rw [if_pos hc]; exact hg, hs, h⟩
      · obtain ⟨v1, hg, h⟩ := bind_ok h
        obtain ⟨v2, hs, h⟩ := bind_ok h
        exact ⟨v1, v2, by rw [if_neg hc]; exact hg, hs, h⟩
    obtain ⟨v1, v2, hg, hs, h⟩ := step
    obtain ⟨a1, a2, a3, _⟩ := storeStep_facts hg hs
    obtain ⟨b1, b2, _, b4⟩ := writeParts_length la da parts v2 _ r h
    exact ⟨by omega, fun h => b2 (a2 h), fun _ => by omega, fun _ => b4 (sz_lt _)⟩

theorem writeBytes_length (index : Nat) : ∀ (bytes : List Nat) (j : Nat) (v v1 : List Nat),
    writeBytes index bytes j v = Except.ok v1 →
    v1.length = v.length ∧ (bytes ≠ [] → sz (index + j) < v.length)
  | [], _, v, v1, h => by
    simp only [writeBytes, pure, Except.pure, Except.ok.injEq] at h
    rw [← h]
    exact ⟨rfl, fun h => absurd rfl h⟩
  | b :: bytes, j, v, v1, h => by
    unfold writeBytes at h
    obtain ⟨v0, hs, h⟩ := bind_ok h
    obtain ⟨hc, e⟩ := setAt_ok hs
    obtain ⟨a1, _⟩ := writeBytes_length index bytes (j + 1) v0 v1 h
    have hl : v0.length = v.length := by rw [e, List.length_set]
    exact ⟨a1.trans hl, fun _ => hc⟩

theorem unescape_ne_nil {c : Char} {rest : Str} {bytes : List Nat}
    (h : unescape (c :: rest) = Except.ok bytes) : bytes ≠ [] := by
  unfold unescape at h
  split_ifs at h
  · cases rest with
    | nil => cases h
    | cons e rest2 =>
      dsimp only at h
      split_ifs at h <;>
        first
        | (cases h)
        | (obtain ⟨r, _, h⟩ := bind_ok h; cases h; exact List.cons_ne_nil _ _)
  · obtain ⟨r, _, h⟩ := bind_ok h
    cases h
    exact List.cons_ne_nil _ _

theorem stoi_le {s : Str} {v : Int} (h : stoi s = Except.ok v) : v ≤ 2 ^ 31 - 1 := by
  unfold stoi at h
  split at h
  · cases h
  · split_ifs at h with hr
    cases h
    exact hr.2

theorem getlineLoop_ne_nil (delim : Char) : ∀ (s cur : Str), s.contains delim = true →
    getlineLoop delim s cur ≠ []
  | [], _, h => by cases h
  | c :: cs, cur, h => by
    unfold getlineLoop
    by_cases hc : (c == delim) = true
    · rw [if_pos hc]; exact List.cons_ne_nil _ _
    · rw [if_neg hc]
      apply getlineLoop_ne_nil delim cs
      rw [List.contains_cons] at h
      have hd : (delim == c) = false := by
        cases hdc : delim == c with
        | false => rfl
        | true =>
          have e : delim = c := by simpa using hdc
          exact absurd (by rw [e]; simp) hc
      rw [hd, Bool.false_or] at h
      exact h

/-- What a data entry that the second loop accepts does: it binds its label to
`dataStart` + the data cursor, the data vector does not shrink, and an entry
that stores a word stores it at the index of the data cursor. -/
theorem pass2DataLine_facts {la : Map} {ds : Nat} {d d1 : DataState} {line : Str}
    (h : pass2DataLine la ds d line = Except.ok d1) :
    line.contains ':' = true ∧
    d1.dataAddress = d.dataAddress.set (dataLabel line) (sz (ds + d.dataCursor)) ∧
    (d.dataCursor < 2 ^ 64 → d1.dataCursor < 2 ^ 64) ∧
    (d.dataSection.length < 2 ^ 63 →
      d.dataSection.length ≤ d1.dataSection.length ∧ d1.dataSection.length < 2 ^ 63) ∧
    (storesWord line = true → d.dataCursor < 2 ^ 64 →
      d.dataCursor < d1.dataSection.length) ∧
    (isZeroEntry line = false → isNumber (dataValue line) = true →
      ∃ n, parseNumber (dataValue line) = Except.ok n ∧
        d1.dataSection[d.dataCursor]? = some (longToU32 n)) := by
  unfold storesWord isEmptyLiteral isZeroEntry dataValue dataLabel
  unfold pass2DataLine at h
  split_ifs at h with hcolon
  have hcol : line.contains ':' = true := by simpa using hcolon
  refine ⟨hcol, ?_⟩
  dsimp only at h
  split_ifs at h with hz hn hs hl
  · obtain ⟨count, hcount, h⟩ := bind_ok h
    split_ifs at h with hpos
    obtain ⟨v1, hr, h⟩ := bind_ok h
    cases h
    obtain ⟨r1, r2⟩ := resize_length hr
    have hc := stoi_le hcount
    have hM : vectorMaxSize < 2 ^ 63 := by decide
    refine ⟨rfl, fun _ => sz_lt _, fun hlen => ?_, fun hw => ?_, fun hnz => ?_⟩
    · have hsz : sz (d.dataSection.length + count.toNat - 1) =
          d.dataSection.length + count.toNat - 1 := by
        apply sz_of_lt; omega
      rw [hsz] at r1
      dsimp only
      omega
    · rw [hz] at hw; cases hw
    · rw [hz] at hnz; cases hnz
  · have hz := Bool.eq_false_iff.mpr hz
    obtain ⟨n, hp, h⟩ := bind_ok h
    obtain ⟨v1, v2, hg, hst, e⟩ := storeWord_ok h
    obtain ⟨a1, a2, a3, a4⟩ := storeStep_facts hg hst
    rw [e]
    exact ⟨rfl, fun _ => sz_lt _, fun hlen => ⟨a1, a2 hlen⟩, fun _ _ => a3, fun _ _ => ⟨n, hp, a4⟩⟩
  · have hz := Bool.eq_false_iff.mpr hz
    have hn := Bool.eq_false_iff.mpr hn
    obtain ⟨bytes, v1, v2, hb, hg, hw, e⟩ := stringLine_ok h
    obtain ⟨w1, w2⟩ := writeBytes_length _ _ _ _ _ hw
    have hM : vectorMaxSize < 2 ^ 63 := by decide
    have hgrow : d.dataSection.length ≤ v1.length ∧
        (d.dataSection.length < 2 ^ 63 → v1.length < 2 ^ 63) := by
      split_ifs at hg with hlt
      · obtain ⟨r1, r2⟩ := resize_length hg
        exact ⟨by omega, fun _ => by omega⟩
      · have e1 : d.dataSection = v1 := Except.ok.inj hg
        subst e1
        exact ⟨Nat.le_refl _, fun h => h⟩
    rw [e]
    refine ⟨rfl, fun _ => sz_lt _, fun hlen => ⟨by rw [w1]; exact hgrow.1, by rw [w1]; exact hgrow.2 hlen⟩,
      fun hw hcur => ?_, fun _ hnum => ?_⟩
    · rw [hz, hn, hs] at hw
      simp only [Bool.not_true, Bool.not_false, Bool.true_and, Bool.and_true] at hw
      cases hstr : (List.drop 1 (trim (List.drop 1 (List.dropWhile (fun c => c != ':') line)))).take
          (sub64 (trim (List.drop 1 (List.dropWhile (fun c => c != ':') line))).length 2) with
      | nil => rw [hstr] at hw; cases hw
      | cons c rest =>
        rw [hstr] at hb
        have hne := unescape_ne_nil hb
        have := w2 hne
        rw [Nat.add_zero, sz_of_lt hcur] at this
        dsimp only
        omega
    · rw [hn] at hnum; cases hnum
  · have hn := Bool.eq_false_iff.mpr hn
    obtain ⟨r, hw, h⟩ := bind_ok h
    cases h
    obtain ⟨a1, a2, a3, a4⟩ := writeParts_length _ _ _ _ _ r hw
    have hparts : List.map trim (getlineLoop ','
        (trim (List.drop 1 (List.dropWhile (fun c => c != ':') line))) []) ≠ [] := by
      intro hnil
      exact getlineLoop_ne_nil ',' _ [] hl (List.map_eq_nil_iff.mp hnil)
    exact ⟨rfl, a4, fun hlen => ⟨a1, a2 hlen⟩, fun _ _ => a3 hparts,
      fun _ hnum => by rw [hn] at hnum; cases hnum⟩
  · have hn := Bool.eq_false_iff.mpr hn
    split at h
    · obtain ⟨v1, v2, hg, hst, e⟩ := storeWord_ok h
      obtain ⟨a1, a2, a3, a4⟩ := storeStep_facts hg hst
      rw [e]
      exact ⟨rfl, fun _ => sz_lt _, fun hlen => ⟨a1, a2 hlen⟩, fun _ _ => a3,
        fun _ hnum => by rw [hn] at hnum; cases hnum⟩
    · split at h
      · obtain ⟨v1, v2, hg, hst, e⟩ := storeWord_ok h
        obtain ⟨a1, a2, a3, a4⟩ := storeStep_facts hg hst
        rw [e]
        exact ⟨rfl, fun _ => sz_lt _, fun hlen => ⟨a1, a2 hlen⟩, fun _ _ => a3,
          fun _ hnum => by rw [hn] at hnum; cases hnum⟩
      · cases h

theorem sub64_lt (a b : Nat) : sub64 a b < 2 ^ 64 := Nat.mod_lt _ (by decide)

/-- A data entry in the second loop, inside the data section. -/
theorem pass2Line_data_entry {s s1 : Pass2} {raw line : Str}
    (h : pass2Line s raw = Except.ok s1) (hc : classify raw = Line.other line)
    (hcur : s.current = Section.Data) :
    ∃ d, pass2DataLine s.labelAddress s.dataStart
        ⟨s.dataSection, s.dataAddress, s.dataCursor⟩ line = Except.ok d ∧
      s1.dataSection = d.dataSection ∧ s1.dataAddress = d.dataAddress ∧
      s1.dataCursor = d.dataCursor := by
  unfold pass2Line at h
  rw [hc] at h
  dsimp only at h
  rw [hcur] at h
  obtain ⟨d, hd, h⟩ := bind_ok h
  cases h
  exact ⟨d, hd, rfl, rfl, rfl⟩

/-- One iteration of the second loop: the data cursor stays in `size_t`, the
data vector does not shrink, and only a data entry binds a data label. -/
theorem pass2Line_data {s s1 : Pass2} {raw : Str} (h : pass2Line s raw = Except.ok s1) :
    (s.dataCursor < 2 ^ 64 → s1.dataCursor < 2 ^ 64) ∧
    (s.dataSection.length < 2 ^ 63 →
      s.dataSection.length ≤ s1.dataSection.length ∧ s1.dataSection.length < 2 ^ 63) ∧
    (∀ key, (∀ l, classify raw = Line.other l → l.contains ':' = true → dataLabel l ≠ key) →
      s1.dataAddress.get key = s.dataAddress.get key) := by
  cases hc : classify raw with
  | empty => unfold pass2Line at h; rw [hc] at h; cases h; exact ⟨fun h => h, fun h => ⟨Nat.le_refl _, h⟩, fun _ _ => rfl⟩
  | text => unfold pass2Line at h; rw [hc] at h; cases h; exact ⟨fun h => h, fun h => ⟨Nat.le_refl _, h⟩, fun _ _ => rfl⟩
  | data => unfold pass2Line at h; rw [hc] at h; cases h; exact ⟨fun h => h, fun h => ⟨Nat.le_refl _, h⟩, fun _ _ => rfl⟩
  | label name => unfold pass2Line at h; rw [hc] at h; cases h; exact ⟨fun h => h, fun h => ⟨Nat.le_refl _, h⟩, fun _ _ => rfl⟩
  | org addrStr =>
    unfold pass2Line at h
    rw [hc] at h
    obtain ⟨n, _, h⟩ := bind_ok h
    cases hcur : s.current <;> rw [hcur] at h <;> cases h <;>
      first
      | exact ⟨fun h => h, fun h => ⟨Nat.le_refl _, h⟩, fun _ _ => rfl⟩
      | exact ⟨fun _ => sub64_lt _ _, fun h => ⟨Nat.le_refl _, h⟩, fun _ _ => rfl⟩
  | other line =>
    cases hcur : s.current with
    | None =>
      unfold pass2Line at h
      rw [hc] at h
      dsimp only at h
      rw [hcur] at h
      cases h
      exact ⟨fun h => h, fun h => ⟨Nat.le_refl _, h⟩, fun _ _ => rfl⟩
    | Text =>
      unfold pass2Line at h
      rw [hc] at h
      dsimp only at h
      rw [hcur] at h
      obtain ⟨r, _, h⟩ := bind_ok h
      cases h
      exact ⟨fun h => h, fun h => ⟨Nat.le_refl _, h⟩, fun _ _ => rfl⟩
    | Data =>
      obtain ⟨d, hd, e1, e2, e3⟩ := pass2Line_data_entry h hc hcur
      obtain ⟨f0, f1, f2, f3, _, _⟩ := pass2DataLine_facts hd
      rw [e1, e2, e3]
      refine ⟨f2, f3, fun key hkey => ?_⟩
      rw [f1]
      exact map_get_set_ne (hkey line rfl f0)

/-- The second loop: the data cursor stays in `size_t`, the data vector does
not shrink, and a data label that no data entry among the lines binds keeps
its address. -/
theorem pass2_data : ∀ (lines : List Str) (s sf : Pass2), pass2 lines s = Except.ok sf →
    (s.dataCursor < 2 ^ 64 → sf.dataCursor < 2 ^ 64) ∧
    (s.dataSection.length < 2 ^ 63 →
      s.dataSection.length ≤ sf.dataSection.length ∧ sf.dataSection.length < 2 ^ 63) ∧
    (∀ key, (∀ r ∈ lines, ∀ l, classify r = Line.other l → l.contains ':' = true →
        dataLabel l ≠ key) →
      sf.dataAddress.get key = s.dataAddress.get key)
  | [], s, sf, h => by
    simp only [pass2, Except.ok.injEq] at h
    rw [← h]
    exact ⟨fun h => h, fun h => ⟨Nat.le_refl _, h⟩, fun _ _ => rfl⟩
  | raw :: rest, s, sf, h => by
    obtain ⟨s1, hl, hr⟩ := pass2_cons_ok h
    obtain ⟨a1, a2, a3⟩ := pass2Line_data hl
    obtain ⟨b1, b2, b3⟩ := pass2_data rest s1 sf hr
    refine ⟨fun h => b1 (a1 h), fun h => ?_, fun key hkey => ?_⟩
    · obtain ⟨c1, c2⟩ := a2 h
      obtain ⟨c3, c4⟩ := b2 c2
      exact ⟨Nat.le_trans c1 c3, c4⟩
    · rw [b3 key (fun r hr => hkey r (List.mem_cons_of_mem _ hr)),
        a3 key (hkey raw (List.mem_cons_self _ _))]

/-- C10, amended: when the first loop of `parse` counts at least one instruction
line, the codeSize of the header is the dataStart of `parse` (modulo 2^32, and
exactly once `writeToFile` has built the image): data word i lies at address
codeSize + i, every instruction word lies below codeSize, and no data word
shares an address with an instruction word. A data entry `label: value` read
in the data section, at the data cursor k, binds its label to dataStart + k;
that is the address `parse` leaves for the label when no later data entry
binds it again. When index k lies inside the data vector of `parse`, which it
does for every entry that stores a word (every entry but `.zero` and the
empty string literal) of an input shorter than 2^63 characters, that address
is codeSize + k and the image holds word k of the data vector there. For a
numeric value, word k is the value once the entry is read. -/
theorem codeSize_eq_dataStart_of_instruction (inputData : Str) (p : Pass1) (b : Binarizer)
    (hp : pass1 (getlines inputData) {} = Except.ok p) (hText : p.textSize ≠ 0)
    (hb : parse inputData = Except.ok b) :
    b.codeSize = u32 b.dataStart ∧
    (∀ mem, b.image = Except.ok mem →
      b.codeSize = b.dataStart ∧
      (∀ i, i < b.dataSection.length → mem[b.codeSize + i]? = b.dataSection[i]?) ∧
      (∀ j, j < b.instructions.length →
        b.textStart + j < b.codeSize ∧
        mem[b.textStart + j]? = (b.instructions.map Instruction.raw)[j]?) ∧
      (∀ i j, j < b.instructions.length → b.textStart + j ≠ b.dataStart + i)) ∧
    (∀ pre post raw line s, getlines inputData = pre ++ raw :: post →
      pass2 pre (pass2Init p) = Except.ok s → s.current = Section.Data →
      classify raw = Line.other line →
      ∃ s1, pass2Line s raw = Except.ok s1 ∧
        s1.dataAddress.get (dataLabel line) = some (sz (b.dataStart + s.dataCursor)) ∧
        ((∀ r ∈ post, ∀ l, classify r = Line.other l → l.contains ':' = true →
            dataLabel l ≠ dataLabel line) →
          b.dataAddress.get (dataLabel line) = some (sz (b.dataStart + s.dataCursor))) ∧
        (inputData.length < 2 ^ 63 → storesWord line = true →
          s.dataCursor < b.dataSection.length) ∧
        (isZeroEntry line = false → isNumber (dataValue line) = true →
          ∃ n, parseNumber (dataValue line) = Except.ok n ∧
            s1.dataSection[s.dataCursor]? = some (longToU32 n)) ∧
        (∀ mem, b.image = Except.ok mem → s.dataCursor < b.dataSection.length →
          sz (b.dataStart + s.dataCursor) = b.codeSize + s.dataCursor ∧
          mem[sz (b.dataStart + s.dataCursor)]? = b.dataSection[s.dataCursor]?)) := by
  obtain ⟨h1, h2, _, h4, h5, h6, _⟩ := parse_layout hp hb
  have hlen := h6 hText
  have hcs : b.codeSize = u32 b.dataStart := by
    unfold Binarizer.codeSize; rw [h1, h2, hlen]
  have hds : b.dataStart < 2 ^ 64 := by rw [h2]; exact sz_lt _
  have hins : b.instructions ≠ [] := by
    intro h; rw [h] at hlen; exact hText hlen.symm
  have himg : ∀ mem, b.image = Except.ok mem →
      mem.length < 2 ^ 32 ∧ b.codeSize = b.dataStart ∧
      b.dataStart = b.textStart + b.instructions.length ∧
      (b.dataSection ≠ [] → b.dataStart + b.dataSection.length ≤ mem.length) ∧
      (∀ i, i < b.dataSection.length → mem[b.codeSize + i]? = b.dataSection[i]?) ∧
      (∀ j, j < b.instructions.length →
        b.textStart + j < b.codeSize ∧
        mem[b.textStart + j]? = (b.instructions.map Instruction.raw)[j]?) := by
    intro mem hm
    obtain ⟨m1, m2, m3, m4⟩ := image_layout hm (by rw [h1]; exact h4) hds
    have hle := m2 hins
    have hM : mem.length < 2 ^ 32 := by rw [m1]; exact u32_lt _
    have hds2 : b.dataStart = b.textStart + b.instructions.length := by
      rw [h2, hlen, h1]; unfold sz; omega
    have hcs2 : b.codeSize = b.dataStart := by
      rw [hcs]; unfold u32; omega
    refine ⟨hM, hcs2, hds2, m3, fun i hi => ?_, fun j hj => ⟨by omega, ?_⟩⟩
    · rw [m4, hcs2, if_pos ⟨by omega, by omega⟩, Nat.add_sub_cancel_left]
    · rw [m4, if_neg (by omega), if_pos ⟨by omega, by omega⟩, Nat.add_sub_cancel_left]
  refine ⟨hcs, fun mem hm => ?_, fun pre post raw line s hlines hpre hcur hcl => ?_⟩
  · obtain ⟨_, g2, g0, _, g4, g5⟩ := himg mem hm
    exact ⟨g2, g4, g5, fun i j hj => by omega⟩
  · obtain ⟨p1, sf, q1, q2, q3⟩ := parse_ok hb
    rw [hp] at q1
    cases q1
    rw [hlines] at q2
    obtain ⟨s0, hs0, hrest⟩ := pass2_append_ok q2
    rw [hpre] at hs0
    cases hs0
    obtain ⟨s1, hl, hpost⟩ := pass2_cons_ok hrest
    obtain ⟨_, _, f2, f3, f4, _, _⟩ := finish_ok q3
    obtain ⟨_, e2, _, _⟩ := pass2_frame _ _ _ hpre
    have hsds : s.dataStart = b.dataStart := by
      rw [e2, h2]; rfl
    obtain ⟨d, hd, d1, d2, d3⟩ := pass2Line_data_entry hl hcl hcur
    obtain ⟨_, k1, _, _, k4, k5⟩ := pass2DataLine_facts hd
    obtain ⟨u1, u2, _⟩ := pass2_data _ _ _ hpre
    obtain ⟨_, w2, _⟩ := pass2Line_data hl
    obtain ⟨_, v2, v3⟩ := pass2_data _ _ _ hpost
    have hcursor : s.dataCursor < 2 ^ 64 := u1 (by show 0 < 2 ^ 64; decide)
    have hbind : s1.dataAddress.get (dataLabel line) =
        some (sz (b.dataStart + s.dataCursor)) := by
      rw [d2, k1, ← hsds]
      exact map_get_set_self _ _ _
    refine ⟨s1, hl, hbind, fun hlater => ?_, fun hshort hw => ?_, fun hz hnum => ?_,
      fun mem hm hin => ?_⟩
    · rw [f4, v3 _ hlater]
      exact hbind
    · have hlines_le := getlines_length inputData
      have hsize := pass1_dataSize _ _ _ hp
      have hinit : (pass2Init p).dataSection.length < 2 ^ 63 := by
        show (List.replicate p.dataSize 0).length < 2 ^ 63
        rw [List.length_replicate]
        have : ({} : Pass1).dataSize = 0 := rfl
        omega
      obtain ⟨_, x2⟩ := u2 hinit
      obtain ⟨_, y2⟩ := w2 x2
      obtain ⟨z1, _⟩ := v2 y2
      have hk := k4 hw hcursor
      dsimp only at hk
      rw [f3]
      rw [d1] at z1
      omega
    · obtain ⟨n, hn, hv⟩ := k5 hz hnum
      exact ⟨n, hn, by rw [d1]; exact hv⟩
    · obtain ⟨g1, g2, _, g3, g4, _⟩ := himg mem hm
      have hne : b.dataSection ≠ [] := by
        intro h; rw [h] at hin; exact absurd hin (Nat.not_lt_zero _)
      have hle := g3 hne
      have hsz : sz (b.dataStart + s.dataCursor) = b.dataStart + s.dataCursor := by
        apply sz_of_lt; omega
      rw [hsz, ← g2]
      exact ⟨rfl, g4 _ hin⟩

/-- The data entries left out of the last part of C10 bind a label to an index
where the data vector has no word. After the three words of `S`, the entry
`Z: .zero 1` resizes the vector to its own length, and the empty literal of
the second program stores nothing: `Z` and `E` get the address 5, and the
image, the reset word, `halt` and the three words of `S`, ends at address 4. -/
theorem entry_without_word_is_outside_image :
    parse ".data\nS: \"Hi!\"\nZ: .zero 1\n.text\n_start:\nhalt\n".toList =
      Except.ok { textStart := 1, dataStart := 2, dataSection := [72, 105, 33],
                  dataAddress := [("Z".toList, 5), ("S".toList, 2)],
                  instructions := [⟨0b100010, 0⟩],
                  labelAddress := [("_start".toList, 1)] } ∧
    (parse ".data\nS: \"Hi!\"\nZ: .zero 1\n.text\n_start:\nhalt\n".toList).bind Binarizer.image =
      Except.ok [0x0A000001, 0x22000000, 72, 105, 33] ∧
    storesWord "Z: .zero 1".toList = false ∧
    parse ".data\nS: \"Hi!\"\nE: \"\"\n.text\n_start:\nhalt\n".toList =
      Except.ok { textStart := 1, dataStart := 2, dataSection := [72, 105, 33],
                  dataAddress := [("E".toList, 5), ("S".toList, 2)],
                  instructions := [⟨0b100010, 0⟩],
                  labelAddress := [("_start".toList, 1)] } ∧
    storesWord "E: \"\"".toList = false ∧
    storesWord "S: \"Hi!\"".toList = true ∧ storesWord "A: 5".toList = true ∧
    storesWord "L: 1, 2".toList = true ∧ storesWord "P: S".toList = true := by
  decide

/-- Witness for C10, amended: the program `ldProgram`, a data word and two
instructions. Its data entry `A: 5` is read at the data cursor 0: `A` resolves
to codeSize + 0 and the image holds the word 5 there. -/
theorem codeSize_eq_dataStart_of_instruction_witness :
    ldProgramParsed.codeSize = u32 ldProgramParsed.dataStart ∧
    ldProgramParsed.codeSize = ldProgramParsed.dataStart ∧
    (∀ i, i < ldProgramParsed.dataSection.length →
      ldProgramImage[ldProgramParsed.codeSize + i]? = ldProgramParsed.dataSection[i]?) ∧
    ldProgramParsed.dataAddress.get "A".toList = some (ldProgramParsed.codeSize + 0) ∧
    ldProgramImage[ldProgramParsed.codeSize + 0]? = some 5 := by
  have h := codeSize_eq_dataStart_of_instruction ldProgram ldProgramPass1 ldProgramParsed
    (by decide) (by decide) (by decide)
  obtain ⟨s1, _, _, hfinal, hin, _, himage⟩ := h.2.2 [".data".toList]
    [".text".toList, "_start:".toList, "ld A".toList, "halt".toList] "A: 5".toList
    "A: 5".toList { pass2Init ldProgramPass1 with current := Section.Data }
    (by decide) (by decide) rfl (by decide)
  have hlater : ∀ r ∈ [".text".toList, "_start:".toList, "ld A".toList, "halt".toList],
      ∀ l, classify r = Line.other l → l.contains ':' = true →
        dataLabel l ≠ dataLabel "A: 5".toList := by
    intro r hr l hc hcol
    simp only [List.mem_cons, List.mem_singleton, List.not_mem_nil, or_false] at hr
    rcases hr with e | e | e | e
    · rw [e, show classify ".text".toList = Line.text by decide] at hc
      cases hc
    · rw [e, show classify "_start:".toList = Line.label "_start".toList by decide] at hc
      cases hc
    · rw [e, show classify "ld A".toList = Line.other "ld A".toList by decide] at hc
      cases hc
      exact absurd hcol (by decide)
    · rw [e, show classify "halt".toList = Line.other "halt".toList by decide] at hc
      cases hc
      exact absurd hcol (by decide)
  obtain ⟨e1, e2⟩ := himage ldProgramImage (by decide) (hin (by decide) (by decide))
  refine ⟨h.1, (h.2.1 ldProgramImage (by decide)).1, (h.2.1 ldProgramImage (by decide)).2.1,
    ?_, ?_⟩
  · have hA := hfinal hlater
    rw [e1] at hA
    exact hA
  · rw [e1] at e2
    exact e2

/-! ## Flags are written on request only -/

/-- C30: with `writeFlags` clear, `perform` gives back the flags register as it
was (all four flags), whatever the operation and the inputs, and still stores
the value of the operation as the result; so the flags register after
`perform` differs from the one before only when `writeFlags` is set. -/
theorem perform_without_writeFlags (host : ShiftHost) (alu : ALU) (left right : Nat)
    (flags : Option FlagsRegister) :
    (alu.writeFlags = false →
      (ALU.perform host alu left right flags).2 = flags ∧
      (ALU.perform host alu left right flags).1.result =
        (ALU.compute host alu.operation left right).1 ∧
      (ALU.perform host alu left right flags).1.operation = alu.operation ∧
      (ALU.perform host alu left right flags).1.writeFlags = false) ∧
    ((ALU.perform host alu left right flags).2 ≠ flags → alu.writeFlags = true) := by
  unfold ALU.perform
  cases hw : alu.writeFlags
  · exact ⟨fun _ => ⟨rfl, rfl, rfl, rfl⟩, fun h => absurd rfl h⟩
  · exact ⟨fun h => Bool.noConfusion h, fun _ => rfl⟩

/-! ## The hash of the log -/

/-- One round of the loop of `update`, on the value of `hash_`. -/
theorem updateLoop_append : ∀ (xs pre : List Nat) (h : Nat),
    IncrementalFNV1a.updateLoop (pre ++ xs) xs.length pre.length h =
      some (xs.foldl (fun h b => u64 ((h ^^^ (b % 256)) * FNV_prime)) h)
  | [], _, _ => rfl
  | x :: xs, pre, h => by
    have hx : (pre ++ x :: xs)[pre.length]? = some x := by
      rw [List.getElem?_append_right (Nat.le_refl _), Nat.sub_self, List.getElem?_cons_zero]
    have ih := updateLoop_append xs (pre ++ [x]) (u64 ((h ^^^ (x % 256)) * FNV_prime))
    rw [List.append_assoc, List.length_append] at ih
    simp only [List.length_cons, List.length_nil, List.singleton_append, Nat.zero_add] at ih
    simp only [List.length_cons, IncrementalFNV1a.updateLoop, hx, List.foldl_cons]
    exact ih

theorem update_eq (s : IncrementalFNV1a) (data : List Nat) :
    s.update data data.length =
      some { hash_ := data.foldl (fun h b => u64 ((h ^^^ (b % 256)) * FNV_prime)) s.hash_ } := by
  unfold IncrementalFNV1a.update
  rw [show IncrementalFNV1a.updateLoop data data.length 0 s.hash_ =
    IncrementalFNV1a.updateLoop ([] ++ data) data.length ([] : List Nat).length s.hash_ from rfl,
    updateLoop_append]
  rfl

theorem fold_bytes (bs : List Nat) : ∀ (h : Nat), (∀ b ∈ bs, b < 256) →
    bs.foldl (fun h b => u64 ((h ^^^ (b % 256)) * FNV_prime)) h =
      bs.foldl (fun h b => ((h ^^^ b) * 0x100000001b3) % 2 ^ 64) h := by
  induction bs with
  | nil => intro h _; simp only [List.foldl_nil]
  | cons b bs ih =>
    intro h hb
    have hlt : b < 256 := hb b (List.mem_cons_self _ _)
    simp only [List.foldl_cons]
    rw [ih _ (fun x hx => hb x (List.mem_cons_of_mem _ hx)), Nat.mod_eq_of_lt hlt]
    unfold u64 FNV_prime
    rfl

theorem updateChunks_eq : ∀ (chunks : List (List Nat)) (s : IncrementalFNV1a),
    updateChunks s chunks = s.update chunks.flatten chunks.flatten.length
  | [], s => by
    rw [update_eq]; rfl
  | c :: cs, s => by
    rw [updateChunks, update_eq s c]
    dsimp only
    rw [updateChunks_eq cs, update_eq, update_eq, List.flatten_cons, List.foldl_append]

/-- C21: a fresh `IncrementalFNV1a` updated with the bytes `bs` returns from
`final` the FNV-1a-64 hash of `bs`, the fold
h := ((h xor b) * 0x100000001b3) mod 2^64 from 0xcbf29ce484222325; with no
update `final` is 0xcbf29ce484222325. -/
theorem fresh_update_final (bs : List Nat) (hbs : ∀ b ∈ bs, b < 256) :
    (IncrementalFNV1a.new.update bs bs.length).map IncrementalFNV1a.final =
      some (fnv1a64 bs) ∧
    IncrementalFNV1a.new.final = 0xcbf29ce484222325 := by
  refine ⟨?_, rfl⟩
  rw [update_eq, fold_bytes bs _ hbs]
  rfl

/-- Witness for C21: the hash of the one byte `a` (97). -/
theorem fresh_update_final_witness :
    (IncrementalFNV1a.new.update [97] [97].length).map IncrementalFNV1a.final =
      some (fnv1a64 [97]) ∧
    fnv1a64 [97] = 0xaf63dc4c8601ec8c :=
  ⟨(fresh_update_final [97] (by decide)).1, by decide⟩

/-- C22: an update with `a` followed by an update with `b` leaves the same
state, hence the same `final`, as one update with `a ++ b`; a sequence of
updates with the chunks of a log leaves the same state as one update with the
whole log, and from a fresh object its `final` is the FNV-1a-64 hash of the
whole log, however the log is split. -/
theorem update_concat (s : IncrementalFNV1a) (a b : List Nat) :
    ((s.update a a.length).bind fun s1 => s1.update b b.length) =
      s.update (a ++ b) (a ++ b).length ∧
    (∀ chunks : List (List Nat),
      updateChunks s chunks = s.update chunks.flatten chunks.flatten.length) ∧
    (∀ chunks : List (List Nat), (∀ x ∈ chunks.flatten, x < 256) →
      (updateChunks IncrementalFNV1a.new chunks).map IncrementalFNV1a.final =
        some (fnv1a64 chunks.flatten)) := by
  refine ⟨?_, fun chunks => updateChunks_eq chunks s, fun chunks hx => ?_⟩
  · rw [update_eq, update_eq, List.foldl_append]
    show IncrementalFNV1a.update _ b b.length = _
    rw [update_eq]
  · rw [updateChunks_eq, update_eq, fold_bytes _ _ hx]
    rfl

/-! ## The interrupt controller -/

/-- C23: while an interrupt is in progress (IPC set) `setIRQ` leaves the whole
handler as it was, the pending request included; with IPC clear it stores the
request and changes no other member. -/
theorem setIRQ_dropped_while_in_progress (s : InterruptHandler) (irq : IRQType) :
    (s.ipc = true → s.setIRQ irq = s) ∧
    (s.ipc = false → s.setIRQ irq = { s with irq := irq }) := by
  unfold InterruptHandler.setIRQ
  constructor <;> intro h <;> rw [h] <;> rfl

/-- C24: `shouldInterrupt` is true exactly when IE is set, a request other
than NONE is pending and IPC is clear; it is false whenever IE is clear or IPC
is set. -/
theorem shouldInterrupt_iff (s : InterruptHandler) :
    (s.shouldInterrupt = true ↔ s.ie = true ∧ s.irq ≠ IRQType.NONE ∧ s.ipc = false) ∧
    (s.ie = false ∨ s.ipc = true → s.shouldInterrupt = false) := by
  unfold InterruptHandler.shouldInterrupt
  cases s.ie <;> cases s.ipc <;> cases s.irq <;> decide

/-! ## The memory -/

theorem new_data : Memory.new.data = List.replicate MEM_SIZE 0 := by
  unfold Memory.new Memory.reset resizeTo
  simp only [List.take_nil, List.nil_append, List.length_nil, Nat.sub_zero]

theorem new_length : Memory.new.data.length = MEM_SIZE := by
  rw [new_data, List.length_replicate]

theorem at_new {b : Nat} (hb : b < MEM_SIZE) : Memory.new.at b = Except.ok 0 := by
  unfold Memory.at
  rw [if_neg (by omega), new_data, List.getElem?_replicate, if_pos hb]

theorem at_eq (m : Memory) {a : Nat} (ha : a < MEM_SIZE) (hm : m.data.length = MEM_SIZE) :
    ∃ v, m.data[a]? = some v ∧ m.at a = Except.ok v := by
  have hlt : a < m.data.length := by omega
  refine ⟨m.data[a], List.getElem?_eq_getElem hlt, ?_⟩
  unfold Memory.at
  rw [if_neg (by omega), List.getElem?_eq_getElem hlt]

theorem at_fails (m : Memory) {a : Nat} (ha : a ≥ MEM_SIZE) :
    m.at a = Except.error MemError.accessOutOfBounds := by
  unfold Memory.at
  rw [if_pos ha]

theorem write_fails (m : Memory) {a : Nat} (v : Nat) (ha : a ≥ MEM_SIZE) :
    m.write a v = (Except.error MemError.writeOutOfBounds, m) := by
  unfold Memory.write
  rw [if_pos ha]

theorem write_ok (m : Memory) {a : Nat} (v : Nat) (ha : a < MEM_SIZE)
    (hm : m.data.length = MEM_SIZE) :
    m.write a v = (Except.ok (), { data := m.data.set a v }) := by
  unfold Memory.write
  rw [if_neg (by omega), if_pos (by omega)]

theorem at_write_self (m : Memory) {a : Nat} (v : Nat) (ha : a < MEM_SIZE)
    (hm : m.data.length = MEM_SIZE) : (m.write a v).2.at a = Except.ok v := by
  rw [write_ok m v ha hm]
  unfold Memory.at
  rw [if_neg (by omega)]
  dsimp only
  rw [List.getElem?_set_self (by omega)]

theorem at_write_ne (m : Memory) {a b : Nat} (v : Nat) (ha : a < MEM_SIZE)
    (hm : m.data.length = MEM_SIZE) (hb : b ≠ a) : (m.write a v).2.at b = m.at b := by
  rw [write_ok m v ha hm]
  unfold Memory.at
  dsimp only
  rw [List.getElem?_set_ne (Ne.symm hb)]

theorem at_set_self (data : List Nat) {a : Nat} (v : Nat) (ha : a < MEM_SIZE)
    (hl : data.length = MEM_SIZE) :
    Memory.at { data := data.set a v } a = Except.ok v := by
  unfold Memory.at
  rw [if_neg (by omega)]
  dsimp only
  rw [List.getElem?_set_self (by omega)]

theorem write_length (m : Memory) (a v : Nat) :
    (m.write a v).2.data.length = m.data.length := by
  unfold Memory.write
  split_ifs
  · rfl
  · exact List.length_set _ _ _
  · rfl

/-- C27: a freshly constructed memory has 2^24 words, all 0. On a memory of
2^24 words (a fresh one, also after writes) `write` and `at` fail exactly for
addresses from 2^24 on; a failing `write` leaves the memory as it was; a
successful `write(a, v)` makes `at(a)` return `v`, leaves every other word as
it was and keeps the 2^24 words. -/
theorem memory_bounds (m : Memory) (a v : Nat) (hm : m.data.length = MEM_SIZE) :
    MEM_SIZE = 2 ^ 24 ∧
    Memory.new.data.length = MEM_SIZE ∧
    (∀ b, b < MEM_SIZE → Memory.new.at b = Except.ok 0) ∧
    ((∃ e, (m.write a v).1 = Except.error e) ↔ a ≥ MEM_SIZE) ∧
    ((∃ e, m.at a = Except.error e) ↔ a ≥ MEM_SIZE) ∧
    (a ≥ MEM_SIZE → (m.write a v).2 = m) ∧
    (a < MEM_SIZE → (m.write a v).1 = Except.ok () ∧ (m.write a v).2.at a = Except.ok v ∧
      (∀ b, b ≠ a → (m.write a v).2.at b = m.at b) ∧
      (m.write a v).2.data.length = MEM_SIZE) := by
  refine ⟨by decide, new_length, fun b hb => at_new hb, ?_, ?_, ?_, ?_⟩
  · constructor
    · rintro ⟨e, he⟩
      by_contra hlt
      rw [write_ok m v (by omega) hm] at he
      cases he
    · intro ha
      exact ⟨_, by rw [write_fails m v ha]⟩
  · constructor
    · rintro ⟨e, he⟩
      by_contra hlt
      obtain ⟨w, _, hw⟩ := at_eq m (show a < MEM_SIZE by omega) hm
      rw [hw] at he
      cases he
    · intro ha
      exact ⟨_, at_fails m ha⟩
  · intro ha
    rw [write_fails m v ha]
  · intro ha
    refine ⟨by rw [write_ok m v ha hm], at_write_self m v ha hm,
      fun b hb => at_write_ne m v ha hm hb, ?_⟩
    rw [write_length, hm]

/-- Witness for C27: on a fresh memory `write(0x10, 7)` succeeds, `at(0x10)`
is then 7 and `at(0x11)` still 0. -/
theorem memory_bounds_witness :
    Memory.new.data.length = MEM_SIZE ∧
    (Memory.new.write 0x10 7).1 = Except.ok () ∧
    (Memory.new.write 0x10 7).2.at 0x10 = Except.ok 7 ∧
    (Memory.new.write 0x10 7).2.at 0x11 = Except.ok 0 :=
  have h := memory_bounds Memory.new 0x10 7 new_length
  have g := h.2.2.2.2.2.2 (by decide)
  ⟨h.2.1, g.1, g.2.1, (g.2.2.1 0x11 (by decide)).trans (h.2.2.1 0x11 (by decide))⟩

/-- C28: the constructor leaves 2^24 words and `write` keeps the number of
words, but `reset` is `data.clear()` and nothing fills the vector again: after
`reset` the memory holds no word, `at` and `write` fail for every address
(below 2^24 through the range check of `data.at`), and the memory stays
empty. -/
theorem reset_leaves_memory_empty (m : Memory) (a v : Nat) :
    Memory.new.data.length = MEM_SIZE ∧
    (m.write a v).2.data.length = m.data.length ∧
    m.reset.data.length = 0 ∧
    (∃ e, m.reset.at a = Except.error e) ∧
    (∃ e, (m.reset.write a v).1 = Except.error e) ∧
    (m.reset.write a v).2.data.length = 0 ∧
    Memory.new.reset.at 0 = Except.error MemError.vectorRange ∧
    (Memory.new.reset.write 0 1).1 = Except.error MemError.vectorRange := by
  refine ⟨new_length, write_length m a v, rfl, ?_, ?_, ?_, ?_, ?_⟩
  · unfold Memory.at Memory.reset
    split_ifs
    · exact ⟨_, rfl⟩
    · exact ⟨_, rfl⟩
  · unfold Memory.write Memory.reset
    split_ifs with h1 h2
    · exact ⟨_, rfl⟩
    · simp at h2
    · exact ⟨_, rfl⟩
  · rw [write_length]; rfl
  · unfold Memory.at Memory.reset
    rw [if_neg (by decide)]
    rfl
  · unfold Memory.write Memory.reset
    rw [if_neg (by decide), if_neg (by simp)]

/-! ## The input and output of the machine -/

theorem setIRQ_idem (h : InterruptHandler) (irq : IRQType) :
    (h.setIRQ irq).setIRQ irq = h.setIRQ irq := by
  unfold InterruptHandler.setIRQ
  cases hi : h.ipc
  · simp only [Bool.not_false, if_true, hi]
  · simp only [Bool.not_true, Bool.false_eq_true, if_false, hi]

theorem inputStep_fst (p : InterruptHandler × Memory) (e : IOScheduleEntry) :
    (inputStep p e).1 = p.1.setIRQ IRQType.IO_INPUT := rfl

theorem inputStep_snd (p : InterruptHandler × Memory) (e : IOScheduleEntry) :
    (inputStep p e).2 = (p.2.write input_address (intToU32 e.token)).2 := rfl

theorem inputLoop_eq (t : Nat) : ∀ (sched : List IOScheduleEntry) (h : InterruptHandler)
    (m : Memory), m.data.length = MEM_SIZE →
    IOSimulator.inputLoop t sched h m = Except.ok ((entriesAt t sched).foldl inputStep (h, m))
  | [], _, _, _ => rfl
  | e :: rest, h, m, hm => by
    have ha : input_address < MEM_SIZE := by decide
    have hw := write_ok m (intToU32 e.token) ha hm
    unfold IOSimulator.inputLoop entriesAt
    by_cases ht : (e.tick == t) = true
    · simp only [List.filter_cons, ht, if_true, List.foldl_cons]
      rw [hw]
      dsimp only
      have ih := inputLoop_eq t rest (h.setIRQ IRQType.IO_INPUT)
        { data := m.data.set input_address (intToU32 e.token) }
        (by rw [← hm]; exact List.length_set _ _ _)
      rw [ih]
      have hs : inputStep (h, m) e = (h.setIRQ IRQType.IO_INPUT,
          { data := m.data.set input_address (intToU32 e.token) }) := by
        unfold inputStep
        rw [hw]
      rw [hs]
      rfl
    · simp only [List.filter_cons, ht, if_false]
      exact inputLoop_eq t rest h m hm

theorem inputStep_fold (h : InterruptHandler) (m : Memory) (hm : m.data.length = MEM_SIZE)
    (es : List IOScheduleEntry) :
    (es.foldl inputStep (h, m)).2.data.length = MEM_SIZE ∧
    (∀ b, b ≠ input_address → (es.foldl inputStep (h, m)).2.at b = m.at b) ∧
    (es = [] → es.foldl inputStep (h, m) = (h, m)) ∧
    (∀ e, es.getLast? = some e →
      (es.foldl inputStep (h, m)).1 = h.setIRQ IRQType.IO_INPUT ∧
      (es.foldl inputStep (h, m)).2.at input_address = Except.ok (intToU32 e.token)) := by
  have ha : input_address < MEM_SIZE := by decide
  induction es using List.reverseRecOn with
  | nil =>
    refine ⟨hm, fun _ _ => rfl, fun _ => rfl, fun e he => ?_⟩
    simp at he
  | append_singleton init e ih =>
    obtain ⟨i1, i2, i3, i4⟩ := ih
    rw [List.foldl_append, List.foldl_cons, List.foldl_nil]
    refine ⟨?_, fun b hb => ?_, fun hn => ?_, fun e1 he1 => ?_⟩
    · rw [inputStep_snd, write_length]; exact i1
    · rw [inputStep_snd, at_write_ne _ _ ha i1 hb]
      exact i2 b hb
    · simp at hn
    · rw [List.getLast?_concat] at he1
      have e1e : e = e1 := Option.some.inj he1
      subst e1e
      refine ⟨?_, by rw [inputStep_snd]; exact at_write_self _ _ ha i1⟩
      rw [inputStep_fst]
      cases hinit : init.getLast? with
      | none =>
        rw [List.getLast?_eq_none_iff] at hinit
        rw [i3 hinit]
      | some e0 =>
        rw [(i4 e0 hinit).1, setIRQ_idem]

theorem charByte_toChar (charSigned : Bool) (w : Nat) :
    charByte (toChar charSigned w) = w % 256 := by
  unfold charByte toChar
  split_ifs <;> omega

theorem toChar_small (charSigned : Bool) {w : Nat} (h : w % 256 < 128) :
    toChar charSigned w = ((w % 256 : Nat) : Int) := by
  unfold toChar
  rw [if_neg]
  simp only [Bool.and_eq_true, decide_eq_true_eq, not_and]
  intro _
  omega

theorem outputPart_spec (charSigned : Bool) (s : IOSimulator) (t w : Nat)
    (hm : s.memory.data.length = MEM_SIZE) (hw : s.memory.at output_address = Except.ok w) :
    ∃ s1, s.outputPart charSigned t = Except.ok s1 ∧
      s1.interruptHandler = s.interruptHandler ∧ s1.inputSchedule = s.inputSchedule ∧
      s1.memory.at output_address = Except.ok 0 ∧
      (∀ b, b ≠ output_address → s1.memory.at b = s.memory.at b) ∧
      s1.memory.data.length = MEM_SIZE ∧
      (w ≠ 0 →
        s1.outputSchedule = s.outputSchedule ++ [{ tick := t, token := toChar charSigned w }] ∧
        s1.outputFile = s.outputFile.map (fun written => written ++ [w % 256])) ∧
      (w = 0 → s1.outputSchedule = s.outputSchedule ∧ s1.outputFile = s.outputFile) := by
  have ha : output_address < MEM_SIZE := by decide
  unfold IOSimulator.outputPart
  rw [hw]
  dsimp only
  by_cases hz : w = 0
  · subst hz
    rw [if_neg (by decide)]
    exact ⟨s, rfl, rfl, rfl, hw, fun _ _ => rfl, hm, fun h => absurd rfl h, fun _ => ⟨rfl, rfl⟩⟩
  · have hne : (w != 0) = true := by simpa using hz
    rw [if_pos hne]
    cases hf : s.outputFile with
    | none =>
      simp only [IOSimulator.output, hf]
      rw [write_ok s.memory 0 ha hm]
      refine ⟨_, rfl, rfl, rfl, ?_, fun b hb => ?_, ?_, fun _ => ⟨rfl, ?_⟩, fun h => absurd h hz⟩
      · have := at_write_self s.memory 0 ha hm
        rw [write_ok s.memory 0 ha hm] at this
        exact this
      · have := at_write_ne s.memory 0 ha hm hb
        rw [write_ok s.memory 0 ha hm] at this
        exact this
      · show (s.memory.data.set output_address 0).length = MEM_SIZE
        rw [List.length_set, hm]
      · rfl
    | some written =>
      simp only [IOSimulator.output, hf]
      rw [write_ok s.memory 0 ha hm]
      refine ⟨_, rfl, rfl, rfl, ?_, fun b hb => ?_, ?_, fun _ => ⟨rfl, ?_⟩, fun h => absurd h hz⟩
      · have := at_write_self s.memory 0 ha hm
        rw [write_ok s.memory 0 ha hm] at this
        exact this
      · have := at_write_ne s.memory 0 ha hm hb
        rw [write_ok s.memory 0 ha hm] at this
        exact this
      · show (s.memory.data.set output_address 0).length = MEM_SIZE
        rw [List.length_set, hm]
      · show some (written ++ [charByte (toChar charSigned w)]) = _
        rw [charByte_toChar]
        rfl

/-- C25: on a memory of 2^24 words `check(t)` returns, and its input part
goes through the entries of the schedule whose tick is `t` in schedule order,
calling `setIRQ(IO_INPUT)` and writing the token (as a 32-bit word) to
memory[0x10] for each. If there is such an entry, the handler after `check` is
the one before with `setIRQ(IO_INPUT)` applied (the request is pending unless
an interrupt is in progress) and memory[0x10] holds the token of the last such
entry; if there is none, the handler and memory[0x10] are as before. -/
theorem check_input (charSigned : Bool) (s : IOSimulator) (t : Nat)
    (hm : s.memory.data.length = MEM_SIZE) :
    ∃ s0 s1, s.inputPart t = Except.ok s0 ∧ s0.outputPart charSigned t = Except.ok s1 ∧
      s.check charSigned t = Except.ok s1 ∧
      (s0.interruptHandler, s0.memory) =
        (entriesAt t s.inputSchedule).foldl inputStep (s.interruptHandler, s.memory) ∧
      s1.interruptHandler = s0.interruptHandler ∧
      s1.memory.at input_address = s0.memory.at input_address ∧
      (∀ e, (entriesAt t s.inputSchedule).getLast? = some e →
        s1.interruptHandler = s.interruptHandler.setIRQ IRQType.IO_INPUT ∧
        (s.interruptHandler.ipc = false → s1.interruptHandler.irq = IRQType.IO_INPUT) ∧
        s1.memory.at input_address = Except.ok (intToU32 e.token)) ∧
      (entriesAt t s.inputSchedule = [] →
        s1.interruptHandler = s.interruptHandler ∧
        s1.memory.at input_address = s.memory.at input_address) := by
  obtain ⟨f1, f2, f3, f4⟩ :=
    inputStep_fold s.interruptHandler s.memory hm (entriesAt t s.inputSchedule)
  have hin : s.inputPart t = Except.ok { s with
      interruptHandler :=
        ((entriesAt t s.inputSchedule).foldl inputStep (s.interruptHandler, s.memory)).1,
      memory :=
        ((entriesAt t s.inputSchedule).foldl inputStep (s.interruptHandler, s.memory)).2 } := by
    unfold IOSimulator.inputPart
    rw [inputLoop_eq t s.inputSchedule s.interruptHandler s.memory hm]
  obtain ⟨w, _, hw⟩ := at_eq
    ((entriesAt t s.inputSchedule).foldl inputStep (s.interruptHandler, s.memory)).2
    (show output_address < MEM_SIZE by decide) f1
  obtain ⟨s1, o1, o2, _, _, o5, _, _, _⟩ := outputPart_spec charSigned _ t w
    (show ({ s with
      interruptHandler :=
        ((entriesAt t s.inputSchedule).foldl inputStep (s.interruptHandler, s.memory)).1,
      memory :=
        ((entriesAt t s.inputSchedule).foldl inputStep (s.interruptHandler, s.memory)).2 } :
      IOSimulator).memory.data.length = MEM_SIZE from f1) hw
  have hio : input_address ≠ output_address := by decide
  refine ⟨_, s1, hin, o1, ?_, rfl, o2, o5 _ hio, fun e he => ?_, fun hn => ?_⟩
  · unfold IOSimulator.check
    rw [hin]
    exact o1
  · obtain ⟨g1, g2⟩ := f4 e he
    refine ⟨o2.trans g1, fun hipc => ?_, (o5 _ hio).trans g2⟩
    rw [o2]
    show ((entriesAt t s.inputSchedule).foldl inputStep (s.interruptHandler, s.memory)).1.irq = _
    rw [g1]
    unfold InterruptHandler.setIRQ
    rw [hipc]
    rfl
  · have g := f3 hn
    refine ⟨o2.trans ?_, (o5 _ hio).trans ?_⟩
    · show ((entriesAt t s.inputSchedule).foldl inputStep (s.interruptHandler, s.memory)).1 = _
      rw [g]
    · show ((entriesAt t s.inputSchedule).foldl inputStep
        (s.interruptHandler, s.memory)).2.at input_address = _
      rw [g]

/-- Witness for C25: of the two entries for tick 5 the token of the last
one, 106, is left in memory[0x10], and the request is pending. -/
theorem check_input_witness :
    ∃ s1, ioSample.check true 5 = Except.ok s1 ∧
      s1.interruptHandler.irq = IRQType.IO_INPUT ∧
      s1.memory.at input_address = Except.ok 106 :=
  match check_input true ioSample 5 new_length with
  | ⟨_, s1, _, _, hc, _, _, _, hl, _⟩ =>
    ⟨s1, hc, (hl ⟨5, 106⟩ (by decide)).2.1 (by decide), (hl ⟨5, 106⟩ (by decide)).2.2⟩

/-- C26: on a memory of 2^24 words `check(t)` returns and leaves
memory[0x11] = 0. If memory[0x11] held w != 0, exactly one record is appended
to the output list, with tick `t` and the low byte of w as a `char` (the low
byte itself when it is below 128, and always congruent to it modulo 256), and
that byte is appended to the output stream when one is connected; if
memory[0x11] held 0, the output list and the stream are as before. -/
theorem check_output (charSigned : Bool) (s : IOSimulator) (t w : Nat)
    (hm : s.memory.data.length = MEM_SIZE) (hw : s.memory.at output_address = Except.ok w) :
    ∃ s1, s.check charSigned t = Except.ok s1 ∧
      s1.memory.at output_address = Except.ok 0 ∧
      (w ≠ 0 →
        s1.outputSchedule = s.outputSchedule ++ [{ tick := t, token := toChar charSigned w }] ∧
        charByte (toChar charSigned w) = w % 256 ∧
        (w % 256 < 128 → toChar charSigned w = ((w % 256 : Nat) : Int)) ∧
        s1.outputFile = s.outputFile.map (fun written => written ++ [w % 256])) ∧
      (w = 0 → s1.outputSchedule = s.outputSchedule ∧ s1.outputFile = s.outputFile) := by
  obtain ⟨f1, f2, _, _⟩ :=
    inputStep_fold s.interruptHandler s.memory hm (entriesAt t s.inputSchedule)
  have hin : s.inputPart t = Except.ok { s with
      interruptHandler :=
        ((entriesAt t s.inputSchedule).foldl inputStep (s.interruptHandler, s.memory)).1,
      memory :=
        ((entriesAt t s.inputSchedule).foldl inputStep (s.interruptHandler, s.memory)).2 } := by
    unfold IOSimulator.inputPart
    rw [inputLoop_eq t s.inputSchedule s.interruptHandler s.memory hm]
  have hw0 : ((entriesAt t s.inputSchedule).foldl inputStep
      (s.interruptHandler, s.memory)).2.at output_address = Except.ok w := by
    rw [f2 output_address (by decide), hw]
  obtain ⟨s1, o1, _, _, o4, _, _, o7, o8⟩ := outputPart_spec charSigned _ t w
    (show ({ s with
      interruptHandler :=
        ((entriesAt t s.inputSchedule).foldl inputStep (s.interruptHandler, s.memory)).1,
      memory :=
        ((entriesAt t s.inputSchedule).foldl inputStep (s.interruptHandler, s.memory)).2 } :
      IOSimulator).memory.data.length = MEM_SIZE from f1) hw0
  refine ⟨s1, ?_, o4, fun hz => ?_, fun hz => o8 hz⟩
  · unfold IOSimulator.check
    rw [hin]
    exact o1
  · exact ⟨(o7 hz).1, charByte_toChar charSigned w, fun h => toChar_small charSigned h,
      (o7 hz).2⟩

/-- Witness for C26: with 65 in memory[0x11] at tick 9, `check` records
(9, 65), writes the byte 65 to the stream and clears memory[0x11]. -/
theorem check_output_witness :
    ∃ s1, ioSampleOut.check true 9 = Except.ok s1 ∧
      s1.memory.at output_address = Except.ok 0 ∧
      s1.outputSchedule = [⟨9, 65⟩] ∧ s1.outputFile = some [65] :=
  match check_output true ioSampleOut 9 65
    ((List.length_set Memory.new.data output_address 65).trans new_length)
    (at_set_self Memory.new.data 65 (by decide) new_length) with
  | ⟨s1, hc, hz, hn, _⟩ =>
    ⟨s1, hc, hz, (hn (by decide)).1.trans (by decide), (hn (by decide)).2.2.2.trans (by decide)⟩

/-! ## Latches -/

theorem propagate_enabled (l : Latch) (st : Store) {src tgt : Nat} (he : l.enabled = true)
    (hs : l.sourceGetter st = some src) (ht : l.targetGetter st = some tgt) :
    l.propagate st = some (Function.update st tgt (st src)) := by
  unfold Latch.propagate
  rw [if_pos he, hs, ht]

theorem setLatchStatesLoop_spec : ∀ (refs : List Nat) (states : List Int) (tbl : LatchTable),
    refs.length = states.length →
    (∀ ref, ref ∉ refs → LatchRouter.setLatchStatesLoop refs states tbl ref = tbl ref) ∧
    (∀ ref, (LatchRouter.setLatchStatesLoop refs states tbl ref).sourceGetter =
        (tbl ref).sourceGetter ∧
      (LatchRouter.setLatchStatesLoop refs states tbl ref).targetGetter =
        (tbl ref).targetGetter) ∧
    (∀ (i ref : Nat) (state : Int), refs[i]? = some ref → states[i]? = some state →
      (∀ j, i < j → refs[j]? ≠ some ref) →
      (LatchRouter.setLatchStatesLoop refs states tbl ref).enabled = (state == 1))
  | [], _, _, _ => ⟨fun _ _ => rfl, fun _ => ⟨rfl, rfl⟩, fun i ref state h _ => by simp at h⟩
  | r :: rs, [], _, h => by simp at h
  | r :: rs, s :: ss, tbl, h => by
    have hlen : rs.length = ss.length := by simpa using h
    obtain ⟨i1, i2, i3⟩ := setLatchStatesLoop_spec rs ss
      (Function.update tbl r ((tbl r).setEnabled (s == 1))) hlen
    rw [LatchRouter.setLatchStatesLoop]
    refine ⟨fun ref hr => ?_, fun ref => ?_, fun i ref state hi hs hlast => ?_⟩
    · rw [i1 ref (fun hm => hr (List.mem_cons_of_mem _ hm)),
        Function.update_noteq (fun e => hr (by rw [e]; exact List.mem_cons_self _ _))]
    · rw [(i2 ref).1, (i2 ref).2]
      by_cases e : ref = r
      · rw [e, Function.update_same]; exact ⟨rfl, rfl⟩
      · rw [Function.update_noteq e]; exact ⟨rfl, rfl⟩
    · cases i with
      | zero =>
        rw [List.getElem?_cons_zero] at hi hs
        have e1 : r = ref := Option.some.inj hi
        have e2 : s = state := Option.some.inj hs
        subst e1; subst e2
        have hnot : r ∉ rs := by
          intro hm
          obtain ⟨j, hj⟩ := List.mem_iff_getElem?.mp hm
          exact hlast (j + 1) (Nat.succ_pos j) (by rw [List.getElem?_cons_succ]; exact hj)
        rw [i1 r hnot, Function.update_same]
        rfl
      | succ j =>
        rw [List.getElem?_cons_succ] at hi hs
        refine i3 j ref state hi hs (fun k hk => ?_)
        have := hlast (k + 1) (Nat.succ_lt_succ hk)
        rw [List.getElem?_cons_succ] at this
        exact this

theorem nodup_last {refs : List Nat} (hnd : refs.Nodup) {i j ref : Nat}
    (hi : refs[i]? = some ref) (hij : i < j) : refs[j]? ≠ some ref := by
  intro hj
  obtain ⟨h1, e1⟩ := List.getElem?_eq_some_iff.mp hi
  obtain ⟨h2, e2⟩ := List.getElem?_eq_some_iff.mp hj
  have := (List.Nodup.getElem_inj_iff hnd).mp (e1.trans e2.symm)
  omega

/-- C29: `LatchRouter::propagate` runs the `propagate` of its latches one
after the other in list order, each on the words the one before left. A
disabled latch leaves every word as it was; an enabled latch whose getters
return copies the source word to the target word and leaves the other words;
a latch whose source is the target of an earlier enabled latch copies the
word that this one has already written. `setLatchStates` with a mask of
another length than the latch vector fails and leaves every latch as it was;
with a mask of the same length it returns, touches no latch outside the
vector and no getter, and leaves the latch at index i enabled exactly when
states[i] == 1, for each index i after which the same latch does not stand
again in the vector: for every index when the references are to distinct
latches. -/
theorem propagate_in_list_order (r : LatchRouter) (tbl : LatchTable) (st : Store)
    (latchStates : List Int) :
    LatchRouter.propagate { latches := [] } tbl st = some st ∧
    (∀ ref refs, LatchRouter.propagate { latches := ref :: refs } tbl st =
      ((tbl ref).propagate st).bind (LatchRouter.propagate { latches := refs } tbl)) ∧
    (∀ l : Latch, l.enabled = false → l.propagate st = some st) ∧
    (∀ (l : Latch) (src tgt : Nat), l.enabled = true → l.sourceGetter st = some src →
      l.targetGetter st = some tgt →
      ∃ st1, l.propagate st = some st1 ∧ st1 tgt = st src ∧ ∀ x, x ≠ tgt → st1 x = st x) ∧
    (∀ (ref1 ref2 a b c : Nat) (st1 : Store), (tbl ref1).enabled = true →
      (tbl ref1).sourceGetter st = some a → (tbl ref1).targetGetter st = some b →
      (tbl ref1).propagate st = some st1 → (tbl ref2).enabled = true →
      (tbl ref2).sourceGetter st1 = some b → (tbl ref2).targetGetter st1 = some c →
      ∃ st2, LatchRouter.propagate { latches := [ref1, ref2] } tbl st = some st2 ∧
        st2 c = st a) ∧
    (latchStates.length ≠ r.latches.length →
      r.setLatchStates latchStates tbl = (Except.error RouterError.countMismatch, tbl)) ∧
    (latchStates.length = r.latches.length →
      (r.setLatchStates latchStates tbl).1 = Except.ok () ∧
      (∀ ref, ref ∉ r.latches → (r.setLatchStates latchStates tbl).2 ref = tbl ref) ∧
      (∀ ref, ((r.setLatchStates latchStates tbl).2 ref).sourceGetter = (tbl ref).sourceGetter ∧
        ((r.setLatchStates latchStates tbl).2 ref).targetGetter = (tbl ref).targetGetter) ∧
      (∀ (i ref : Nat) (state : Int), r.latches[i]? = some ref →
        latchStates[i]? = some state → (∀ j, i < j → r.latches[j]? ≠ some ref) →
        ((r.setLatchStates latchStates tbl).2 ref).enabled = (state == 1)) ∧
      (r.latches.Nodup → ∀ (i ref : Nat) (state : Int), r.latches[i]? = some ref →
        latchStates[i]? = some state →
        ((r.setLatchStates latchStates tbl).2 ref).enabled = (state == 1))) := by
  refine ⟨rfl, fun ref refs => ?_, fun l hl => ?_, fun l src tgt he hs ht => ?_,
    fun ref1 ref2 a b c st1 he1 hs1 ht1 hp1 he2 hs2 ht2 => ?_, fun hne => ?_, fun heq => ?_⟩
  · unfold LatchRouter.propagate
    rw [LatchRouter.propagateLoop]
    cases (tbl ref).propagate st <;> rfl
  · unfold Latch.propagate
    rw [hl]
    rfl
  · refine ⟨_, propagate_enabled l st he hs ht, Function.update_same _ _ _, fun x hx => ?_⟩
    exact Function.update_noteq hx _ _
  · have e1 : st1 = Function.update st b (st a) := by
      rw [propagate_enabled _ st he1 hs1 ht1] at hp1
      exact (Option.some.inj hp1).symm
    refine ⟨Function.update st1 c (st1 b), ?_, ?_⟩
    · unfold LatchRouter.propagate
      rw [LatchRouter.propagateLoop, hp1]
      dsimp only
      rw [LatchRouter.propagateLoop, propagate_enabled _ st1 he2 hs2 ht2]
      rfl
    · rw [Function.update_same, e1, Function.update_same]
  · unfold LatchRouter.setLatchStates
    rw [if_pos (by simpa using hne)]
  · have hs : r.setLatchStates latchStates tbl =
        (Except.ok (), LatchRouter.setLatchStatesLoop r.latches latchStates tbl) := by
      unfold LatchRouter.setLatchStates
      rw [if_neg (by simpa using heq)]
    rw [hs]
    obtain ⟨i1, i2, i3⟩ := setLatchStatesLoop_spec r.latches latchStates tbl heq.symm
    exact ⟨rfl, i1, i2, i3, fun hnd i ref state hi hst =>
      i3 i ref state hi hst (fun j hj => nodup_last hnd hi hj)⟩

/-! ## Shifts and negation on the ALU -/

theorem and_one_ne_zero (x : Nat) : (x &&& 1 != 0) = decide (x % 2 = 1) := by
  rw [Nat.and_one_is_mod]
  rcases Nat.mod_two_eq_zero_or_one x with h | h <;> rw [h] <;> rfl

theorem shiftRight_bit (left k : Nat) : (left / 2 ^ k &&& 1 != 0) = left.testBit k := by
  rw [and_one_ne_zero, Nat.testBit_to_div_mod]

theorem xor_full_mask {x : Nat} (hx : x < 2 ^ 32) : x ^^^ FULL_MASK = 2 ^ 32 - 1 - x := by
  have hm : FULL_MASK = 2 ^ 32 - 1 := by decide
  rw [hm]
  apply Nat.eq_of_testBit_eq
  intro i
  rw [Nat.testBit_xor, Nat.testBit_two_pow_sub_one,
    show 2 ^ 32 - 1 - x = 2 ^ 32 - (x + 1) by omega, Nat.testBit_two_pow_sub_succ hx]
  by_cases hi : i < 32
  · simp [hi]
  · have : x.testBit i = false :=
      Nat.testBit_lt_two_pow
        (lt_of_lt_of_le hx (Nat.pow_le_pow_right (by decide) (by omega)))
    simp [hi, this]

/-- C36: for a word `left` and a count `right` from 1 to 31, `perform`
with SHL stores (left * 2^right) mod 2^32 and, where it writes the flags, sets
C to bit 32 - right of `left`; with SHR it stores floor(left / 2^right) and
sets C to bit right - 1 of `left`: the last bit shifted out. The result is the
same with `writeFlags` clear. SHR with count 0 stores `left`. -/
theorem shift_result_and_carry (host : ShiftHost) (alu : ALU) (left right : Nat)
    (f0 : FlagsRegister) (h1 : 1 ≤ right) (h31 : right ≤ 31) :
    (∀ (wf : Bool) (flags : Option FlagsRegister),
      (ALU.perform host { alu with operation := Operation.SHL, writeFlags := wf }
        left right flags).1.getResult = (left * 2 ^ right) % 2 ^ 32) ∧
    (ALU.perform host { alu with operation := Operation.SHL, writeFlags := true }
      left right (some f0)).2.map FlagsRegister.C = some (left.testBit (32 - right)) ∧
    (∀ (wf : Bool) (flags : Option FlagsRegister),
      (ALU.perform host { alu with operation := Operation.SHR, writeFlags := wf }
        left right flags).1.getResult = left / 2 ^ right) ∧
    (ALU.perform host { alu with operation := Operation.SHR, writeFlags := true }
      left right (some f0)).2.map FlagsRegister.C = some (left.testBit (right - 1)) ∧
    (∀ (wf : Bool) (flags : Option FlagsRegister),
      (ALU.perform host { alu with operation := Operation.SHR, writeFlags := wf }
        left 0 flags).1.getResult = left) := by
  have hs1 : sub32 WORD_BITS right = 32 - right := by
    unfold sub32 WORD_BITS; omega
  have hs2 : sub32 right 1 = right - 1 := by
    unfold sub32; omega
  refine ⟨fun wf flags => ?_, ?_, fun wf flags => ?_, ?_, fun wf flags => ?_⟩
  · rw [perform_result]
    show shl32 host left right = _
    unfold shl32 u32
    rw [if_pos (by omega)]
  · rw [perform_writeFlags]
    show some ((shr32 host left (sub32 WORD_BITS right)) &&& 1 != 0) = _
    rw [hs1]
    unfold shr32
    rw [if_pos (by omega), shiftRight_bit]
  · rw [perform_result]
    show shr32 host left right = _
    unfold shr32
    rw [if_pos (by omega)]
  · rw [perform_writeFlags]
    show some ((shr32 host left (sub32 right 1)) &&& 1 != 0) = _
    rw [hs2]
    unfold shr32
    rw [if_pos (by omega), shiftRight_bit]
  · rw [perform_result]
    show shr32 host left 0 = _
    unfold shr32
    rw [if_pos (by decide), Nat.pow_zero, Nat.div_one]

/-- Witness for C36: 0x80000001 shifted by 1, to the left (result 2, the bit
shifted out is 1) and to the right (result 0x40000000, the bit shifted out is
1). -/
theorem shift_result_and_carry_witness :
    (ALU.perform ⟨fun _ _ => 0, fun _ _ => 0⟩
      { operation := Operation.SHL, writeFlags := true } 0x80000001 1 (some {})).1.getResult =
        (0x80000001 * 2 ^ 1) % 2 ^ 32 ∧
    (ALU.perform ⟨fun _ _ => 0, fun _ _ => 0⟩
      { operation := Operation.SHL, writeFlags := true } 0x80000001 1 (some {})).2.map
        FlagsRegister.C = some (Nat.testBit 0x80000001 (32 - 1)) ∧
    (ALU.perform ⟨fun _ _ => 0, fun _ _ => 0⟩
      { operation := Operation.SHR, writeFlags := true } 0x80000001 1 (some {})).2.map
        FlagsRegister.C = some (Nat.testBit 0x80000001 (1 - 1)) :=
  have h := shift_result_and_carry ⟨fun _ _ => 0, fun _ _ => 0⟩ {} 0x80000001 1 {}
    (by decide) (by decide)
  ⟨h.1 true (some {}), h.2.1, h.2.2.2.1⟩

theorem not_then_inc (host : ShiftHost) {x : Nat} (hx : x < 2 ^ 32) :
    (ALU.compute host Operation.NOT x 0).1 = 2 ^ 32 - 1 - x ∧
    (ALU.compute host Operation.INC (ALU.compute host Operation.NOT x 0).1 0).1 =
      (2 ^ 32 - x) % 2 ^ 32 := by
  have h1 : (ALU.compute host Operation.NOT x 0).1 = 2 ^ 32 - 1 - x := by
    show not32 (u32 (x + 0)) = _
    unfold not32 u32
    rw [Nat.add_zero, Nat.mod_eq_of_lt hx, xor_full_mask hx]
  refine ⟨h1, ?_⟩
  rw [h1]
  show u32 (u32 (2 ^ 32 - 1 - x + 0) + 1) = _
  unfold u32
  omega

/-! ## What `isNumber` accepts and `parseNumber` makes of it -/

/-- C40: `isNumber` accepts `-`, for which `parseNumber` throws
(`std::invalid_argument` from `std::stol`); it accepts `0X1F` and `0B11`, which
`parseNumber`, testing only for the lower-case prefixes, hands to `std::stol`
in base 10, so both are parsed to 0 and not to 31 and 3; and it accepts a
decimal numeral beyond the range of `long`, for which `parseNumber` throws
`std::out_of_range`. Through `parse`, the instruction `ldi 0X1F` is assembled
with operand 0. -/
theorem isNumber_accepts_more_than_parseNumber :
    isNumber "-".toList = true ∧
    parseNumber "-".toList = Except.error AsmError.invalidArgument ∧
    isNumber "0X1F".toList = true ∧ parseNumber "0X1F".toList = Except.ok 0 ∧
    isNumber "0B11".toList = true ∧ parseNumber "0B11".toList = Except.ok 0 ∧
    isNumber "9223372036854775808".toList = true ∧
    parseNumber "9223372036854775808".toList = Except.error AsmError.outOfRange ∧
    (parse ".text\n_start:\nldi 0X1F\nhalt\n".toList).map Binarizer.instructions =
      Except.ok [⟨0b011010, 0⟩, ⟨0b100010, 0⟩] ∧
    (parse ".text\n_start:\nldi 0x1F\nhalt\n".toList).map Binarizer.instructions =
      Except.ok [⟨0b011010, 31⟩, ⟨0b100010, 0⟩] := by
  decide

/-! ## The `main` of the machine -/

/-- Counterexample for C33: with no argument `main` prints the usage line and
returns 0, and it returns 0 as well when `parseConfig` throws a
`std::runtime_error`. -/
theorem main_exits_zero_without_arguments :
    machineMain 1 CallEnd.returns CallEnd.returns CallEnd.returns CallEnd.returns =
      ProcessEnd.exit 0 true ∧
    machineMain 3 CallEnd.throwsStd CallEnd.returns CallEnd.returns CallEnd.returns =
      ProcessEnd.exit 0 true := by
  decide

/-- C33, amended: `main` has no `return` statement, and its handler for
`std::exception` only prints the message. So `main` returns 0 whenever it
returns: without a message when the four calls return, and after the message
when fewer than two arguments are given or when `parseConfig`, the
constructor, `loadBinary` or `process` throws a `std::exception`; an exception
of another kind leaves `main`. No exit code other than 0 is returned. -/
theorem main_returns_zero_after_exception
    (argc : Nat) (parseConfigEnd constructorEnd loadBinaryEnd processEnd : CallEnd) :
    (argc < 3 →
      machineMain argc parseConfigEnd constructorEnd loadBinaryEnd processEnd =
        ProcessEnd.exit 0 true) ∧
    (3 ≤ argc →
      machineMain argc CallEnd.returns CallEnd.returns CallEnd.returns CallEnd.returns =
        ProcessEnd.exit 0 false ∧
      machineMain argc CallEnd.throwsStd constructorEnd loadBinaryEnd processEnd =
        ProcessEnd.exit 0 true ∧
      machineMain argc CallEnd.returns CallEnd.throwsStd loadBinaryEnd processEnd =
        ProcessEnd.exit 0 true ∧
      machineMain argc CallEnd.returns CallEnd.returns CallEnd.throwsStd processEnd =
        ProcessEnd.exit 0 true ∧
      machineMain argc CallEnd.returns CallEnd.returns CallEnd.returns CallEnd.throwsStd =
        ProcessEnd.exit 0 true ∧
      machineMain argc CallEnd.throwsOther constructorEnd loadBinaryEnd processEnd =
        ProcessEnd.terminate) ∧
    (mainTry argc parseConfigEnd constructorEnd loadBinaryEnd processEnd = CallEnd.returns →
      machineMain argc parseConfigEnd constructorEnd loadBinaryEnd processEnd =
        ProcessEnd.exit 0 false) ∧
    (mainTry argc parseConfigEnd constructorEnd loadBinaryEnd processEnd = CallEnd.throwsStd →
      machineMain argc parseConfigEnd constructorEnd loadBinaryEnd processEnd =
        ProcessEnd.exit 0 true) ∧
    (mainTry argc parseConfigEnd constructorEnd loadBinaryEnd processEnd = CallEnd.throwsOther →
      machineMain argc parseConfigEnd constructorEnd loadBinaryEnd processEnd =
        ProcessEnd.terminate) ∧
    (∀ code message,
      machineMain argc parseConfigEnd constructorEnd loadBinaryEnd processEnd =
        ProcessEnd.exit code message → code = 0) := by
  refine ⟨fun h => ?_, fun h => ?_, fun h => ?_, fun h => ?_, fun h => ?_,
    fun code message h => ?_⟩
  · unfold machineMain mainTry
    rw [if_pos h]
  · have hn : ¬ argc < 3 := by omega
    refine ⟨?_, ?_, ?_, ?_, ?_, ?_⟩ <;> (unfold machineMain mainTry; rw [if_neg hn])
  · unfold machineMain; rw [h]
  · unfold machineMain; rw [h]
  · unfold machineMain; rw [h]
  · unfold machineMain at h
    cases hm : mainTry argc parseConfigEnd constructorEnd loadBinaryEnd processEnd <;>
      rw [hm] at h <;> cases h <;> rfl

/-! ## The configuration of the machine -/

theorem configLines_append (pre post : List Str) (config : MachineConfig) :
    configLines (pre ++ post) config =
      match configLines pre config with
      | Except.ok config1 => configLines post config1
      | Except.error e => Except.error e := by
  induction pre generalizing config with
  | nil => rfl
  | cons line rest ih =>
    rw [List.cons_append, configLines, configLines]
    cases configLine config line with
    | error e => rfl
    | ok config1 => exact ih config1

/-- Counterexample for C34: the line `# note: x` begins with `#` and makes
`parseConfig` throw `Unknown config key`, while the same file without the
line, or with the line `# a comment` in its place, is accepted. -/
theorem hash_line_with_colon_is_unknown_key :
    parseConfig (some "log_file: run.log\n".toList) =
      Except.ok { log_file := "run.log".toList } ∧
    parseConfig (some "# a comment\nlog_file: run.log\n".toList) =
      Except.ok { log_file := "run.log".toList } ∧
    parseConfig (some "# note: x\nlog_file: run.log\n".toList) =
      Except.error ConfigError.unknownKey := by
  decide

/-- C34, amended: `parseConfig` has no test for `#`; the lines it passes over
are those without a colon. Such a line, put anywhere among the lines of a
file, changes neither the configuration returned nor the exception thrown. A
line with a colon whose key is none of the eight keys makes the loop throw
`Unknown config key` when it gets there, so the file is not accepted,
whether or not the line begins with `#`. -/
theorem line_without_colon_is_ignored (pre post : List Str) (config : MachineConfig)
    (line : Str) :
    (line.contains ':' = false →
      configLine config line = Except.ok config ∧
      configLines (pre ++ line :: post) config = configLines (pre ++ post) config) ∧
    (line.contains ':' = true →
      configTrim (line.takeWhile (fun c => c != ':')) ∉ configKeys →
      configLine config line = Except.error ConfigError.unknownKey ∧
      (∀ config1, configLines pre config = Except.ok config1 →
        configLines (pre ++ line :: post) config = Except.error ConfigError.unknownKey) ∧
      ∃ e, configLines (pre ++ line :: post) config = Except.error e) := by
  have hskip : ∀ c : MachineConfig, line.contains ':' = false →
      configLine c line = Except.ok c := by
    intro c h
    unfold configLine
    rw [h]
    rfl
  have hfail : ∀ c : MachineConfig, line.contains ':' = true →
      configTrim (line.takeWhile (fun c => c != ':')) ∉ configKeys →
      configLine c line = Except.error ConfigError.unknownKey := by
    intro c h hk
    unfold configLine
    rw [h]
    simp only [configKeys, List.mem_cons, List.mem_singleton, List.not_mem_nil, or_false,
      not_or] at hk
    obtain ⟨k1, k2, k3, k4, k5, k6, k7, k8⟩ := hk
    rw [if_neg (by decide)]
    dsimp only
    rw [if_neg (by rw [beq_iff_eq]; exact k1), if_neg (by rw [beq_iff_eq]; exact k2),
      if_neg (by rw [beq_iff_eq]; exact k3), if_neg (by rw [beq_iff_eq]; exact k4),
      if_neg (by rw [beq_iff_eq]; exact k5), if_neg (by rw [beq_iff_eq]; exact k6),
      if_neg (by rw [beq_iff_eq]; exact k7), if_neg (by rw [beq_iff_eq]; exact k8)]
  refine ⟨fun h => ⟨hskip config h, ?_⟩, fun h hk => ⟨hfail config h hk, ?_, ?_⟩⟩
  · rw [configLines_append, configLines_append]
    cases configLines pre config with
    | error e => rfl
    | ok config1 =>
      show configLines (line :: post) config1 = configLines post config1
      rw [configLines, hskip config1 h]
  · intro config1 h1
    rw [configLines_append, h1]
    show configLines (line :: post) config1 = _
    rw [configLines, hfail config1 h hk]
  · rw [configLines_append]
    cases configLines pre config with
    | error e => exact ⟨e, rfl⟩
    | ok config1 =>
      refine ⟨ConfigError.unknownKey, ?_⟩
      show configLines (line :: post) config1 = _
      rw [configLines, hfail config1 h hk]

/-! ## The code generator: comparisons, loops, unary minus -/

/-- C32: a comparison of two `uint` operands that is the condition
of an `if` or of a `while` is compiled to `sub temp_right` and the signed jump
(`jl`, `jle`, `jg`, `jge`), never to `jb`, `jbe`, `ja`, `jae`; only where the
value of the comparison is computed does an operand of type `uint` select the
unsigned jump (`jb` for `<`), and two `int` operands the signed one. -/
theorem condition_comparison_is_signed (charSigned : Bool) :
    (∀ p ∈ [("<", "jl"), ("<=", "jle"), (">", "jg"), (">=", "jge")],
      (generateCode charSigned [] (some (ifComparison "uint".toList "uint".toList
          p.1.toList))).map (fun g => lines g.codeSection) =
        Except.ok ["_start:", "  ldi 1", "  st var_a", "  ldi 2", "  st var_b", "  ld var_a",
          "  push", "  ld var_b", "  st temp_right", "  pop", "  sub temp_right",
          "  " ++ p.2 ++ " L0", "  jmp L1", "L0:", "L1:", "  halt"]) ∧
    (generateCode charSigned [] (some (whileComparison "uint".toList "int".toList
        "<".toList))).map (fun g => lines g.codeSection) =
      Except.ok ["_start:", "  ldi 1", "  st var_a", "  ldi 2", "  st var_b", "L0:",
        "  ld var_a", "  push", "  ld var_b", "  st temp_right", "  pop", "  sub temp_right",
        "  jl L1", "  jmp L2", "L1:", "  jmp L0", "L2:", "  halt"] ∧
    (generateCode charSigned [] (some (valueComparison "uint".toList "uint".toList
        "<".toList))).map (fun g => lines g.codeSection) =
      Except.ok ["_start:", "  ldi 1", "  st var_a", "  ldi 2", "  st var_b", "  ld var_a",
        "  push", "  ld var_b", "  st temp_right", "  pop", "  cmp temp_right", "  jb L0",
        "  ldi 0", "  jmp L1", "L0:", "  ldi 1", "L1:", "  st var_r", "  halt"] ∧
    (generateCode charSigned [] (some (valueComparison "int".toList "int".toList
        "<".toList))).map (fun g => lines g.codeSection) =
      Except.ok ["_start:", "  ldi 1", "  st var_a", "  ldi 2", "  st var_b", "  ld var_a",
        "  push", "  ld var_b", "  st temp_right", "  pop", "  cmp temp_right", "  jl L0",
        "  ldi 0", "  jmp L1", "L0:", "  ldi 1", "L1:", "  st var_r", "  halt"] := by
  cases charSigned <;> decide

/-- C37: for `while (flag)` on a boolean variable the generator
emits, between the start label `L0` and the body label `L1`, the line
`ld var_flag` alone: no jump to the end label `L2`, so the body is entered
whatever the value; the same for the literal `false`. For `if (flag)`, it
emits `jnz L0` and `jmp L1` after the load. -/
theorem while_on_variable_has_no_exit_jump (charSigned : Bool) :
    (generateCode charSigned [] (some whileFlag)).map (fun g => lines g.codeSection) =
      Except.ok ["_start:", "  ldi 1", "  st var_flag", "L0:", "  ld var_flag", "L1:",
        "  ldi 0", "  st var_flag", "  jmp L0", "L2:", "  halt"] ∧
    (generateCode charSigned [] (some whileFalse)).map (fun g => lines g.codeSection) =
      Except.ok ["_start:", "L0:", "  ldi 0", "L1:", "  jmp L0", "L2:", "  halt"] ∧
    (generateCode charSigned [] (some ifFlag)).map (fun g => lines g.codeSection) =
      Except.ok ["_start:", "  ldi 1", "  st var_flag", "  ld var_flag", "  jnz L0",
        "  jmp L1", "L0:", "  ldi 0", "  st var_flag", "L1:", "  halt"] := by
  cases charSigned <;> decide

/-- C35: for an operand whose code is generated, unary minus appends
the two lines `  not` and `  inc` to the section that receives the code (the
code section, or the function section inside a function) and nothing to the
other sections; and for a word x, NOT performed on (x, 0) stores 2^32 - 1 - x,
and INC performed on that result and 0 stores (2^32 - x) mod 2^32, the
negation of x in two's complement. -/
theorem unary_minus_is_negation (charSigned : Bool) (host : ShiftHost) (alu : ALU)
    (t : Str) (operand : ASTNode) (g g1 : CodeGenerator) (x : Nat)
    (flags flags1 : Option FlagsRegister)
    (hg : visit charSigned operand g = Except.ok g1) (hx : x < 2 ^ 32) :
    (∃ g2, visit charSigned (ASTNode.UnaryOp t "-".toList operand) g = Except.ok g2 ∧
      (g1.currentFunction = none →
        g2.codeSection = g1.codeSection ++ ["  not".toList, "  inc".toList] ∧
        g2.funcSection = g1.funcSection) ∧
      (g1.currentFunction ≠ none →
        g2.funcSection = g1.funcSection ++ ["  not".toList, "  inc".toList] ∧
        g2.codeSection = g1.codeSection) ∧
      g2.dataSection = g1.dataSection) ∧
    (ALU.perform host { alu with operation := Operation.NOT } x 0 flags).1.getResult =
      2 ^ 32 - 1 - x ∧
    (ALU.perform host { alu with operation := Operation.INC }
      (ALU.perform host { alu with operation := Operation.NOT } x 0 flags).1.getResult 0
        flags1).1.getResult = (2 ^ 32 - x) % 2 ^ 32 := by
  refine ⟨?_, ?_, ?_⟩
  · have h : visit charSigned (ASTNode.UnaryOp t "-".toList operand) g =
        (visit charSigned operand g >>= fun g2 => pure (g2.emitUnaryValue "-".toList)) := rfl
    rw [h, hg]
    refine ⟨(g1.emitCode "not".toList).emitCode "inc".toList, rfl, fun hn => ?_, fun hs => ?_, ?_⟩
    · unfold CodeGenerator.emitCode
      simp [hn]
    · cases hf : g1.currentFunction with
      | none => exact absurd hf hs
      | some f =>
        unfold CodeGenerator.emitCode
        simp [hf]
    · unfold CodeGenerator.emitCode
      cases g1.currentFunction <;> rfl
  · rw [perform_result]
    exact (not_then_inc host hx).1
  · rw [perform_result, perform_result]
    exact (not_then_inc host hx).2

/-- Witness for C35: the code of `-5` is the three lines `ldi 5`, `not`, `inc`,
and the negation of 5 is 4294967291. -/
theorem unary_minus_is_negation_witness :
    (∃ g2, visit true (ASTNode.UnaryOp "int".toList "-".toList
        (ASTNode.NumberLiteral "int".toList 5)) {} = Except.ok g2 ∧
      lines g2.codeSection = ["  ldi 5", "  not", "  inc"]) ∧
    (ALU.perform ⟨fun _ _ => 0, fun _ _ => 0⟩ { operation := Operation.INC }
      (ALU.perform ⟨fun _ _ => 0, fun _ _ => 0⟩ { operation := Operation.NOT } 5 0
        none).1.getResult 0 none).1.getResult = 4294967291 :=
  have h := unary_minus_is_negation true ⟨fun _ _ => 0, fun _ _ => 0⟩ {} "int".toList
    (ASTNode.NumberLiteral "int".toList 5) {} (({} : CodeGenerator).emitCode "ldi 5".toList) 5
    none none rfl (by decide)
  ⟨match h.1 with
    | ⟨g2, e, hc, _, _⟩ => ⟨g2, e, by rw [(hc rfl).1]; rfl⟩,
   h.2.2⟩

/-! ## Mangled function names -/

theorem within_bind {α β : Type} {tokens : List Token} {lo lo1 : Nat}
    {x : Except ParseError (α × Nat)} {f : α × Nat → Except ParseError (β × Nat)}
    (hx : Within tokens lo x)
    (hf : ∀ v, lo ≤ v.2 → v.2 < tokens.length → Within tokens lo1 (f v)) :
    Within tokens lo1 (x >>= f) := by
  cases x with
  | error e => exact hx
  | ok v => exact hf v hx.1 hx.2

theorem within_bind_eq {α β : Type} {tokens : List Token} {lo lo1 : Nat}
    {x : Except ParseError (α × Nat)} {f : α × Nat → Except ParseError (β × Nat)}
    (hx : Within tokens lo x)
    (hf : ∀ v, x = Except.ok v → lo ≤ v.2 → v.2 < tokens.length → Within tokens lo1 (f v)) :
    Within tokens lo1 (x >>= f) := by
  cases x with
  | error e => exact hx
  | ok v => exact hf v rfl hx.1 hx.2

theorem ok_bind_eq {α β : Type} {x : Except ParseError α} {f : α → Except ParseError β} {b : β}
    (h : (x >>= f) = Except.ok b) : ∃ a, x = Except.ok a ∧ f a = Except.ok b := by
  cases x with
  | error e => cases h
  | ok a => exact ⟨a, rfl, h⟩

theorem within_ok {α : Type} {tokens : List Token} {lo p : Nat} (a : α) (h1 : lo ≤ p)
    (h2 : p < tokens.length) :
    Within tokens lo (Except.ok (a, p) : Except ParseError (α × Nat)) :=
  ⟨h1, h2⟩

theorem within_mono {α : Type} {tokens : List Token} {lo lo1 : Nat}
    {x : Except ParseError (α × Nat)} (hx : Within tokens lo x) (h : lo1 ≤ lo) :
    Within tokens lo1 x := by
  cases x with
  | error e => exact hx
  | ok v => exact ⟨Nat.le_trans h hx.1, hx.2⟩

theorem within_thrown {α : Type} (tokens : List Token) (lo : Nat) :
    Within tokens lo (Except.error ParseError.runtimeError : Except ParseError (α × Nat)) :=
  ⟨by decide, by decide⟩

theorem token_at {tokens : List Token} {pos : Nat} (hp : pos < tokens.length) :
    ∃ token, tokens[pos]? = some token :=
  ⟨tokens[pos], List.getElem?_eq_getElem hp⟩

theorem advance_of {tokens : List Token} {pos : Nat} {token : Token} (hE : Closed tokens)
    (ht : tokens[pos]? = some token) (p : TokenType → Bool)
    (h0 : p TokenType.EndOfFile = false) (h : p token.type = true) :
    pos + 1 < tokens.length := by
  apply hE pos token ht
  intro he
  rw [he, h0] at h
  cases h

theorem expect_within {tokens : List Token} (hE : Closed tokens) {pos : Nat}
    (hp : pos < tokens.length) (type : TokenType) (ht : type ≠ TokenType.EndOfFile) :
    Within tokens (pos + 1) (expect tokens pos type) := by
  obtain ⟨token, hk⟩ := token_at hp
  unfold expect
  rw [hk]
  dsimp only
  split_ifs with hc
  · exact within_thrown _ _
  · have h1 : token.type = type := by
      simpa using hc
    exact within_ok _ (Nat.le_refl _) (hE pos token hk (h1 ▸ ht))

theorem afterElement_within {tokens : List Token} (hE : Closed tokens) {pos : Nat}
    (hp : pos < tokens.length) (closing : TokenType) :
    Within tokens pos (afterElement tokens pos closing) := by
  obtain ⟨token, hk⟩ := token_at hp
  unfold afterElement
  rw [hk]
  dsimp only
  split_ifs with hc hd
  · exact within_ok _ (Nat.le_succ _)
      (advance_of hE hk (fun t => t == TokenType.Comma) rfl hc)
  · exact within_thrown _ _
  · exact within_ok _ (Nat.le_refl _) hp

theorem binaryLoop_within {tokens : List Token} (hE : Closed tokens) (isOp : TokenType → Bool)
    (hop : isOp TokenType.EndOfFile = false) (operand : Nat → ParseResult) (lo : Nat)
    (hitem : ∀ p, lo < p → p < tokens.length → Within tokens (p + 1) (operand p)) :
    ∀ (n : Nat) (node : ASTNode) (pos : Nat), lo < pos → pos < tokens.length →
      tokens.length - pos ≤ n →
      Within tokens pos (binaryLoop isOp operand tokens n node pos) := by
  intro n
  induction n with
  | zero => intro node pos _ hp hn; omega
  | succ n ih =>
    intro node pos hl hp hn
    obtain ⟨token, hk⟩ := token_at hp
    rw [binaryLoop, hk]
    dsimp only
    split_ifs with hc
    · have h1 := advance_of hE hk isOp hop hc
      apply within_bind (hitem (pos + 1) (by omega) h1)
      intro v h2 h3
      exact within_mono (ih _ v.2 (by omega) h3 (by omega)) (by omega)
    · exact within_ok _ (Nat.le_refl _) hp

theorem parseArrayLoop_within {tokens : List Token} (hE : Closed tokens)
    (item : Nat → ParseResult) (lo : Nat)
    (hitem : ∀ p, lo < p → p < tokens.length → Within tokens (p + 1) (item p)) :
    ∀ (n : Nat) (values : List ASTNode) (pos : Nat), lo < pos → pos < tokens.length →
      tokens.length - pos ≤ n →
      Within tokens pos (parseArrayLoop item tokens n values pos) := by
  intro n
  induction n with
  | zero => intro values pos _ hp hn; omega
  | succ n ih =>
    intro values pos hl hp hn
    obtain ⟨token, hk⟩ := token_at hp
    rw [parseArrayLoop, hk]
    dsimp only
    split_ifs with hc
    · apply within_bind (hitem pos hl hp)
      intro v h2 h3
      apply within_bind (afterElement_within hE h3 _)
      intro w h4 h5
      exact within_mono (ih _ w.2 (by omega) h5 (by omega)) (by omega)
    · exact within_ok _ (Nat.le_refl _) hp

theorem parameterLoop_within {tokens : List Token} (hE : Closed tokens)
    (item : Nat → ParseResult) (lo : Nat)
    (hitem : ∀ p, lo < p → p < tokens.length → Within tokens (p + 1) (item p)) :
    ∀ (n : Nat) (parameters : List ASTNode) (pos : Nat), lo < pos → pos < tokens.length →
      tokens.length - pos ≤ n →
      Within tokens pos (parameterLoop item tokens n parameters pos) := by
  intro n
  induction n with
  | zero => intro parameters pos _ hp hn; omega
  | succ n ih =>
    intro parameters pos hl hp hn
    obtain ⟨token, hk⟩ := token_at hp
    rw [parameterLoop, hk]
    dsimp only
    split_ifs with hc
    · apply within_bind (hitem pos hl hp)
      intro v h2 h3
      apply within_bind (afterElement_within hE h3 _)
      intro w h4 h5
      exact within_mono (ih _ w.2 (by omega) h5 (by omega)) (by omega)
    · exact within_ok _ (Nat.le_refl _) hp

theorem methodArgsLoop_within {tokens : List Token} (hE : Closed tokens)
    (item : Nat → ParseResult) (lo : Nat)
    (hitem : ∀ p, lo < p → p < tokens.length → Within tokens (p + 1) (item p)) :
    ∀ (n : Nat) (args : List ASTNode) (pos : Nat), lo < pos → pos < tokens.length →
      tokens.length - pos ≤ n →
      Within tokens pos (methodArgsLoop item tokens n args pos) := by
  intro n
  induction n with
  | zero => intro args pos _ hp hn; omega
  | succ n ih =>
    intro args pos hl hp hn
    obtain ⟨token, hk⟩ := token_at hp
    rw [methodArgsLoop, hk]
    dsimp only
    split_ifs with hc
    · apply within_bind (hitem pos hl hp)
      intro v h2 h3
      obtain ⟨token1, hk1⟩ := token_at h3
      have h4 : typeAt tokens v.2 = Except.ok token1.type := by
        unfold typeAt; rw [hk1]
      rw [h4]
      show Within tokens pos (methodArgsLoop item tokens n (args ++ [v.1])
        (if token1.type == TokenType.Comma then v.2 + 1 else v.2))
      split_ifs with hd
      · have h5 := advance_of hE hk1 (fun t => t == TokenType.Comma) rfl hd
        exact within_mono (ih _ (v.2 + 1) (by omega) h5 (by omega)) (by omega)
      · exact within_mono (ih _ v.2 (by omega) h3 (by omega)) (by omega)
    · exact within_ok _ (Nat.le_refl _) hp

theorem statementLoop_within {tokens : List Token} (stops : TokenType → Bool)
    (item : Nat → ParseResult) (lo : Nat)
    (hitem : ∀ p, lo ≤ p → p < tokens.length → Within tokens (p + 1) (item p)) :
    ∀ (n : Nat) (children : List ASTNode) (pos : Nat), lo ≤ pos → pos < tokens.length →
      tokens.length - pos ≤ n →
      Within tokens pos (statementLoop stops item tokens n children pos) := by
  intro n
  induction n with
  | zero => intro children pos _ hp hn; omega
  | succ n ih =>
    intro children pos hl hp hn
    obtain ⟨token, hk⟩ := token_at hp
    rw [statementLoop, hk]
    dsimp only
    split_ifs with hc
    · exact within_ok _ (Nat.le_refl _) hp
    · apply within_bind (hitem pos hl hp)
      intro v h2 h3
      exact within_mono (ih _ v.2 (by omega) h3 (by omega)) (by omega)

theorem level_within {tokens : List Token} (hE : Closed tokens) (isOp : TokenType → Bool)
    (hop : isOp TokenType.EndOfFile = false) (operand : Nat → ParseResult) (rank fuel : Nat)
    (hoperand : Safe tokens rank fuel operand) (pos : Nat) (hp : pos < tokens.length)
    (hn : need tokens (rank + 1) pos ≤ fuel + 1) :
    Within tokens (pos + 1)
      (operand pos >>= fun node => binaryLoop isOp operand tokens fuel node.1 node.2) := by
  unfold need at hn
  apply within_bind (hoperand pos hp (by unfold need; omega))
  intro v h1 h2
  refine within_mono (binaryLoop_within hE isOp hop operand pos ?_ fuel v.1 v.2 (by omega) h2
    (by omega)) h1
  intro p hl hq
  exact hoperand p hq (by unfold need; omega)

theorem parseUnary_safe {tokens : List Token} (hE : Closed tokens) {fuel : Nat}
    (ih : ExprSafe tokens fuel) : Safe tokens 2 (fuel + 1) (parseUnary (fuel + 1) tokens) := by
  intro pos hp hn
  unfold need at hn
  obtain ⟨token, hk⟩ := token_at hp
  rw [parseUnary, hk]
  dsimp only
  split_ifs with hc
  · have h1 := advance_of hE hk
      (fun t => t == TokenType.LogicNot || t == TokenType.Minus) rfl hc
    apply within_bind (ih.unary (pos + 1) h1 (by unfold need; omega))
    intro v h2 h3
    exact within_ok _ (by omega) h3
  · exact ih.primary pos hp (by unfold need; omega)

theorem parsePrimary_safe {tokens : List Token} (hE : Closed tokens) {fuel : Nat}
    (ih : ExprSafe tokens fuel) :
    Safe tokens 1 (fuel + 1) (parsePrimary (fuel + 1) tokens) := by
  intro pos hp hn
  unfold need at hn
  obtain ⟨token, hk⟩ := token_at hp
  rw [parsePrimary, hk]
  dsimp only
  split_ifs with c1 c2 c3 c4 c5 c6 c7 c8 c9 c10
  · have h1 := advance_of hE hk (fun t => t == TokenType.Number) rfl c1
    cases stol token.value 10 with
    | error e => exact ⟨fun h => ParseError.noConfusion h, fun h => ParseError.noConfusion h⟩
    | ok value => exact within_ok _ (Nat.le_refl _) h1
  · exact within_ok _ (Nat.le_refl _) (advance_of hE hk (fun t => t == TokenType.Char) rfl c2)
  · exact within_ok _ (Nat.le_refl _) (advance_of hE hk (fun t => t == TokenType.String) rfl c3)
  · exact within_ok _ (Nat.le_refl _)
      (advance_of hE hk (fun t => t == TokenType.Boolean) rfl c4)
  · exact ih.functionCall pos hp (by unfold need; omega)
  · exact ih.arrayGet pos hp (by unfold need; omega)
  · exact ih.methodCall pos hp (by unfold need; omega)
  · exact within_ok _ (Nat.le_refl _)
      (advance_of hE hk (fun t => t == TokenType.Identifier) rfl c5)
  · have h1 := advance_of hE hk (fun t => t == TokenType.LParen) rfl c9
    apply within_bind (ih.expression (pos + 1) h1 (by unfold need; omega))
    intro v h2 h3
    apply within_bind (expect_within hE h3 _ (by decide))
    intro w h4 h5
    exact within_ok _ (by omega) h5
  · exact ih.array pos hp (by unfold need; omega)
  · exact within_thrown _ _

theorem parseArrayLoop_stops {tokens : List Token} (item : Nat → ParseResult) :
    ∀ (n : Nat) (values : List ASTNode) (pos : Nat) (v : List ASTNode × Nat),
      parseArrayLoop item tokens n values pos = Except.ok v →
      ∃ token, tokens[v.2]? = some token ∧ (token.type == TokenType.RBrace) = true := by
  intro n
  induction n with
  | zero => intro values pos v h; cases h
  | succ n ih =>
    intro values pos v h
    rw [parseArrayLoop] at h
    cases hk : tokens[pos]? with
    | none => rw [hk] at h; cases h
    | some token =>
      rw [hk] at h
      dsimp only at h
      split_ifs at h with hc
      · obtain ⟨r, _, h1⟩ := ok_bind_eq h
        obtain ⟨w, _, h2⟩ := ok_bind_eq h1
        exact ih _ _ _ h2
      · cases h
        exact ⟨token, hk, by simpa using hc⟩

theorem parseArray_safe {tokens : List Token} (hE : Closed tokens) {fuel : Nat}
    (ih : ExprSafe tokens fuel) : Safe tokens 0 (fuel + 1) (parseArray (fuel + 1) tokens) := by
  intro pos hp hn
  unfold need at hn
  rw [parseArray]
  apply within_bind (expect_within hE hp _ (by decide))
  intro r h1 h2
  apply within_bind_eq (parseArrayLoop_within hE (parseExpression fuel tokens) pos
    (fun p hl hq => ih.expression p hq (by unfold need; omega)) fuel [] r.2 (by omega) h2
    (by omega))
  intro values he h3 h4
  obtain ⟨token, hk, hc⟩ := parseArrayLoop_stops _ _ _ _ _ he
  exact within_ok _ (by omega) (advance_of hE hk (fun t => t == TokenType.RBrace) rfl hc)

theorem parseFunctionCall_safe {tokens : List Token} (hE : Closed tokens) {fuel : Nat}
    (ih : ExprSafe tokens fuel) :
    Safe tokens 0 (fuel + 1) (parseFunctionCall (fuel + 1) tokens) := by
  intro pos hp hn
  unfold need at hn
  rw [parseFunctionCall]
  apply within_bind (expect_within hE hp _ (by decide))
  intro name h1 h2
  apply within_bind (expect_within hE h2 _ (by decide))
  intro r h3 h4
  apply within_bind (parameterLoop_within hE (parseExpression fuel tokens) pos
    (fun p hl hq => ih.expression p hq (by unfold need; omega)) fuel [] r.2 (by omega) h4
    (by omega))
  intro parameters h5 h6
  apply within_bind (expect_within hE h6 _ (by decide))
  intro r1 h7 h8
  exact within_ok _ (by omega) h8

theorem parseArrayGet_safe {tokens : List Token} (hE : Closed tokens) {fuel : Nat}
    (ih : ExprSafe tokens fuel) :
    Safe tokens 0 (fuel + 1) (parseArrayGet (fuel + 1) tokens) := by
  intro pos hp hn
  unfold need at hn
  rw [parseArrayGet]
  apply within_bind (expect_within hE hp _ (by decide))
  intro name h1 h2
  apply within_bind (expect_within hE h2 _ (by decide))
  intro r h3 h4
  apply within_bind (ih.expression r.2 h4 (by unfold need; omega))
  intro expr h5 h6
  apply within_bind (expect_within hE h6 _ (by decide))
  intro r1 h7 h8
  exact within_ok _ (by omega) h8

theorem parseMethodCall_safe {tokens : List Token} (hE : Closed tokens) {fuel : Nat}
    (ih : ExprSafe tokens fuel) :
    Safe tokens 0 (fuel + 1) (parseMethodCall (fuel + 1) tokens) := by
  intro pos hp hn
  unfold need at hn
  rw [parseMethodCall]
  apply within_bind (expect_within hE hp _ (by decide))
  intro name h1 h2
  apply within_bind (expect_within hE h2 _ (by decide))
  intro r h3 h4
  apply within_bind (expect_within hE h4 _ (by decide))
  intro methodName h5 h6
  apply within_bind (expect_within hE h6 _ (by decide))
  intro r1 h7 h8
  apply within_bind (methodArgsLoop_within hE (parsePrimary fuel tokens) pos
    (fun p hl hq => ih.primary p hq (by unfold need; omega)) fuel [] r1.2 (by omega) h8
    (by omega))
  intro args h9 h10
  apply within_bind (expect_within hE h10 _ (by decide))
  intro r2 h11 h12
  exact within_ok _ (by omega) h12

theorem exprSafe_zero (tokens : List Token) : ExprSafe tokens 0 := by
  constructor <;> intro pos hp hn <;> unfold need at hn <;> omega

theorem exprSafe_succ {tokens : List Token} (hE : Closed tokens) {fuel : Nat}
    (ih : ExprSafe tokens fuel) : ExprSafe tokens (fuel + 1) where
  expression := by
    intro pos hp hn
    rw [parseExpression]
    exact ih.logicOr pos hp (by unfold need at *; omega)
  logicOr := by
    intro pos hp hn
    rw [parseLogicOr]
    exact level_within hE _ rfl _ 7 fuel ih.logicAnd pos hp hn
  logicAnd := by
    intro pos hp hn
    rw [parseLogicAnd]
    exact level_within hE _ rfl _ 6 fuel ih.equality pos hp hn
  equality := by
    intro pos hp hn
    rw [parseEquality]
    exact level_within hE _ rfl _ 5 fuel ih.comparsion pos hp hn
  comparsion := by
    intro pos hp hn
    rw [parseComparsion]
    exact level_within hE _ rfl _ 4 fuel ih.term pos hp hn
  term := by
    intro pos hp hn
    rw [parseTerm]
    exact level_within hE _ rfl _ 3 fuel ih.factor pos hp hn
  factor := by
    intro pos hp hn
    rw [parseFactor]
    exact level_within hE _ rfl _ 2 fuel ih.unary pos hp hn
  unary := parseUnary_safe hE ih
  primary := parsePrimary_safe hE ih
  array := parseArray_safe hE ih
  functionCall := parseFunctionCall_safe hE ih
  arrayGet := parseArrayGet_safe hE ih
  methodCall := parseMethodCall_safe hE ih

theorem exprSafe {tokens : List Token} (hE : Closed tokens) (fuel : Nat) :
    ExprSafe tokens fuel := by
  induction fuel with
  | zero => exact exprSafe_zero tokens
  | succ n ih => exact exprSafe_succ hE ih

theorem typeIs_advance {tokens : List Token} (hE : Closed tokens) {pos : Nat}
    {type : TokenType} (ht : type ≠ TokenType.EndOfFile)
    (h : typeIs tokens pos type = true) : pos + 1 < tokens.length := by
  unfold typeIs at h
  cases hk : tokens[pos]? with
  | none => rw [hk] at h; cases h
  | some token =>
    rw [hk] at h
    dsimp only at h
    apply hE pos token hk
    intro he
    rw [he] at h
    have h1 : TokenType.EndOfFile = type := by simpa using h
    exact ht h1.symm

theorem parseBreak_within {tokens : List Token} (hE : Closed tokens) {pos : Nat}
    (hp : pos < tokens.length) : Within tokens (pos + 1) (parseBreak tokens pos) := by
  unfold parseBreak
  apply within_bind (expect_within hE hp _ (by decide))
  intro r h1 h2
  apply within_bind (expect_within hE h2 _ (by decide))
  intro r1 h3 h4
  exact within_ok _ (by omega) h4

theorem parseParameter_within {tokens : List Token} (hE : Closed tokens) {pos : Nat}
    (hp : pos < tokens.length) : Within tokens (pos + 1) (parseParameter tokens pos) := by
  obtain ⟨token, hk⟩ := token_at hp
  unfold parseParameter
  rw [hk]
  dsimp only
  split_ifs with hc
  · exact within_thrown _ _
  · have h0 : isParameterType token.type = true := by simpa using hc
    have h1 := advance_of hE hk isParameterType rfl h0
    apply within_bind (expect_within hE h1 _ (by decide))
    intro name h2 h3
    exact within_ok _ (by omega) h3

theorem parseVarStatement_within {tokens : List Token} (hE : Closed tokens) {fuel pos : Nat}
    (hp : pos < tokens.length)
    (hexpr : ∀ p, pos < p → p < tokens.length → Within tokens (p + 1) (parseExpression fuel tokens p)) :
    Within tokens (pos + 1) (parseVarStatement fuel tokens pos) := by
  obtain ⟨token, hk⟩ := token_at hp
  unfold parseVarStatement
  rw [hk]
  dsimp only
  cases hd : declaredType token.type with
  | none => exact within_thrown _ _
  | some type =>
    have h0 : (fun t => (declaredType t).isSome) token.type = true := by
      show (declaredType token.type).isSome = true
      rw [hd]; rfl
    have h1 := advance_of hE hk (fun t => (declaredType t).isSome) rfl h0
    dsimp only
    apply within_bind (expect_within hE h1 _ (by decide))
    intro varName h2 h3
    apply within_bind (expect_within hE h3 _ (by decide))
    intro r h4 h5
    apply within_bind (hexpr r.2 (by omega) h5)
    intro expr h6 h7
    apply within_bind (expect_within hE h7 _ (by decide))
    intro r1 h8 h9
    exact within_ok _ (by omega) h9

theorem assignTarget_within {tokens : List Token} (hE : Closed tokens) {fuel pos : Nat}
    (varName : Str) (hp : pos < tokens.length)
    (hexpr : ∀ p, pos < p → p < tokens.length → Within tokens (p + 1) (parseExpression fuel tokens p)) :
    Within tokens pos (assignTarget fuel tokens varName pos) := by
  obtain ⟨token, hk⟩ := token_at hp
  unfold assignTarget
  rw [hk]
  dsimp only
  split_ifs with hc
  · have h1 := advance_of hE hk (fun t => t == TokenType.LBracket) rfl hc
    apply within_bind (hexpr (pos + 1) (by omega) h1)
    intro expr h2 h3
    apply within_bind (expect_within hE h3 _ (by decide))
    intro r h4 h5
    exact within_ok _ (by omega) h5
  · exact within_ok _ (Nat.le_refl _) hp

theorem parseAssignStatement_within {tokens : List Token} (hE : Closed tokens) {fuel pos : Nat}
    (hp : pos < tokens.length)
    (hexpr : ∀ p, pos < p → p < tokens.length → Within tokens (p + 1) (parseExpression fuel tokens p)) :
    Within tokens (pos + 1) (parseAssignStatement fuel tokens pos) := by
  unfold parseAssignStatement
  apply within_bind (expect_within hE hp _ (by decide))
  intro varName h1 h2
  apply within_bind (assignTarget_within hE varName.1 h2
    (fun p hl hq => hexpr p (by omega) hq))
  intro var h3 h4
  apply within_bind (expect_within hE h4 _ (by decide))
  intro r h5 h6
  apply within_bind (hexpr r.2 (by omega) h6)
  intro expr h7 h8
  apply within_bind (expect_within hE h8 _ (by decide))
  intro r1 h9 h10
  exact within_ok _ (by omega) h10

theorem returnValue_within {tokens : List Token} (hE : Closed tokens) {fuel pos : Nat}
    (hp : pos < tokens.length)
    (hexpr : ∀ p, pos ≤ p → p < tokens.length → Within tokens (p + 1) (parseExpression fuel tokens p)) :
    Within tokens (pos + 1) (returnValue fuel tokens pos) := by
  obtain ⟨token, hk⟩ := token_at hp
  unfold returnValue
  rw [hk]
  dsimp only
  split_ifs with hc
  · exact within_ok _ (Nat.le_refl _)
      (advance_of hE hk (fun t => t == TokenType.Semicolon) rfl hc)
  · apply within_bind (hexpr pos (Nat.le_refl _) hp)
    intro node h1 h2
    apply within_bind (expect_within hE h2 _ (by decide))
    intro r h3 h4
    exact within_ok _ (by omega) h4

theorem parseReturn_within {tokens : List Token} (hE : Closed tokens) {fuel pos : Nat}
    (hp : pos < tokens.length)
    (hexpr : ∀ p, pos < p → p < tokens.length → Within tokens (p + 1) (parseExpression fuel tokens p)) :
    Within tokens (pos + 1) (parseReturn fuel tokens pos) := by
  unfold parseReturn
  apply within_bind (expect_within hE hp _ (by decide))
  intro r h1 h2
  exact within_mono (returnValue_within hE h2 (fun p hl hq => hexpr p (by omega) hq))
    (by omega)

theorem parseStatement_safe {tokens : List Token} (hE : Closed tokens) {fuel : Nat}
    (ih : StmtSafe tokens fuel) :
    Safe tokens 10 (fuel + 1) (parseStatement (fuel + 1) tokens) := by
  intro pos hp hn
  unfold need at hn
  have he := exprSafe hE fuel
  have hexpr : ∀ p, pos < p → p < tokens.length →
      Within tokens (p + 1) (parseExpression fuel tokens p) :=
    fun p hl hq => he.expression p hq (by unfold need; omega)
  obtain ⟨token, hk⟩ := token_at hp
  rw [parseStatement, hk]
  dsimp only
  split_ifs with c1 c2 c3 c4 c5 c6 c7 c8
  · exact ih.function pos hp (by unfold need; omega)
  · exact parseVarStatement_within hE hp hexpr
  · exact ih.parseIf pos hp (by unfold need; omega)
  · exact ih.parseWhile pos hp (by unfold need; omega)
  · exact parseBreak_within hE hp
  · exact parseReturn_within hE hp hexpr
  · apply within_bind (he.functionCall pos hp (by unfold need; omega))
    intro node h1 h2
    apply within_bind (expect_within hE h2 _ (by decide))
    intro r h3 h4
    exact within_ok _ (by omega) h4
  · exact parseAssignStatement_within hE hp hexpr
  · exact he.expression pos hp (by unfold need; omega)

theorem parseBlock_safe {tokens : List Token} (hE : Closed tokens) {fuel : Nat}
    (ih : StmtSafe tokens fuel) :
    Safe tokens 0 (fuel + 1) (parseBlock (fuel + 1) tokens) := by
  intro pos hp hn
  unfold need at hn
  rw [parseBlock]
  apply within_bind (expect_within hE hp _ (by decide))
  intro r h1 h2
  apply within_bind (statementLoop_within _ (parseStatement fuel tokens) (pos + 1)
    (fun p hl hq => ih.statement p hq (by unfold need; omega)) fuel [] r.2 h1 h2 (by omega))
  intro children h3 h4
  apply within_bind (expect_within hE h4 _ (by decide))
  intro r1 h5 h6
  exact within_ok _ (by omega) h6

theorem parseIf_safe {tokens : List Token} (hE : Closed tokens) {fuel : Nat}
    (ih : StmtSafe tokens fuel) :
    Safe tokens 0 (fuel + 1) (parseIf (fuel + 1) tokens) := by
  intro pos hp hn
  unfold need at hn
  have he := exprSafe hE fuel
  rw [parseIf]
  apply within_bind (expect_within hE hp _ (by decide))
  intro r h1 h2
  apply within_bind (expect_within hE h2 _ (by decide))
  intro r1 h3 h4
  apply within_bind (he.expression r1.2 h4 (by unfold need; omega))
  intro condition h5 h6
  apply within_bind (expect_within hE h6 _ (by decide))
  intro r2 h7 h8
  apply within_bind (ih.block r2.2 h8 (by unfold need; omega))
  intro thenBranch h9 h10
  dsimp only
  split_ifs with hc
  · have h11 := typeIs_advance hE (by decide) hc
    apply within_bind (ih.block (thenBranch.2 + 1) h11 (by unfold need; omega))
    intro elseBranch h12 h13
    exact within_ok _ (by omega) h13
  · exact within_ok _ (by omega) h10

theorem parseWhile_safe {tokens : List Token} (hE : Closed tokens) {fuel : Nat}
    (ih : StmtSafe tokens fuel) :
    Safe tokens 0 (fuel + 1) (parseWhile (fuel + 1) tokens) := by
  intro pos hp hn
  unfold need at hn
  have he := exprSafe hE fuel
  rw [parseWhile]
  apply within_bind (expect_within hE hp _ (by decide))
  intro r h1 h2
  apply within_bind (expect_within hE h2 _ (by decide))
  intro r1 h3 h4
  apply within_bind (he.expression r1.2 h4 (by unfold need; omega))
  intro condition h5 h6
  apply within_bind (expect_within hE h6 _ (by decide))
  intro r2 h7 h8
  apply within_bind (ih.block r2.2 h8 (by unfold need; omega))
  intro body h9 h10
  exact within_ok _ (by omega) h10

theorem parseFunction_safe {tokens : List Token} (hE : Closed tokens) {fuel : Nat}
    (ih : StmtSafe tokens fuel) :
    Safe tokens 0 (fuel + 1) (parseFunction (fuel + 1) tokens) := by
  intro pos hp hn
  unfold need at hn
  obtain ⟨token, hk⟩ := token_at hp
  rw [parseFunction, hk]
  dsimp only
  split_ifs with hc
  · exact within_thrown _ _
  · have h0 : isReturnType token.type = true := by simpa using hc
    have h1 := advance_of hE hk isReturnType rfl h0
    apply within_bind (expect_within hE h1 _ (by decide))
    intro name h2 h3
    apply within_bind (expect_within hE h3 _ (by decide))
    intro r h4 h5
    apply within_bind (parameterLoop_within hE (parseParameter tokens) pos
      (fun p hl hq => parseParameter_within hE hq) fuel [] r.2 (by omega) h5 (by omega))
    intro parameters h6 h7
    apply within_bind (expect_within hE h7 _ (by decide))
    intro r1 h8 h9
    apply within_bind (ih.block r1.2 h9 (by unfold need; omega))
    intro body h10 h11
    exact within_ok _ (by omega) h11

theorem stmtSafe {tokens : List Token} (hE : Closed tokens) (fuel : Nat) :
    StmtSafe tokens fuel := by
  induction fuel with
  | zero => constructor <;> intro pos hp hn <;> unfold need at hn <;> omega
  | succ n ih =>
    exact ⟨parseStatement_safe hE ih, parseIf_safe hE ih, parseWhile_safe hE ih,
      parseBlock_safe hE ih, parseFunction_safe hE ih⟩

/-- An exception that is neither a read outside the tokens nor the end of the
fuel is one that the code throws. -/
theorem thrown_cases {e : ParseError} (h1 : e ≠ ParseError.outOfBounds)
    (h2 : e ≠ ParseError.outOfFuel) :
    e = ParseError.runtimeError ∨ ∃ a, e = ParseError.stolFailed a := by
  cases e with
  | runtimeError => exact Or.inl rfl
  | stolFailed a => exact Or.inr ⟨a, rfl⟩
  | outOfBounds => exact absurd rfl h1
  | outOfFuel => exact absurd rfl h2

theorem within_cases {tokens : List Token} {pos : Nat} {r : ParseResult}
    (h : Within tokens (pos + 1) r) :
    (∃ node pos1, r = Except.ok (node, pos1) ∧ pos < pos1 ∧ pos1 < tokens.length) ∨
    r = Except.error ParseError.runtimeError ∨
    ∃ a, r = Except.error (ParseError.stolFailed a) := by
  cases r with
  | ok v => exact Or.inl ⟨v.1, v.2, rfl, h.1, h.2⟩
  | error e =>
    rcases thrown_cases h.1 h.2 with k | ⟨a, k⟩
    · exact Or.inr (Or.inl (by rw [k]))
    · exact Or.inr (Or.inr ⟨a, by rw [k]⟩)

theorem makeTreeTokens_safe {tokens : List Token} (hE : Closed tokens)
    (hne : 0 < tokens.length) (fuel : Nat) (hf : 16 * tokens.length + 16 ≤ fuel) :
    (∃ tree, makeTreeTokens fuel tokens = Except.ok tree) ∨
    makeTreeTokens fuel tokens = Except.error ParseError.runtimeError ∨
    ∃ a, makeTreeTokens fuel tokens = Except.error (ParseError.stolFailed a) := by
  have h := statementLoop_within (fun t => t == TokenType.EndOfFile)
    (parseStatement fuel tokens) 0
    (fun p _ hq => (stmtSafe hE fuel).statement p hq (by unfold need; omega)) fuel [] 0
    (Nat.le_refl _) hne (by omega)
  unfold makeTreeTokens
  cases hr : statementLoop (fun t => t == TokenType.EndOfFile) (parseStatement fuel tokens)
      tokens fuel [] 0 with
  | ok children => exact Or.inl ⟨_, rfl⟩
  | error e =>
    rw [hr] at h
    rcases thrown_cases h.1 h.2 with k | ⟨a, k⟩
    · exact Or.inr (Or.inl (by rw [k]; rfl))
    · exact Or.inr (Or.inr ⟨a, by rw [k]; rfl⟩)

/-! ## The token list that `tokenize` gives -/

theorem ite_type (c : Prop) [Decidable c] (a b : Token)
    (ha : a.type ≠ TokenType.EndOfFile) (hb : b.type ≠ TokenType.EndOfFile) :
    (if c then a else b).type ≠ TokenType.EndOfFile := by
  split_ifs
  · exact ha
  · exact hb

theorem ite_fst_type (c : Prop) [Decidable c] (a b : Token × Str)
    (ha : a.1.type ≠ TokenType.EndOfFile) (hb : b.1.type ≠ TokenType.EndOfFile) :
    (if c then a else b).1.type ≠ TokenType.EndOfFile := by
  split_ifs
  · exact ha
  · exact hb

theorem wordToken_type (word : Str) : (wordToken word).type ≠ TokenType.EndOfFile := by
  unfold wordToken
  repeat' (first | exact fun h => TokenType.noConfusion h | apply ite_type)

theorem intToken_type (word after : Str) :
    (intToken word after).1.type ≠ TokenType.EndOfFile := by
  unfold intToken
  dsimp only
  repeat' (first | exact fun h => TokenType.noConfusion h | apply ite_fst_type)

theorem symbolToken_type (current : Char) (tail : Str) :
    (symbolToken current tail).1.type ≠ TokenType.EndOfFile := by
  unfold symbolToken
  repeat' (first | exact fun h => TokenType.noConfusion h | apply ite_fst_type)

theorem charToken_type (tail : Str) (r : Token × Str) (h : charToken tail = Except.ok r) :
    r.1.type ≠ TokenType.EndOfFile := by
  unfold charToken at h
  split at h
  · cases h
  · split at h
    · cases h
    · dsimp only at h
      split at h
      · cases h
      · split at h
        · cases h; exact fun h => TokenType.noConfusion h
        · cases h
  · split at h
    · cases h; exact fun h => TokenType.noConfusion h
    · cases h

theorem nextToken_type (rest rest1 : Str) (token : Token)
    (h : nextToken rest = Except.ok (some token, rest1)) :
    token.type ≠ TokenType.EndOfFile := by
  unfold nextToken at h
  split at h
  · cases h
  · dsimp only at h
    split_ifs at h
    · cases h
    · cases h
    · cases h; exact intToken_type _ _
    · cases h; exact wordToken_type _
    · cases h; exact fun h => TokenType.noConfusion h
    · split at h
      · cases h; exact fun h => TokenType.noConfusion h
      · cases h
    · split at h
      · rename_i r hr
        cases h
        exact charToken_type _ _ hr
      · cases h
    · cases h; exact symbolToken_type _ _

theorem tokenizeLoop_types :
    ∀ (fuel : Nat) (rest : Str) (acc tokens : List Token),
      (∀ t ∈ acc, t.type ≠ TokenType.EndOfFile) →
      tokenizeLoop fuel rest acc = Except.ok tokens →
      ∀ t ∈ tokens, t.type ≠ TokenType.EndOfFile := by
  intro fuel
  induction fuel with
  | zero => intro rest acc tokens _ h; cases h
  | succ n ih =>
    intro rest acc tokens hacc h
    rw [tokenizeLoop] at h
    split_ifs at h with hc
    · cases h; exact hacc
    · cases hn : nextToken rest with
      | error e => rw [hn] at h; cases h
      | ok r =>
        obtain ⟨o, rest1⟩ := r
        cases o with
        | none =>
          rw [hn] at h
          exact ih rest1 acc tokens hacc h
        | some token =>
          rw [hn] at h
          refine ih rest1 (acc ++ [token]) tokens ?_ h
          intro t ht
          rcases List.mem_append.mp ht with k | k
          · exact hacc t k
          · rw [List.mem_singleton.mp k]
            exact nextToken_type _ _ _ hn

/-- The tokens that `tokenize` gives: tokens that are not `EndOfFile`, then
one `EndOfFile` token. -/
theorem tokenize_ends (input : Str) (tokens : List Token)
    (h : tokenize input = Except.ok tokens) :
    ∃ body, tokens = body ++ [⟨TokenType.EndOfFile, []⟩] ∧
      ∀ t ∈ body, t.type ≠ TokenType.EndOfFile := by
  unfold tokenize at h
  cases hl : tokenizeLoop (input.length + 1) input [] with
  | error e => rw [hl] at h; cases h
  | ok body =>
    rw [hl] at h
    cases h
    exact ⟨body, rfl, tokenizeLoop_types _ _ _ _ (fun t ht => absurd ht (List.not_mem_nil t)) hl⟩

theorem closed_of_ends (tokens body : List Token)
    (h : tokens = body ++ [⟨TokenType.EndOfFile, []⟩]) : Closed tokens := by
  intro pos token hk hne
  subst h
  rw [List.length_append, List.length_singleton]
  by_cases hp : pos < body.length
  · omega
  · exfalso
    rw [List.getElem?_append_right (by omega)] at hk
    cases hq : pos - body.length with
    | zero =>
      rw [hq] at hk
      cases hk
      exact hne rfl
    | succ m =>
      rw [hq] at hk
      cases hk

theorem length_dropWhile_le (p : Char → Bool) (s : Str) : (s.dropWhile p).length ≤ s.length := by
  induction s with
  | nil => exact Nat.le_refl _
  | cons c cs ih =>
    rw [List.dropWhile_cons]
    split_ifs
    · exact Nat.le_succ_of_le ih
    · exact Nat.le_refl _

theorem ite_snd_length (c : Prop) [Decidable c] (a b : Token × Str) (n : Nat)
    (ha : a.2.length ≤ n) (hb : b.2.length ≤ n) : (if c then a else b).2.length ≤ n := by
  split_ifs
  · exact ha
  · exact hb

theorem intToken_length (word after : Str) :
    (intToken word after).2.length ≤ after.length := by
  unfold intToken
  dsimp only
  apply ite_snd_length
  · apply ite_snd_length
    · have h1 := length_dropWhile_le isspace after
      have h2 := length_dropWhile_le isspace ((after.dropWhile isspace).drop 1)
      rw [List.length_drop] at h2 ⊢
      omega
    · exact Nat.le_refl _
  · exact Nat.le_refl _

theorem symbolToken_length (current : Char) (tail : Str) :
    (symbolToken current tail).2.length ≤ tail.length := by
  unfold symbolToken
  repeat' (first
    | exact Nat.le_refl _
    | (show (tail.drop 1).length ≤ tail.length; rw [List.length_drop]; omega)
    | apply ite_snd_length)

theorem charToken_length (tail : Str) (r : Token × Str) (h : charToken tail = Except.ok r) :
    r.2.length ≤ tail.length := by
  unfold charToken at h
  split at h
  · cases h
  · split at h
    · cases h
    · dsimp only at h
      split at h
      · cases h
      · split at h
        · cases h
          simp only [List.length_cons]
          omega
        · cases h
  · split at h
    · cases h
      simp only [List.length_cons]
      omega
    · cases h

theorem nextToken_shorter (current : Char) (tail rest1 : Str) (o : Option Token)
    (h : nextToken (current :: tail) = Except.ok (o, rest1)) :
    rest1.length ≤ tail.length := by
  unfold nextToken at h
  dsimp only at h
  split_ifs at h with c1 c2 c3 c4 c5 c6 c7
  · cases h; exact Nat.le_refl _
  · cases h; exact Nat.le_refl _
  · cases h
    have h1 : isAlnum current = true := by unfold isAlnum; rw [c3]; rfl
    have h2 := intToken_length (List.takeWhile isAlnum (current :: tail))
      (List.dropWhile isAlnum (current :: tail))
    have h3 : List.dropWhile isAlnum (current :: tail) = List.dropWhile isAlnum tail := by
      rw [List.dropWhile_cons, if_pos h1]
    rw [h3] at h2 ⊢
    exact Nat.le_trans h2 (length_dropWhile_le _ _)
  · cases h
    have h1 : isAlnum current = true := by unfold isAlnum; rw [c3]; rfl
    rw [List.dropWhile_cons, if_pos h1]
    exact length_dropWhile_le _ _
  · cases h
    rw [List.dropWhile_cons, if_pos c5]
    exact length_dropWhile_le _ _
  · split at h
    · rename_i c after hd
      cases h
      have h1 := length_dropWhile_le (fun c => c != '"') tail
      rw [hd] at h1
      simp only [List.length_cons] at h1
      omega
    · cases h
  · split at h
    · rename_i r hr
      cases h
      exact charToken_length _ _ hr
    · cases h
  · cases h; exact symbolToken_length _ _

theorem nextToken_error (rest : Str) (e : ParseError) (h : nextToken rest = Except.error e) :
    e = ParseError.runtimeError := by
  unfold nextToken at h
  split at h
  · cases h
  · dsimp only at h
    split_ifs at h
    · split at h
      · cases h
      · cases h; rfl
    · split at h
      · cases h
      · rename_i e1 he
        cases h
        unfold charToken at he
        split at he
        · cases he; rfl
        · split at he
          · cases he; rfl
          · dsimp only at he
            split at he
            · cases he; rfl
            · split at he
              · cases he
              · cases he; rfl
        · split at he
          · cases he
          · cases he; rfl

/-- The loop of `tokenize` ends within one turn for each character: with more
fuel than characters it gives the tokens or the `std::runtime_error`. -/
theorem tokenizeLoop_total :
    ∀ (fuel : Nat) (rest : Str) (acc : List Token), rest.length < fuel →
      (∃ tokens, tokenizeLoop fuel rest acc = Except.ok tokens) ∨
      tokenizeLoop fuel rest acc = Except.error ParseError.runtimeError := by
  intro fuel
  induction fuel with
  | zero => intro rest acc h; omega
  | succ n ih =>
    intro rest acc hl
    rw [tokenizeLoop]
    cases rest with
    | nil => exact Or.inl ⟨acc, rfl⟩
    | cons current tail =>
      rw [if_neg (by simp)]
      cases hn : nextToken (current :: tail) with
      | error e =>
        rw [nextToken_error _ _ hn]
        exact Or.inr rfl
      | ok r =>
        obtain ⟨o, rest1⟩ := r
        have h1 := nextToken_shorter _ _ _ _ hn
        simp only [List.length_cons] at hl
        cases o with
        | none => exact ih rest1 acc (by omega)
        | some token => exact ih rest1 (acc ++ [token]) (by omega)

theorem tokenize_total (input : Str) :
    (∃ tokens, tokenize input = Except.ok tokens) ∨
    tokenize input = Except.error ParseError.runtimeError := by
  unfold tokenize
  rcases tokenizeLoop_total (input.length + 1) input [] (Nat.lt_succ_self _) with ⟨t, h⟩ | h
  · rw [h]; exact Or.inl ⟨_, rfl⟩
  · rw [h]; exact Or.inr rfl

/-! ## `makeTree` ends, and inside the token list -/

/-- C38: when `tokenize` gives a token list, the list is tokens other than
`EndOfFile` followed by one `EndOfFile` token; with fuel for the depth of the
calls, `makeTree` gives a tree or ends with an exception that the code throws
(a `std::runtime_error` of the parser, or the exception of `std::stol` for a
number literal), never with a read outside the token list; and from every
position inside the list `parseStatement` and `parseExpression`, when they
give a node, give a position that is greater and still inside the list, so the
`EndOfFile` token is never passed, and otherwise end with such an exception. -/
theorem makeTree_stays_in_bounds (input : Str) (tokens : List Token)
    (h : tokenize input = Except.ok tokens) :
    (∃ body, tokens = body ++ [endOfFile] ∧ ∀ t ∈ body, t.type ≠ TokenType.EndOfFile) ∧
    (∀ fuel, 16 * tokens.length + 16 ≤ fuel →
      ((∃ tree, makeTree fuel input = Except.ok tree) ∨
        makeTree fuel input = Except.error ParseError.runtimeError ∨
        ∃ a, makeTree fuel input = Except.error (ParseError.stolFailed a))) ∧
    (∀ fuel pos, 16 * tokens.length + 16 ≤ fuel → pos < tokens.length →
      ((∃ node pos1, parseStatement fuel tokens pos = Except.ok (node, pos1) ∧
          pos < pos1 ∧ pos1 < tokens.length) ∨
        parseStatement fuel tokens pos = Except.error ParseError.runtimeError ∨
        ∃ a, parseStatement fuel tokens pos = Except.error (ParseError.stolFailed a)) ∧
      ((∃ node pos1, parseExpression fuel tokens pos = Except.ok (node, pos1) ∧
          pos < pos1 ∧ pos1 < tokens.length) ∨
        parseExpression fuel tokens pos = Except.error ParseError.runtimeError ∨
        ∃ a, parseExpression fuel tokens pos = Except.error (ParseError.stolFailed a))) := by
  obtain ⟨body, hb, hall⟩ := tokenize_ends input tokens h
  have hE : Closed tokens := closed_of_ends tokens body hb
  have hne : 0 < tokens.length := by
    rw [hb, List.length_append, List.length_singleton]; omega
  refine ⟨⟨body, hb, hall⟩, ?_, ?_⟩
  · intro fuel hf
    have hm : makeTree fuel input = makeTreeTokens fuel tokens := by
      unfold makeTree; rw [h]; rfl
    rw [hm]
    exact makeTreeTokens_safe hE hne fuel hf
  · intro fuel pos hf hp
    have hs := (stmtSafe hE fuel).statement pos hp (by unfold need; omega)
    have hx := (exprSafe hE fuel).expression pos hp (by unfold need; omega)
    exact ⟨within_cases hs, within_cases hx⟩

/-- Witness for C38: the input `x = 1;`, five tokens with the `EndOfFile`
token. -/
theorem makeTree_stays_in_bounds_witness :
    tokenize "x = 1;".toList =
      Except.ok [identifier "x".toList, ⟨TokenType.Equals, "=".toList⟩,
        ⟨TokenType.Number, "1".toList⟩, ⟨TokenType.Semicolon, ";".toList⟩, endOfFile] ∧
    ((∃ tree, makeTree 96 "x = 1;".toList = Except.ok tree) ∨
      makeTree 96 "x = 1;".toList = Except.error ParseError.runtimeError ∨
      ∃ a, makeTree 96 "x = 1;".toList = Except.error (ParseError.stolFailed a)) ∧
    makeTree 96 "x = 1;".toList =
      Except.ok (ASTNode.Block [ASTNode.Assign (ASTNode.Identifier [] "x".toList)
        (ASTNode.NumberLiteral [] 1)]) :=
  ⟨by decide,
    (makeTree_stays_in_bounds "x = 1;".toList
      [identifier "x".toList, ⟨TokenType.Equals, "=".toList⟩,
        ⟨TokenType.Number, "1".toList⟩, ⟨TokenType.Semicolon, ";".toList⟩, endOfFile]
      (by decide)).2.1 96 (by decide),
    rfl⟩

/-! ## Precedence and associativity of the binary operators -/

theorem precedenceLevel_range {t : TokenType} {l : Nat} (h : precedenceLevel t = some l) :
    1 ≤ l ∧ l ≤ 6 := by
  cases t <;> cases h <;> decide

theorem isOpAt_true {k : Nat} {t : TokenType} (h : precedenceLevel t = some k) :
    isOpAt k t = true := by
  unfold isOpAt
  rw [h]
  exact beq_self_eq_true _

theorem isOpAt_false {k : Nat} {t : TokenType} (h : precedenceLevel t ≠ some k) :
    isOpAt k t = false := by
  unfold isOpAt
  exact beq_eq_false_iff_ne.mpr h

/-- One level of the expression parser: the operand of the next level, then
the loop over the operators of this level. -/
theorem levelAt_unfold (n : Nat) (tokens : List Token) (k : Nat) (h1 : 1 ≤ k) (h6 : k ≤ 6)
    (pos : Nat) :
    levelAt n tokens k pos =
      (levelAt n tokens (k + 1) pos >>= fun node =>
        binaryLoop (isOpAt k) (levelAt n tokens (k + 1)) tokens (n + (6 - k)) node.1 node.2) := by
  have e1 : (fun t => t == TokenType.LogicOr) = isOpAt 1 := by funext t; cases t <;> rfl
  have e2 : (fun t => t == TokenType.LogicAnd) = isOpAt 2 := by funext t; cases t <;> rfl
  have e3 : (fun t => t == TokenType.LogicEqual || t == TokenType.LogicNotEqual) =
      isOpAt 3 := by funext t; cases t <;> rfl
  have e4 : (fun t => t == TokenType.LogicGreater || t == TokenType.LogicGreaterEqual ||
      t == TokenType.LogicLess || t == TokenType.LogicLessEqual) = isOpAt 4 := by
    funext t; cases t <;> rfl
  have e5 : (fun t => t == TokenType.Plus || t == TokenType.Minus) = isOpAt 5 := by
    funext t; cases t <;> rfl
  have e6 : (fun t => t == TokenType.Multiply || t == TokenType.Divide ||
      t == TokenType.Rem) = isOpAt 6 := by funext t; cases t <;> rfl
  have hk : k = 1 ∨ k = 2 ∨ k = 3 ∨ k = 4 ∨ k = 5 ∨ k = 6 := by omega
  rcases hk with rfl | rfl | rfl | rfl | rfl | rfl
  · show parseLogicOr (n + 5 + 1) tokens pos = _
    rw [parseLogicOr, e1]; rfl
  · show parseLogicAnd (n + 4 + 1) tokens pos = _
    rw [parseLogicAnd, e2]; rfl
  · show parseEquality (n + 3 + 1) tokens pos = _
    rw [parseEquality, e3]; rfl
  · show parseComparsion (n + 2 + 1) tokens pos = _
    rw [parseComparsion, e4]; rfl
  · show parseTerm (n + 1 + 1) tokens pos = _
    rw [parseTerm, e5]; rfl
  · show parseFactor (n + 0 + 1) tokens pos = _
    rw [parseFactor, e6]; rfl

theorem binaryLoop_stop (isOp : TokenType → Bool) (operand : Nat → ParseResult)
    (tokens : List Token) (m : Nat) (node : ASTNode) (q : Nat)
    (h : ∀ t, tokens[q]? = some t → isOp t.type = false) :
    binaryLoop isOp operand tokens (m + 1) node q = Except.ok (node, q) := by
  rw [binaryLoop]
  cases hk : tokens[q]? with
  | none => rfl
  | some t =>
    dsimp only
    rw [h t hk]
    rfl

theorem binaryLoop_step (isOp : TokenType → Bool) (operand : Nat → ParseResult)
    (tokens : List Token) (m : Nat) (node right : ASTNode) (q r : Nat) (op : Token)
    (hk : tokens[q]? = some op) (hop : isOp op.type = true)
    (hr : operand (q + 1) = Except.ok (right, r)) :
    binaryLoop isOp operand tokens (m + 1) node q =
      binaryLoop isOp operand tokens m (ASTNode.BinaryOp [] op.value node right) r := by
  rw [binaryLoop, hk]
  dsimp only
  rw [if_pos hop, hr]
  rfl

/-- A result of level `k + 1` that ends in front of a token which is no
operator of level `k` is the result of level `k`. -/
theorem levelAt_pass (n : Nat) (tokens : List Token) (k : Nat) (h1 : 1 ≤ k) (h6 : k ≤ 6)
    (hn : 1 ≤ n) (p q : Nat) (x : ASTNode)
    (hx : levelAt n tokens (k + 1) p = Except.ok (x, q))
    (hq : ∀ t, tokens[q]? = some t → precedenceLevel t.type ≠ some k) :
    levelAt n tokens k p = Except.ok (x, q) := by
  rw [levelAt_unfold n tokens k h1 h6, hx]
  show binaryLoop (isOpAt k) (levelAt n tokens (k + 1)) tokens (n + (6 - k)) x q = _
  have e : n + (6 - k) = (n + (6 - k) - 1) + 1 := by omega
  rw [e]
  exact binaryLoop_stop _ _ _ _ _ _ (fun t ht => isOpAt_false (hq t ht))

/-- A result of some level that ends in front of a token which is no operator
of the levels from `k1` up to that level is the result of level `k1`. -/
theorem levelAt_descend (n : Nat) (tokens : List Token) (hn : 1 ≤ n) (p q : Nat) (x : ASTNode)
    (k1 : Nat) (h1 : 1 ≤ k1) :
    ∀ (d : Nat), k1 + d ≤ 7 →
      levelAt n tokens (k1 + d) p = Except.ok (x, q) →
      (∀ t, tokens[q]? = some t → ∀ k, k1 ≤ k → k < k1 + d → precedenceLevel t.type ≠ some k) →
      levelAt n tokens k1 p = Except.ok (x, q) := by
  intro d
  induction d generalizing k1 with
  | zero => intro _ hx _; exact hx
  | succ d ih =>
    intro h7 hx hq
    have hx1 : levelAt n tokens (k1 + 1 + d) p = Except.ok (x, q) := by
      rw [show k1 + 1 + d = k1 + (d + 1) by omega]; exact hx
    have h2 := ih (k1 + 1) (by omega) (by omega) hx1
      (fun t ht k hk1 hk2 => hq t ht k (by omega) (by omega))
    exact levelAt_pass n tokens k1 h1 (by omega) hn p q x h2
      (fun t ht => hq t ht k1 (Nat.le_refl _) (by omega))

/-- One operator of level `k` between two operands of level `k + 1`. -/
theorem levelAt_one (n : Nat) (tokens : List Token) (k : Nat) (h1 : 1 ≤ k) (h6 : k ≤ 6)
    (hn : 2 ≤ n) (p q r : Nat) (x y : ASTNode) (op : Token)
    (hx : levelAt n tokens (k + 1) p = Except.ok (x, q))
    (hop : tokens[q]? = some op) (hl : precedenceLevel op.type = some k)
    (hy : levelAt n tokens (k + 1) (q + 1) = Except.ok (y, r))
    (hr : ∀ t, tokens[r]? = some t → precedenceLevel t.type ≠ some k) :
    levelAt n tokens k p = Except.ok (ASTNode.BinaryOp [] op.value x y, r) := by
  rw [levelAt_unfold n tokens k h1 h6, hx]
  show binaryLoop (isOpAt k) (levelAt n tokens (k + 1)) tokens (n + (6 - k)) x q = _
  have e : n + (6 - k) = (n + (6 - k) - 2) + 1 + 1 := by omega
  rw [e, binaryLoop_step _ _ _ _ _ _ _ _ _ hop (isOpAt_true hl) hy]
  exact binaryLoop_stop _ _ _ _ _ _ (fun t ht => isOpAt_false (hr t ht))

/-- Two operators of the same level `k` between three operands of level
`k + 1`: the loop groups them to the left. -/
theorem levelAt_two (n : Nat) (tokens : List Token) (k : Nat) (h1 : 1 ≤ k) (h6 : k ≤ 6)
    (hn : 3 ≤ n) (p q r s : Nat) (x y z : ASTNode) (op1 op2 : Token)
    (hx : levelAt n tokens (k + 1) p = Except.ok (x, q))
    (hop1 : tokens[q]? = some op1) (hl1 : precedenceLevel op1.type = some k)
    (hy : levelAt n tokens (k + 1) (q + 1) = Except.ok (y, r))
    (hop2 : tokens[r]? = some op2) (hl2 : precedenceLevel op2.type = some k)
    (hz : levelAt n tokens (k + 1) (r + 1) = Except.ok (z, s))
    (hs : ∀ t, tokens[s]? = some t → precedenceLevel t.type ≠ some k) :
    levelAt n tokens k p =
      Except.ok (ASTNode.BinaryOp [] op2.value (ASTNode.BinaryOp [] op1.value x y) z, s) := by
  rw [levelAt_unfold n tokens k h1 h6, hx]
  show binaryLoop (isOpAt k) (levelAt n tokens (k + 1)) tokens (n + (6 - k)) x q = _
  have e : n + (6 - k) = (n + (6 - k) - 3) + 1 + 1 + 1 := by omega
  rw [e, binaryLoop_step _ _ _ _ _ _ _ _ _ hop1 (isOpAt_true hl1) hy,
    binaryLoop_step _ _ _ _ _ _ _ _ _ hop2 (isOpAt_true hl2) hz]
  exact binaryLoop_stop _ _ _ _ _ _ (fun t ht => isOpAt_false (hs t ht))

theorem levelAt_down (n : Nat) (tokens : List Token) (hn : 1 ≤ n) (p q : Nat) (x : ASTNode)
    (k0 k1 : Nat) (h1 : 1 ≤ k1) (hle : k1 ≤ k0) (h7 : k0 ≤ 7)
    (hx : levelAt n tokens k0 p = Except.ok (x, q))
    (hq : ∀ t, tokens[q]? = some t → ∀ k, k1 ≤ k → k < k0 → precedenceLevel t.type ≠ some k) :
    levelAt n tokens k1 p = Except.ok (x, q) := by
  have e : k1 + (k0 - k1) = k0 := by omega
  exact levelAt_descend n tokens hn p q x k1 h1 (k0 - k1) (by omega) (by rw [e]; exact hx)
    (fun t ht k hk1 hk2 => hq t ht k hk1 (by omega))

/-- A token that is an operator of level `l` is no operator of another level. -/
theorem not_level {tokens : List Token} {q : Nat} {op : Token} {l : Nat}
    (hop : tokens[q]? = some op) (hl : precedenceLevel op.type = some l) :
    ∀ t, tokens[q]? = some t → ∀ k, k ≠ l → precedenceLevel t.type ≠ some k := by
  intro t ht k hk h
  rw [hop] at ht
  cases ht
  rw [hl] at h
  exact hk (Option.some.inj h).symm

theorem no_level {tokens : List Token} {q : Nat}
    (hend : ∀ t, tokens[q]? = some t → precedenceLevel t.type = none) :
    ∀ t, tokens[q]? = some t → ∀ k : Nat, precedenceLevel t.type ≠ some k := by
  intro t ht k h
  rw [hend t ht] at h
  cases h

/-- C31: in a token list, at any position, let `a op1 b op2 c` be three
operands, each a stretch of tokens that `parseUnary` parses, joined by two
binary operators and followed by a token that is no binary operator (or by
the end of the list). Then `parseExpression` gives op1(a, op2(b, c)) when the
level of op1 is below that of op2, and op2(op1(a, b), c) otherwise, so
operators of one level group to the left, and it ends after `c`. A prefix `!`
or `-` belongs to the operand: `parseUnary` applies it to the operand that
follows, before any binary operator is looked at. Identifiers and literals
are operands of one token. The fuel is `n` for the operands, at least 3, and
`n + 7` for `parseExpression`, which passes on one less at each of its seven
levels. -/
theorem binary_chain_precedence (n : Nat) (tokens : List Token) (p0 p1 p2 p3 : Nat)
    (a b c : ASTNode) (op1 op2 : Token) (l1 l2 : Nat) (hn : 3 ≤ n)
    (ha : parseUnary n tokens p0 = Except.ok (a, p1))
    (h1 : tokens[p1]? = some op1) (hl1 : precedenceLevel op1.type = some l1)
    (hb : parseUnary n tokens (p1 + 1) = Except.ok (b, p2))
    (h2 : tokens[p2]? = some op2) (hl2 : precedenceLevel op2.type = some l2)
    (hc : parseUnary n tokens (p2 + 1) = Except.ok (c, p3))
    (hend : ∀ t, tokens[p3]? = some t → precedenceLevel t.type = none) :
    parseExpression (n + 7) tokens p0 =
      Except.ok
        (if l1 < l2 then
          ASTNode.BinaryOp [] op1.value a (ASTNode.BinaryOp [] op2.value b c)
        else
          ASTNode.BinaryOp [] op2.value (ASTNode.BinaryOp [] op1.value a b) c, p3) ∧
    (∀ (m p q : Nat) (u : Token) (x : ASTNode), tokens[p]? = some u →
      u.type = TokenType.LogicNot ∨ u.type = TokenType.Minus →
      parseUnary m tokens (p + 1) = Except.ok (x, q) →
      parseUnary (m + 1) tokens p = Except.ok (ASTNode.UnaryOp [] u.value x, q)) ∧
    (∀ (m p : Nat) (t : Token), tokens[p]? = some t →
      (t.type = TokenType.Identifier → typeIs tokens (p + 1) TokenType.LParen = false →
        typeIs tokens (p + 1) TokenType.LBracket = false →
        typeIs tokens (p + 1) TokenType.Dot = false →
        parseUnary (m + 2) tokens p = Except.ok (ASTNode.Identifier [] t.value, p + 1)) ∧
      (t.type = TokenType.Number → ∀ v, stol t.value 10 = Except.ok v →
        parseUnary (m + 2) tokens p = Except.ok (ASTNode.NumberLiteral [] v, p + 1)) ∧
      (t.type = TokenType.Char →
        parseUnary (m + 2) tokens p =
          Except.ok (ASTNode.CharLiteral [] (t.value.headD (Char.ofNat 0)), p + 1)) ∧
      (t.type = TokenType.String →
        parseUnary (m + 2) tokens p = Except.ok (ASTNode.StringLiteral [] t.value, p + 1)) ∧
      (t.type = TokenType.Boolean →
        parseUnary (m + 2) tokens p =
          Except.ok (ASTNode.BooleanLiteral [] (t.value == "true".toList), p + 1))) := by
  refine ⟨?_, ?_, ?_⟩
  · obtain ⟨r1, r2⟩ := precedenceLevel_range hl1
    obtain ⟨r3, r4⟩ := precedenceLevel_range hl2
    have hn1 : 1 ≤ n := by omega
    have hn2 : 2 ≤ n := by omega
    have hA : levelAt n tokens 7 p0 = Except.ok (a, p1) := ha
    have hB : levelAt n tokens 7 (p1 + 1) = Except.ok (b, p2) := hb
    have hC : levelAt n tokens 7 (p2 + 1) = Except.ok (c, p3) := hc
    have hexp : parseExpression (n + 7) tokens p0 = levelAt n tokens 1 p0 := by
      show parseExpression (n + 6 + 1) tokens p0 = _
      rw [parseExpression]; rfl
    have k1 := not_level h1 hl1
    have k2 := not_level h2 hl2
    have k3 := no_level hend
    rw [hexp]
    rcases Nat.lt_trichotomy l1 l2 with hlt | heq | hgt
    · rw [if_pos hlt]
      have b1 := levelAt_down n tokens hn1 _ _ _ 7 (l2 + 1) (by omega) (by omega)
        (Nat.le_refl _) hB (fun t ht k hk1 _ => k2 t ht k (by omega))
      have c1 := levelAt_down n tokens hn1 _ _ _ 7 (l2 + 1) (by omega) (by omega)
        (Nat.le_refl _) hC (fun t ht k _ _ => k3 t ht k)
      have bc := levelAt_one n tokens l2 r3 r4 hn2 _ _ _ _ _ _ b1 h2 hl2 c1
        (fun t ht => k3 t ht l2)
      have bc1 := levelAt_down n tokens hn1 _ _ _ l2 (l1 + 1) (by omega) (by omega)
        (by omega) bc (fun t ht k _ _ => k3 t ht k)
      have a1 := levelAt_down n tokens hn1 _ _ _ 7 (l1 + 1) (by omega) (by omega)
        (Nat.le_refl _) hA (fun t ht k hk1 _ => k1 t ht k (by omega))
      have abc := levelAt_one n tokens l1 r1 r2 hn2 _ _ _ _ _ _ a1 h1 hl1 bc1
        (fun t ht => k3 t ht l1)
      exact levelAt_down n tokens hn1 _ _ _ l1 1 (Nat.le_refl _) r1 (by omega) abc
        (fun t ht k _ _ => k3 t ht k)
    · rw [if_neg (by omega)]
      subst heq
      have a1 := levelAt_down n tokens hn1 _ _ _ 7 (l1 + 1) (by omega) (by omega)
        (Nat.le_refl _) hA (fun t ht k hk1 _ => k1 t ht k (by omega))
      have b1 := levelAt_down n tokens hn1 _ _ _ 7 (l1 + 1) (by omega) (by omega)
        (Nat.le_refl _) hB (fun t ht k hk1 _ => k2 t ht k (by omega))
      have c1 := levelAt_down n tokens hn1 _ _ _ 7 (l1 + 1) (by omega) (by omega)
        (Nat.le_refl _) hC (fun t ht k _ _ => k3 t ht k)
      have abc := levelAt_two n tokens l1 r1 r2 hn _ _ _ _ _ _ _ _ _ a1 h1 hl1 b1 h2 hl2 c1
        (fun t ht => k3 t ht l1)
      exact levelAt_down n tokens hn1 _ _ _ l1 1 (Nat.le_refl _) r1 (by omega) abc
        (fun t ht k _ _ => k3 t ht k)
    · rw [if_neg (by omega)]
      have a1 := levelAt_down n tokens hn1 _ _ _ 7 (l1 + 1) (by omega) (by omega)
        (Nat.le_refl _) hA (fun t ht k hk1 _ => k1 t ht k (by omega))
      have b1 := levelAt_down n tokens hn1 _ _ _ 7 (l1 + 1) (by omega) (by omega)
        (Nat.le_refl _) hB (fun t ht k hk1 _ => k2 t ht k (by omega))
      have ab := levelAt_one n tokens l1 r1 r2 hn2 _ _ _ _ _ _ a1 h1 hl1 b1
        (fun t ht => k2 t ht l1 (by omega))
      have ab1 := levelAt_down n tokens hn1 _ _ _ l1 (l2 + 1) (by omega) (by omega)
        (by omega) ab (fun t ht k hk1 _ => k2 t ht k (by omega))
      have c1 := levelAt_down n tokens hn1 _ _ _ 7 (l2 + 1) (by omega) (by omega)
        (Nat.le_refl _) hC (fun t ht k _ _ => k3 t ht k)
      have abc := levelAt_one n tokens l2 r3 r4 hn2 _ _ _ _ _ _ ab1 h2 hl2 c1
        (fun t ht => k3 t ht l2)
      exact levelAt_down n tokens hn1 _ _ _ l2 1 (Nat.le_refl _) r3 (by omega) abc
        (fun t ht k _ _ => k3 t ht k)
  · intro m p q u x hu ht hx
    rw [parseUnary, hu]
    dsimp only
    have hc1 : (u.type == TokenType.LogicNot || u.type == TokenType.Minus) = true := by
      rcases ht with e | e <;> rw [e] <;> rfl
    rw [if_pos hc1, hx]
    rfl
  · intro m p t ht
    have hu : ∀ (hne : (t.type == TokenType.LogicNot || t.type == TokenType.Minus) = false),
        parseUnary (m + 2) tokens p = parsePrimary (m + 1) tokens p := by
      intro hne
      rw [parseUnary, ht]
      dsimp only
      rw [hne]
      rfl
    refine ⟨fun e f1 f2 f3 => ?_, fun e v hv => ?_, fun e => ?_, fun e => ?_, fun e => ?_⟩
    · rw [hu (by rw [e]; rfl), parsePrimary, ht]
      dsimp only
      rw [e, f1, f2, f3]
      rfl
    · rw [hu (by rw [e]; rfl), parsePrimary, ht]
      dsimp only
      rw [e, hv]
      rfl
    · rw [hu (by rw [e]; rfl), parsePrimary, ht]
      dsimp only
      rw [e]
      rfl
    · rw [hu (by rw [e]; rfl), parsePrimary, ht]
      dsimp only
      rw [e]
      rfl
    · rw [hu (by rw [e]; rfl), parsePrimary, ht]
      dsimp only
      rw [e]
      rfl

/-- Witness for C31: in the tokens of `x = -a + 2 * c;` the chain starts at
index 2, with the operands `-a`, `2` and `c`, and ends in front of the `;` at
index 8; it is parsed to (-a) + (2 * c). -/
theorem binary_chain_precedence_witness :
    tokenize "x = -a + 2 * c;".toList = Except.ok chainTokens ∧
    parseUnary 3 chainTokens 2 =
      Except.ok (ASTNode.UnaryOp [] "-".toList (ASTNode.Identifier [] "a".toList), 4) ∧
    parseExpression 10 chainTokens 2 =
      Except.ok
        (ASTNode.BinaryOp [] "+".toList
          (ASTNode.UnaryOp [] "-".toList (ASTNode.Identifier [] "a".toList))
          (ASTNode.BinaryOp [] "*".toList (ASTNode.NumberLiteral [] 2)
            (ASTNode.Identifier [] "c".toList)), 8) :=
  ⟨by decide, rfl,
    (binary_chain_precedence 3 chainTokens 2 4 6 8
      (ASTNode.UnaryOp [] "-".toList (ASTNode.Identifier [] "a".toList))
      (ASTNode.NumberLiteral [] 2) (ASTNode.Identifier [] "c".toList)
      ⟨TokenType.Plus, "+".toList⟩ ⟨TokenType.Multiply, "*".toList⟩ 5 6 (by decide)
      rfl rfl rfl rfl rfl rfl rfl
      (fun t h => by
        have e : chainTokens[8]? = some ⟨TokenType.Semicolon, ";".toList⟩ := rfl
        rw [e] at h
        cases h
        rfl)).1⟩

/-! ## The two opcode tables -/

set_option maxRecDepth 20000 in
/-- C12: the mnemonic-to-opcode table of the assembler and the opcode-to-mnemonic
table of the control unit are mutually inverse on exactly 34 opcodes: every
entry (m, c) of `opcodeMap` is the binding of m, has `opcodeStr c = m` and
c < 64; every byte c that `opcodeStr` does not call "unknown" has
`opcodeMap[opcodeStr c] = c`; both tables have 34 entries. -/
theorem opcode_tables_inverse :
    (∀ e ∈ opcodeMap, opcodeMap.get e.1 = some e.2 ∧ CU.opcodeStr e.2 = e.1 ∧ e.2 < 64) ∧
    (∀ c, c < 256 → CU.opcodeStr c ≠ "unknown".toList →
      opcodeMap.get (CU.opcodeStr c) = some c) ∧
    opcodeMap.length = 34 ∧
    ((List.range 256).filter (fun c => CU.opcodeStr c != "unknown".toList)).length = 34 := by
  decide

end MachineSim
